import Mathlib

/-!
# AML parser of gopher-os: a shallow embedding

The development follows `src/src/gopheros/device/acpi/aml/parser.go` and
`entity.go`.  Bytes are natural numbers below 256, Go strings are lists of
bytes, `uint32` values are natural numbers reduced modulo `2 ^ 32`.  Entities
live in a store (a list) and are referred to by their index; a parser routine
maps a parser state to an `Outcome`.  The stream reader, the opcode table and
the namespace lookups are declared outside the two source files: the reader is
modelled from section 4.A of the spec, the table and the lookups are
parameters of the parser (`Env`).
-/

namespace Aml

/-- A Go string or byte slice: the list of its bytes. -/
abbrev Str := List Nat

/-! ## Stream reader -/

/-- Modelled from the spec: the stream reader (`amlStreamReader`) is declared outside the
files at hand.  Section 4.A describes it as a byte cursor over the table body with
`read_byte` (advance, fail at EOF), `peek_byte` (no advance), `unread_byte`, `offset`,
`set_offset`, `last_byte` and `eof`. -/
structure Reader where
  data : List Nat
  offset : Nat
deriving DecidableEq, Repr

namespace Reader

/-- Modelled from the spec: `eof` holds when the cursor has reached the end of the data. -/
def EOF (r : Reader) : Bool := decide (r.data.length ≤ r.offset)

/-- Modelled from the spec: `read_byte` returns the byte at the cursor and advances by one;
at EOF it fails and leaves the cursor in place. -/
def ReadByte (r : Reader) : Option Nat × Reader :=
  match r.data[r.offset]? with
  | some b => (some b, { r with offset := r.offset + 1 })
  | none => (none, r)

/-- Modelled from the spec: `peek_byte` returns the byte at the cursor without advancing. -/
def PeekByte (r : Reader) : Option Nat := r.data[r.offset]?

/-- Modelled from the spec: `unread_byte` steps the cursor back by one byte (the one-byte
lookbehind of field-list parsing); at offset 0 nothing happens. -/
def UnreadByte (r : Reader) : Reader := { r with offset := r.offset - 1 }

/-- Modelled from the spec: `offset` is the cursor position within the table body. -/
def Offset (r : Reader) : Nat := r.offset

/-- Modelled from the spec: `set_offset` moves the cursor; seeking past the end fails and
leaves the cursor where it was. -/
def SetOffset (r : Reader) (off : Nat) : Reader :=
  if off ≤ r.data.length then { r with offset := off } else r

/-- Modelled from the spec: `last_byte` is the most recently consumed byte. -/
def LastByte (r : Reader) : Option Nat :=
  if r.offset = 0 then none else r.data[r.offset - 1]?

end Reader

/-! ## Parsers that only touch the reader -/

/-- `parser.parsePkgLength` (parser.go 639-693).  The result is `((pkgLen, ok), reader)`. -/
def parsePkgLength (r : Reader) : (Nat × Bool) × Reader :=
  match r.ReadByte with
  | (none, r) => ((0, false), r)
  | (some lead, r) =>
    match lead >>> 6 with
    | 0 => ((lead % 2 ^ 32, true), r)
    | 1 =>
      match r.ReadByte with
      | (none, r) => ((0, false), r)
      | (some b1, r) => (((b1 <<< 4 ||| (lead &&& 0xf)) % 2 ^ 32, true), r)
    | 2 =>
      match r.ReadByte with
      | (none, r) => ((0, false), r)
      | (some b1, r) =>
        match r.ReadByte with
        | (none, r) => ((0, false), r)
        | (some b2, r) => (((b2 <<< 12 ||| b1 <<< 4 ||| (lead &&& 0xf)) % 2 ^ 32, true), r)
    | 3 =>
      match r.ReadByte with
      | (none, r) => ((0, false), r)
      | (some b1, r) =>
        match r.ReadByte with
        | (none, r) => ((0, false), r)
        | (some b2, r) =>
          match r.ReadByte with
          | (none, r) => ((0, false), r)
          | (some b3, r) =>
            (((b3 <<< 20 ||| b2 <<< 12 ||| b1 <<< 4 ||| (lead &&& 0xf)) % 2 ^ 32, true), r)
    | _ => ((0, true), r)

/-- `parser.parseNumConstant` (parser.go 695-712): the loop over `c`, with `res` the value
accumulated so far; `uint64` arithmetic, the shift count `8 * c` is a `uint8`. -/
def parseNumConstantLoop : Nat → Nat → Nat → Reader → (Nat × Bool) × Reader
  | 0, _, res, r => ((res, true), r)
  | k + 1, c, res, r =>
    match r.ReadByte with
    | (none, r) => ((0, false), r)
    | (some next, r) =>
      parseNumConstantLoop k (c + 1)
        ((res ||| (next <<< (8 * c % 256)) % 2 ^ 64) % 2 ^ 64) r

/-- `parser.parseNumConstant` (parser.go 695-712). -/
def parseNumConstant (numBytes : Nat) (r : Reader) : (Nat × Bool) × Reader :=
  parseNumConstantLoop numBytes 0 0 r

/-- `parser.parseString` (parser.go 714-738): the read loop; `fuel` bounds the number of
iterations and is taken larger than the number of bytes left. -/
def parseStringLoop : Nat → Str → Reader → (Str × Bool) × Reader
  | 0, _, r => (([], false), r)
  | fuel + 1, str, r =>
    match r.ReadByte with
    | (none, r) => (([], false), r)
    | (some next, r) =>
      if next = 0x00 then ((str, true), r)
      else if 0x01 ≤ next ∧ next ≤ 0x7f then parseStringLoop fuel (str ++ [next]) r
      else (([], false), r)

/-- `parser.parseString` (parser.go 714-738). -/
def parseString (r : Reader) : (Str × Bool) × Reader :=
  parseStringLoop (r.data.length - r.offset + 1) [] r

/-- `parser.parseNameString` (parser.go 828-842): the loop of the `'^'` case.  Each
iteration peeks; a further `'^'` is appended and consumed.  `fuel` bounds the number of
iterations and is taken larger than the number of bytes left. -/
def parsePrefixPath : Nat → Str → Reader → (Str × Bool) × Reader
  | 0, _, r => (([], false), r)
  | fuel + 1, str, r =>
    match r.PeekByte with
    | none => (([], false), r)
    | some next =>
      if next ≠ 0x5e then ((str, true), r)
      else parsePrefixPath fuel (str ++ [next]) (r.ReadByte).2

/-- `parser.parseNameString` (parser.go 869-882): the loop that reads `readCount` name
characters, injecting a `'.'` every four characters. -/
def readNameChars : Nat → Nat → Str → Reader → (Str × Bool) × Reader
  | 0, _, str, r => ((str, true), r)
  | readCount + 1, index, str, r =>
    match r.ReadByte with
    | (none, r) => (([], false), r)
    | (some next, r) =>
      let str := if index > 0 ∧ index % 4 = 0 ∧ readCount + 1 > 1 then str ++ [0x2e] else str
      readNameChars readCount (index + 1) (str ++ [next]) r

/-- `parser.parseNameString` (parser.go 845-885): the NamePath part, entered with the
prefix collected in `str`.  The error of the first `ReadByte` is not looked at in the
source; a failed read leaves `next` at the zero byte. -/
def parseNamePath (str : Str) (r : Reader) : (Str × Bool) × Reader :=
  let next := (r.ReadByte).1.getD 0
  let r := (r.ReadByte).2
  if next = 0x00 then readNameChars 0 0 str r
  else if next = 0x2e then readNameChars 8 0 str r
  else if next = 0x2f then
    match r.ReadByte with
    | (none, r) => (([], false), r)
    | (some segCount, r) =>
      if segCount = 0 then (([], false), r)
      else readNameChars (segCount * 4) 0 str r
  else
    if (next < 0x41 ∨ next > 0x5a) ∧ next ≠ 0x5f then (([], false), r)
    else readNameChars 3 0 (str ++ [next]) r

/-- `parser.parseNameString` (parser.go 815-885).  The result is `((name, ok), reader)`. -/
def parseNameString (r : Reader) : (Str × Bool) × Reader :=
  match r.PeekByte with
  | none => (([], false), r)
  | some next =>
    if next = 0x5c then
      parseNamePath [next] (r.ReadByte).2
    else if next = 0x5e then
      match parsePrefixPath (r.data.length - r.offset + 1) [next] r with
      | ((_, false), r) => (([], false), r)
      | ((str, true), r) => parseNamePath str r
    else parseNamePath [] r

/-! ## Opcodes and the opcode table -/

/-- Modelled from the spec: the opcode constants are declared outside the files at hand.
Single-byte opcodes carry the byte values of the ACPI standard (the spec scenarios use
`08` Name, `10` Scope, `14` Method, `A0` If, `A1` Else); an extended opcode `5B xx` is
numbered `0xff + xx`, the numbering `opcode_test.go` relies on. -/
def opZero : Nat := 0x00
/-- Modelled from the spec: opcode constant (see `opZero`). -/
def opOne : Nat := 0x01
/-- Modelled from the spec: opcode constant (see `opZero`). -/
def opStringPrefix : Nat := 0x0d
/-- Modelled from the spec: opcode constant (see `opZero`). -/
def opScope : Nat := 0x10
/-- Modelled from the spec: opcode constant (see `opZero`). -/
def opBuffer : Nat := 0x11
/-- Modelled from the spec: opcode constant (see `opZero`). -/
def opMethod : Nat := 0x14
/-- Modelled from the spec: opcode constant (see `opZero`). -/
def opLocal0 : Nat := 0x60
/-- Modelled from the spec: opcode constant (see `opZero`). -/
def opLocal7 : Nat := 0x67
/-- Modelled from the spec: opcode constant (see `opZero`). -/
def opArg0 : Nat := 0x68
/-- Modelled from the spec: opcode constant (see `opZero`). -/
def opArg6 : Nat := 0x6e
/-- Modelled from the spec: opcode constant (see `opZero`). -/
def opRefOf : Nat := 0x71
/-- Modelled from the spec: opcode constant (see `opZero`). -/
def opDerefOf : Nat := 0x83
/-- Modelled from the spec: opcode constant (see `opZero`). -/
def opIndex : Nat := 0x88
/-- Modelled from the spec: opcode constant (see `opZero`). -/
def opIf : Nat := 0xa0
/-- Modelled from the spec: opcode constant (see `opZero`). -/
def opElse : Nat := 0xa1
/-- Modelled from the spec: opcode constant (see `opZero`). -/
def opOnes : Nat := 0xff
/-- Modelled from the spec: opcode constant (see `opZero`). -/
def opMutex : Nat := 0xff + 0x01
/-- Modelled from the spec: opcode constant (see `opZero`). -/
def opEvent : Nat := 0xff + 0x02
/-- Modelled from the spec: opcode constant (see `opZero`). -/
def opCreateField : Nat := 0xff + 0x13
/-- Modelled from the spec: opcode constant (see `opZero`). -/
def opDebug : Nat := 0xff + 0x31
/-- Modelled from the spec: opcode constant (see `opZero`). -/
def opOpRegion : Nat := 0xff + 0x80
/-- Modelled from the spec: opcode constant (see `opZero`). -/
def opField : Nat := 0xff + 0x81
/-- Modelled from the spec: opcode constant (see `opZero`). -/
def opDevice : Nat := 0xff + 0x82
/-- Modelled from the spec: opcode constant (see `opZero`). -/
def opProcessor : Nat := 0xff + 0x83
/-- Modelled from the spec: opcode constant (see `opZero`). -/
def opPowerRes : Nat := 0xff + 0x84
/-- Modelled from the spec: opcode constant (see `opZero`). -/
def opThermalZone : Nat := 0xff + 0x85
/-- Modelled from the spec: opcode constant (see `opZero`). -/
def opIndexField : Nat := 0xff + 0x86
/-- Modelled from the spec: the prefix byte of an extended opcode. -/
def extOpPrefix : Nat := 0x5b

/-- The positional argument kinds of an opcode (`opArgFlag`), as listed in
`opcode_test.go`. -/
inductive OpArg
  | termList | termObj | byteList | package | string | byteData | word | dword | qword
  | nameString | superName | simpleName | dataRefObj | target | fieldList
deriving DecidableEq, Repr

/-- Modelled from the spec: one entry of the opcode table (`opcodeInfo`), which is
declared outside the files at hand.  The record holds what the parser asks of an entry:
the opcode, whether `objType` is `objTypeLocalScope`, the flags `opFlagHasPkgLen`,
`opFlagConstant`, `opFlagScoped` and `opFlagNamed`, the argument kinds in order, and the
answers of the classifiers `isType2`, `isArg`, `isDataObject` and `isBufferField`. -/
structure OpcodeInfo where
  op : Nat
  objTypeLocalScope : Bool := false
  flagHasPkgLen : Bool := false
  flagConstant : Bool := false
  flagScoped : Bool := false
  flagNamed : Bool := false
  argFlags : List OpArg := []
  isType2 : Bool := false
  isArg : Bool := false
  isDataObject : Bool := false
  isBufferField : Bool := false
deriving DecidableEq, Repr

/-! ## Entities -/

/-- A Go `interface{}` value as the parser produces them: nil, a string, a `uint64`, a byte
slice, or a pointer to an entity (its index in the store). -/
inductive Value
  | null
  | str (s : Str)
  | num (n : Nat)
  | bytes (b : List Nat)
  | ent (id : Nat)
deriving DecidableEq, Repr

/-- The concrete Go type behind an `Entity` (entity.go). -/
inductive Kind
  | unnamed | named | const | scope | buffer | bufferField | region | fieldUnit
  | indexField | namedReference | methodInvocation | method | device | mutex | event
deriving DecidableEq, Repr

/-- An entity of entity.go.  All struct types are folded into one record: `kind` tells the
Go type, and a field that the type does not have keeps its zero value.  Entity pointers
are indices into the store, `none` is the nil pointer. -/
structure Entity where
  kind : Kind
  op : Nat := 0
  args : List Value := []
  parent : Option Nat := none
  name : Str := []
  children : List Nat := []
  val : Value := Value.null
  size : Value := Value.null
  data : List Nat := []
  bitOffset : Nat := 0
  bitWidth : Nat := 0
  lock : Bool := false
  updateRule : Nat := 0
  accessAttrib : Nat := 0
  accessType : Nat := 0
  byteCount : Nat := 0
  connectionName : Str := []
  resolvedConnection : Option Nat := none
  regionName : Str := []
  resolvedRegion : Option Nat := none
  indexRegName : Str := []
  indexReg : Option Nat := none
  dataRegName : Str := []
  dataReg : Option Nat := none
  targetName : Str := []
  target : Option Nat := none
  methodDef : Option Nat := none
  argCount : Nat := 0
  serialized : Bool := false
  syncLevel : Nat := 0
  methodMap : List (Str × Nat) := []
  isGlobal : Bool := false
deriving DecidableEq, Repr

namespace Entity

/-- Whether the Go type implements `ScopeEntity`: `scopeEntity` and the types embedding
it, `Method` and `Device`. -/
def isScopeEntity (e : Entity) : Bool :=
  e.kind = Kind.scope || e.kind = Kind.method || e.kind = Kind.device

/-- `getOpcode` (entity.go 38, 60, 89, 122, 380, 390, 403). -/
def getOpcode (e : Entity) : Nat :=
  match e.kind with
  | Kind.method => opMethod
  | Kind.device => opDevice
  | Kind.mutex => opMutex
  | _ => e.op

/-- `setOpcode` (entity.go 39, 61, 90-102, 123, 404). -/
def setOpcode (e : Entity) (op : Nat) : Entity :=
  match e.kind with
  | Kind.mutex => e
  | Kind.const =>
    if op = opZero then { e with op := op, val := Value.num 0 }
    else if op = opOne then { e with op := op, val := Value.num 1 }
    else if op = opOnes then { e with op := op, val := Value.num (2 ^ 64 - 1) }
    else { e with op := op }
  | _ => { e with op := op }

/-- `Name` (entity.go 40, 62, 103, 124, 405). -/
def Name (e : Entity) : Str :=
  match e.kind with
  | Kind.unnamed | Kind.const | Kind.buffer | Kind.namedReference
  | Kind.methodInvocation => []
  | _ => e.name

/-- `getArgs` (entity.go 43, 65, 106, 127, 408). -/
def getArgs (e : Entity) : List Value :=
  match e.kind with
  | Kind.mutex => []
  | _ => e.args

/-- The Go type assertion `arg.(string)`: the string and `true`, or the empty string and
`false`. -/
def asString : Value → Str × Bool
  | Value.str s => (s, true)
  | _ => ([], false)

/-- `namedEntity.setArg` (entity.go 66-76). -/
def setArgNamed (e : Entity) (argIndex : Nat) (arg : Value) : Entity × Bool :=
  if argIndex = 0 then ({ e with name := (asString arg).1 }, (asString arg).2)
  else ({ e with args := e.args ++ [arg] }, true)

/-- `setArg` of each entity type (entity.go 44-47, 66-76, 107-110, 128-140, 163-176,
184-195, 409-421).  The result is the updated entity and the returned flag. -/
def setArg (e : Entity) (argIndex : Nat) (arg : Value) : Entity × Bool :=
  match e.kind with
  | Kind.unnamed | Kind.namedReference | Kind.methodInvocation =>
    ({ e with args := e.args ++ [arg] }, true)
  | Kind.named | Kind.region | Kind.event | Kind.fieldUnit | Kind.indexField =>
    setArgNamed e argIndex arg
  | Kind.const => ({ e with val := arg }, decide (argIndex = 0))
  | Kind.scope | Kind.method | Kind.device =>
    if argIndex = 0 then
      if (asString arg).2 then ({ e with name := (asString arg).1 }, true)
      else ({ e with name := [], args := e.args ++ [arg] }, true)
    else ({ e with args := e.args ++ [arg] }, true)
  | Kind.buffer =>
    if argIndex = 0 then ({ e with size := arg }, true)
    else if argIndex = 1 then
      match arg with
      | Value.bytes b => ({ e with data := b }, true)
      | _ => (e, false)
    else (e, false)
  | Kind.bufferField =>
    if (e.op = opCreateField ∧ argIndex = 3) ∨ argIndex = 2 then
      ({ e with name := (asString arg).1 }, (asString arg).2)
    else ({ e with args := e.args ++ [arg] }, true)
  | Kind.mutex =>
    if argIndex = 0 then ({ e with name := (asString arg).1 }, (asString arg).2)
    else
      match arg with
      | Value.num n => ({ e with syncLevel := (n % 256) &&& 0xf }, true)
      | _ => ({ e with syncLevel := 0 }, false)

end Entity

/-- `parser.makeObjForOpcode` (parser.go 309-337). -/
def makeObjForOpcode (info : OpcodeInfo) : Entity :=
  let kind :=
    if info.objTypeLocalScope then Kind.scope
    else if info.op = opOpRegion then Kind.region
    else if info.op = opBuffer then Kind.buffer
    else if info.op = opMutex then Kind.mutex
    else if info.op = opEvent then Kind.event
    else if info.isBufferField then Kind.bufferField
    else if info.flagConstant then Kind.const
    else if info.flagScoped then Kind.scope
    else if info.flagNamed then Kind.named
    else Kind.unnamed
  Entity.setOpcode { kind := kind } info.op


/-! ## Parser state -/

/-- Modelled from the spec: the parts of the package that the parser calls and that are
declared outside the files at hand, taken as parameters: the opcode maps (`opcodeMap`,
`extendedOpcodeMap` composed with `opcodeTable`; `none` is `badOpcode`), the namespace
lookups `scopeFind` and `scopeResolvePath` of section 4.D, and the name-to-Method map
that `finalizeObj` builds for a device with `scopeVisit`.  The lookups read the entity
store and are given the current scope and the root.  `scopeFindEmbedded` tells, for the
same arguments as `scopeFind`, whether the pointer that `scopeFind` hands back is the
`scopeEntity` embedded in a `Method` or `Device` and not the entity itself: this is what a
lookup returns that reaches the entity through a parent link, because `scopeEntity.Append`
sets the parent of a child to its receiver, the embedded struct. -/
structure Env where
  opcodeMap : Nat → Option OpcodeInfo
  extendedOpcodeMap : Nat → Option OpcodeInfo
  scopeFind : List Entity → Nat → Nat → Str → Option Nat
  scopeFindEmbedded : List Entity → Nat → Nat → Str → Bool
  scopeResolvePath : List Entity → Nat → Nat → Str → Option Nat × Str
  methodMap : List Entity → Nat → List (Str × Nat)

/-- The `parser` struct (parser.go 16-24) together with the entities it can reach: `heap`
holds every entity, an entity pointer is an index into it.  `tableName` and `errWriter`
only feed diagnostics and are left out. -/
structure Parser where
  r : Reader
  root : Nat
  scopeStack : List Nat
  heap : List Entity
deriving DecidableEq, Repr

/-- The result of a parser routine: it returns `a` in state `p`, or it faults (a Go
run-time panic: index out of range, failed type assertion, nil dereference), or the
fuel of the embedding ran out. -/
inductive Outcome (α : Type) where
  | ok (a : α) (p : Parser)
  | fault
  | noFuel
deriving DecidableEq, Repr

/-- The state in which a routine returned, if it returned. -/
def Outcome.state? {α : Type} : Outcome α → Option Parser
  | Outcome.ok _ p => some p
  | _ => none

/-- The value a routine returned, if it returned. -/
def Outcome.value? {α : Type} : Outcome α → Option α
  | Outcome.ok a _ => some a
  | _ => none

/-- Sequencing of parser routines. -/
def Outcome.bind {α β : Type} (x : Outcome α) (f : α → Parser → Outcome β) : Outcome β :=
  match x with
  | Outcome.ok a p => f a p
  | Outcome.fault => Outcome.fault
  | Outcome.noFuel => Outcome.noFuel

namespace Parser

/-- A new entity (`new(T)`, `&T{...}`): it is stored at the next free index. -/
def alloc (p : Parser) (e : Entity) : Nat × Parser :=
  (p.heap.length, { p with heap := p.heap ++ [e] })

/-- Replaces the entity behind the pointer `id` by `f` of it. -/
def update (p : Parser) (id : Nat) (f : Entity → Entity) : Parser :=
  match p.heap[id]? with
  | some e => { p with heap := p.heap.set id (f e) }
  | none => p

/-- `parser.scopeCurrent` (parser.go 888-890); `none` when the stack is empty, where the
source indexes out of range. -/
def scopeCurrent (p : Parser) : Option Nat := p.scopeStack.getLast?

/-- `parser.scopeEnter` (parser.go 893-895). -/
def scopeEnter (p : Parser) (s : Nat) : Parser := { p with scopeStack := p.scopeStack ++ [s] }

/-- `parser.scopeExit` (parser.go 898-900); `none` when the stack is empty, where the
source slices out of range. -/
def scopeExit (p : Parser) : Option Parser :=
  if p.scopeStack = [] then none else some { p with scopeStack := p.scopeStack.dropLast }

/-- `scopeEntity.Append` (entity.go 142-146) on the scope behind `s`; `none` when `s` or
`child` is not a live pointer or `s` is not a scope entity.  For a `Method` or `Device` the
receiver is the embedded `scopeEntity`, which holds the name, parent and children of the
enclosing entity; the two share one index here.  So the parent link `some s` of a child
stands for the embedded `scopeEntity` of `s`: followed by a lookup it gives a pointer
whose `getOpcode` is the `op` field of the embedded struct and which is no `*Method` or
`*Device` (`Env.scopeFindEmbedded`). -/
def Append (p : Parser) (s child : Nat) : Option Parser :=
  match p.heap[s]?, p.heap[child]? with
  | some se, some _ =>
    if se.isScopeEntity then
      let p := p.update child (fun c => { c with parent := some s })
      some (p.update s (fun e => { e with children := e.children ++ [child] }))
    else none
  | _, _ => none

/-- `scopeEntity.lastChild` (entity.go 147); `none` where the source indexes out of range. -/
def lastChild (p : Parser) (s : Nat) : Option Nat :=
  match p.heap[s]? with
  | some se => if se.isScopeEntity then se.children.getLast? else none
  | none => none

/-- `scopeEntity.removeLastChild` (entity.go 148-153): the removed child and the new state;
`none` where the source indexes out of range. -/
def removeLastChild (p : Parser) (s : Nat) : Option (Nat × Parser) :=
  match p.lastChild s with
  | some child => some (child, p.update s (fun e => { e with children := e.children.dropLast }))
  | none => none

/-- A call `ent.setArg(argIndex, arg)` on the entity behind `id`: the new state and the
returned flag. -/
def setArg (p : Parser) (id argIndex : Nat) (arg : Value) : Option (Parser × Bool) :=
  match p.heap[id]? with
  | some e => some (p.update id (fun e => (e.setArg argIndex arg).1), (e.setArg argIndex arg).2)
  | none => none

end Parser

/-- `parser.nextOpcode` (parser.go 408-432). -/
def nextOpcode (env : Env) (r : Reader) : Option OpcodeInfo × Reader :=
  match r.ReadByte with
  | (none, r) => (none, r)
  | (some next, r) =>
    if next ≠ extOpPrefix then (env.opcodeMap next, r)
    else
      match r.ReadByte with
      | (none, r) => (none, r)
      | (some next, r) => (env.extendedOpcodeMap next, r)

/-- `parser.finalizeObj` (parser.go 132-159). -/
def finalizeObj (env : Env) (op obj : Nat) (p : Parser) : Outcome Bool :=
  if op = opElse then
    match p.scopeCurrent with
    | none => Outcome.fault
    | some cur =>
      match p.removeLastChild cur with
      | none => Outcome.fault
      | some (_, p) =>
        match p.lastChild cur with
        | none => Outcome.fault
        | some prevObj =>
          match p.heap[prevObj]? with
          | none => Outcome.fault
          | some prev =>
            if prev.getOpcode ≠ opIf then Outcome.ok false p
            else
              match p.setArg prevObj 2 (Value.ent obj) with
              | none => Outcome.fault
              | some (p, _) => Outcome.ok true p
  else if op = opDevice then
    match p.heap[obj]? with
    | some dev =>
      if dev.kind = Kind.device then
        Outcome.ok true (p.update obj (fun e => { e with methodMap := env.methodMap p.heap obj }))
      else Outcome.fault
    | none => Outcome.fault
  else Outcome.ok true p

/-- `parser.parseArg`, case `opArgByteList` (parser.go 283-291): the read loop; `fuel`
bounds the number of iterations and is taken larger than the number of bytes left. -/
def parseByteList : Nat → Nat → List Nat → Reader → (List Nat × Bool) × Reader
  | 0, _, _, r => (([], false), r)
  | fuel + 1, maxReadOffset, bl, r =>
    if r.Offset < maxReadOffset then
      match r.ReadByte with
      | (none, r) => (([], false), r)
      | (some b, r) => parseByteList fuel maxReadOffset (bl ++ [b]) r
    else ((bl, true), r)

/-- The tail of `parser.parseArg` (parser.go 294-298): a failed argument ends the call,
otherwise the argument is handed to `obj.setArg`. -/
def finishArg (obj argIndex : Nat) (arg : Value) (ok : Bool) (p : Parser) : Outcome Bool :=
  if !ok then Outcome.ok false p
  else
    match p.setArg obj argIndex arg with
    | none => Outcome.fault
    | some (p, b) => Outcome.ok b p

/-- The local variables of `parser.parseFieldList` (parser.go 446-506) that change while
the field list is read. -/
structure FieldListState where
  ok : Bool
  curBitOffset : Nat := 0
  accessType : Nat
  accessAttrib : Nat := 0
  accessByteCount : Nat := 0
  connectionName : Str := []
  resolvedConnection : Option Nat := none
deriving DecidableEq, Repr

/-- The field unit or index field that `parser.parseFieldList` appends for a named field
(parser.go 588-628); `none` for an opcode other than `opField` and `opIndexField`. -/
def makeFieldEntity (op : Nat) (name0 name1 unitName : Str) (lock : Bool) (updateRule : Nat)
    (bitWidth : Nat) (st : FieldListState) : Option Entity :=
  if op = opField then
    some { kind := Kind.fieldUnit, op := op, name := unitName, bitOffset := st.curBitOffset,
           bitWidth := bitWidth, lock := lock, updateRule := updateRule,
           accessType := st.accessType, accessAttrib := st.accessAttrib,
           byteCount := st.accessByteCount, connectionName := st.connectionName,
           resolvedConnection := st.resolvedConnection, regionName := name0 }
  else if op = opIndexField then
    some { kind := Kind.indexField, op := op, name := unitName, bitOffset := st.curBitOffset,
           bitWidth := bitWidth, lock := lock, updateRule := updateRule,
           accessType := st.accessType, accessAttrib := st.accessAttrib,
           byteCount := st.accessByteCount, connectionName := st.connectionName,
           resolvedConnection := st.resolvedConnection, indexRegName := name0,
           dataRegName := name1 }
  else none

/-- The argument check at the head of `parser.parseFieldList` (parser.go 460-496):
`none` when the call returns false, else `name0`, `name1`, `flags` and the value left in
`ok`. -/
def fieldListArgs (op : Nat) (args : List Value) : Option (Str × Str × Nat × Bool) :=
  if op = opField then
    match args with
    | [Value.str name0, Value.num flags] => some (name0, [], flags, true)
    | _ => none
  else if op = opIndexField then
    match args with
    | [Value.str name0, Value.str name1, Value.num flags] => some (name0, name1, flags, true)
    | _ => none
  else some ([], [], 0, false)

/-- The entity `&methodInvocationEntity{methodDef: methodDef}` of
`parser.parseMethodInvocationOrNameRef` (parser.go 358-360) with the arguments set on it. -/
def newInvocation (methodDef : Nat) (args : List Value) : Entity :=
  { kind := Kind.methodInvocation, methodDef := some methodDef, args := args }

/-- The entity `&namedReference{targetName: name}` (parser.go 404). -/
def newNamedReference (name : Str) : Entity :=
  { kind := Kind.namedReference, targetName := name }

/-- The entity `&Device{scopeEntity: scopeEntity{name: name}}` (parser.go 217). -/
def newDevice (name : Str) : Entity := { kind := Kind.device, name := name }

/-- The entity `&Method{scopeEntity: scopeEntity{name: name}}` with the fields decoded from
the flags byte (parser.go 219-227). -/
def newMethod (name : Str) (flags : Nat) : Entity :=
  { kind := Kind.method, name := name,
    argCount := (flags % 256) &&& 0x7,
    serialized := decide (((flags % 256) >>> 3) &&& 0x1 = 0x1),
    syncLevel := ((flags % 256) >>> 4) &&& 0xf }

/-- The object that `parser.parseNamespacedObj` creates for its opcode (parser.go 214-230);
for another opcode `obj` stays nil. -/
def namespacedEntity (op : Nat) (name : Str) (flags : Nat) : Option Entity :=
  if op = opDevice then some (newDevice name)
  else if op = opMethod then some (newMethod name flags)
  else none

/-- The entity `&scopeEntity{op: opScope}` that holds a TermList of a non-scope object
(parser.go 272). -/
def anonymousScope : Entity := { kind := Kind.scope, op := opScope }

/-- The NullName sentinel `&constEntity{op: opStringPrefix, val: ""}` (parser.go 786). -/
def nullNameSentinel : Entity := { kind := Kind.const, op := opStringPrefix, val := Value.str [] }

/-- The lookup of `parseMethodInvocationOrNameRef` (parser.go 356):
`scopeFind(p.scopeCurrent(), p.root, name).(*Method)`.  The assertion holds when the lookup
hands back a `Method` itself; the `scopeEntity` embedded in a `Method`, which a lookup
through a parent link gives, is not a `*Method`. -/
def findMethod (env : Env) (heap : List Entity) (cur root : Nat) (name : Str) : Option Nat :=
  match env.scopeFind heap cur root name with
  | none => none
  | some m =>
    match heap[m]? with
    | none => none
    | some e =>
      if e.kind = Kind.method ∧ env.scopeFindEmbedded heap cur root name = false then some m
      else none


/-! ## The recursive-descent parser

Every routine takes `fuel` first and calls the other routines with one unit less; a
routine without fuel ends in `Outcome.noFuel`. -/

mutual

/-- `parser.parseObjList` (parser.go 65-73). -/
def parseObjList (env : Env) : Nat → Nat → Parser → Outcome Bool
  | 0, _, _ => Outcome.noFuel
  | fuel + 1, maxOffset, p =>
    if !p.r.EOF && p.r.Offset < maxOffset then
      (parseObj env fuel p).bind fun ok p =>
        if !ok then Outcome.ok false p else parseObjList env fuel maxOffset p
    else Outcome.ok true p
termination_by structural fuel => fuel

/-- `parser.parseObj` (parser.go 75-129). -/
def parseObj (env : Env) : Nat → Parser → Outcome Bool
  | 0, _ => Outcome.noFuel
  | fuel + 1, p =>
    let curOffset := p.r.Offset
    match nextOpcode env p.r with
    | (none, r) =>
      parseMethodInvocationOrNameRef env fuel { p with r := r.SetOffset curOffset }
    | (some info, r) =>
      let hasPkgLen := info.flagHasPkgLen || info.argFlags.contains OpArg.termList ||
        info.argFlags.contains OpArg.fieldList
      let curOffset := if hasPkgLen then r.Offset else curOffset
      let pk := if hasPkgLen then parsePkgLength r else ((0, true), r)
      if !pk.1.2 then Outcome.ok false { p with r := pk.2 }
      else
        let p := { p with r := pk.2 }
        let maxOffset := (curOffset + pk.1.1) % 2 ^ 32
        if info.op = opScope then parseScope env fuel maxOffset p
        else if info.op = opDevice ∨ info.op = opMethod then
          parseNamespacedObj env fuel info.op maxOffset p
        else
          let obj := p.heap.length
          match p.scopeCurrent with
          | none => Outcome.fault
          | some cur =>
            match (p.alloc (makeObjForOpcode info)).2.Append cur obj with
            | none => Outcome.fault
            | some p =>
              (parseArgs env fuel info obj 0 maxOffset p).bind fun ok p =>
                if !ok then Outcome.ok false p
                else finalizeObj env info.op obj p
termination_by structural fuel => fuel

/-- `parser.parseObj` (parser.go 114-126): the loop over the declared arguments. -/
def parseArgs (env : Env) : Nat → OpcodeInfo → Nat → Nat → Nat → Parser → Outcome Bool
  | 0, _, _, _, _, _ => Outcome.noFuel
  | fuel + 1, info, obj, argIndex, maxReadOffset, p =>
    match info.argFlags[argIndex]? with
    | none => Outcome.ok true p
    | some argType =>
      (parseArg env fuel info obj argIndex argType maxReadOffset p).bind fun ok p =>
        if !ok then Outcome.ok false p
        else parseArgs env fuel info obj (argIndex + 1) maxReadOffset p
termination_by structural fuel => fuel

/-- `parser.parseArg` (parser.go 240-299). -/
def parseArg (env : Env) :
    Nat → OpcodeInfo → Nat → Nat → OpArg → Nat → Parser → Outcome Bool
  | 0, _, _, _, _, _, _ => Outcome.noFuel
  | fuel + 1, info, obj, argIndex, argType, maxReadOffset, p =>
    match argType with
    | OpArg.nameString =>
      finishArg obj argIndex (Value.str (parseNameString p.r).1.1) (parseNameString p.r).1.2
        { p with r := (parseNameString p.r).2 }
    | OpArg.byteData =>
      finishArg obj argIndex (Value.num (parseNumConstant 1 p.r).1.1)
        (parseNumConstant 1 p.r).1.2 { p with r := (parseNumConstant 1 p.r).2 }
    | OpArg.word =>
      finishArg obj argIndex (Value.num (parseNumConstant 2 p.r).1.1)
        (parseNumConstant 2 p.r).1.2 { p with r := (parseNumConstant 2 p.r).2 }
    | OpArg.dword =>
      finishArg obj argIndex (Value.num (parseNumConstant 4 p.r).1.1)
        (parseNumConstant 4 p.r).1.2 { p with r := (parseNumConstant 4 p.r).2 }
    | OpArg.qword =>
      finishArg obj argIndex (Value.num (parseNumConstant 8 p.r).1.1)
        (parseNumConstant 8 p.r).1.2 { p with r := (parseNumConstant 8 p.r).2 }
    | OpArg.string =>
      finishArg obj argIndex (Value.str (parseString p.r).1.1) (parseString p.r).1.2
        { p with r := (parseString p.r).2 }
    | OpArg.termObj | OpArg.dataRefObj =>
      (parseArgObj env fuel p).bind fun a p => finishArg obj argIndex a.1 a.2 p
    | OpArg.superName =>
      (parseSuperName env fuel p).bind fun a p => finishArg obj argIndex a.1 a.2 p
    | OpArg.target =>
      (parseTarget env fuel p).bind fun a p => finishArg obj argIndex a.1 a.2 p
    | OpArg.termList =>
      match p.heap[obj]? with
      | none => Outcome.fault
      | some e =>
        let p1 :=
          if e.isScopeEntity then p.scopeEnter obj
          else
            (((p.alloc anonymousScope).2.scopeEnter p.heap.length).update
              obj (fun e => (e.setArg argIndex (Value.ent p.heap.length)).1))
        (parseObjList env fuel maxReadOffset p1).bind fun ok p =>
          match p.scopeExit with
          | none => Outcome.fault
          | some p => Outcome.ok ok p
    | OpArg.fieldList =>
      match p.heap[obj]? with
      | none => Outcome.fault
      | some e => parseFieldList env fuel info.op e.getArgs maxReadOffset p
    | OpArg.byteList =>
      finishArg obj argIndex
        (Value.bytes (parseByteList (p.r.data.length - p.r.offset + 1) maxReadOffset [] p.r).1.1)
        (parseByteList (p.r.data.length - p.r.offset + 1) maxReadOffset [] p.r).1.2
        { p with r := (parseByteList (p.r.data.length - p.r.offset + 1) maxReadOffset [] p.r).2 }
    | OpArg.package | OpArg.simpleName => Outcome.ok false p
termination_by structural fuel => fuel

/-- `parser.parseArgObj` (parser.go 301-307): the entity and `true`, or nil and `false`. -/
def parseArgObj (env : Env) : Nat → Parser → Outcome (Value × Bool)
  | 0, _ => Outcome.noFuel
  | fuel + 1, p =>
    (parseObj env fuel p).bind fun ok p =>
      if !ok then Outcome.ok (Value.null, false) p
      else
        match p.scopeCurrent with
        | none => Outcome.fault
        | some cur =>
          match p.removeLastChild cur with
          | none => Outcome.fault
          | some (child, p) => Outcome.ok (Value.ent child, true) p
termination_by structural fuel => fuel

/-- `parser.parseMethodInvocationOrNameRef` (parser.go 348-406).  The invocation entity is
reachable from nowhere until it is appended, so it is stored when it is appended; until
then only its argument list is carried along. -/
def parseMethodInvocationOrNameRef (env : Env) : Nat → Parser → Outcome Bool
  | 0, _ => Outcome.noFuel
  | fuel + 1, p =>
    if !(parseNameString p.r).1.2 then Outcome.ok false { p with r := (parseNameString p.r).2 }
    else
      let name := (parseNameString p.r).1.1
      let p := { p with r := (parseNameString p.r).2 }
      match p.scopeCurrent with
      | none => Outcome.fault
      | some cur =>
        match findMethod env p.heap cur p.root name with
        | some methodDef =>
          (parseInvocationArgs env fuel methodDef 0 [] p).bind fun res p =>
            match p.heap[methodDef]? with
            | none => Outcome.fault
            | some m =>
              if res.1 ≠ m.argCount then Outcome.ok false p
              else
                match p.scopeCurrent with
                | none => Outcome.fault
                | some cur =>
                  match (p.alloc (newInvocation methodDef res.2)).2.Append cur p.heap.length with
                  | none => Outcome.fault
                  | some p => Outcome.ok true p
        | none =>
          match (p.alloc (newNamedReference name)).2.Append cur p.heap.length with
          | none => Outcome.fault
          | some p => Outcome.ok true p
termination_by structural fuel => fuel

/-- `parser.parseMethodInvocationOrNameRef` (parser.go 366-391): the loop over the term
args, with `argIndex` and the arguments set so far; the result is the final `argIndex`
and argument list. -/
def parseInvocationArgs (env : Env) :
    Nat → Nat → Nat → List Value → Parser → Outcome (Nat × List Value)
  | 0, _, _, _, _ => Outcome.noFuel
  | fuel + 1, methodDef, argIndex, args, p =>
    match p.heap[methodDef]? with
    | none => Outcome.fault
    | some m =>
      if argIndex < m.argCount && !p.r.EOF then
        let curOffset := p.r.Offset
        let nextOp := (nextOpcode env p.r).1
        let p := { p with r := (nextOpcode env p.r).2.SetOffset curOffset }
        let isTermArg : Bool :=
          match nextOp with
          | some info => info.isType2 || info.isArg || info.isDataObject
          | none => false
        let parsed : Outcome (Value × Bool) :=
          if isTermArg then parseArgObj env fuel p
          else
            (parseMethodInvocationOrNameRef env fuel p).bind fun ok p =>
              if !ok then Outcome.ok (Value.null, false) p
              else
                match p.scopeCurrent with
                | none => Outcome.fault
                | some cur =>
                  match p.removeLastChild cur with
                  | none => Outcome.fault
                  | some (child, p) => Outcome.ok (Value.ent child, true) p
        parsed.bind fun a p =>
          if !a.2 then Outcome.ok (argIndex, args) { p with r := p.r.SetOffset curOffset }
          else parseInvocationArgs env fuel methodDef (argIndex + 1) (args ++ [a.1]) p
      else Outcome.ok (argIndex, args) p
termination_by structural fuel => fuel

/-- `parser.parseScope` (parser.go 168-196). -/
def parseScope (env : Env) : Nat → Nat → Parser → Outcome Bool
  | 0, _, _ => Outcome.noFuel
  | fuel + 1, maxReadOffset, p =>
    if !(parseNameString p.r).1.2 then Outcome.ok false { p with r := (parseNameString p.r).2 }
    else
      let name := (parseNameString p.r).1.1
      let p := { p with r := (parseNameString p.r).2 }
      match p.scopeCurrent with
      | none => Outcome.fault
      | some cur =>
        match env.scopeFind p.heap cur p.root name with
        | none => Outcome.ok false p
        | some target =>
          match p.heap[target]? with
          | none => Outcome.fault
          | some t =>
            let targetOp := if env.scopeFindEmbedded p.heap cur p.root name then t.op
              else t.getOpcode
            let allowed : Bool :=
              if targetOp = opDevice ∨ targetOp = opProcessor ∨
                  targetOp = opThermalZone ∨ targetOp = opPowerRes then true
              else decide (t.Name ≠ [])
            if !allowed then Outcome.ok false p
            else if !t.isScopeEntity then Outcome.fault
            else
              (parseObjList env fuel maxReadOffset (p.scopeEnter target)).bind fun ok p =>
                match p.scopeExit with
                | none => Outcome.fault
                | some p => Outcome.ok ok p
termination_by structural fuel => fuel

/-- `parser.parseNamespacedObj` (parser.go 202-238).  The new Device or Method is stored
when it is appended to its parent. -/
def parseNamespacedObj (env : Env) : Nat → Nat → Nat → Parser → Outcome Bool
  | 0, _, _, _ => Outcome.noFuel
  | fuel + 1, op, maxReadOffset, p =>
    if !(parseNameString p.r).1.2 then Outcome.ok false { p with r := (parseNameString p.r).2 }
    else
      let scopeExpr := (parseNameString p.r).1.1
      let p := { p with r := (parseNameString p.r).2 }
      match p.scopeCurrent with
      | none => Outcome.fault
      | some cur =>
        match env.scopeResolvePath p.heap cur p.root scopeExpr with
        | (none, _) => Outcome.ok false p
        | (some parent, name) =>
          let flags := parseNumConstant 1 p.r
          if op = opMethod ∧ !flags.1.2 then Outcome.ok false { p with r := flags.2 }
          else
            let p := { p with r := if op = opMethod then flags.2 else p.r }
            let obj := p.heap.length
            match namespacedEntity op name flags.1.1 with
            | none => Outcome.fault
            | some e =>
              match (p.alloc e).2.Append parent obj with
              | none => Outcome.fault
              | some p =>
                (parseObjList env fuel maxReadOffset (p.scopeEnter obj)).bind fun ok p =>
                  match p.scopeExit with
                  | none => Outcome.fault
                  | some p =>
                    if !ok then Outcome.ok false p
                    else finalizeObj env op obj p
termination_by structural fuel => fuel

/-- `parser.parseSuperName` (parser.go 745-764). -/
def parseSuperName (env : Env) : Nat → Parser → Outcome (Value × Bool)
  | 0, _ => Outcome.noFuel
  | fuel + 1, p =>
    let curOffset := p.r.Offset
    match nextOpcode env p.r with
    | (some info, r) =>
      if (opLocal0 ≤ info.op ∧ info.op ≤ opLocal7) ∨ (opArg0 ≤ info.op ∧ info.op ≤ opArg6) then
        Outcome.ok (Value.ent p.heap.length, true)
          (Parser.alloc { p with r := r } { kind := Kind.unnamed, op := info.op }).2
      else parseArgObj env fuel { p with r := r.SetOffset curOffset }
    | (none, r) => parseArgObj env fuel { p with r := r.SetOffset curOffset }
termination_by structural fuel => fuel

/-- `parser.parseTarget` (parser.go 776-807). -/
def parseTarget (env : Env) : Nat → Parser → Outcome (Value × Bool)
  | 0, _ => Outcome.noFuel
  | fuel + 1, p =>
    let curOffset := p.r.Offset
    let nextOp := (nextOpcode env p.r).1
    let p := { p with r := (nextOpcode env p.r).2.SetOffset curOffset }
    match nextOp with
    | some info =>
      if info.op = opZero then
        Outcome.ok (Value.ent p.heap.length, true)
          (Parser.alloc { p with r := p.r.SetOffset ((curOffset + 1) % 2 ^ 32) } nullNameSentinel).2
      else if info.isArg then parseArgObj env fuel p
      else if info.op = opRefOf ∨ info.op = opDerefOf ∨ info.op = opIndex ∨ info.op = opDebug then
        parseArgObj env fuel p
      else Outcome.ok (Value.null, false) p
    | none =>
      (parseMethodInvocationOrNameRef env fuel p).bind fun ok p =>
        if ok then
          match p.scopeCurrent with
          | none => Outcome.fault
          | some cur =>
            match p.removeLastChild cur with
            | none => Outcome.fault
            | some (child, p) => Outcome.ok (Value.ent child, true) p
        else
          Outcome.ok (Value.str (parseNameString (p.r.SetOffset curOffset)).1.1,
              (parseNameString (p.r.SetOffset curOffset)).1.2)
            { p with r := (parseNameString (p.r.SetOffset curOffset)).2 }
termination_by structural fuel => fuel

/-- `parser.parseFieldList` (parser.go 445-637): the argument check, then the loop. -/
def parseFieldList (env : Env) : Nat → Nat → List Value → Nat → Parser → Outcome Bool
  | 0, _, _, _, _ => Outcome.noFuel
  | fuel + 1, op, args, maxReadOffset, p =>
    match fieldListArgs op args with
    | none => Outcome.ok false p
    | some (name0, name1, flags, ok) =>
      parseFieldElements env fuel op name0 name1 (decide ((flags >>> 4) &&& 0x1 = 0x1))
        ((flags >>> 5) &&& 0x3) maxReadOffset
        { ok := ok, accessType := (flags &&& 0xf) % 256 } p
termination_by structural fuel => fuel

/-- `parser.parseFieldList` (parser.go 508-636): the loop over the field elements and the
final check. -/
def parseFieldElements (env : Env) :
    Nat → Nat → Str → Str → Bool → Nat → Nat → FieldListState → Parser → Outcome Bool
  | 0, _, _, _, _, _, _, _, _ => Outcome.noFuel
  | fuel + 1, op, name0, name1, lock, updateRule, maxReadOffset, st, p =>
    if p.r.Offset < maxReadOffset && !p.r.EOF then
      match p.r.ReadByte with
      | (none, r) => Outcome.ok false { p with r := r }
      | (some next, r) =>
        if next = 0x00 then
          let pk := parsePkgLength r
          if !pk.1.2 then Outcome.ok false { p with r := pk.2 }
          else
            parseFieldElements env fuel op name0 name1 lock updateRule maxReadOffset
              { st with ok := true, curBitOffset := (st.curBitOffset + pk.1.1) % 2 ^ 32 }
              { p with r := pk.2 }
        else if next = 0x01 then
          match r.ReadByte with
          | (none, r) => Outcome.ok false { p with r := r }
          | (some accType, r) =>
            match r.ReadByte with
            | (none, r) => Outcome.ok false { p with r := r }
            | (some attrib, r) =>
              parseFieldElements env fuel op name0 name1 lock updateRule maxReadOffset
                { st with accessType := accType &&& 0xf, accessByteCount := 0,
                          accessAttrib := attrib }
                { p with r := r }
        else if next = 0x02 then
          let curOffset := r.Offset
          let nm := parseNameString r
          if nm.1.2 then
            parseFieldElements env fuel op name0 name1 lock updateRule maxReadOffset
              { st with ok := true, connectionName := nm.1.1 } { p with r := nm.2 }
          else
            (parseArgObj env fuel { p with r := nm.2.SetOffset curOffset }).bind fun a p =>
              if !a.2 then Outcome.ok false p
              else
                parseFieldElements env fuel op name0 name1 lock updateRule maxReadOffset
                  { st with ok := true, connectionName := [],
                            resolvedConnection :=
                              match a.1 with
                              | Value.ent id => some id
                              | _ => none }
                  p
        else if next = 0x03 then
          match r.ReadByte with
          | (none, r) => Outcome.ok false { p with r := r }
          | (some accType, r) =>
            match r.ReadByte with
            | (none, r) => Outcome.ok false { p with r := r }
            | (some extAccessAttrib, r) =>
              match r.ReadByte with
              | (none, r) => Outcome.ok false { p with r := r }
              | (some accessByteCount, r) =>
                parseFieldElements env fuel op name0 name1 lock updateRule maxReadOffset
                  { st with accessType := accType &&& 0xf, accessByteCount := accessByteCount,
                            accessAttrib :=
                              if extAccessAttrib = 0x0b then 0x0b
                              else if extAccessAttrib = 0x0e then 0x0e
                              else if extAccessAttrib = 0x0f then 0x0f
                              else st.accessAttrib }
                  { p with r := r }
        else
          let nm := parseNameString r.UnreadByte
          if !nm.1.2 then Outcome.ok false { p with r := nm.2 }
          else
            let pk := parsePkgLength nm.2
            if !pk.1.2 then Outcome.ok false { p with r := pk.2 }
            else
              let p := { p with r := pk.2 }
              let st1 := { st with ok := true, curBitOffset := (st.curBitOffset + pk.1.1) % 2 ^ 32 }
              match makeFieldEntity op name0 name1 nm.1.1 lock updateRule pk.1.1 st with
              | none =>
                parseFieldElements env fuel op name0 name1 lock updateRule maxReadOffset st1 p
              | some e =>
                match p.scopeCurrent with
                | none => Outcome.fault
                | some cur =>
                  match (p.alloc e).2.Append cur p.heap.length with
                  | none => Outcome.fault
                  | some p =>
                    parseFieldElements env fuel op name0 name1 lock updateRule maxReadOffset
                      st1 p
    else Outcome.ok (st.ok && decide (p.r.Offset = maxReadOffset)) p
termination_by structural fuel => fuel

end

/-- One turn of the loop over the term args of `parseMethodInvocationOrNameRef`
(parser.go 367-381): the next opcode is peeked, the reader is put back, and the argument is
parsed as an object when the opcode is a Type2 opcode, an Arg or Local, or a data object,
and as a nested invocation or name reference otherwise.  The result is the argument and
whether it could be parsed. -/
def parseTermArg (env : Env) (fuel : Nat) (p : Parser) : Outcome (Value × Bool) :=
  let curOffset := p.r.Offset
  let nextOp := (nextOpcode env p.r).1
  let p := { p with r := (nextOpcode env p.r).2.SetOffset curOffset }
  let isTermArg : Bool :=
    match nextOp with
    | some info => info.isType2 || info.isArg || info.isDataObject
    | none => false
  if isTermArg then parseArgObj env fuel p
  else
    (parseMethodInvocationOrNameRef env fuel p).bind fun ok p =>
      if !ok then Outcome.ok (Value.null, false) p
      else
        match p.scopeCurrent with
        | none => Outcome.fault
        | some cur =>
          match p.removeLastChild cur with
          | none => Outcome.fault
          | some (child, p) => Outcome.ok (Value.ent child, true) p

/-- The term args `as` are parsed one after the other, each with success, from the state
`q` on, and the last of them leaves the state `q'`; before each of them the reader is not
at EOF. -/
def termArgChain (env : Env) : List Value → Parser → Parser → Prop
  | [], q, q' => q' = q
  | a :: as, q, q' =>
    q.r.EOF = false ∧
      ∃ (fuel : Nat) (q1 : Parser),
        parseTermArg env fuel q = Outcome.ok (a, true) q1 ∧ termArgChain env as q1 q'

/-! ## Reference definitions worded after the spec -/

/-- The PkgLength value as the grammar of the spec words it: `lead & 0x3F` without follow
bytes, else `(lead & 0x0F) | (b1 << 4) | (b2 << 12) | (b3 << 20)` over the follow bytes
that are present. -/
def pkgLengthValue (lead : Nat) : List Nat → Nat
  | [] => lead &&& 0x3f
  | [b1] => (lead &&& 0x0f) ||| (b1 <<< 4)
  | [b1, b2] => (lead &&& 0x0f) ||| (b1 <<< 4) ||| (b2 <<< 12)
  | b1 :: b2 :: b3 :: _ => (lead &&& 0x0f) ||| (b1 <<< 4) ||| (b2 <<< 12) ||| (b3 <<< 20)

/-- The PkgLength encoding as the spec words it: the lead byte carries the number of
follow bytes in its top two bits and the low bits of the value (six bits without follow
bytes, four bits otherwise); the remaining bits follow in little-endian bytes. -/
def encodePkgLength (n v : Nat) : List Nat :=
  ((n <<< 6) ||| (v &&& (if n = 0 then 0x3f else 0x0f))) ::
    (List.range n).map (fun i => (v >>> (4 + 8 * i)) &&& 0xff)

/-- The segments after the first one, each with its dot in front. -/
def dottedTail (segs : List Str) : Str := (segs.map (fun s => 0x2e :: s)).flatten

/-- The lead character of a NameSeg in the grammar of the spec: `[A-Z_]`. -/
def isLeadNameChar (c : Nat) : Bool := (0x41 ≤ c && c ≤ 0x5a) || c = 0x5f

/-- A further character of a NameSeg in the grammar of the spec: `[A-Z0-9_]`. -/
def isNameChar (c : Nat) : Bool := isLeadNameChar c || (0x30 ≤ c && c ≤ 0x39)

/-- The grammar of the spec: `NameSeg := [A-Z_] [A-Z0-9_]{3}`. -/
def validNameSeg : Str → Bool
  | [c0, c1, c2, c3] => isLeadNameChar c0 && isNameChar c1 && isNameChar c2 && isNameChar c3
  | _ => false

/-- A name without its leading `\` or `^` characters. -/
def stripNamePrefix : Str → Str
  | 0x5c :: t => t
  | name => name.dropWhile (fun c => c == 0x5e)

/-- Splits a byte string at every `.`. -/
def splitDots : Str → List Str
  | [] => [[]]
  | c :: t =>
    match splitDots t with
    | [] => [[c]]
    | s :: ss => if c = 0x2e then [] :: s :: ss else (c :: s) :: ss

/-- The segments of a parsed name: the name without its prefix, split at the dots; the
empty name has no segment. -/
def nameSegments (name : Str) : List Str :=
  if stripNamePrefix name = [] then [] else splitDots (stripNamePrefix name)

/-! ## The namespace resolver and a table fragment, for concrete runs -/

/-- The first entity among `children` whose name is `seg`. -/
def findChild (heap : List Entity) (children : List Nat) (seg : Str) : Option Nat :=
  children.find? fun c =>
    match heap[c]? with
    | some e => decide (e.Name = seg)
    | none => false

/-- Modelled from the spec: section 4.D, step 3, single-segment path: the start scope and
then each ancestor is searched for a direct child named `seg`; the first match is
returned.  `fuel` bounds the walk up the parent links. -/
def scopeSearchUp (heap : List Entity) : Nat → Nat → Str → Option Nat
  | 0, _, _ => none
  | fuel + 1, s, seg =>
    match heap[s]? with
    | none => none
    | some e =>
      match findChild heap e.children seg with
      | some c => some c
      | none =>
        match e.parent with
        | some parent => scopeSearchUp heap fuel parent seg
        | none => none

/-- Modelled from the spec: section 4.D, step 3, multi-segment path: every segment must
name a direct child of the scope reached so far. -/
def scopeFindExact (heap : List Entity) (s : Nat) : List Str → Option Nat
  | [] => some s
  | seg :: segs =>
    match heap[s]? with
    | none => none
    | some e =>
      match findChild heap e.children seg with
      | some c => scopeFindExact heap c segs
      | none => none

/-- Modelled from the spec: section 4.D, step 2: one parent step per leading `^`, failing
where there is no parent; the result is the scope reached and the rest of the path. -/
def scopeAscend (heap : List Entity) (s : Nat) : Str → Option (Nat × Str)
  | 0x5e :: rest =>
    match heap[s]? with
    | none => none
    | some e =>
      match e.parent with
      | some parent => scopeAscend heap parent rest
      | none => none
  | path => some (s, path)

/-- Modelled from the spec: section 4.D, steps 1 and 2: the start scope and the path
without its prefix. -/
def scopeStart (heap : List Entity) (cur root : Nat) : Str → Option (Nat × Str)
  | 0x5c :: rest => some (root, rest)
  | path => scopeAscend heap cur path

/-- Modelled from the spec: `scopeFind` of section 4.D (the function is declared outside
the files at hand).  A path that is only a prefix names the start scope itself. -/
def scopeFind (heap : List Entity) (cur root : Nat) (name : Str) : Option Nat :=
  match scopeStart heap cur root name with
  | none => none
  | some (s, []) => if name = [] then none else some s
  | some (s, path) =>
    match splitDots path with
    | [seg] => scopeSearchUp heap (heap.length + 1) s seg
    | segs => scopeFindExact heap s segs

/-- Modelled from the spec: whether `scopeFind` hands back the `scopeEntity` embedded in a
`Method` or `Device`.  The children lists hold the entities themselves and the parent links
the embedded structs, so this is the case when the path is one or more `^` and nothing
else and the scope reached by the parent steps is a `Method` or `Device`. -/
def scopeFindEmbedded (heap : List Entity) (cur : Nat) (_ : Nat) (name : Str) : Bool :=
  match name with
  | 0x5e :: _ =>
    match scopeAscend heap cur name with
    | some (s, []) =>
      match heap[s]? with
      | some e => e.kind = Kind.method || e.kind = Kind.device
      | none => false
    | _ => false
  | _ => false

/-- Modelled from the spec: `scopeResolvePath` of section 4.D (declared outside the files
at hand): steps 1 and 2, then all segments but the last are resolved; the result is the
parent scope and the last segment. -/
def scopeResolvePath (heap : List Entity) (cur root : Nat) (name : Str) : Option Nat × Str :=
  match scopeStart heap cur root name with
  | none => (none, [])
  | some (s, path) =>
    match scopeFindExact heap s (splitDots path).dropLast with
    | some parent => (some parent, (splitDots path).getLast?.getD [])
    | none => (none, [])

/-- Modelled from the spec: a fragment of the single-byte opcode table (the table is
declared outside the files at hand), with the entries of the ACPI standard that the spec
scenarios use: Zero, One, Name, BytePrefix, Scope, Method, Local0-7, Arg0-6, Store, Add,
If, Else and Return.  `If` and `Else` are plain entities whose TermList becomes an anonymous
scope argument, as scenario 4 of the spec has it. -/
def sampleOpcodeMap (b : Nat) : Option OpcodeInfo :=
  if b = 0x00 then some { op := opZero, flagConstant := true, isDataObject := true }
  else if b = 0x01 then some { op := opOne, flagConstant := true, isDataObject := true }
  else if b = 0x08 then
    some { op := 0x08, flagNamed := true, argFlags := [OpArg.nameString, OpArg.dataRefObj] }
  else if b = 0x0a then
    some { op := 0x0a, flagConstant := true, argFlags := [OpArg.byteData], isDataObject := true }
  else if b = 0x10 then
    some { op := opScope, flagNamed := true, argFlags := [OpArg.nameString, OpArg.termList] }
  else if b = 0x14 then
    some { op := opMethod, flagNamed := true, flagScoped := true,
           argFlags := [OpArg.nameString, OpArg.byteData, OpArg.termList] }
  else if 0x60 ≤ b ∧ b ≤ 0x6e then some { op := b, isArg := true }
  else if b = 0x70 then
    some { op := 0x70, argFlags := [OpArg.termObj, OpArg.superName], isType2 := true }
  else if b = 0x72 then
    some { op := 0x72, argFlags := [OpArg.termObj, OpArg.termObj, OpArg.target],
           isType2 := true }
  else if b = 0xa0 then some { op := opIf, argFlags := [OpArg.termObj, OpArg.termList] }
  else if b = 0xa1 then some { op := opElse, argFlags := [OpArg.termList] }
  else if b = 0xa4 then some { op := 0xa4, argFlags := [OpArg.termObj] }
  else none

/-- Modelled from the spec: a fragment of the extended opcode table: `5B 81` Field and
`5B 82` Device. -/
def sampleExtendedOpcodeMap (b : Nat) : Option OpcodeInfo :=
  if b = 0x81 then
    some { op := opField, flagHasPkgLen := true,
           argFlags := [OpArg.nameString, OpArg.byteData, OpArg.fieldList] }
  else if b = 0x82 then
    some { op := opDevice, flagNamed := true, flagScoped := true,
           argFlags := [OpArg.nameString, OpArg.termList] }
  else none

/-- Modelled from the spec: the device method map of `finalizeObj`: the Methods among the
direct children of the device, by name. -/
def deviceMethodMap (heap : List Entity) (dev : Nat) : List (Str × Nat) :=
  match heap[dev]? with
  | none => []
  | some d =>
    d.children.filterMap fun c =>
      match heap[c]? with
      | some e => if e.kind = Kind.method then some (e.name, c) else none
      | none => none

/-- Modelled from the spec: the table fragment `sampleOpcodeMap` with `If` and `Else` of
object type `objTypeLocalScope` instead, so that `makeObjForOpcode` makes them scope
entities that hold their TermList as children. -/
def scopedIfOpcodeMap (b : Nat) : Option OpcodeInfo :=
  if b = 0xa0 then
    some { op := opIf, objTypeLocalScope := true, argFlags := [OpArg.termObj, OpArg.termList] }
  else if b = 0xa1 then
    some { op := opElse, objTypeLocalScope := true, argFlags := [OpArg.termList] }
  else sampleOpcodeMap b

/-- The environment of the concrete runs: the table fragment and the resolver modelled
from the spec. -/
def sampleEnv : Env :=
  { opcodeMap := sampleOpcodeMap
    extendedOpcodeMap := sampleExtendedOpcodeMap
    scopeFind := scopeFind
    scopeFindEmbedded := scopeFindEmbedded
    scopeResolvePath := scopeResolvePath
    methodMap := deviceMethodMap }

/-- The environment `sampleEnv` with `If` and `Else` as scope entities. -/
def scopedIfEnv : Env := { sampleEnv with opcodeMap := scopedIfOpcodeMap }

/-- Modelled from the spec: the namespace before parsing (section 3, Lifecycle): the root
scope `\\` at index 0 and the pre-defined scopes `_GPE`, `_PR`, `_SB`, `_SI`, `_TZ` at
indices 1 to 5. -/
def initialHeap : List Entity :=
  [ { kind := Kind.scope, op := opScope, name := [0x5c], children := [1, 2, 3, 4, 5] },
    { kind := Kind.scope, op := opScope, name := [0x5f, 0x47, 0x50, 0x45], parent := some 0 },
    { kind := Kind.scope, op := opScope, name := [0x5f, 0x50, 0x52, 0x5f], parent := some 0 },
    { kind := Kind.scope, op := opScope, name := [0x5f, 0x53, 0x42, 0x5f], parent := some 0 },
    { kind := Kind.scope, op := opScope, name := [0x5f, 0x53, 0x49, 0x5f], parent := some 0 },
    { kind := Kind.scope, op := opScope, name := [0x5f, 0x54, 0x5a, 0x5f], parent := some 0 } ]

/-- The namespace of `initialHeap` with one more entity under the root, at index 6: a
Method named `MAIN` that takes `argCount` arguments. -/
def heapWithMethod (argCount : Nat) : List Entity :=
  [ { kind := Kind.scope, op := opScope, name := [0x5c], children := [1, 2, 3, 4, 5, 6] } ] ++
    initialHeap.tail ++
    [ { kind := Kind.method, name := [0x4d, 0x41, 0x49, 0x4e], argCount := argCount,
        parent := some 0 } ]

/-- The namespace of `heapWithMethod 0` with a Device `DEV0` (index 7) inside the Method
`MAIN` (index 6) and a Device `DEV1` (index 8) inside `DEV0`.  The parent links of the two
devices stand for the `scopeEntity` embedded in `MAIN` and in `DEV0`. -/
def heapWithNestedDevices : List Entity :=
  [ { kind := Kind.scope, op := opScope, name := [0x5c], children := [1, 2, 3, 4, 5, 6] } ] ++
    initialHeap.tail ++
    [ { kind := Kind.method, name := [0x4d, 0x41, 0x49, 0x4e], argCount := 0, parent := some 0,
        children := [7] },
      { kind := Kind.device, name := [0x44, 0x45, 0x56, 0x30], parent := some 6, children := [8] },
      { kind := Kind.device, name := [0x44, 0x45, 0x56, 0x31], parent := some 7 } ]

/-- A parser at the start of the table body `data`, inside the root scope (index 0). -/
def parserAt (data : List Nat) (heap : List Entity) : Parser :=
  { r := { data := data, offset := 0 }, root := 0, scopeStack := [0], heap := heap }

/-- Pass 1 of `parser.parseAML` (parser.go 37-39) over the table body `data`: the scope
stack is reset, the root is entered and the object list is parsed up to the end. -/
def pass1 (env : Env) (fuel : Nat) (data : List Nat) (root : Nat) (heap : List Entity) :
    Outcome Bool :=
  parseObjList env fuel data.length
    { r := { data := data, offset := 0 }, root := root, scopeStack := [root], heap := heap }

/-! ## The children invariant -/

/-- The property C6 asks of an entity: it has a parent, and the children of that parent
list it exactly once. -/
def ownedByParent (heap : List Entity) (id : Nat) : Bool :=
  match heap[id]? with
  | none => false
  | some e =>
    match e.parent with
    | none => false
    | some s =>
      match heap[s]? with
      | none => false
      | some se => decide (se.children.count id = 1)

/-- Whether the children list of the scope `e` stored at index `s` is in order: no entity
occurs in it twice and every entity in it has `s` as its parent. -/
def entityChildrenOK (heap : List Entity) (s : Nat) (e : Entity) : Bool :=
  decide e.children.Nodup &&
    e.children.all fun c =>
      match heap[c]? with
      | some ce => decide (ce.parent = some s)
      | none => false

/-- Every entity that is in the `Children()` list of a scope has that scope as its parent
and occurs in the list exactly once. -/
def childrenOK (heap : List Entity) : Bool :=
  (List.range heap.length).all fun s =>
    match heap[s]? with
    | some e => entityChildrenOK heap s e
    | none => true

/-- The children invariant as a proposition: every scope's children are free of duplicates
and have the scope as their parent. -/
@[reducible] def COK (heap : List Entity) : Prop :=
  ∀ (s : Nat) (e : Entity), heap[s]? = some e →
    e.children.Nodup ∧
      ∀ c ∈ e.children, ∃ ce : Entity, heap[c]? = some ce ∧ ce.parent = some s

/-- A routine keeps the children invariant: whenever it returns, the invariant holds of
the state it returns in. -/
def Pres {α : Type} (x : Outcome α) : Prop :=
  ∀ (a : α) (p' : Parser), x = Outcome.ok a p' → COK p'.heap

/-- All routines of the parser keep the children invariant when run with `fuel`. -/
structure AllPres (env : Env) (fuel : Nat) : Prop where
  objList : ∀ (maxOffset : Nat) (p : Parser), COK p.heap →
    Pres (parseObjList env fuel maxOffset p)
  obj : ∀ (p : Parser), COK p.heap → Pres (parseObj env fuel p)
  args : ∀ (info : OpcodeInfo) (obj argIndex maxReadOffset : Nat) (p : Parser), COK p.heap →
    Pres (parseArgs env fuel info obj argIndex maxReadOffset p)
  arg : ∀ (info : OpcodeInfo) (obj argIndex : Nat) (argType : OpArg) (maxReadOffset : Nat)
    (p : Parser), COK p.heap → Pres (parseArg env fuel info obj argIndex argType maxReadOffset p)
  argObj : ∀ (p : Parser), COK p.heap → Pres (parseArgObj env fuel p)
  invocation : ∀ (p : Parser), COK p.heap → Pres (parseMethodInvocationOrNameRef env fuel p)
  invocationArgs : ∀ (methodDef argIndex : Nat) (args : List Value) (p : Parser), COK p.heap →
    Pres (parseInvocationArgs env fuel methodDef argIndex args p)
  scope : ∀ (maxReadOffset : Nat) (p : Parser), COK p.heap →
    Pres (parseScope env fuel maxReadOffset p)
  namespacedObj : ∀ (op maxReadOffset : Nat) (p : Parser), COK p.heap →
    Pres (parseNamespacedObj env fuel op maxReadOffset p)
  superName : ∀ (p : Parser), COK p.heap → Pres (parseSuperName env fuel p)
  target : ∀ (p : Parser), COK p.heap → Pres (parseTarget env fuel p)
  fieldList : ∀ (op : Nat) (args : List Value) (maxReadOffset : Nat) (p : Parser), COK p.heap →
    Pres (parseFieldList env fuel op args maxReadOffset p)
  fieldElements : ∀ (op : Nat) (name0 name1 : Str) (lock : Bool)
    (updateRule maxReadOffset : Nat) (st : FieldListState) (p : Parser), COK p.heap →
    Pres (parseFieldElements env fuel op name0 name1 lock updateRule maxReadOffset st p)

/-- Whether an entity of the store holds the entity `id` among its arguments. -/
def heldAsArg (heap : List Entity) (id : Nat) : Bool :=
  heap.any fun e => e.args.contains (Value.ent id)

/-- Whether `parseObj` handles the opcode `info` on its plain path and without arguments:
no PkgLength, no declared arguments, and none of the opcodes that `parseObj` hands to
`parseScope` or `parseNamespacedObj` or that `finalizeObj` treats apart.  The object of such
an opcode is made by `makeObjForOpcode`, appended to the current scope and left there. -/
def OpcodeInfo.isPlainLeaf (info : OpcodeInfo) : Bool :=
  !info.flagHasPkgLen && info.argFlags.isEmpty && decide (info.op ≠ opScope) &&
    decide (info.op ≠ opDevice) && decide (info.op ≠ opMethod) && decide (info.op ≠ opElse)

/-- Whether the table body `data` is flat: every byte of it is a one-byte opcode of the
table for an object without arguments (`OpcodeInfo.isPlainLeaf`). -/
def flatTable (env : Env) (data : List Nat) : Bool :=
  data.all fun b =>
    decide (b ≠ extOpPrefix) &&
      match env.opcodeMap b with
      | some info => info.isPlainLeaf
      | none => false

/-- The entities `parseObj` makes for the bytes of a flat table under the scope `root`, in
stream order. -/
def flatEntities (env : Env) (root : Nat) (data : List Nat) : List Entity :=
  data.filterMap fun b =>
    (env.opcodeMap b).map fun info => { makeObjForOpcode info with parent := some root }

/-! ## Little-endian values -/

/-- The little-endian value of the bytes `b_0, b_1, ...` taken as the digits `i`, `i + 1`,
...: the sum of `b_j * 256 ^ (i + j)`. -/
def littleEndianFrom (i : Nat) : List Nat → Nat
  | [] => 0
  | b :: bs => b * 256 ^ i + littleEndianFrom (i + 1) bs

/-- The little-endian value as the spec words it: the sum of `b_i * 256 ^ i`. -/
def littleEndian (bs : List Nat) : Nat := littleEndianFrom 0 bs

/-! ## Pass 2: the resolvers and `parseAML` -/

/-- A type assertion `x.(*T)` on the result of a lookup: the entity when it is live and of
the Go type `kind`, else nil. -/
def entityOfKind (heap : List Entity) (kind : Kind) (found : Option Nat) : Option Nat :=
  match found with
  | none => none
  | some id =>
    match heap[id]? with
    | some e => if e.kind = kind then some id else none
    | none => none

/-- The connection lookup that opens `fieldUnitEntity.Resolve` and `indexFieldEntity.Resolve`
(entity.go 285-290, 322-327) on the entity behind `id`: the store after it and whether the
resolver goes on.  `none` where the entity is not live or the lookup would start from a nil
parent. -/
def resolveConnection (env : Env) (root id : Nat) (heap : List Entity) :
    Option (List Entity × Bool) :=
  match heap[id]? with
  | none => none
  | some e =>
    if e.connectionName ≠ [] ∧ e.resolvedConnection = none then
      match e.parent with
      | none => none
      | some parent =>
        let found := env.scopeFind heap parent root e.connectionName
        some (heap.set id { e with resolvedConnection := found }, found.isSome)
    else some (heap, true)

/-- The region lookup of `fieldUnitEntity.Resolve` (entity.go 292-298). -/
def resolveRegion (env : Env) (root id : Nat) (heap : List Entity) :
    Option (List Entity × Bool) :=
  match heap[id]? with
  | none => none
  | some e =>
    if e.resolvedRegion = none then
      match e.parent with
      | none => none
      | some parent =>
        let region := entityOfKind heap Kind.region (env.scopeFind heap parent root e.regionName)
        some (heap.set id { e with resolvedRegion := region }, region.isSome)
    else some (heap, true)

/-- `fieldUnitEntity.Resolve` (entity.go 283-299) on the field unit behind `id`: the store
after the call and the returned flag. -/
def resolveFieldUnit (env : Env) (root id : Nat) (heap : List Entity) :
    Option (List Entity × Bool) :=
  match resolveConnection env root id heap with
  | none => none
  | some (heap, false) => some (heap, false)
  | some (heap, true) => resolveRegion env root id heap

/-- The index register lookup of `indexFieldEntity.Resolve` (entity.go 329-333). -/
def resolveIndexReg (env : Env) (root id : Nat) (heap : List Entity) : Option (List Entity) :=
  match heap[id]? with
  | none => none
  | some e =>
    if e.indexReg = none then
      match e.parent with
      | none => none
      | some parent =>
        let indexReg :=
          entityOfKind heap Kind.fieldUnit (env.scopeFind heap parent root e.indexRegName)
        some (heap.set id { e with indexReg := indexReg })
    else some heap

/-- The data register lookup of `indexFieldEntity.Resolve` (entity.go 335-341) and the
returned flag. -/
def resolveDataReg (env : Env) (root id : Nat) (heap : List Entity) :
    Option (List Entity × Bool) :=
  match heap[id]? with
  | none => none
  | some e =>
    if e.dataReg = none then
      match e.parent with
      | none => none
      | some parent =>
        let dataReg :=
          entityOfKind heap Kind.fieldUnit (env.scopeFind heap parent root e.dataRegName)
        some (heap.set id { e with dataReg := dataReg }, e.indexReg.isSome && dataReg.isSome)
    else some (heap, e.indexReg.isSome)

/-- `indexFieldEntity.Resolve` (entity.go 320-342). -/
def resolveIndexField (env : Env) (root id : Nat) (heap : List Entity) :
    Option (List Entity × Bool) :=
  match resolveConnection env root id heap with
  | none => none
  | some (heap, false) => some (heap, false)
  | some (heap, true) =>
    match resolveIndexReg env root id heap with
    | none => none
    | some heap => resolveDataReg env root id heap

/-- `namedReference.Resolve` (entity.go 355-362). -/
def resolveNamedReference (env : Env) (root id : Nat) (heap : List Entity) :
    Option (List Entity × Bool) :=
  match heap[id]? with
  | none => none
  | some e =>
    match e.parent with
    | none => none
    | some parent =>
      let found := env.scopeFind heap parent root e.targetName
      some (heap.set id { e with target := found }, found.isSome)

/-- The visitor of pass 2 (parser.go 48-53) on one entity: the three types with a `Resolve`
method are resolved, and the flag tells whether that went well; other entities are left
alone. -/
def resolveEntity (env : Env) (root id : Nat) (heap : List Entity) :
    Option (List Entity × Bool) :=
  match heap[id]? with
  | none => none
  | some e =>
    match e.kind with
    | Kind.fieldUnit => resolveFieldUnit env root id heap
    | Kind.indexField => resolveIndexField env root id heap
    | Kind.namedReference => resolveNamedReference env root id heap
    | _ => some (heap, true)

/-- The visitor of pass 2 run over the entities `ids` in turn, with `failed` the value of
`resolveFailed` so far. -/
def resolveAll (env : Env) (root : Nat) : List Nat → List Entity → Bool →
    Option (List Entity × Bool)
  | [], heap, failed => some (heap, failed)
  | id :: ids, heap, failed =>
    match resolveEntity env root id heap with
    | none => none
    | some (heap, ok) => resolveAll env root ids heap (failed || !ok)

/-- Modelled from the spec: `scopeVisit` is declared outside the files at hand; pass 2 is
a depth-first traversal from the root (section 4.E).  The entities are listed parent first,
then the children of a scope in order; `fuel` bounds the depth. -/
def scopeVisitList (heap : List Entity) : Nat → Nat → List Nat
  | 0, _ => []
  | fuel + 1, id =>
    match heap[id]? with
    | none => []
    | some e =>
      if e.isScopeEntity then
        id :: (e.children.map fun c => scopeVisitList heap fuel c).flatten
      else [id]

/-- Modelled from the spec: `Init` of the stream reader: a cursor over the table, placed
just past the header. -/
def Reader.Init (data : List Nat) (initialOffset : Nat) : Reader :=
  { data := data, offset := initialOffset }

/-- The two errors of `parser.parseAML`. -/
inductive ParseError
  | errParsingAML
  | errResolvingEntities
deriving DecidableEq, Repr

/-- `parser.parseAML` (parser.go 26-60).  `table` is the memory of the table, header
included (`header.Length` bytes), `headerSize` the size of the header, and `visit` lists
the entities that `scopeVisit` hands to the visitor, in order.  The result is the error,
`none` for nil. -/
def parseAML (env : Env) (visit : List Entity → Nat → List Nat) (fuel : Nat)
    (table : List Nat) (headerSize : Nat) (p : Parser) : Outcome (Option ParseError) :=
  (parseObjList env fuel table.length
      (Parser.scopeEnter { p with r := Reader.Init table headerSize, scopeStack := [] }
        p.root)).bind fun ok p =>
    if !ok then Outcome.ok (some ParseError.errParsingAML) p
    else
      match p.scopeExit with
      | none => Outcome.fault
      | some p =>
        match resolveAll env p.root (visit p.heap p.root) p.heap false with
        | none => Outcome.fault
        | some (heap, failed) =>
          if failed then Outcome.ok (some ParseError.errResolvingEntities) { p with heap := heap }
          else Outcome.ok none { p with heap := heap }

/-- The namespace of `initialHeap` with two more entities under the root: an operation
region named `REGN` at index 6 and, at index 7, the field unit `TEMP` of that region as
`parseFieldList` leaves it, with the connection name `REGN`. -/
def heapWithRegion : List Entity :=
  [ { kind := Kind.scope, op := opScope, name := [0x5c], children := [1, 2, 3, 4, 5, 6, 7] } ] ++
    initialHeap.tail ++
    [ { kind := Kind.region, op := opOpRegion, name := [0x52, 0x45, 0x47, 0x4e],
        parent := some 0 },
      { kind := Kind.fieldUnit, op := opField, name := [0x54, 0x45, 0x4d, 0x50], bitWidth := 8,
        connectionName := [0x52, 0x45, 0x47, 0x4e], regionName := [0x52, 0x45, 0x47, 0x4e],
        parent := some 0 } ]

/-- The entity put in the place of the region in `heapWithNamedObject`: a named object
called `REGN`. -/
def namedObjectREGN : Entity :=
  { kind := Kind.named, op := 0x08, name := [0x52, 0x45, 0x47, 0x4e], parent := some 0 }

/-- The namespace `heapWithRegion` with a named object instead of the operation region. -/
def heapWithNamedObject : List Entity := heapWithRegion.set 6 namedObjectREGN

/-- The store `h'` holds the same tree as `h`: the same entities, each of the same Go type
and with the same name, parent and children. -/
def sameTree (h h' : List Entity) : Prop :=
  h'.length = h.length ∧
    ∀ (id : Nat) (e : Entity), h[id]? = some e →
      ∃ e' : Entity, h'[id]? = some e' ∧ e'.kind = e.kind ∧ e'.name = e.name ∧
        e'.parent = e.parent ∧ e'.children = e.children

/-! ## Properties of the store that every routine keeps -/

/-- The entity `e'` is `e` up to the fields that are written after an entity is created:
parent and children (`Append`, `removeLastChild`), name, arguments, value, size, data and, for
a Mutex, the sync level (`setArg`), and the method map (`finalizeObj`). -/
def Entity.sameCore (e e' : Entity) : Prop :=
  e' = { e with parent := e'.parent, children := e'.children, name := e'.name, args := e'.args,
                val := e'.val, size := e'.size, data := e'.data, methodMap := e'.methodMap,
                syncLevel := if e.kind = Kind.mutex then e'.syncLevel else e.syncLevel }

/-- A property of the entity store that survives the two things the parser does to it:
storing a new entity, and writing the fields named at `Entity.sameCore` of a stored one. -/
structure HeapClosed (I : List Entity → Prop) : Prop where
  alloc : ∀ (h : List Entity) (e : Entity), I h → I (h ++ [e])
  write : ∀ (h : List Entity) (id : Nat) (e e' : Entity), I h → h[id]? = some e →
    e.sameCore e' → I (h.set id e')

/-- A routine keeps the property `I` of the store: whenever it returns, `I` holds of the
store it returns with. -/
def Keeps (I : List Entity → Prop) {α : Type} (x : Outcome α) : Prop :=
  ∀ (a : α) (p' : Parser), x = Outcome.ok a p' → I p'.heap

/-- All routines of the parser keep the property `I` when run with `fuel`. -/
structure AllKeep (I : List Entity → Prop) (env : Env) (fuel : Nat) : Prop where
  objList : ∀ (maxOffset : Nat) (p : Parser), I p.heap →
    Keeps I (parseObjList env fuel maxOffset p)
  obj : ∀ (p : Parser), I p.heap → Keeps I (parseObj env fuel p)
  args : ∀ (info : OpcodeInfo) (obj argIndex maxReadOffset : Nat) (p : Parser), I p.heap →
    Keeps I (parseArgs env fuel info obj argIndex maxReadOffset p)
  arg : ∀ (info : OpcodeInfo) (obj argIndex : Nat) (argType : OpArg) (maxReadOffset : Nat)
    (p : Parser), I p.heap → Keeps I (parseArg env fuel info obj argIndex argType maxReadOffset p)
  argObj : ∀ (p : Parser), I p.heap → Keeps I (parseArgObj env fuel p)
  invocation : ∀ (p : Parser), I p.heap → Keeps I (parseMethodInvocationOrNameRef env fuel p)
  invocationArgs : ∀ (methodDef argIndex : Nat) (args : List Value) (p : Parser), I p.heap →
    Keeps I (parseInvocationArgs env fuel methodDef argIndex args p)
  scope : ∀ (maxReadOffset : Nat) (p : Parser), I p.heap →
    Keeps I (parseScope env fuel maxReadOffset p)
  namespacedObj : ∀ (op maxReadOffset : Nat) (p : Parser), I p.heap →
    Keeps I (parseNamespacedObj env fuel op maxReadOffset p)
  superName : ∀ (p : Parser), I p.heap → Keeps I (parseSuperName env fuel p)
  target : ∀ (p : Parser), I p.heap → Keeps I (parseTarget env fuel p)
  fieldList : ∀ (op : Nat) (args : List Value) (maxReadOffset : Nat) (p : Parser), I p.heap →
    Keeps I (parseFieldList env fuel op args maxReadOffset p)
  fieldElements : ∀ (op : Nat) (name0 name1 : Str) (lock : Bool)
    (updateRule maxReadOffset : Nat) (st : FieldListState) (p : Parser), I p.heap →
    Keeps I (parseFieldElements env fuel op name0 name1 lock updateRule maxReadOffset st p)

/-- The store holds at index `n` a Method with the given argument count, serialized flag and
sync level. -/
def hasMethod (n argCount : Nat) (serialized : Bool) (syncLevel : Nat) (h : List Entity) :
    Prop :=
  ∃ m : Entity, h[n]? = some m ∧ m.kind = Kind.method ∧ m.argCount = argCount ∧
    m.serialized = serialized ∧ m.syncLevel = syncLevel

/-! ## Field lists as lists of elements -/

/-- An element of a field list in the grammar above `parser.parseFieldList`
(parser.go 440-444): ReservedField, AccessField, ConnectField with a name,
ExtendedAccessField and NamedField.  `n` is the number of follow bytes of the PkgLength
that holds the width. -/
inductive FieldElement
  | reserved (n width : Nat)
  | access (accType attrib : Nat)
  | connect (name : Str)
  | extendedAccess (accType attrib length : Nat)
  | named (name : Str) (n width : Nat)
deriving DecidableEq, Repr

/-- The bytes of a field element in the grammar above `parser.parseFieldList`. -/
def FieldElement.encode : FieldElement → List Nat
  | FieldElement.reserved n width => 0x00 :: encodePkgLength n width
  | FieldElement.access accType attrib => [0x01, accType, attrib]
  | FieldElement.connect name => 0x02 :: name
  | FieldElement.extendedAccess accType attrib length => [0x03, accType, attrib, length]
  | FieldElement.named name n width => name ++ encodePkgLength n width

/-- The bytes of a field list. -/
def encodeFieldList (els : List FieldElement) : List Nat :=
  (els.map FieldElement.encode).flatten

/-- A width fits a PkgLength with `n` follow bytes. -/
def widthFits (n width : Nat) : Prop :=
  n ≤ 3 ∧ if n = 0 then width < 64 else width < 2 ^ (4 + 8 * n)

/-- The element is well formed: names are NameSegs and widths fit their PkgLength. -/
def FieldElement.wellFormed : FieldElement → Prop
  | FieldElement.reserved n width => widthFits n width
  | FieldElement.access _ _ => True
  | FieldElement.connect name => validNameSeg name = true
  | FieldElement.extendedAccess _ _ _ => True
  | FieldElement.named name n width => validNameSeg name = true ∧ widthFits n width

/-- Whether the element is an AccessField or an ExtendedAccessField. -/
def FieldElement.isAccess : FieldElement → Bool
  | FieldElement.access _ _ => true
  | FieldElement.extendedAccess _ _ _ => true
  | _ => false

/-- The local variables of `parser.parseFieldList` after the loop body has run on the
element (parser.go 516-632). -/
def FieldElement.step (st : FieldListState) : FieldElement → FieldListState
  | FieldElement.reserved _ width =>
    { st with ok := true, curBitOffset := (st.curBitOffset + width) % 2 ^ 32 }
  | FieldElement.access accType attrib =>
    { st with accessType := accType &&& 0xf, accessByteCount := 0, accessAttrib := attrib }
  | FieldElement.connect name => { st with ok := true, connectionName := name }
  | FieldElement.extendedAccess accType attrib length =>
    { st with accessType := accType &&& 0xf, accessByteCount := length,
              accessAttrib :=
                if attrib = 0x0b then 0x0b
                else if attrib = 0x0e then 0x0e
                else if attrib = 0x0f then 0x0f
                else st.accessAttrib }
  | FieldElement.named _ _ width =>
    { st with ok := true, curBitOffset := (st.curBitOffset + width) % 2 ^ 32 }

/-- The entities that the loop of `parser.parseFieldList` creates for the elements, in
order, before they are appended: one for every NamedField (parser.go 588-628). -/
def fieldUnits (op : Nat) (name0 name1 : Str) (lock : Bool) (updateRule : Nat) :
    FieldListState → List FieldElement → List Entity
  | _, [] => []
  | st, FieldElement.named name n width :: els =>
    (makeFieldEntity op name0 name1 name lock updateRule width st).toList ++
      fieldUnits op name0 name1 lock updateRule
        (FieldElement.step st (FieldElement.named name n width)) els
  | st, el :: els => fieldUnits op name0 name1 lock updateRule (FieldElement.step st el) els

/-- The layout of a field list as the spec words it: every named field with its width and,
as its offset, the sum modulo `2 ^ 32` of the widths of the named and reserved fields
before it; `sum` is the sum of the widths so far. -/
def fieldLayout : Nat → List FieldElement → List (Str × Nat × Nat)
  | _, [] => []
  | sum, FieldElement.named name _ width :: els =>
    (name, sum % 2 ^ 32, width) :: fieldLayout (sum + width) els
  | sum, FieldElement.reserved _ width :: els => fieldLayout (sum + width) els
  | sum, _ :: els => fieldLayout sum els

/-- The store after the entities `units` have been created and appended to the scope `ce`
stored at index `cur`, one after the other. -/
def appendAll (heap : List Entity) (cur : Nat) (ce : Entity) (units : List Entity) :
    List Entity :=
  heap.set cur
      { ce with children := ce.children ++ (List.range units.length).map (heap.length + ·) } ++
    units.map fun e => { e with parent := some cur }

/-! ## Opcode classifiers -/

/-- The opcode `Divide` of the ACPI standard, used by the opcode test. -/
def opDivide : Nat := 0x78

/-- Modelled from the spec: `opIsLocalArg` is declared outside the files at hand; section
4.B has it hold of the method locals `Local0..Local7`, and `TestOpcodeIsX`
(opcode_test.go 15-78) expects just that. -/
def opIsLocalArg (op : Nat) : Bool := decide (opLocal0 ≤ op ∧ op ≤ opLocal7)

/-- Modelled from the spec: `opIsArg` is declared outside the files at hand; section 4.B has
it hold of the method arguments `Arg0..Arg6`, and `TestOpcodeIsX` (opcode_test.go 15-78)
expects just that. -/
def opIsArg (op : Nat) : Bool := decide (opArg0 ≤ op ∧ op ≤ opArg6)

/-! ## Sample entities -/

/-- A `bufferFieldEntity` made for `CreateField` after its first two arguments (the source
buffer and the bit index) have been set. -/
def sampleCreateField : Entity :=
  { kind := Kind.bufferField, op := opCreateField, args := [Value.ent 7, Value.num 0] }

/-- A `constEntity` for a byte constant that holds the value 5. -/
def sampleConst : Entity := { kind := Kind.const, op := 0x0a, val := Value.num 5 }

/-- The namespace of `initialHeap` after `Name (ABCD, 0x2A)` has been parsed in the root:
the named object at index 6, a child of the root, and its value at index 7. -/
def heapWithName : List Entity :=
  [ { kind := Kind.scope, op := opScope, name := [0x5c], children := [1, 2, 3, 4, 5, 6] } ] ++
    initialHeap.tail ++
    [ { kind := Kind.named, op := 0x08, name := [0x41, 0x42, 0x43, 0x44],
        args := [Value.ent 7], parent := some 0 },
      { kind := Kind.const, op := 0x0a, val := Value.num 0x2a, parent := some 0 } ]

/-- The namespace of `initialHeap` after an `Else` (index 6) has been parsed as the first
object of the scope `_SB` (index 3), with its TermList scope at index 7. -/
def heapWithElse : List Entity :=
  (initialHeap.set 3
    { kind := Kind.scope, op := opScope, name := [0x5f, 0x53, 0x42, 0x5f], parent := some 0,
      children := [6] }) ++
    [ { kind := Kind.unnamed, op := opElse, args := [Value.ent 7], parent := some 3 },
      { kind := Kind.scope, op := opScope } ]

/-! ## The multiboot info section (kernel/multiboot/multiboot.go) -/

namespace Multiboot

/-- `tagMbSectionEnd` (multiboot.go 8). -/
def tagMbSectionEnd : Nat := 0

/-- The field `tagType` of the `tagHeader` at address `a` (multiboot.go 30-39); `mem` gives
the `uint32` that is stored at an address. -/
def tagTypeAt (mem : Nat → Nat) (a : Nat) : Nat := mem a % 2 ^ 32

/-- The field `size` of the `tagHeader` at address `a` (multiboot.go 30-39), four bytes
after the tag type. -/
def tagSizeAt (mem : Nat → Nat) (a : Nat) : Nat := mem (a + 4) % 2 ^ 32

/-- The step `uintptr(int32(ptrTagHeader.size+7) & ^7)` of `findTagByType`
(multiboot.go 110) on a target whose `uintptr` has `ptrBits` bits: the sum is taken in
`uint32`, the conversion to `int32` keeps the bit pattern, the mask clears the three low
bits, and the conversion to `uintptr` extends the sign of the `int32`. -/
def tagStep (ptrBits size : Nat) : Nat :=
  let masked := (size + 7) % 2 ^ 32 - (size + 7) % 2 ^ 32 % 8
  if masked < 2 ^ 31 then masked % 2 ^ ptrBits
  else (masked + 2 ^ ptrBits - 2 ^ 32) % 2 ^ ptrBits

/-- The loop of `findTagByType` (multiboot.go 99-112) from `curPtr` on: the returned pair,
or `none` when the fuel of the embedding runs out. -/
def findTagLoop (ptrBits : Nat) (mem : Nat → Nat) (tagType : Nat) :
    Nat → Nat → Option (Nat × Nat)
  | 0, _ => none
  | fuel + 1, curPtr =>
    if tagTypeAt mem curPtr = tagMbSectionEnd then some (0, 0)
    else if tagTypeAt mem curPtr = tagType then
      some ((curPtr + 8) % 2 ^ ptrBits, (tagSizeAt mem curPtr + 2 ^ 32 - 8) % 2 ^ 32)
    else
      findTagLoop ptrBits mem tagType fuel
        ((curPtr + tagStep ptrBits (tagSizeAt mem curPtr)) % 2 ^ ptrBits)

/-- `findTagByType` (multiboot.go 95-115) with the info section at `infoData`. -/
def findTagByType (ptrBits : Nat) (mem : Nat → Nat) (infoData fuel tagType : Nat) :
    Option (Nat × Nat) :=
  findTagLoop ptrBits mem tagType fuel ((infoData + 8) % 2 ^ ptrBits)

/-- A size rounded up to a multiple of 8. -/
def roundUp8 (n : Nat) : Nat := (n + 7) / 8 * 8

/-- The address of the `k`-th tag of the chain as the claim words it: the first tag is at
`infoData + 8`, each next tag at the previous address plus its size rounded up to a
multiple of 8. -/
def tagChain (mem : Nat → Nat) (infoData : Nat) : Nat → Nat
  | 0 => infoData + 8
  | k + 1 =>
    tagChain mem infoData k + roundUp8 (tagSizeAt mem (tagChain mem infoData k))

/-- A memory with an info section at `0x100000000`: a tag of type 5 and size `0x80000000`
at `0x100000008`, a tag of type 6 and size 16 at `0x180000008`, and the end tag (type 0,
size 8) at `0x180000018`.  Every other word is zero. -/
def hugeTagMemory (a : Nat) : Nat :=
  if a = 0x100000008 then 5
  else if a = 0x10000000c then 0x80000000
  else if a = 0x180000008 then 6
  else if a = 0x18000000c then 16
  else if a = 0x18000001c then 8
  else 0

/-- A memory with an info section at `0x1000`: a tag of type 1 and size 13 at `0x1008`, a
tag of type 6 and size 24 at `0x1018`, and the end tag at `0x1030`. -/
def smallTagMemory (a : Nat) : Nat :=
  if a = 0x1008 then 1
  else if a = 0x100c then 13
  else if a = 0x1018 then 6
  else if a = 0x101c then 24
  else if a = 0x1034 then 8
  else 0

end Multiboot

/-! ## The scope stack -/

/-- A routine returns with the scope stack `s`: whenever it returns, the scope stack of the
state it returns in is `s`. -/
def SameStack (s : List Nat) {α : Type} (x : Outcome α) : Prop :=
  ∀ (a : α) (p' : Parser), x = Outcome.ok a p' → p'.scopeStack = s

/-- All routines of the parser, run with `fuel`, return with the scope stack they were
called with. -/
structure AllStack (env : Env) (fuel : Nat) : Prop where
  objList : ∀ (s : List Nat) (maxOffset : Nat) (p : Parser), p.scopeStack = s →
    SameStack s (parseObjList env fuel maxOffset p)
  obj : ∀ (s : List Nat) (p : Parser), p.scopeStack = s → SameStack s (parseObj env fuel p)
  args : ∀ (s : List Nat) (info : OpcodeInfo) (obj argIndex maxReadOffset : Nat) (p : Parser),
    p.scopeStack = s → SameStack s (parseArgs env fuel info obj argIndex maxReadOffset p)
  arg : ∀ (s : List Nat) (info : OpcodeInfo) (obj argIndex : Nat) (argType : OpArg)
    (maxReadOffset : Nat) (p : Parser), p.scopeStack = s →
    SameStack s (parseArg env fuel info obj argIndex argType maxReadOffset p)
  argObj : ∀ (s : List Nat) (p : Parser), p.scopeStack = s →
    SameStack s (parseArgObj env fuel p)
  invocation : ∀ (s : List Nat) (p : Parser), p.scopeStack = s →
    SameStack s (parseMethodInvocationOrNameRef env fuel p)
  invocationArgs : ∀ (s : List Nat) (methodDef argIndex : Nat) (args : List Value)
    (p : Parser), p.scopeStack = s →
    SameStack s (parseInvocationArgs env fuel methodDef argIndex args p)
  scope : ∀ (s : List Nat) (maxReadOffset : Nat) (p : Parser), p.scopeStack = s →
    SameStack s (parseScope env fuel maxReadOffset p)
  namespacedObj : ∀ (s : List Nat) (op maxReadOffset : Nat) (p : Parser), p.scopeStack = s →
    SameStack s (parseNamespacedObj env fuel op maxReadOffset p)
  superName : ∀ (s : List Nat) (p : Parser), p.scopeStack = s →
    SameStack s (parseSuperName env fuel p)
  target : ∀ (s : List Nat) (p : Parser), p.scopeStack = s →
    SameStack s (parseTarget env fuel p)
  fieldList : ∀ (s : List Nat) (op : Nat) (args : List Value) (maxReadOffset : Nat)
    (p : Parser), p.scopeStack = s →
    SameStack s (parseFieldList env fuel op args maxReadOffset p)
  fieldElements : ∀ (s : List Nat) (op : Nat) (name0 name1 : Str) (lock : Bool)
    (updateRule maxReadOffset : Nat) (st : FieldListState) (p : Parser), p.scopeStack = s →
    SameStack s
      (parseFieldElements env fuel op name0 name1 lock updateRule maxReadOffset st p)

/-! ## Progress of the reader and termination -/

/-- The reader `r` runs over the data `d` and its cursor is at `o` or behind it. -/
def ReaderAbove (d : List Nat) (o : Nat) (r : Reader) : Prop := r.data = d ∧ o ≤ r.offset

/-- The reader of the parser state `p` runs over `d` and its cursor is at `o` or behind. -/
def Above (d : List Nat) (o : Nat) (p : Parser) : Prop := ReaderAbove d o p.r

/-- A routine returns at the offset `o` or behind it, over the same data, whenever it
returns. -/
def Adv (d : List Nat) (o : Nat) {α : Type} (x : Outcome α) : Prop :=
  ∀ (a : α) (p' : Parser), x = Outcome.ok a p' → Above d o p'

/-- All routines of the parser, run with `fuel` over the data `d`, return at an offset that
is not before any offset `o` they were called at or behind. -/
structure AllAdv (env : Env) (d : List Nat) (fuel : Nat) : Prop where
  objList : ∀ (o maxOffset : Nat) (p : Parser), Above d o p →
    Adv d o (parseObjList env fuel maxOffset p)
  obj : ∀ (o : Nat) (p : Parser), Above d o p → Adv d o (parseObj env fuel p)
  args : ∀ (o : Nat) (info : OpcodeInfo) (obj argIndex maxReadOffset : Nat) (p : Parser),
    Above d o p → Adv d o (parseArgs env fuel info obj argIndex maxReadOffset p)
  arg : ∀ (o : Nat) (info : OpcodeInfo) (obj argIndex : Nat) (argType : OpArg)
    (maxReadOffset : Nat) (p : Parser), Above d o p →
    Adv d o (parseArg env fuel info obj argIndex argType maxReadOffset p)
  argObj : ∀ (o : Nat) (p : Parser), Above d o p → Adv d o (parseArgObj env fuel p)
  invocation : ∀ (o : Nat) (p : Parser), Above d o p →
    Adv d o (parseMethodInvocationOrNameRef env fuel p)
  invocationArgs : ∀ (o : Nat) (methodDef argIndex : Nat) (args : List Value)
    (p : Parser), Above d o p →
    Adv d o (parseInvocationArgs env fuel methodDef argIndex args p)
  scope : ∀ (o : Nat) (maxReadOffset : Nat) (p : Parser), Above d o p →
    Adv d o (parseScope env fuel maxReadOffset p)
  namespacedObj : ∀ (o : Nat) (op maxReadOffset : Nat) (p : Parser), Above d o p →
    Adv d o (parseNamespacedObj env fuel op maxReadOffset p)
  superName : ∀ (o : Nat) (p : Parser), Above d o p → Adv d o (parseSuperName env fuel p)
  target : ∀ (o : Nat) (p : Parser), Above d o p → Adv d o (parseTarget env fuel p)
  fieldList : ∀ (o : Nat) (op : Nat) (args : List Value) (maxReadOffset : Nat)
    (p : Parser), Above d o p → Adv d o (parseFieldList env fuel op args maxReadOffset p)
  fieldElements : ∀ (o : Nat) (op : Nat) (name0 name1 : Str) (lock : Bool)
    (updateRule maxReadOffset : Nat) (st : FieldListState) (p : Parser), Above d o p →
    Adv d o (parseFieldElements env fuel op name0 name1 lock updateRule maxReadOffset st p)

/-- The run of a routine ends: it returns or faults, the fuel of the embedding does not run
out. -/
def Total {α : Type} (x : Outcome α) : Prop := x ≠ Outcome.noFuel

/-- The fuel that a routine of rank `rank` needs when at most `d.length - o` bytes are left
and no opcode has more than `maxArgCount` declared arguments. -/
def budget (maxArgCount : Nat) (d : List Nat) (o rank : Nat) : Nat :=
  (maxArgCount + 6) * (d.length - o) + rank

/-- All routines of the parser end when they are run with more fuel than their budget. -/
structure AllTotal (env : Env) (d : List Nat) (maxArgCount fuel : Nat) : Prop where
  objList : ∀ (o maxOffset : Nat) (p : Parser), Above d o p →
    budget maxArgCount d o 2 < fuel → Total (parseObjList env fuel maxOffset p)
  obj : ∀ (o : Nat) (p : Parser), Above d o p → budget maxArgCount d o 1 < fuel →
    Total (parseObj env fuel p)
  args : ∀ (o : Nat) (info : OpcodeInfo) (obj argIndex maxReadOffset : Nat) (p : Parser),
    Above d o p → info.argFlags.length ≤ maxArgCount →
    budget maxArgCount d o (5 + (info.argFlags.length - argIndex)) < fuel →
    Total (parseArgs env fuel info obj argIndex maxReadOffset p)
  arg : ∀ (o : Nat) (info : OpcodeInfo) (obj argIndex : Nat) (argType : OpArg)
    (maxReadOffset : Nat) (p : Parser), Above d o p → budget maxArgCount d o 4 < fuel →
    Total (parseArg env fuel info obj argIndex argType maxReadOffset p)
  argObj : ∀ (o : Nat) (p : Parser), Above d o p → budget maxArgCount d o 2 < fuel →
    Total (parseArgObj env fuel p)
  invocation : ∀ (o : Nat) (p : Parser), Above d o p → budget maxArgCount d o 0 < fuel →
    Total (parseMethodInvocationOrNameRef env fuel p)
  invocationArgs : ∀ (o : Nat) (methodDef argIndex : Nat) (args : List Value)
    (p : Parser), Above d o p → budget maxArgCount d o 3 < fuel →
    Total (parseInvocationArgs env fuel methodDef argIndex args p)
  scope : ∀ (o : Nat) (maxReadOffset : Nat) (p : Parser), Above d o p →
    budget maxArgCount d o 3 < fuel → Total (parseScope env fuel maxReadOffset p)
  namespacedObj : ∀ (o : Nat) (op maxReadOffset : Nat) (p : Parser), Above d o p →
    budget maxArgCount d o 3 < fuel → Total (parseNamespacedObj env fuel op maxReadOffset p)
  superName : ∀ (o : Nat) (p : Parser), Above d o p → budget maxArgCount d o 3 < fuel →
    Total (parseSuperName env fuel p)
  target : ∀ (o : Nat) (p : Parser), Above d o p → budget maxArgCount d o 3 < fuel →
    Total (parseTarget env fuel p)
  fieldList : ∀ (o : Nat) (op : Nat) (args : List Value) (maxReadOffset : Nat)
    (p : Parser), Above d o p → budget maxArgCount d o 1 < fuel →
    Total (parseFieldList env fuel op args maxReadOffset p)
  fieldElements : ∀ (o : Nat) (op : Nat) (name0 name1 : Str) (lock : Bool)
    (updateRule maxReadOffset : Nat) (st : FieldListState) (p : Parser), Above d o p →
    budget maxArgCount d o 0 < fuel →
    Total (parseFieldElements env fuel op name0 name1 lock updateRule maxReadOffset st p)

/-- The number of arguments declared for the opcode that starts at offset `i` of `d`, 0 when
no opcode starts there. -/
def argCountAt (env : Env) (d : List Nat) (i : Nat) : Nat :=
  match (nextOpcode env { data := d, offset := i }).1 with
  | some info => info.argFlags.length
  | none => 0

/-- The largest number of declared arguments among the opcodes that start at an offset
below `k` of `d`. -/
def maxArgsUpTo (env : Env) (d : List Nat) : Nat → Nat
  | 0 => 0
  | k + 1 => max (maxArgsUpTo env d k) (argCountAt env d k)

/-- The largest number of declared arguments among the opcodes that start anywhere in `d`. -/
def maxArgs (env : Env) (d : List Nat) : Nat := maxArgsUpTo env d d.length

/-- Fuel with which `parseObjList` ends when it is started in the state `p`. -/
def fuelBound (env : Env) (p : Parser) : Nat :=
  budget (maxArgs env p.r.data) p.r.data p.r.offset 2 + 1

/-- The reader `r'` runs over the same data as `r` and its cursor is not before that of
`r`. -/
def Ahead (r r' : Reader) : Prop := r'.data = r.data ∧ r.offset ≤ r'.offset

/-- The outcome `y` of a run with more fuel agrees with the outcome `x` of a run that ended. -/
def Stable {α : Type} (x y : Outcome α) : Prop := x ≠ Outcome.noFuel → y = x

/-- All routines of the parser give with the fuel `f2` the outcome they give with the fuel
`f1`, when the run with `f1` ended. -/
structure AllStable (env : Env) (f1 f2 : Nat) : Prop where
  objList : ∀ (maxOffset : Nat) (p : Parser),
    Stable (parseObjList env f1 maxOffset p) (parseObjList env f2 maxOffset p)
  obj : ∀ (p : Parser), Stable (parseObj env f1 p) (parseObj env f2 p)
  args : ∀ (info : OpcodeInfo) (obj argIndex maxReadOffset : Nat) (p : Parser),
    Stable (parseArgs env f1 info obj argIndex maxReadOffset p)
      (parseArgs env f2 info obj argIndex maxReadOffset p)
  arg : ∀ (info : OpcodeInfo) (obj argIndex : Nat) (argType : OpArg)
    (maxReadOffset : Nat) (p : Parser),
    Stable (parseArg env f1 info obj argIndex argType maxReadOffset p)
      (parseArg env f2 info obj argIndex argType maxReadOffset p)
  argObj : ∀ (p : Parser), Stable (parseArgObj env f1 p) (parseArgObj env f2 p)
  invocation : ∀ (p : Parser),
    Stable (parseMethodInvocationOrNameRef env f1 p) (parseMethodInvocationOrNameRef env f2 p)
  invocationArgs : ∀ (methodDef argIndex : Nat) (args : List Value) (p : Parser),
    Stable (parseInvocationArgs env f1 methodDef argIndex args p)
      (parseInvocationArgs env f2 methodDef argIndex args p)
  scope : ∀ (maxReadOffset : Nat) (p : Parser),
    Stable (parseScope env f1 maxReadOffset p) (parseScope env f2 maxReadOffset p)
  namespacedObj : ∀ (op maxReadOffset : Nat) (p : Parser),
    Stable (parseNamespacedObj env f1 op maxReadOffset p)
      (parseNamespacedObj env f2 op maxReadOffset p)
  superName : ∀ (p : Parser), Stable (parseSuperName env f1 p) (parseSuperName env f2 p)
  target : ∀ (p : Parser), Stable (parseTarget env f1 p) (parseTarget env f2 p)
  fieldList : ∀ (op : Nat) (args : List Value) (maxReadOffset : Nat) (p : Parser),
    Stable (parseFieldList env f1 op args maxReadOffset p)
      (parseFieldList env f2 op args maxReadOffset p)
  fieldElements : ∀ (op : Nat) (name0 name1 : Str) (lock : Bool)
    (updateRule maxReadOffset : Nat) (st : FieldListState) (p : Parser),
    Stable (parseFieldElements env f1 op name0 name1 lock updateRule maxReadOffset st p)
      (parseFieldElements env f2 op name0 name1 lock updateRule maxReadOffset st p)

/-! ## Theorems: reader-level parsers -/

theorem Reader.readByte_of_get {r : Reader} {b : Nat} (h : r.data[r.offset]? = some b) :
    r.ReadByte = (some b, { r with offset := r.offset + 1 }) := by
  simp [Reader.ReadByte, h]

theorem Reader.readByte_of_eof {r : Reader} (h : r.data.length ≤ r.offset) :
    r.ReadByte = (none, r) := by
  have : r.data[r.offset]? = none := List.getElem?_eq_none h
  simp [Reader.ReadByte, this]

theorem Reader.readByte_cases (r : Reader) :
    (r.data.length ≤ r.offset ∧ r.ReadByte = (none, r)) ∨
    (∃ b, r.offset < r.data.length ∧ r.data[r.offset]? = some b ∧
      r.ReadByte = (some b, { r with offset := r.offset + 1 })) := by
  rcases Nat.lt_or_ge r.offset r.data.length with h | h
  · exact Or.inr ⟨r.data[r.offset], h, List.getElem?_eq_getElem h,
      Reader.readByte_of_get (List.getElem?_eq_getElem h)⟩
  · exact Or.inl ⟨h, Reader.readByte_of_eof h⟩

/-- A bitwise or of a multiple of `2 ^ i` with a number below `2 ^ i` is their sum. -/
theorem lor_eq_add (i a x : Nat) (ha : a % 2 ^ i = 0) (hx : x < 2 ^ i) : a ||| x = a + x := by
  have h := Nat.mul_add_lt_is_or hx (a / 2 ^ i)
  have e : 2 ^ i * (a / 2 ^ i) = a := by
    have := Nat.div_add_mod a (2 ^ i)
    omega
  rw [e] at h
  exact h.symm

theorem lor_eq_add_comm (i a x : Nat) (ha : a % 2 ^ i = 0) (hx : x < 2 ^ i) : x ||| a = x + a := by
  rw [Nat.lor_comm, lor_eq_add i a x ha hx, Nat.add_comm]

theorem Reader.read_at {r : Reader} {l : List Nat} (h : r.data.drop r.offset = l) (i b : Nat)
    (hb : l[i]? = some b) :
    Reader.ReadByte { data := r.data, offset := r.offset + i } =
      (some b, { data := r.data, offset := r.offset + i + 1 }) := by
  apply Reader.readByte_of_get (r := { data := r.data, offset := r.offset + i })
  show r.data[r.offset + i]? = some b
  rw [← hb, ← h, List.getElem?_drop]

theorem pkgLengthValue_one (L b1 : Nat) :
    pkgLengthValue L [b1] = L % 16 + b1 * 16 := by
  have hand : L &&& 15 = L % 16 := Nat.and_pow_two_sub_one_eq_mod L 4
  simp only [pkgLengthValue, Nat.shiftLeft_eq, hand, Nat.reducePow]
  exact lor_eq_add_comm 4 _ _ (by omega) (by omega)

theorem pkgLengthValue_two (L b1 b2 : Nat) (h1 : b1 < 256) :
    pkgLengthValue L [b1, b2] = L % 16 + b1 * 16 + b2 * 4096 := by
  have hand : L &&& 15 = L % 16 := Nat.and_pow_two_sub_one_eq_mod L 4
  simp only [pkgLengthValue, Nat.shiftLeft_eq, hand, Nat.reducePow]
  have e3 : L % 16 ||| b1 * 16 = L % 16 + b1 * 16 := lor_eq_add_comm 4 _ _ (by omega) (by omega)
  have e4 : L % 16 + b1 * 16 ||| b2 * 4096 = L % 16 + b1 * 16 + b2 * 4096 :=
    lor_eq_add_comm 12 _ _ (by omega) (by omega)
  rw [e3, e4]

theorem pkgLengthValue_three (L b1 b2 b3 : Nat) (h1 : b1 < 256) (h2 : b2 < 256) :
    pkgLengthValue L [b1, b2, b3] = L % 16 + b1 * 16 + b2 * 4096 + b3 * 1048576 := by
  have hand : L &&& 15 = L % 16 := Nat.and_pow_two_sub_one_eq_mod L 4
  simp only [pkgLengthValue, Nat.shiftLeft_eq, hand, Nat.reducePow]
  have e3 : L % 16 ||| b1 * 16 = L % 16 + b1 * 16 := lor_eq_add_comm 4 _ _ (by omega) (by omega)
  have e4 : L % 16 + b1 * 16 ||| b2 * 4096 = L % 16 + b1 * 16 + b2 * 4096 :=
    lor_eq_add_comm 12 _ _ (by omega) (by omega)
  have e5 : L % 16 + b1 * 16 + b2 * 4096 ||| b3 * 1048576 =
      L % 16 + b1 * 16 + b2 * 4096 + b3 * 1048576 :=
    lor_eq_add_comm 20 _ _ (by omega) (by omega)
  rw [e3, e4, e5]

theorem pkgval1 (L b1 : Nat) (h1 : b1 < 256) :
    (b1 <<< 4 ||| (L &&& 0xf)) % 2 ^ 32 = pkgLengthValue L [b1] := by
  rw [pkgLengthValue_one]
  have hand : L &&& 15 = L % 16 := Nat.and_pow_two_sub_one_eq_mod L 4
  simp only [Nat.shiftLeft_eq, hand, Nat.reducePow]
  have e1 : b1 * 16 ||| L % 16 = b1 * 16 + L % 16 := lor_eq_add 4 _ _ (by omega) (by omega)
  rw [e1]
  omega

theorem pkgval2 (L b1 b2 : Nat) (h1 : b1 < 256) (h2 : b2 < 256) :
    (b2 <<< 12 ||| b1 <<< 4 ||| (L &&& 0xf)) % 2 ^ 32 = pkgLengthValue L [b1, b2] := by
  rw [pkgLengthValue_two L b1 b2 h1]
  have hand : L &&& 15 = L % 16 := Nat.and_pow_two_sub_one_eq_mod L 4
  simp only [Nat.shiftLeft_eq, hand, Nat.reducePow]
  have e1 : b2 * 4096 ||| b1 * 16 = b2 * 4096 + b1 * 16 :=
    lor_eq_add 12 _ _ (by omega) (by omega)
  have e2 : b2 * 4096 + b1 * 16 ||| L % 16 = b2 * 4096 + b1 * 16 + L % 16 :=
    lor_eq_add 4 _ _ (by omega) (by omega)
  rw [e1, e2]
  omega

theorem pkgval3 (L b1 b2 b3 : Nat) (h1 : b1 < 256) (h2 : b2 < 256) (h3 : b3 < 256) :
    (b3 <<< 20 ||| b2 <<< 12 ||| b1 <<< 4 ||| (L &&& 0xf)) % 2 ^ 32 =
      pkgLengthValue L [b1, b2, b3] := by
  rw [pkgLengthValue_three L b1 b2 b3 h1 h2]
  have hand : L &&& 15 = L % 16 := Nat.and_pow_two_sub_one_eq_mod L 4
  simp only [Nat.shiftLeft_eq, hand, Nat.reducePow]
  have e0 : b3 * 1048576 ||| b2 * 4096 = b3 * 1048576 + b2 * 4096 :=
    lor_eq_add 20 _ _ (by omega) (by omega)
  have e1 : b3 * 1048576 + b2 * 4096 ||| b1 * 16 = b3 * 1048576 + b2 * 4096 + b1 * 16 :=
    lor_eq_add 12 _ _ (by omega) (by omega)
  have e2 : b3 * 1048576 + b2 * 4096 + b1 * 16 ||| L % 16 =
      b3 * 1048576 + b2 * 4096 + b1 * 16 + L % 16 :=
    lor_eq_add 4 _ _ (by omega) (by omega)
  rw [e0, e1, e2]
  omega

theorem parsePkgLength_ok (r : Reader) (L : Nat) (bs rest : List Nat)
    (hL : L < 256) (hbs : ∀ b ∈ bs, b < 256)
    (hdata : r.data.drop r.offset = L :: (bs ++ rest)) (hn : bs.length = L >>> 6) :
    parsePkgLength r = ((pkgLengthValue L bs, true), { r with offset := r.offset + 1 + bs.length }) := by
  have h0 := Reader.read_at hdata 0 L (by simp)
  have hsh : L >>> 6 = L / 64 := by rw [Nat.shiftRight_eq_div_pow]
  have hand6 : L &&& 63 = L % 64 := Nat.and_pow_two_sub_one_eq_mod L 6
  simp only [Nat.add_zero] at h0
  match bs, hbs, hdata, hn with
  | [], _, hdata, hn =>
    have hq : L >>> 6 = 0 := by simpa using hn.symm
    have : L < 64 := by omega
    have e1 : L % 2 ^ 32 = L := Nat.mod_eq_of_lt (by omega)
    have e2 : L % 64 = L := Nat.mod_eq_of_lt this
    simp only [parsePkgLength, h0, hq, pkgLengthValue, hand6, e1, e2, List.length_nil]
  | [b1], hbs, hdata, hn =>
    have hq : L >>> 6 = 1 := by simpa using hn.symm
    have h1 := Reader.read_at hdata 1 b1 (by simp)
    simp only [parsePkgLength, h0, hq, h1, List.length_singleton,
      pkgval1 L b1 (hbs b1 (by simp))]
  | [b1, b2], hbs, hdata, hn =>
    have hq : L >>> 6 = 2 := by simpa using hn.symm
    have h1 := Reader.read_at hdata 1 b1 (by simp)
    have h2 := Reader.read_at hdata (1 + 1) b2 (by simp)
    simp only [← Nat.add_assoc] at h2
    simp only [parsePkgLength, h0, hq, h1, h2,
      pkgval2 L b1 b2 (hbs b1 (by simp)) (hbs b2 (by simp))]
    rfl
  | [b1, b2, b3], hbs, hdata, hn =>
    have hq : L >>> 6 = 3 := by simpa using hn.symm
    have h1 := Reader.read_at hdata 1 b1 (by simp)
    have h2 := Reader.read_at hdata (1 + 1) b2 (by simp)
    have h3 := Reader.read_at hdata (1 + 1 + 1) b3 (by simp)
    simp only [← Nat.add_assoc] at h2 h3
    simp only [parsePkgLength, h0, hq, h1, h2, h3,
      pkgval3 L b1 b2 b3 (hbs b1 (by simp)) (hbs b2 (by simp)) (hbs b3 (by simp))]
    rfl
  | _ :: _ :: _ :: _ :: _, _, _, hn =>
    have : L >>> 6 ≤ 3 := by omega
    simp only [List.length_cons] at hn
    omega

theorem parsePkgLength_short (r : Reader) (L : Nat) (hL : L < 256)
    (h0 : r.data[r.offset]? = some L) (hshort : r.data.length < r.offset + 1 + L >>> 6) :
    (parsePkgLength r).1.2 = false := by
  have hsh : L >>> 6 = L / 64 := by rw [Nat.shiftRight_eq_div_pow]
  have hlen : r.offset < r.data.length := by
    rcases Nat.lt_or_ge r.offset r.data.length with h | h
    · exact h
    · rw [List.getElem?_eq_none h] at h0; cases h0
  have hq : L >>> 6 = 1 ∨ L >>> 6 = 2 ∨ L >>> 6 = 3 := by omega
  simp only [parsePkgLength, Reader.readByte_of_get h0]
  rcases hq with hq | hq | hq <;> simp only [hq] at hshort ⊢
  · rcases Reader.readByte_cases { data := r.data, offset := r.offset + 1 } with ⟨_, e⟩ | ⟨b, hb, _, e⟩
    · rw [e]
    · simp only [] at hb; omega
  · rcases Reader.readByte_cases { data := r.data, offset := r.offset + 1 } with ⟨_, e⟩ | ⟨b, hb, _, e⟩
    · rw [e]
    · rw [e]
      simp only []
      rcases Reader.readByte_cases { data := r.data, offset := r.offset + 1 + 1 } with ⟨_, e⟩ | ⟨b, hb, _, e⟩
      · rw [e]
      · simp only [] at hb; omega
  · rcases Reader.readByte_cases { data := r.data, offset := r.offset + 1 } with ⟨_, e⟩ | ⟨b, hb, _, e⟩
    · rw [e]
    · rw [e]
      simp only []
      rcases Reader.readByte_cases { data := r.data, offset := r.offset + 1 + 1 } with ⟨_, e⟩ | ⟨b, hb, _, e⟩
      · rw [e]
      · rw [e]
        simp only []
        rcases Reader.readByte_cases { data := r.data, offset := r.offset + 1 + 1 + 1 } with ⟨_, e⟩ | ⟨b, hb, _, e⟩
        · rw [e]
        · simp only [] at hb; omega

theorem encode_lead (n v : Nat) :
    (n <<< 6) ||| (v &&& (if n = 0 then 0x3f else 0x0f)) =
      n * 64 + (if n = 0 then v % 64 else v % 16) := by
  have h4 : v &&& 15 = v % 16 := Nat.and_pow_two_sub_one_eq_mod v 4
  have h6 : v &&& 63 = v % 64 := Nat.and_pow_two_sub_one_eq_mod v 6
  simp only [Nat.shiftLeft_eq, Nat.reducePow]
  split
  · rw [h6]; exact lor_eq_add 6 _ _ (by omega) (by omega)
  · rw [h4]; exact lor_eq_add 6 _ _ (by omega) (by omega)

/-- C2. PkgLength round trip: for `n <= 3` and a value `v` that fits the declared width,
decoding the encoding of `v` with `n` follow bytes yields `v` and consumes the `1 + n`
bytes of the encoding. -/
theorem parsePkgLength_roundtrip (n v : Nat) (pre rest : List Nat) (hn : n ≤ 3)
    (hv : if n = 0 then v < 64 else v < 2 ^ (4 + 8 * n)) :
    parsePkgLength ⟨pre ++ encodePkgLength n v ++ rest, pre.length⟩ =
      ((v, true), ⟨pre ++ encodePkgLength n v ++ rest, pre.length + 1 + n⟩) := by
  have hb : ∀ i, (v >>> (4 + 8 * i)) &&& 0xff = v / 2 ^ (4 + 8 * i) % 256 := by
    intro i
    rw [Nat.shiftRight_eq_div_pow]
    exact Nat.and_pow_two_sub_one_eq_mod _ 8
  have hlead := encode_lead n v
  have hand : ∀ L : Nat, L &&& 15 = L % 16 := fun L => Nat.and_pow_two_sub_one_eq_mod L 4
  have hand6 : ∀ L : Nat, L &&& 63 = L % 64 := fun L => Nat.and_pow_two_sub_one_eq_mod L 6
  have hsh : ∀ L : Nat, L >>> 6 = L / 64 := fun L => by rw [Nat.shiftRight_eq_div_pow]
  have key := parsePkgLength_ok ⟨pre ++ encodePkgLength n v ++ rest, pre.length⟩
    ((n <<< 6) ||| (v &&& (if n = 0 then 0x3f else 0x0f)))
    ((List.range n).map (fun i => (v >>> (4 + 8 * i)) &&& 0xff)) rest
    (by rw [hlead]; split <;> omega)
    (by
      intro b hb'
      simp only [List.mem_map] at hb'
      obtain ⟨i, _, rfl⟩ := hb'
      rw [hb]; omega)
    (by simp [encodePkgLength])
    (by rw [hlead, hsh, List.length_map, List.length_range]; split <;> omega)
  rw [key]
  simp only [List.length_map, List.length_range]
  congr 2
  rw [hlead]
  interval_cases n
  · simp only [List.range_zero, List.map_nil, pkgLengthValue, hand6] 
    simp at hv ⊢
    omega
  · rw [show (List.range 1).map (fun i => (v >>> (4 + 8 * i)) &&& 0xff) = [v >>> 4 &&& 0xff] from rfl,
      pkgLengthValue_one, hb 0]
    simp at hv ⊢
    omega
  · rw [show (List.range 2).map (fun i => (v >>> (4 + 8 * i)) &&& 0xff) =
        [v >>> 4 &&& 0xff, v >>> (4 + 8 * 1) &&& 0xff] from rfl,
      pkgLengthValue_two _ _ _ (by rw [hb 0]; omega), hb 0, hb 1]
    simp at hv ⊢
    omega
  · rw [show (List.range 3).map (fun i => (v >>> (4 + 8 * i)) &&& 0xff) =
        [v >>> 4 &&& 0xff, v >>> (4 + 8 * 1) &&& 0xff, v >>> (4 + 8 * 2) &&& 0xff] from rfl,
      pkgLengthValue_three _ _ _ _ (by rw [hb 0]; omega) (by rw [hb 1]; omega), hb 0, hb 1, hb 2]
    simp at hv ⊢
    omega

theorem Reader.drop_advance {r : Reader} {l t : List Nat} (h : r.data.drop r.offset = l ++ t) :
    List.drop (r.offset + l.length) r.data = t := by
  rw [← List.drop_drop, h, List.drop_left]

/-- One four-character segment read by the name loop: a dot goes in front of it unless it
is the first one. -/
theorem readNameChars_seg (m j : Nat) (str : Str) (r : Reader) (c0 c1 c2 c3 : Nat)
    (t : List Nat) (h : r.data.drop r.offset = c0 :: c1 :: c2 :: c3 :: t) :
    readNameChars (m + 4) (4 * j) str r =
      readNameChars m (4 * (j + 1)) ((if j > 0 then str ++ [0x2e] else str) ++ [c0, c1, c2, c3])
        { r with offset := r.offset + 4 } := by
  have h0 := Reader.read_at h 0 c0 (by simp)
  have h1 := Reader.read_at h 1 c1 (by simp)
  have h2 := Reader.read_at h (1 + 1) c2 (by simp)
  have h3 := Reader.read_at h (1 + 1 + 1) c3 (by simp)
  simp only [Nat.add_zero, ← Nat.add_assoc] at h0 h1 h2 h3
  have i1 : ¬ ((4 * j + 1) % 4 = 0) := by omega
  have i2 : ¬ ((4 * j + 1 + 1) % 4 = 0) := by omega
  have i3 : ¬ ((4 * j + 1 + 1 + 1) % 4 = 0) := by omega
  have i0 : (4 * j > 0 ∧ 4 * j % 4 = 0 ∧ m + 3 + 1 > 1) ↔ j > 0 := by omega
  show readNameChars (m + 3 + 1) (4 * j) str r = _
  simp only [readNameChars, h0, h1, h2, h3, i0, i1, i2, i3, false_and, and_false, if_false,
    List.append_assoc, List.cons_append, List.nil_append]
  rfl

theorem intercalate_dot_cons (s : Str) (segs : List Str) :
    List.intercalate [0x2e] (s :: segs) = s ++ dottedTail segs := by
  induction segs generalizing s with
  | nil => simp [List.intercalate, dottedTail]
  | cons s' segs ih =>
    have := ih s'
    simp only [List.intercalate, List.intersperse_cons₂, List.flatten_cons, dottedTail,
      List.map_cons] at this ⊢
    rw [this]
    simp

theorem readNameChars_tail (segs : List Str) : ∀ (j : Nat) (str : Str) (r : Reader)
    (rest : List Nat), (∀ s ∈ segs, s.length = 4) → 0 < j →
    r.data.drop r.offset = segs.flatten ++ rest →
    readNameChars (4 * segs.length) (4 * j) str r =
      ((str ++ dottedTail segs, true), { r with offset := r.offset + 4 * segs.length }) := by
  induction segs with
  | nil =>
    intro j str r rest _ _ _
    simp [readNameChars, dottedTail]
  | cons s segs ih =>
    intro j str r rest h4 hj hdata
    have hs : s.length = 4 := h4 s (by simp)
    match s, hs with
    | [c0, c1, c2, c3], _ =>
      have e : 4 * (segs.length + 1) = 4 * segs.length + 4 := by omega
      rw [List.length_cons, e, readNameChars_seg (4 * segs.length) j str r c0 c1 c2 c3
        (segs.flatten ++ rest) (by simpa using hdata)]
      rw [ih (j + 1) _ _ rest (fun s hs => h4 s (by simp [hs])) (by omega)
        (by
          have := Reader.drop_advance (l := [c0, c1, c2, c3]) (t := segs.flatten ++ rest)
            (by simpa using hdata)
          simpa using this)]
      simp only [hj, if_true, dottedTail, List.map_cons, List.flatten_cons, List.append_assoc,
        List.cons_append, List.nil_append, List.singleton_append]
      congr 2
      omega

theorem readNameChars_segs (segs : List Str) (str : Str) (r : Reader) (rest : List Nat)
    (h4 : ∀ s ∈ segs, s.length = 4) (hdata : r.data.drop r.offset = segs.flatten ++ rest) :
    readNameChars (4 * segs.length) 0 str r =
      ((str ++ List.intercalate [0x2e] segs, true),
        { r with offset := r.offset + 4 * segs.length }) := by
  match segs, h4, hdata with
  | [], _, _ => simp [readNameChars, List.intercalate]
  | s :: segs, h4, hdata =>
    have hs : s.length = 4 := h4 s (by simp)
    match s, hs with
    | [c0, c1, c2, c3], _ =>
      have e : 4 * (segs.length + 1) = 4 * segs.length + 4 := by omega
      have := readNameChars_seg (4 * segs.length) 0 str r c0 c1 c2 c3
        (segs.flatten ++ rest) (by simpa using hdata)
      rw [List.length_cons, e, this]
      rw [readNameChars_tail segs 1 _ _ rest (fun s hs => h4 s (by simp [hs])) (by omega)
        (by
          have := Reader.drop_advance (l := [c0, c1, c2, c3]) (t := segs.flatten ++ rest)
            (by simpa using hdata)
          simpa using this)]
      rw [intercalate_dot_cons]
      simp only [gt_iff_lt, Nat.lt_irrefl, if_false, List.append_assoc]
      congr 2
      omega

theorem Reader.peek_at {r : Reader} {l : List Nat} (h : r.data.drop r.offset = l) (b : Nat)
    (hb : l[0]? = some b) : r.PeekByte = some b := by
  show r.data[r.offset]? = some b
  rw [← hb, ← h, List.getElem?_drop]
  rfl

theorem Reader.drop_mk (pre l : List Nat) :
    List.drop (Reader.mk (pre ++ l) pre.length).offset (Reader.mk (pre ++ l) pre.length).data = l := by
  simp

/-- The NamePath of a MultiNamePath with `segs.length` segments. -/
theorem parseNamePath_multi (segs : List Str) (str : Str) (r : Reader) (rest : List Nat)
    (h4 : ∀ s ∈ segs, s.length = 4) (hk : 0 < segs.length)
    (hdata : r.data.drop r.offset = 0x2f :: segs.length :: (segs.flatten ++ rest)) :
    parseNamePath str r =
      ((str ++ List.intercalate [0x2e] segs, true),
        { r with offset := r.offset + 2 + 4 * segs.length }) := by
  have h0 := Reader.read_at hdata 0 0x2f (by simp)
  have h1 := Reader.read_at hdata 1 segs.length (by simp)
  simp only [Nat.add_zero] at h0
  have hne : segs.length ≠ 0 := by omega
  have e : segs.length * 4 = 4 * segs.length := Nat.mul_comm _ _
  simp only [parseNamePath, h0, h1, Option.getD_some, hne, if_false, e]
  have hd : List.drop (Reader.mk r.data (r.offset + 1 + 1)).offset
      (Reader.mk r.data (r.offset + 1 + 1)).data = segs.flatten ++ rest := by
    have := Reader.drop_advance (l := [0x2f, segs.length]) (t := segs.flatten ++ rest)
      (by simpa using hdata)
    simpa using this
  simp only [show (47 : Nat) = 0 ↔ False from by decide, show (47 : Nat) = 46 ↔ False from by decide,
    if_false, if_true]
  rw [readNameChars_segs segs str _ rest h4 hd]

/-- The NamePath of a DualNamePath. -/
theorem parseNamePath_dual (segs : List Str) (str : Str) (r : Reader) (rest : List Nat)
    (h4 : ∀ s ∈ segs, s.length = 4) (hk : segs.length = 2)
    (hdata : r.data.drop r.offset = 0x2e :: (segs.flatten ++ rest)) :
    parseNamePath str r =
      ((str ++ List.intercalate [0x2e] segs, true),
        { r with offset := r.offset + 1 + 4 * segs.length }) := by
  have h0 := Reader.read_at hdata 0 0x2e (by simp)
  simp only [Nat.add_zero] at h0
  simp only [parseNamePath, h0, Option.getD_some]
  have hd : List.drop (Reader.mk r.data (r.offset + 1)).offset
      (Reader.mk r.data (r.offset + 1)).data = segs.flatten ++ rest := by
    have := Reader.drop_advance (l := [0x2e]) (t := segs.flatten ++ rest)
      (by simpa using hdata)
    simpa using this
  simp only [show (46 : Nat) = 0 ↔ False from by decide, if_false, if_true]
  have := readNameChars_segs segs str _ rest h4 hd
  rw [hk] at this ⊢
  exact this

/-- C3. NameString normalization: a root-prefixed DualNamePath (`5C 2E s1 s2`) or
MultiNamePath (`5C 2F k s1..sk`) with `k >= 2` four-byte segments is parsed in full and
gives the root character followed by the segments with one dot between consecutive
segments. -/
theorem parseNameString_absolute_path (pre rest enc : List Nat) (segs : List Str)
    (h4 : ∀ s ∈ segs, s.length = 4) (hk : 2 ≤ segs.length)
    (henc : enc = [0x5c, 0x2f, segs.length] ++ segs.flatten ∨
      (segs.length = 2 ∧ enc = [0x5c, 0x2e] ++ segs.flatten)) :
    parseNameString ⟨pre ++ enc ++ rest, pre.length⟩ =
      ((0x5c :: List.intercalate [0x2e] segs, true),
        ⟨pre ++ enc ++ rest, pre.length + enc.length⟩) := by
  rcases henc with henc | ⟨h2, henc⟩
  · have hdrop : List.drop (Reader.mk (pre ++ enc ++ rest) pre.length).offset
        (Reader.mk (pre ++ enc ++ rest) pre.length).data =
        0x5c :: 0x2f :: segs.length :: (segs.flatten ++ rest) := by
      simp [henc]
    have hp := Reader.peek_at hdrop 0x5c (by simp)
    have hr := Reader.read_at hdrop 0 0x5c (by simp)
    simp only [Nat.add_zero] at hr
    simp only [parseNameString, hp, hr, if_true]
    rw [parseNamePath_multi segs [0x5c] _ rest h4 (by omega)
      (by
        have := Reader.drop_advance (l := [0x5c]) hdrop
        simpa using this)]
    simp only [henc, List.singleton_append, List.length_append, List.length_cons,
      List.length_nil, List.length_flatten]
    have hsum : (List.map List.length segs).sum = 4 * segs.length := by
      clear hk henc hdrop hp hr
      induction segs with
      | nil => rfl
      | cons s segs ih =>
        have i1 := h4 s (by simp)
        have i2 := ih (fun s hs => h4 s (by simp [hs]))
        simp only [List.map_cons, List.sum_cons, List.length_cons, i1, i2]
        omega
    rw [hsum]
    congr 2
    omega
  · have hdrop : List.drop (Reader.mk (pre ++ enc ++ rest) pre.length).offset
        (Reader.mk (pre ++ enc ++ rest) pre.length).data =
        0x5c :: 0x2e :: (segs.flatten ++ rest) := by
      simp [henc]
    have hp := Reader.peek_at hdrop 0x5c (by simp)
    have hr := Reader.read_at hdrop 0 0x5c (by simp)
    simp only [Nat.add_zero] at hr
    simp only [parseNameString, hp, hr, if_true]
    rw [parseNamePath_dual segs [0x5c] _ rest h4 h2
      (by
        have := Reader.drop_advance (l := [0x5c]) hdrop
        simpa using this)]
    match segs, h2, h4 with
    | [s1, s2], _, h4 =>
      have i1 := h4 s1 (by simp)
      have i2 := h4 s2 (by simp)
      simp [henc, i1, i2]

theorem parseNameString_absolute_path_witness :
    parseNameString ⟨[] ++ [0x5c, 0x2e, 0x5f, 0x53, 0x42, 0x5f, 0x50, 0x43, 0x49, 0x30] ++ [], 0⟩ =
      ((0x5c :: List.intercalate [0x2e] [[0x5f, 0x53, 0x42, 0x5f], [0x50, 0x43, 0x49, 0x30]],
          true),
        ⟨[] ++ [0x5c, 0x2e, 0x5f, 0x53, 0x42, 0x5f, 0x50, 0x43, 0x49, 0x30] ++ [], 0 + 10⟩) :=
  parseNameString_absolute_path [] [] _ [[0x5f, 0x53, 0x42, 0x5f], [0x50, 0x43, 0x49, 0x30]]
    (by decide) (by decide) (Or.inr ⟨rfl, rfl⟩)

theorem parsePrefixPath_carets (k : Nat) : ∀ (fuel : Nat) (str : Str) (r : Reader) (b : Nat)
    (t : List Nat), r.data.drop r.offset = List.replicate k 0x5e ++ b :: t → b ≠ 0x5e →
    k < fuel →
    parsePrefixPath fuel str r =
      ((str ++ List.replicate k 0x5e, true), { r with offset := r.offset + k }) := by
  induction k with
  | zero =>
    intro fuel str r b t hdata hb hfuel
    obtain ⟨f, rfl⟩ : ∃ f, fuel = f + 1 := ⟨fuel - 1, by omega⟩
    have hp := Reader.peek_at hdata b (by simp)
    simp [parsePrefixPath, hp, hb]
  | succ k ih =>
    intro fuel str r b t hdata hb hfuel
    obtain ⟨f, rfl⟩ : ∃ f, fuel = f + 1 := ⟨fuel - 1, by omega⟩
    have hdata' : r.data.drop r.offset = 0x5e :: (List.replicate k 0x5e ++ b :: t) := by
      rw [hdata, List.replicate_succ]; rfl
    have hp := Reader.peek_at hdata' 0x5e (by simp)
    have hr := Reader.read_at hdata' 0 0x5e (by simp)
    simp only [Nat.add_zero] at hr
    have hd := Reader.drop_advance (l := [0x5e]) hdata'
    simp only [parsePrefixPath, hp, hr, ne_eq, not_true_eq_false, if_false]
    rw [ih f (str ++ [0x5e]) _ b t (by simpa using hd) hb (by omega)]
    simp only [List.append_assoc, List.singleton_append, List.replicate_succ]
    congr 2
    omega

theorem isLeadNameChar_iff (c : Nat) :
    isLeadNameChar c = true ↔ ¬ ((c < 0x41 ∨ c > 0x5a) ∧ c ≠ 0x5f) := by
  simp only [isLeadNameChar, Bool.or_eq_true, Bool.and_eq_true, decide_eq_true_eq]
  omega

/-- The NamePath of a single NameSeg: only the lead character is looked at. -/
theorem parseNamePath_seg (str : Str) (r : Reader) (c0 c1 c2 c3 : Nat) (t : List Nat)
    (hdata : r.data.drop r.offset = c0 :: c1 :: c2 :: c3 :: t)
    (hlead : isLeadNameChar c0 = true) :
    parseNamePath str r =
      ((str ++ [c0, c1, c2, c3], true), { r with offset := r.offset + 4 }) := by
  have h0 := Reader.read_at hdata 0 c0 (by simp)
  have h1 := Reader.read_at hdata 1 c1 (by simp)
  have h2 := Reader.read_at hdata (1 + 1) c2 (by simp)
  have h3 := Reader.read_at hdata (1 + 1 + 1) c3 (by simp)
  simp only [Nat.add_zero, ← Nat.add_assoc] at h0 h1 h2 h3
  have hl := (isLeadNameChar_iff c0).1 hlead
  have n0 : ¬ c0 = 0 := by omega
  have n1 : ¬ c0 = 46 := by omega
  have n2 : ¬ c0 = 47 := by omega
  simp only [parseNamePath, h0, Option.getD_some, n0, n1, n2, if_false, hl, readNameChars,
    h1, h2, h3, List.append_assoc, List.cons_append, List.nil_append]
  simp

/-- The NamePath of a single NameSeg whose lead character is not in `[A-Z_]` fails. -/
theorem parseNamePath_bad_lead (str : Str) (r : Reader) (b : Nat) (t : List Nat)
    (hdata : r.data.drop r.offset = b :: t)
    (hseg : b ≠ 0x00 ∧ b ≠ 0x2e ∧ b ≠ 0x2f) (hlead : isLeadNameChar b = false) :
    (parseNamePath str r).1.2 = false := by
  have h0 := Reader.read_at hdata 0 b (by simp)
  simp only [Nat.add_zero] at h0
  have hl : (b < 0x41 ∨ b > 0x5a) ∧ b ≠ 0x5f := by
    by_contra hcon
    have := (isLeadNameChar_iff b).2 hcon
    rw [this] at hlead
    cases hlead
  simp [parseNamePath, h0, hseg.1, hseg.2.1, hseg.2.2, hl]

/-- C1. With `L` the byte at the cursor and `n = L >> 6`: when `n` further bytes follow,
`parsePkgLength` succeeds, consumes `1 + n` bytes and returns `L & 0x3F` for `n = 0` and
`(L & 0x0F) | (b1 << 4) | (b2 << 12) | (b3 << 20)` over the `n` follow bytes otherwise;
when fewer than `1 + n` bytes remain it fails. -/
theorem parsePkgLength_spec (r : Reader) (L : Nat) (hwf : ∀ b ∈ r.data, b < 256)
    (h0 : r.data[r.offset]? = some L) :
    (r.offset + 1 + L >>> 6 ≤ r.data.length →
      parsePkgLength r =
        ((pkgLengthValue L ((r.data.drop (r.offset + 1)).take (L >>> 6)), true),
          { r with offset := r.offset + 1 + L >>> 6 })) ∧
    (r.data.length < r.offset + 1 + L >>> 6 → (parsePkgLength r).1.2 = false) := by
  have hlen : r.offset < r.data.length := by
    rcases Nat.lt_or_ge r.offset r.data.length with h | h
    · exact h
    · rw [List.getElem?_eq_none h] at h0; cases h0
  have hL : L < 256 := by
    apply hwf L
    rw [List.getElem?_eq_getElem hlen] at h0
    exact Option.some.inj h0 ▸ List.getElem_mem hlen
  refine ⟨fun hfit => ?_, fun hshort => parsePkgLength_short r L hL h0 hshort⟩
  have hdrop : r.data.drop r.offset = L :: r.data.drop (r.offset + 1) := by
    rw [List.drop_eq_getElem_cons hlen]
    congr 1
    have := List.getElem?_eq_getElem hlen
    rw [this] at h0
    exact Option.some.inj h0
  have hsplit : r.data.drop (r.offset + 1) =
      (r.data.drop (r.offset + 1)).take (L >>> 6) ++ (r.data.drop (r.offset + 1)).drop (L >>> 6) :=
    (List.take_append_drop _ _).symm
  have hlen' : ((r.data.drop (r.offset + 1)).take (L >>> 6)).length = L >>> 6 := by
    rw [List.length_take, List.length_drop]
    omega
  have key := parsePkgLength_ok r L ((r.data.drop (r.offset + 1)).take (L >>> 6))
    ((r.data.drop (r.offset + 1)).drop (L >>> 6)) hL
    (fun b hb => hwf b (List.mem_of_mem_drop (List.mem_of_mem_take hb)))
    (by rw [← hsplit]; exact hdrop) hlen'
  rw [key, hlen']

theorem parsePkgLength_spec_witness :
    (∀ b ∈ [0x48, 0x12, 0x99], b < 256) ∧
      parsePkgLength ⟨[0x48, 0x12, 0x99], 0⟩ = ((0x128, true), ⟨[0x48, 0x12, 0x99], 2⟩) :=
  ⟨by decide, (parsePkgLength_spec ⟨[0x48, 0x12, 0x99], 0⟩ 0x48 (by decide) rfl).1 (by decide)⟩

theorem parsePkgLength_roundtrip_witness :
    (3 ≤ 3 ∧ (if 3 = 0 then 0xabcdef1 < 64 else 0xabcdef1 < 2 ^ (4 + 8 * 3))) ∧
      parsePkgLength ⟨[0x10] ++ encodePkgLength 3 0xabcdef1 ++ [0x00], 1⟩ =
        ((0xabcdef1, true), ⟨[0x10] ++ encodePkgLength 3 0xabcdef1 ++ [0x00], 1 + 1 + 3⟩) :=
  ⟨by decide, parsePkgLength_roundtrip 3 0xabcdef1 [0x10] [0x00] (by decide) (by decide)⟩

/-- C4 (the code departs from the claim). `k >= 1` parent-prefix characters followed by a
NameSeg are returned as `k + 1` characters `^` followed by the segment: the first `^` is
appended without being consumed and is appended again by the loop. -/
theorem parseNameString_parent_prefix (k : Nat) (seg pre rest : List Nat) (hk : 1 ≤ k)
    (hseg : validNameSeg seg = true) :
    parseNameString ⟨pre ++ List.replicate k 0x5e ++ seg ++ rest, pre.length⟩ =
      ((List.replicate (k + 1) 0x5e ++ seg, true),
        ⟨pre ++ List.replicate k 0x5e ++ seg ++ rest, pre.length + k + 4⟩) := by
  match seg, hseg with
  | [c0, c1, c2, c3], hseg =>
    have hlead : isLeadNameChar c0 = true := by
      simp only [validNameSeg, Bool.and_eq_true] at hseg
      exact hseg.1.1.1
    have hne : c0 ≠ 0x5e := by
      have := (isLeadNameChar_iff c0).1 hlead
      omega
    obtain ⟨j, rfl⟩ : ∃ j, k = j + 1 := ⟨k - 1, by omega⟩
    have hdrop : List.drop (Reader.mk (pre ++ List.replicate (j + 1) 0x5e ++ [c0, c1, c2, c3] ++ rest)
        pre.length).offset
        (Reader.mk (pre ++ List.replicate (j + 1) 0x5e ++ [c0, c1, c2, c3] ++ rest) pre.length).data =
        List.replicate (j + 1) 0x5e ++ c0 :: (c1 :: c2 :: c3 :: rest) := by
      simp
    have hp := Reader.peek_at hdrop 0x5e (by simp [List.replicate_succ])
    have hpre := parsePrefixPath_carets (j + 1)
      ((pre ++ List.replicate (j + 1) 0x5e ++ [c0, c1, c2, c3] ++ rest).length - pre.length + 1)
      [0x5e] _ c0 (c1 :: c2 :: c3 :: rest) hdrop hne (by simp; omega)
    simp only [parseNameString, hp, show (94 : Nat) = 92 ↔ False from by decide, if_false,
      if_true, hpre]
    rw [parseNamePath_seg _ _ c0 c1 c2 c3 rest
      (by
        have := Reader.drop_advance (l := List.replicate (j + 1) 0x5e) hdrop
        simp at this ⊢) hlead]
    simp [List.replicate_succ]

theorem parseNameString_parent_prefix_witness :
    (1 ≤ 1 ∧ validNameSeg [0x41, 0x42, 0x43, 0x44] = true) ∧
      parseNameString ⟨[] ++ List.replicate 1 0x5e ++ [0x41, 0x42, 0x43, 0x44] ++ [], 0⟩ =
        (([0x5e, 0x5e, 0x41, 0x42, 0x43, 0x44], true),
          ⟨[] ++ List.replicate 1 0x5e ++ [0x41, 0x42, 0x43, 0x44] ++ [], 0 + 1 + 4⟩) :=
  ⟨by decide, parseNameString_parent_prefix 1 [0x41, 0x42, 0x43, 0x44] [] [] (by decide)
    (by decide)⟩

/-- C5 as stated fails: the single segment `A\0\0\0` (bytes `41 00 00 00`) is accepted
although its last three characters are outside `[A-Z0-9_]`. -/
theorem parseNameString_accepts_bad_chars :
    (parseNameString ⟨[0x41, 0x00, 0x00, 0x00], 0⟩).1.2 = true ∧
      ∃ seg ∈ nameSegments (parseNameString ⟨[0x41, 0x00, 0x00, 0x00], 0⟩).1.1,
        validNameSeg seg = false := by
  decide

theorem Reader.read_cons {r : Reader} {b : Nat} {t : List Nat}
    (h : r.data.drop r.offset = b :: t) :
    r.ReadByte = (some b, { r with offset := r.offset + 1 }) ∧
      List.drop (r.offset + 1) r.data = t := by
  constructor
  · apply Reader.readByte_of_get
    have := Reader.peek_at h b (by simp)
    exact this
  · have := Reader.drop_advance (l := [b]) (t := t) h
    simpa using this

theorem Reader.read_nil {r : Reader} (h : r.data.drop r.offset = []) :
    r.ReadByte = (none, r) :=
  Reader.readByte_of_eof (List.drop_eq_nil_iff.1 h)

theorem readNameChars_three (str name : Str) (r r' : Reader) (t : List Nat)
    (hd : r.data.drop r.offset = t)
    (h : readNameChars 3 0 str r = ((name, true), r')) :
    ∃ c1 c2 c3 rest, t = c1 :: c2 :: c3 :: rest ∧ name = str ++ [c1, c2, c3] ∧
      r' = { r with offset := r.offset + 3 } := by
  match t, hd with
  | [], hd =>
    have e1 := Reader.read_nil hd
    simp [readNameChars, e1] at h
  | [c1], hd =>
    have e1 := Reader.read_cons hd
    have e2 := Reader.read_nil (r := { r with offset := r.offset + 1 }) e1.2
    simp [readNameChars, e1.1, e2] at h
  | [c1, c2], hd =>
    have e1 := Reader.read_cons hd
    have e2 := Reader.read_cons (r := { r with offset := r.offset + 1 }) e1.2
    have e3 := Reader.read_nil (r := { r with offset := r.offset + 1 + 1 }) e2.2
    simp [readNameChars, e1.1, e2.1, e3] at h
  | c1 :: c2 :: c3 :: rest, hd =>
    have e1 := Reader.read_cons hd
    have e2 := Reader.read_cons (r := { r with offset := r.offset + 1 }) e1.2
    have e3 := Reader.read_cons (r := { r with offset := r.offset + 1 + 1 }) e2.2
    simp [readNameChars, e1.1, e2.1, e3.1] at h
    exact ⟨c1, c2, c3, rest, rfl, h.1.symm, h.2.symm⟩

theorem stripNamePrefix_lead (b : Nat) (l : List Nat) (hlead : isLeadNameChar b = true) :
    stripNamePrefix (b :: l) = b :: l := by
  have hl := (isLeadNameChar_iff b).1 hlead
  have h1 : b ≠ 0x5c := by omega
  have h2 : (b == 0x5e) = false := by
    simp only [beq_eq_false_iff_ne, ne_eq]
    omega
  unfold stripNamePrefix
  split
  · rename_i heq
    simp only [List.cons.injEq] at heq
    exact absurd heq.1 h1
  · simp [List.dropWhile, h2]

theorem stripNamePrefix_carets (k b : Nat) (l : List Nat) (hlead : isLeadNameChar b = true) :
    stripNamePrefix (List.replicate (k + 1) 0x5e ++ b :: l) = b :: l := by
  have hl := (isLeadNameChar_iff b).1 hlead
  have h2 : (b == 0x5e) = false := by
    simp only [beq_eq_false_iff_ne, ne_eq]
    omega
  have hd : ∀ j, List.dropWhile (fun c => c == 0x5e) (List.replicate j 0x5e ++ b :: l) = b :: l := by
    intro j
    induction j with
    | zero => simp [List.dropWhile, h2]
    | succ j ih => simpa [List.replicate_succ, List.dropWhile] using ih
  unfold stripNamePrefix
  split
  · rename_i heq
    simp [List.replicate_succ] at heq
  · exact hd (k + 1)

/-- C5 as amended. Only the lead character of a single NameSeg is checked: when the
NamePath (the bytes after the `\` or `^` prefix) starts with a byte `b` other than
`0x00`, `0x2E` and `0x2F` and `parseNameString` succeeds, `b` is in `[A-Z_]`, three more
bytes `t0 t1 t2` follow `b` in the stream, the name without its prefix is `b t0 t1 t2`
with these three bytes as they are, and the reader is just past them. -/
theorem parseNameString_single_seg (r r' : Reader) (name : Str) (pfx : List Nat) (b : Nat)
    (t : List Nat) (hdata : r.data.drop r.offset = pfx ++ b :: t)
    (hpfx : (pfx = [] ∧ b ≠ 0x5c ∧ b ≠ 0x5e) ∨ pfx = [0x5c] ∨
      (∃ k, pfx = List.replicate (k + 1) 0x5e ∧ b ≠ 0x5e))
    (hseg : b ≠ 0x00 ∧ b ≠ 0x2e ∧ b ≠ 0x2f)
    (hok : parseNameString r = ((name, true), r')) :
    isLeadNameChar b = true ∧
      ∃ t0 t1 t2 rest, t = t0 :: t1 :: t2 :: rest ∧ stripNamePrefix name = [b, t0, t1, t2] ∧
        r' = { r with offset := r.offset + pfx.length + 4 } := by
  have path : ∀ (str : Str) (r1 : Reader), r1.data.drop r1.offset = b :: t →
      parseNamePath str r1 = ((name, true), r') →
      isLeadNameChar b = true ∧ ∃ c1 c2 c3 rest, t = c1 :: c2 :: c3 :: rest ∧
        name = str ++ [b, c1, c2, c3] ∧ r' = { r1 with offset := r1.offset + 4 } := by
    intro str r1 hd hp
    cases hlead : isLeadNameChar b with
    | false =>
      have := parseNamePath_bad_lead str r1 b t hd hseg hlead
      rw [hp] at this
      cases this
    | true =>
      refine ⟨rfl, ?_⟩
      have h0 := Reader.read_at hd 0 b (by simp)
      simp only [Nat.add_zero] at h0
      have hl := (isLeadNameChar_iff b).1 hlead
      simp only [parseNamePath, h0, Option.getD_some, hseg.1, hseg.2.1, hseg.2.2, if_false,
        hl] at hp
      have hd1 : List.drop (r1.offset + 1) r1.data = t := by
        have := Reader.drop_advance (l := [b]) (t := t) hd
        simpa using this
      obtain ⟨c1, c2, c3, rest, ht, e, er⟩ :=
        readNameChars_three _ _ { data := r1.data, offset := r1.offset + 1 } _ t hd1 hp
      exact ⟨c1, c2, c3, rest, ht, by simpa using e, by rw [er]⟩
  rcases hpfx with ⟨rfl, h5c, h5e⟩ | rfl | ⟨k, rfl, h5e⟩
  · have hp := Reader.peek_at hdata b (by simp)
    simp only [parseNameString, hp, h5c, h5e, if_false] at hok
    obtain ⟨hl, c1, c2, c3, rest, ht, e, er⟩ := path [] r (by simpa using hdata) hok
    refine ⟨hl, c1, c2, c3, rest, ht, ?_, by simpa using er⟩
    rw [e]
    exact stripNamePrefix_lead b _ hl
  · have hp := Reader.peek_at hdata 0x5c (by simp)
    have hr := Reader.read_at hdata 0 0x5c (by simp)
    simp only [Nat.add_zero] at hr
    simp only [parseNameString, hp, hr, if_true] at hok
    have hd := Reader.drop_advance (l := [0x5c]) hdata
    obtain ⟨hl, c1, c2, c3, rest, ht, e, er⟩ :=
      path [0x5c] { data := r.data, offset := r.offset + 1 } (by simpa using hd) hok
    refine ⟨hl, c1, c2, c3, rest, ht, ?_, by simpa using er⟩
    rw [e]
    rfl
  · have hp := Reader.peek_at hdata 0x5e (by simp [List.replicate_succ])
    have hpre := parsePrefixPath_carets (k + 1) (r.data.length - r.offset + 1) [0x5e] r b t
      hdata h5e (by
        have := congrArg List.length hdata
        simp at this
        omega)
    simp only [parseNameString, hp, show (94 : Nat) = 92 ↔ False from by decide, if_false,
      if_true, hpre] at hok
    have hd := Reader.drop_advance (l := List.replicate (k + 1) 0x5e) hdata
    obtain ⟨hl, c1, c2, c3, rest, ht, e, er⟩ := path _ _ (by simpa using hd) hok
    refine ⟨hl, c1, c2, c3, rest, ht, ?_, by simpa using er⟩
    rw [e]
    have := stripNamePrefix_carets (k + 1) b [c1, c2, c3] hl
    simpa [List.replicate_succ] using this

theorem parseNameString_single_seg_witness :
    parseNameString ⟨[0x5c, 0x5f, 0x53, 0x62, 0x00, 0x01], 0⟩ =
        (([0x5c, 0x5f, 0x53, 0x62, 0x00], true), ⟨[0x5c, 0x5f, 0x53, 0x62, 0x00, 0x01], 5⟩) ∧
      isLeadNameChar 0x5f = true ∧
      ∃ t0 t1 t2 rest, [0x53, 0x62, 0x00, 0x01] = t0 :: t1 :: t2 :: rest ∧
        stripNamePrefix [0x5c, 0x5f, 0x53, 0x62, 0x00] = [0x5f, t0, t1, t2] ∧
        (⟨[0x5c, 0x5f, 0x53, 0x62, 0x00, 0x01], 5⟩ : Reader) =
          { (⟨[0x5c, 0x5f, 0x53, 0x62, 0x00, 0x01], 0⟩ : Reader) with
            offset := 0 + [0x5c].length + 4 } :=
  ⟨by decide,
    parseNameString_single_seg ⟨[0x5c, 0x5f, 0x53, 0x62, 0x00, 0x01], 0⟩
      ⟨[0x5c, 0x5f, 0x53, 0x62, 0x00, 0x01], 5⟩ [0x5c, 0x5f, 0x53, 0x62, 0x00] [0x5c] 0x5f
      [0x53, 0x62, 0x00, 0x01] rfl (Or.inr (Or.inl rfl)) (by decide) (by decide)⟩

/-! ## Theorems: the entity-building parser -/

theorem Parser.append_new (p : Parser) (e ce : Entity) (cur : Nat)
    (hcur : p.heap[cur]? = some ce) (hscope : ce.isScopeEntity = true) :
    (p.alloc e).2.Append cur p.heap.length =
      some { p with heap := (p.heap.set cur { ce with children := ce.children ++ [p.heap.length] }) ++
        [{ e with parent := some cur }] } := by
  have hlt : cur < p.heap.length := by
    rcases Nat.lt_or_ge cur p.heap.length with h | h
    · exact h
    · rw [List.getElem?_eq_none h] at hcur; cases hcur
  have hne : cur ≠ p.heap.length := by omega
  have h1 : (p.heap ++ [e])[cur]? = some ce := by
    rw [List.getElem?_append_left hlt]; exact hcur
  have h2 : (p.heap ++ [e])[p.heap.length]? = some e := by
    simp
  simp only [Parser.alloc, Parser.Append, h1, h2, hscope, if_true, Parser.update]
  simp [List.set_append, hlt, h1, hcur, hne, List.getElem?_set, List.getElem?_append_left hlt]

/-- C10. Forward-reference placeholder: when the parsed NameString does not resolve to a
Method (the lookup finds nothing, or an entity that is not a Method),
`parseMethodInvocationOrNameRef` returns true, leaves the reader just past the NameString
and appends exactly one `namedReference` to the current scope, with `targetName` the parsed
name and `target` unset. -/
theorem parseMethodInvocationOrNameRef_forward_ref (env : Env) (fuel : Nat) (p : Parser)
    (name : Str) (r' : Reader) (cur : Nat) (ce : Entity)
    (hname : parseNameString p.r = ((name, true), r'))
    (hstack : p.scopeCurrent = some cur) (hcur : p.heap[cur]? = some ce)
    (hscope : ce.isScopeEntity = true)
    (hnot : ∀ m e, env.scopeFind p.heap cur p.root name = some m → p.heap[m]? = some e →
      e.kind ≠ Kind.method) :
    parseMethodInvocationOrNameRef env (fuel + 1) p =
      Outcome.ok true
        { p with
          r := r'
          heap := (p.heap.set cur { ce with children := ce.children ++ [p.heap.length] }) ++
            [{ kind := Kind.namedReference, targetName := name, target := none,
               parent := some cur }] } := by
  have hno : findMethod env p.heap cur p.root name = none := by
    unfold findMethod
    cases hf : env.scopeFind p.heap cur p.root name with
    | none => rfl
    | some m =>
      cases hm : p.heap[m]? with
      | none => simp [hm]
      | some e => simp [hm, hnot m e hf hm]
  have hsc : Parser.scopeCurrent { p with r := r' } = some cur := hstack
  have happ := Parser.append_new { p with r := r' } (newNamedReference name) ce cur hcur hscope
  simp only [parseMethodInvocationOrNameRef, hname, Bool.not_true, Bool.false_eq_true, if_false,
    hsc, hno, happ]
  rfl

theorem findMethod_some {env : Env} {heap : List Entity} {cur root : Nat} {name : Str} {m : Nat}
    (h : findMethod env heap cur root name = some m) :
    env.scopeFind heap cur root name = some m ∧
      env.scopeFindEmbedded heap cur root name = false ∧
      ∃ e, heap[m]? = some e ∧ e.kind = Kind.method := by
  unfold findMethod at h
  cases hf : env.scopeFind heap cur root name with
  | none => simp [hf] at h
  | some m' =>
    cases hm : heap[m']? with
    | none => simp [hf, hm] at h
    | some e =>
      simp only [hf, hm] at h
      split at h
      · rename_i hk
        cases h
        exact ⟨rfl, hk.2, e, hm, hk.1⟩
      · cases h

theorem findMethod_of {env : Env} {heap : List Entity} {cur root : Nat} {name : Str} {m : Nat}
    {e : Entity} (hf : env.scopeFind heap cur root name = some m) (hm : heap[m]? = some e)
    (hk : e.kind = Kind.method) (hself : env.scopeFindEmbedded heap cur root name = false) :
    findMethod env heap cur root name = some m := by
  simp [findMethod, hf, hm, hk, hself]

/-- The loop over the term args only ever appends to the argument list, one argument for
each step of `argIndex`. -/
theorem parseInvocationArgs_args (env : Env) : ∀ (fuel m i : Nat) (args : List Value)
    (p : Parser) (res : Nat × List Value) (p' : Parser),
    parseInvocationArgs env fuel m i args p = Outcome.ok res p' →
    i ≤ res.1 ∧ ∃ more, res.2 = args ++ more ∧ more.length = res.1 - i := by
  intro fuel
  induction fuel with
  | zero =>
    intro m i args p res p' h
    simp [parseInvocationArgs] at h
  | succ fuel ih =>
    intro m i args p res p' h
    rw [parseInvocationArgs] at h
    cases hm : p.heap[m]? with
    | none => simp [hm] at h
    | some me =>
      simp only [hm] at h
      split at h
      · unfold Outcome.bind at h
        split at h
        · rename_i a p1 _
          beta_reduce at h
          split at h
          · cases h
            exact ⟨Nat.le_refl _, [], by simp, by simp⟩
          · obtain ⟨h1, more, h2, h3⟩ := ih m (i + 1) (args ++ [a.1]) p1 res p' h
            refine ⟨by omega, a.1 :: more, by simp [h2], ?_⟩
            simp only [List.length_cons, h3]
            omega
        · cases h
        · cases h
      · cases h
        exact ⟨Nat.le_refl _, [], by simp, by simp⟩

theorem Parser.append_new_of_some (p p' : Parser) (e : Entity) (cur : Nat)
    (hne : e.isScopeEntity = false)
    (h : (p.alloc e).2.Append cur p.heap.length = some p') :
    ∃ ce, p.heap[cur]? = some ce ∧ ce.isScopeEntity = true ∧
      p' = { p with heap := (p.heap.set cur { ce with children := ce.children ++ [p.heap.length] })
        ++ [{ e with parent := some cur }] } := by
  rcases Nat.lt_trichotomy cur p.heap.length with hlt | heq | hgt
  · have hcur : p.heap[cur]? = some p.heap[cur] := List.getElem?_eq_getElem hlt
    cases hs : (p.heap[cur]).isScopeEntity with
    | true =>
      rw [Parser.append_new p e _ cur hcur hs] at h
      exact ⟨_, hcur, hs, (Option.some.inj h).symm⟩
    | false =>
      have h1 : (p.heap ++ [e])[cur]? = some p.heap[cur] := by
        rw [List.getElem?_append_left hlt]; exact hcur
      simp [Parser.alloc, Parser.Append, h1, hs] at h
  · subst heq
    simp [Parser.alloc, Parser.Append, hne] at h
  · have h1 : (p.heap ++ [e])[cur]? = none := by
      apply List.getElem?_eq_none
      simp
      omega
    simp [Parser.alloc, Parser.Append, h1] at h

/-- C9. Zero-argument invocation: when the parsed name resolves to a Method with
`argCount = 0` (the lookup hands back the Method itself, which is what the assertion
`.(*Method)` of the source accepts), `parseMethodInvocationOrNameRef` succeeds whatever
bytes follow, appends a `methodInvocationEntity` with an empty argument list to the
current scope, and leaves the reader just past the NameString. -/
theorem parseMethodInvocationOrNameRef_zero_args (env : Env) (fuel : Nat) (p : Parser)
    (name : Str) (r' : Reader) (cur m : Nat) (ce me : Entity)
    (hname : parseNameString p.r = ((name, true), r'))
    (hstack : p.scopeCurrent = some cur) (hcur : p.heap[cur]? = some ce)
    (hscope : ce.isScopeEntity = true)
    (hfind : env.scopeFind p.heap cur p.root name = some m) (hm : p.heap[m]? = some me)
    (hkind : me.kind = Kind.method)
    (hself : env.scopeFindEmbedded p.heap cur p.root name = false)
    (hargs : me.argCount = 0) :
    parseMethodInvocationOrNameRef env (fuel + 2) p =
      Outcome.ok true
        { p with
          r := r'
          heap := (p.heap.set cur { ce with children := ce.children ++ [p.heap.length] }) ++
            [{ kind := Kind.methodInvocation, methodDef := some m, args := [],
               parent := some cur }] } := by
  have hf := findMethod_of hfind hm hkind hself
  have hsc : Parser.scopeCurrent { p with r := r' } = some cur := hstack
  have happ := Parser.append_new { p with r := r' } (newInvocation m []) ce cur hcur hscope
  have hloop : parseInvocationArgs env (fuel + 1) m 0 [] { p with r := r' } =
      Outcome.ok (0, []) { p with r := r' } := by
    simp [parseInvocationArgs, hm, hargs]
  simp only [parseMethodInvocationOrNameRef, hname, Bool.not_true, Bool.false_eq_true, if_false,
    hsc, hf, hloop, Outcome.bind, hm, hargs, ne_eq, not_true_eq_false, happ]
  rfl

theorem parseMethodInvocationOrNameRef_forward_ref_witness :
    parseMethodInvocationOrNameRef sampleEnv 1 (parserAt [0x41, 0x42, 0x43, 0x44, 0x01] initialHeap) =
      Outcome.ok true
        { parserAt [0x41, 0x42, 0x43, 0x44, 0x01] initialHeap with
          r := { data := [0x41, 0x42, 0x43, 0x44, 0x01], offset := 4 }
          heap := (initialHeap.set 0
              { kind := Kind.scope, op := opScope, name := [0x5c],
                children := [1, 2, 3, 4, 5] ++ [initialHeap.length] }) ++
            [{ kind := Kind.namedReference, targetName := [0x41, 0x42, 0x43, 0x44],
               target := none, parent := some 0 }] } :=
  parseMethodInvocationOrNameRef_forward_ref sampleEnv 0
    (parserAt [0x41, 0x42, 0x43, 0x44, 0x01] initialHeap) [0x41, 0x42, 0x43, 0x44]
    { data := [0x41, 0x42, 0x43, 0x44, 0x01], offset := 4 } 0
    { kind := Kind.scope, op := opScope, name := [0x5c], children := [1, 2, 3, 4, 5] }
    (by decide) rfl rfl rfl
    (by
      intro m e h
      have hnone : sampleEnv.scopeFind (parserAt [0x41, 0x42, 0x43, 0x44, 0x01] initialHeap).heap 0
          (parserAt [0x41, 0x42, 0x43, 0x44, 0x01] initialHeap).root [0x41, 0x42, 0x43, 0x44] =
          none := by decide
      rw [hnone] at h
      cases h)

theorem parseMethodInvocationOrNameRef_zero_args_witness :
    parseMethodInvocationOrNameRef sampleEnv 2
        (parserAt [0x4d, 0x41, 0x49, 0x4e, 0xa0, 0xff] (heapWithMethod 0)) =
      Outcome.ok true
        { parserAt [0x4d, 0x41, 0x49, 0x4e, 0xa0, 0xff] (heapWithMethod 0) with
          r := { data := [0x4d, 0x41, 0x49, 0x4e, 0xa0, 0xff], offset := 4 }
          heap := ((heapWithMethod 0).set 0
              { kind := Kind.scope, op := opScope, name := [0x5c],
                children := [1, 2, 3, 4, 5, 6] ++ [(heapWithMethod 0).length] }) ++
            [{ kind := Kind.methodInvocation, methodDef := some 6, args := [],
               parent := some 0 }] } :=
  parseMethodInvocationOrNameRef_zero_args sampleEnv 0
    (parserAt [0x4d, 0x41, 0x49, 0x4e, 0xa0, 0xff] (heapWithMethod 0)) [0x4d, 0x41, 0x49, 0x4e]
    { data := [0x4d, 0x41, 0x49, 0x4e, 0xa0, 0xff], offset := 4 } 0 6
    { kind := Kind.scope, op := opScope, name := [0x5c], children := [1, 2, 3, 4, 5, 6] }
    { kind := Kind.method, name := [0x4d, 0x41, 0x49, 0x4e], argCount := 0, parent := some 0 }
    (by decide) rfl rfl rfl (by decide) rfl rfl (by decide) rfl

theorem entityChildrenOK_iff (heap : List Entity) (s : Nat) (e : Entity) :
    entityChildrenOK heap s e = true ↔
      (e.children.Nodup ∧
        ∀ c ∈ e.children, ∃ ce : Entity, heap[c]? = some ce ∧ ce.parent = some s) := by
  unfold entityChildrenOK
  simp only [Bool.and_eq_true, decide_eq_true_eq, List.all_eq_true]
  constructor
  · rintro ⟨h1, h2⟩
    refine ⟨h1, fun c hc => ?_⟩
    have h3 := h2 c hc
    cases hce : heap[c]? with
    | none => simp [hce] at h3
    | some ce =>
      simp only [hce, decide_eq_true_eq] at h3
      exact ⟨ce, rfl, h3⟩
  · rintro ⟨h1, h2⟩
    refine ⟨h1, fun c hc => ?_⟩
    obtain ⟨ce, hce, hp⟩ := h2 c hc
    simp [hce, hp]

/-- The executable check `childrenOK` decides the children invariant. -/
theorem childrenOK_iff (heap : List Entity) : childrenOK heap = true ↔ COK heap := by
  unfold childrenOK COK
  simp only [List.all_eq_true, List.mem_range]
  constructor
  · intro h s e hs
    have hlt : s < heap.length := by
      rcases Nat.lt_or_ge s heap.length with h' | h'
      · exact h'
      · rw [List.getElem?_eq_none h'] at hs; cases hs
    have h1 := h s hlt
    simp only [hs] at h1
    exact (entityChildrenOK_iff heap s e).1 h1
  · intro h s hlt
    have hs : heap[s]? = some heap[s] := List.getElem?_eq_getElem hlt
    simp only [hs]
    exact (entityChildrenOK_iff heap s _).2 (h s _ hs)

theorem getElem?_lt {α : Type} {l : List α} {i : Nat} {a : α} (h : l[i]? = some a) :
    i < l.length := by
  rcases Nat.lt_or_ge i l.length with h' | h'
  · exact h'
  · rw [List.getElem?_eq_none h'] at h; cases h

theorem COK.set {heap : List Entity} (h : COK heap) {id : Nat} {e e' : Entity}
    (hid : heap[id]? = some e) (hp : e'.parent = e.parent)
    (hc : e'.children.Sublist e.children) : COK (heap.set id e') := by
  have hlt := getElem?_lt hid
  have key : ∀ (c s : Nat) (ce : Entity), heap[c]? = some ce → ce.parent = some s →
      ∃ ce' : Entity, (heap.set id e')[c]? = some ce' ∧ ce'.parent = some s := by
    intro c s ce hce hpar
    by_cases hci : id = c
    · subst hci
      rw [hid] at hce
      cases hce
      exact ⟨e', by simp [List.getElem?_set, hlt], by rw [hp, hpar]⟩
    · exact ⟨ce, by simp [List.getElem?_set, hci, hce], hpar⟩
  intro s se hs
  by_cases hsi : id = s
  · subst hsi
    have : se = e' := by
      simp [List.getElem?_set, hlt] at hs
      exact hs.symm
    subst this
    obtain ⟨h1, h2⟩ := h id e hid
    refine ⟨hc.nodup h1, fun c hcm => ?_⟩
    obtain ⟨ce, hce, hpar⟩ := h2 c (hc.subset hcm)
    exact key c id ce hce hpar
  · have hs' : heap[s]? = some se := by
      simpa [List.getElem?_set, hsi] using hs
    obtain ⟨h1, h2⟩ := h s se hs'
    refine ⟨h1, fun c hcm => ?_⟩
    obtain ⟨ce, hce, hpar⟩ := h2 c hcm
    exact key c s ce hce hpar

theorem COK.alloc {heap : List Entity} (h : COK heap) {e : Entity} (he : e.children = []) :
    COK (heap ++ [e]) := by
  intro s se hs
  rcases Nat.lt_or_ge s heap.length with hlt | hge
  · rw [List.getElem?_append_left hlt] at hs
    obtain ⟨h1, h2⟩ := h s se hs
    refine ⟨h1, fun c hcm => ?_⟩
    obtain ⟨ce, hce, hpar⟩ := h2 c hcm
    exact ⟨ce, by rw [List.getElem?_append_left (getElem?_lt hce)]; exact hce, hpar⟩
  · have hs2 := getElem?_lt hs
    simp only [List.length_append, List.length_singleton] at hs2
    have : s = heap.length := by omega
    subst this
    simp at hs
    subst hs
    rw [he]
    exact ⟨List.nodup_nil, fun c hc => by cases hc⟩

theorem COK.update {p : Parser} (h : COK p.heap) (id : Nat) (f : Entity → Entity)
    (hf : ∀ e, (f e).parent = e.parent ∧ (f e).children.Sublist e.children) :
    COK (p.update id f).heap := by
  unfold Parser.update
  cases hid : p.heap[id]? with
  | none => simpa [hid] using h
  | some e =>
    simp only [hid]
    exact h.set hid (hf e).1 (hf e).2

/-- Appending a freshly stored entity keeps the invariant. -/
theorem COK.append_fresh {p p' : Parser} (h : COK p.heap) {e : Entity} {s : Nat}
    (he : e.children = [])
    (happ : (p.alloc e).2.Append s p.heap.length = some p') : COK p'.heap := by
  have hfresh : ∀ (t : Nat) (te : Entity), p.heap[t]? = some te → p.heap.length ∉ te.children := by
    intro t te ht hmem
    obtain ⟨ce, hce, _⟩ := (h t te ht).2 _ hmem
    exact absurd (getElem?_lt hce) (Nat.lt_irrefl _)
  rcases Nat.lt_trichotomy s p.heap.length with hlt | heq | hgt
  · have hs : p.heap[s]? = some p.heap[s] := List.getElem?_eq_getElem hlt
    cases hsc : (p.heap[s]).isScopeEntity with
    | false =>
      have h1 : (p.heap ++ [e])[s]? = some p.heap[s] := by
        rw [List.getElem?_append_left hlt]; exact hs
      simp [Parser.alloc, Parser.Append, h1, hsc] at happ
    | true =>
      rw [Parser.append_new p e _ s hs hsc] at happ
      cases happ
      show COK (p.heap.set s _ ++ [_])
      intro t te ht
      rcases Nat.lt_or_ge t p.heap.length with htl | htg
      · rw [List.getElem?_append_left (by simpa using htl)] at ht
        have lift : ∀ (c : Nat) (ce : Entity) (u : Nat), p.heap[c]? = some ce → ce.parent = some u →
            ∃ ce' : Entity, (p.heap.set s { p.heap[s] with children := (p.heap[s]).children ++
              [p.heap.length] } ++ [{ e with parent := some s }])[c]? = some ce' ∧
              ce'.parent = some u := by
          intro c ce u hce hpar
          have hcl := getElem?_lt hce
          rw [List.getElem?_append_left (by simpa using hcl)]
          by_cases hcs : s = c
          · subst hcs
            rw [hs] at hce
            cases hce
            exact ⟨{ p.heap[s] with children := (p.heap[s]).children ++ [p.heap.length] },
              by simp [List.getElem?_set, hlt], hpar⟩
          · exact ⟨ce, by simp [List.getElem?_set, hcs, hce], hpar⟩
        by_cases hts : s = t
        · subst hts
          simp [List.getElem?_set, hlt] at ht
          subst ht
          obtain ⟨h1, h2⟩ := h s _ hs
          refine ⟨?_, fun c hcm => ?_⟩
          · simp only [List.nodup_append, h1, List.nodup_singleton, true_and]
            intro a ha hb
            simp only [List.mem_singleton] at hb
            subst hb
            exact hfresh s _ hs ha
          · simp only [List.mem_append, List.mem_singleton] at hcm
            rcases hcm with hcm | rfl
            · obtain ⟨ce, hce, hpar⟩ := h2 c hcm
              exact lift c ce s hce hpar
            · exact ⟨{ e with parent := some s }, by simp, rfl⟩
        · have ht' : p.heap[t]? = some te := by
            simpa [List.getElem?_set, hts] using ht
          obtain ⟨h1, h2⟩ := h t te ht'
          refine ⟨h1, fun c hcm => ?_⟩
          obtain ⟨ce, hce, hpar⟩ := h2 c hcm
          exact lift c ce t hce hpar
      · have ht2 := getElem?_lt ht
        simp only [List.length_append, List.length_set, List.length_singleton] at ht2
        have : t = p.heap.length := by omega
        subst this
        simp at ht
        subst ht
        simp only [he]
        exact ⟨List.nodup_nil, fun c hc => by cases hc⟩
  · subst heq
    have h2 : (p.heap ++ [e])[p.heap.length]? = some e := by simp
    have hset : ∀ a b : Entity, (p.heap ++ [a]).set p.heap.length b = p.heap ++ [b] := by
      intro a b
      rw [List.set_append_right _ _ (Nat.le_refl _)]
      simp
    simp only [Parser.alloc, Parser.Append, h2] at happ
    split at happ
    · simp only [Parser.update, h2, hset, List.getElem?_concat_length, Option.some.injEq] at happ
      subst happ
      show COK (p.heap ++ [_])
      intro t te ht
      rcases Nat.lt_or_ge t p.heap.length with htl | htg
      · rw [List.getElem?_append_left htl] at ht
        obtain ⟨h1, h2'⟩ := h t te ht
        refine ⟨h1, fun c hcm => ?_⟩
        obtain ⟨ce, hce, hpar⟩ := h2' c hcm
        exact ⟨ce, by rw [List.getElem?_append_left (getElem?_lt hce)]; exact hce, hpar⟩
      · have ht2 := getElem?_lt ht
        simp only [List.length_append, List.length_singleton] at ht2
        have : t = p.heap.length := by omega
        subst this
        rw [List.getElem?_concat_length] at ht
        cases ht
        simp only [he, List.nil_append]
        refine ⟨List.nodup_singleton _, fun c hc => ?_⟩
        simp only [List.mem_singleton] at hc
        subst hc
        exact ⟨_, List.getElem?_concat_length _ _, rfl⟩
    · cases happ
  · have h1 : (p.heap ++ [e])[s]? = none := by
      apply List.getElem?_eq_none
      simp
      omega
    simp [Parser.alloc, Parser.Append, h1] at happ

theorem Entity.setArg_parent (e : Entity) (i : Nat) (v : Value) :
    (e.setArg i v).1.parent = e.parent := by
  unfold Entity.setArg Entity.setArgNamed
  repeat' split
  all_goals rfl

theorem Entity.setArg_children (e : Entity) (i : Nat) (v : Value) :
    (e.setArg i v).1.children = e.children := by
  unfold Entity.setArg Entity.setArgNamed
  repeat' split
  all_goals rfl

theorem Entity.setOpcode_children (e : Entity) (op : Nat) :
    (e.setOpcode op).children = e.children := by
  unfold Entity.setOpcode
  repeat' split
  all_goals rfl

theorem makeObjForOpcode_children (info : OpcodeInfo) :
    (makeObjForOpcode info).children = [] := by
  unfold makeObjForOpcode
  rw [Entity.setOpcode_children]

theorem makeFieldEntity_children {op : Nat} {name0 name1 unitName : Str} {lock : Bool}
    {updateRule bitWidth : Nat} {st : FieldListState} {e : Entity}
    (h : makeFieldEntity op name0 name1 unitName lock updateRule bitWidth st = some e) :
    e.children = [] := by
  unfold makeFieldEntity at h
  split at h
  · cases h; rfl
  · split at h
    · cases h; rfl
    · cases h

theorem COK.parser_alloc {p : Parser} (h : COK p.heap) {e : Entity} (he : e.children = []) :
    COK (p.alloc e).2.heap :=
  COK.alloc h he

theorem COK.removeLastChild {p p' : Parser} (h : COK p.heap) {s c : Nat}
    (hr : p.removeLastChild s = some (c, p')) : COK p'.heap := by
  unfold Parser.removeLastChild at hr
  split at hr
  · cases hr
    exact COK.update h s _ (fun e => ⟨rfl, List.dropLast_sublist _⟩)
  · cases hr

theorem COK.setArg {p p' : Parser} (h : COK p.heap) {id i : Nat} {v : Value} {b : Bool}
    (hs : p.setArg id i v = some (p', b)) : COK p'.heap := by
  unfold Parser.setArg at hs
  split at hs
  · cases hs
    exact COK.update h id _
      (fun e => ⟨Entity.setArg_parent e i v, by rw [Entity.setArg_children]⟩)
  · cases hs

theorem Pres.ok {α : Type} {a : α} {p : Parser} (h : COK p.heap) : Pres (Outcome.ok a p) := by
  intro a' p' heq
  cases heq
  exact h

theorem Pres.fault {α : Type} : Pres (Outcome.fault : Outcome α) := by
  intro a' p' heq
  cases heq

theorem Pres.noFuel {α : Type} : Pres (Outcome.noFuel : Outcome α) := by
  intro a' p' heq
  cases heq

theorem Pres.bind {α β : Type} {x : Outcome α} {f : α → Parser → Outcome β} (hx : Pres x)
    (hf : ∀ a p, COK p.heap → Pres (f a p)) : Pres (x.bind f) := by
  cases x with
  | ok a p => exact hf a p (hx a p rfl)
  | fault => exact Pres.fault
  | noFuel => exact Pres.noFuel

theorem pres_finishArg {obj argIndex : Nat} {arg : Value} {ok : Bool} {p : Parser}
    (h : COK p.heap) : Pres (finishArg obj argIndex arg ok p) := by
  unfold finishArg
  split
  · exact Pres.ok h
  · split
    · exact Pres.fault
    · rename_i hs
      exact Pres.ok (COK.setArg h hs)

theorem pres_finalizeObj {env : Env} {op obj : Nat} {p : Parser} (h : COK p.heap) :
    Pres (finalizeObj env op obj p) := by
  unfold finalizeObj
  split
  · split
    · exact Pres.fault
    · split
      · exact Pres.fault
      · rename_i hr
        have h1 := COK.removeLastChild h hr
        split
        · exact Pres.fault
        · split
          · exact Pres.fault
          · split
            · exact Pres.ok h1
            · split
              · exact Pres.fault
              · rename_i hs
                exact Pres.ok (COK.setArg h1 hs)
  · split
    · split
      · split
        · exact Pres.ok (COK.update h obj _ (fun e => ⟨rfl, List.Sublist.refl _⟩))
        · exact Pres.fault
      · exact Pres.fault
    · exact Pres.ok h

/-- Removing the last child of the current scope, as `parseArgObj` and its callers do after
a successful parse, keeps the invariant. -/
theorem pres_popChild {p : Parser} (h : COK p.heap) :
    Pres (match p.scopeCurrent with
      | none => Outcome.fault
      | some cur =>
        match p.removeLastChild cur with
        | none => Outcome.fault
        | some (child, p) => Outcome.ok (Value.ent child, true) p) := by
  split
  · exact Pres.fault
  · split
    · exact Pres.fault
    · rename_i hr
      exact Pres.ok (COK.removeLastChild h hr)

theorem COK.of_append {p p' : Parser} {e : Entity} {s : Nat}
    (happ : (p.alloc e).2.Append s p.heap.length = some p') (he : e.children = [])
    (h : COK p.heap) : COK p'.heap :=
  COK.append_fresh h he happ

theorem COK.of_scopeExit {p p' : Parser} (hexit : p.scopeExit = some p') (h : COK p.heap) :
    COK p'.heap := by
  unfold Parser.scopeExit at hexit
  split at hexit
  · cases hexit
  · cases hexit
    exact h

theorem COK.of_removeLastChild {p p' : Parser} {s c : Nat}
    (hr : p.removeLastChild s = some (c, p')) (h : COK p.heap) : COK p'.heap :=
  COK.removeLastChild h hr

theorem COK.of_termList {p : Parser} (h : COK p.heap) (obj argIndex : Nat) :
    COK (((p.alloc anonymousScope).2.scopeEnter p.heap.length).update obj
      (fun e => (e.setArg argIndex (Value.ent p.heap.length)).1)).heap :=
  COK.update (p := (p.alloc anonymousScope).2.scopeEnter p.heap.length) (COK.alloc h rfl) obj _
    (fun e => ⟨Entity.setArg_parent e _ _, by rw [Entity.setArg_children]⟩)

theorem namespacedEntity_children {op : Nat} {name : Str} {flags : Nat} {e : Entity}
    (h : namespacedEntity op name flags = some e) : e.children = [] := by
  unfold namespacedEntity at h
  split at h
  · cases h; rfl
  · split at h
    · cases h; rfl
    · cases h

theorem allPres_zero (env : Env) : AllPres env 0 := by
  constructor <;> intros <;> first
    | (rw [parseObjList]; exact Pres.noFuel)
    | (rw [parseObj]; exact Pres.noFuel)
    | (rw [parseArgs]; exact Pres.noFuel)
    | (rw [parseArg]; exact Pres.noFuel)
    | (rw [parseArgObj]; exact Pres.noFuel)
    | (rw [parseMethodInvocationOrNameRef]; exact Pres.noFuel)
    | (rw [parseInvocationArgs]; exact Pres.noFuel)
    | (rw [parseScope]; exact Pres.noFuel)
    | (rw [parseNamespacedObj]; exact Pres.noFuel)
    | (rw [parseSuperName]; exact Pres.noFuel)
    | (rw [parseTarget]; exact Pres.noFuel)
    | (rw [parseFieldList]; exact Pres.noFuel)
    | (rw [parseFieldElements]; exact Pres.noFuel)


set_option linter.unreachableTactic false in
set_option linter.unusedTactic false in
set_option maxHeartbeats 1000000 in
theorem pres_parseObjList (env : Env) (fuel : Nat) (ih : AllPres env fuel)
    (maxOffset : Nat) (p : Parser) (h : COK p.heap) :
    Pres (parseObjList env (fuel + 1) maxOffset p) := by
  rw [parseObjList]
  repeat' first
    | exact Pres.fault
    | exact Pres.noFuel
    | with_reducible apply Pres.ok
    | with_reducible apply pres_finishArg
    | with_reducible apply pres_finalizeObj
    | with_reducible apply pres_popChild
    | with_reducible apply ih.objList
    | with_reducible apply ih.obj
    | with_reducible apply ih.args
    | with_reducible apply ih.arg
    | with_reducible apply ih.argObj
    | with_reducible apply ih.invocation
    | with_reducible apply ih.invocationArgs
    | with_reducible apply ih.scope
    | with_reducible apply ih.namespacedObj
    | with_reducible apply ih.superName
    | with_reducible apply ih.target
    | with_reducible apply ih.fieldList
    | with_reducible apply ih.fieldElements
    | with_reducible refine Pres.bind ?_ (fun _ _ _ => ?_)
    | assumption
    | exact COK.alloc (by assumption) rfl
    | exact COK.of_append (by assumption) rfl (by assumption)
    | exact COK.of_append (by assumption) (makeObjForOpcode_children _) (by assumption)
    | exact COK.of_append (by assumption) (makeFieldEntity_children (by assumption))
        (by assumption)
    | exact COK.of_append (by assumption) (namespacedEntity_children (by assumption))
        (by assumption)
    | exact COK.of_scopeExit (by assumption) (by assumption)
    | exact COK.of_removeLastChild (by assumption) (by assumption)
    | exact COK.update (by assumption) _ _ (fun e => ⟨rfl, List.Sublist.refl _⟩)
    | exact COK.of_termList (by assumption) _ _
    | dsimp only [Parser.scopeEnter]
    | split

set_option linter.unreachableTactic false in
set_option linter.unusedTactic false in
set_option maxHeartbeats 1000000 in
theorem pres_parseObj (env : Env) (fuel : Nat) (ih : AllPres env fuel)
    (p : Parser) (h : COK p.heap) :
    Pres (parseObj env (fuel + 1) p) := by
  rw [parseObj]
  try dsimp only
  repeat' first
    | exact Pres.fault
    | exact Pres.noFuel
    | with_reducible apply Pres.ok
    | with_reducible apply pres_finishArg
    | with_reducible apply pres_finalizeObj
    | with_reducible apply pres_popChild
    | with_reducible apply ih.objList
    | with_reducible apply ih.obj
    | with_reducible apply ih.args
    | with_reducible apply ih.arg
    | with_reducible apply ih.argObj
    | with_reducible apply ih.invocation
    | with_reducible apply ih.invocationArgs
    | with_reducible apply ih.scope
    | with_reducible apply ih.namespacedObj
    | with_reducible apply ih.superName
    | with_reducible apply ih.target
    | with_reducible apply ih.fieldList
    | with_reducible apply ih.fieldElements
    | with_reducible refine Pres.bind ?_ (fun _ _ _ => ?_)
    | assumption
    | exact COK.alloc (by assumption) rfl
    | exact COK.of_append (by assumption) rfl (by assumption)
    | exact COK.of_append (by assumption) (makeObjForOpcode_children _) (by assumption)
    | exact COK.of_append (by assumption) (makeFieldEntity_children (by assumption))
        (by assumption)
    | exact COK.of_append (by assumption) (namespacedEntity_children (by assumption))
        (by assumption)
    | exact COK.of_scopeExit (by assumption) (by assumption)
    | exact COK.of_removeLastChild (by assumption) (by assumption)
    | exact COK.update (by assumption) _ _ (fun e => ⟨rfl, List.Sublist.refl _⟩)
    | exact COK.of_termList (by assumption) _ _
    | dsimp only [Parser.scopeEnter]
    | split

set_option linter.unreachableTactic false in
set_option linter.unusedTactic false in
set_option maxHeartbeats 1000000 in
theorem pres_parseArgs (env : Env) (fuel : Nat) (ih : AllPres env fuel)
    (info : OpcodeInfo) (obj argIndex maxReadOffset : Nat) (p : Parser) (h : COK p.heap) :
    Pres (parseArgs env (fuel + 1) info obj argIndex maxReadOffset p) := by
  rw [parseArgs]
  repeat' first
    | exact Pres.fault
    | exact Pres.noFuel
    | with_reducible apply Pres.ok
    | with_reducible apply pres_finishArg
    | with_reducible apply pres_finalizeObj
    | with_reducible apply pres_popChild
    | with_reducible apply ih.objList
    | with_reducible apply ih.obj
    | with_reducible apply ih.args
    | with_reducible apply ih.arg
    | with_reducible apply ih.argObj
    | with_reducible apply ih.invocation
    | with_reducible apply ih.invocationArgs
    | with_reducible apply ih.scope
    | with_reducible apply ih.namespacedObj
    | with_reducible apply ih.superName
    | with_reducible apply ih.target
    | with_reducible apply ih.fieldList
    | with_reducible apply ih.fieldElements
    | with_reducible refine Pres.bind ?_ (fun _ _ _ => ?_)
    | assumption
    | exact COK.alloc (by assumption) rfl
    | exact COK.of_append (by assumption) rfl (by assumption)
    | exact COK.of_append (by assumption) (makeObjForOpcode_children _) (by assumption)
    | exact COK.of_append (by assumption) (makeFieldEntity_children (by assumption))
        (by assumption)
    | exact COK.of_append (by assumption) (namespacedEntity_children (by assumption))
        (by assumption)
    | exact COK.of_scopeExit (by assumption) (by assumption)
    | exact COK.of_removeLastChild (by assumption) (by assumption)
    | exact COK.update (by assumption) _ _ (fun e => ⟨rfl, List.Sublist.refl _⟩)
    | exact COK.of_termList (by assumption) _ _
    | dsimp only [Parser.scopeEnter]
    | split

set_option linter.unreachableTactic false in
set_option linter.unusedTactic false in
set_option maxHeartbeats 1000000 in
theorem pres_parseArg (env : Env) (fuel : Nat) (ih : AllPres env fuel)
    (info : OpcodeInfo) (obj argIndex : Nat) (argType : OpArg) (maxReadOffset : Nat)
    (p : Parser) (h : COK p.heap) :
    Pres (parseArg env (fuel + 1) info obj argIndex argType maxReadOffset p) := by
  cases argType <;> rw [parseArg] <;> try dsimp only
  repeat' first
    | exact Pres.fault
    | exact Pres.noFuel
    | with_reducible apply Pres.ok
    | with_reducible apply pres_finishArg
    | with_reducible apply pres_finalizeObj
    | with_reducible apply pres_popChild
    | with_reducible apply ih.objList
    | with_reducible apply ih.obj
    | with_reducible apply ih.args
    | with_reducible apply ih.arg
    | with_reducible apply ih.argObj
    | with_reducible apply ih.invocation
    | with_reducible apply ih.invocationArgs
    | with_reducible apply ih.scope
    | with_reducible apply ih.namespacedObj
    | with_reducible apply ih.superName
    | with_reducible apply ih.target
    | with_reducible apply ih.fieldList
    | with_reducible apply ih.fieldElements
    | with_reducible refine Pres.bind ?_ (fun _ _ _ => ?_)
    | assumption
    | exact COK.alloc (by assumption) rfl
    | exact COK.of_append (by assumption) rfl (by assumption)
    | exact COK.of_append (by assumption) (makeObjForOpcode_children _) (by assumption)
    | exact COK.of_append (by assumption) (makeFieldEntity_children (by assumption))
        (by assumption)
    | exact COK.of_append (by assumption) (namespacedEntity_children (by assumption))
        (by assumption)
    | exact COK.of_scopeExit (by assumption) (by assumption)
    | exact COK.of_removeLastChild (by assumption) (by assumption)
    | exact COK.update (by assumption) _ _ (fun e => ⟨rfl, List.Sublist.refl _⟩)
    | exact COK.of_termList (by assumption) _ _
    | dsimp only [Parser.scopeEnter]
    | split

set_option linter.unreachableTactic false in
set_option linter.unusedTactic false in
set_option maxHeartbeats 1000000 in
theorem pres_parseArgObj (env : Env) (fuel : Nat) (ih : AllPres env fuel)
    (p : Parser) (h : COK p.heap) :
    Pres (parseArgObj env (fuel + 1) p) := by
  rw [parseArgObj]
  repeat' first
    | exact Pres.fault
    | exact Pres.noFuel
    | with_reducible apply Pres.ok
    | with_reducible apply pres_finishArg
    | with_reducible apply pres_finalizeObj
    | with_reducible apply pres_popChild
    | with_reducible apply ih.objList
    | with_reducible apply ih.obj
    | with_reducible apply ih.args
    | with_reducible apply ih.arg
    | with_reducible apply ih.argObj
    | with_reducible apply ih.invocation
    | with_reducible apply ih.invocationArgs
    | with_reducible apply ih.scope
    | with_reducible apply ih.namespacedObj
    | with_reducible apply ih.superName
    | with_reducible apply ih.target
    | with_reducible apply ih.fieldList
    | with_reducible apply ih.fieldElements
    | with_reducible refine Pres.bind ?_ (fun _ _ _ => ?_)
    | assumption
    | exact COK.alloc (by assumption) rfl
    | exact COK.of_append (by assumption) rfl (by assumption)
    | exact COK.of_append (by assumption) (makeObjForOpcode_children _) (by assumption)
    | exact COK.of_append (by assumption) (makeFieldEntity_children (by assumption))
        (by assumption)
    | exact COK.of_append (by assumption) (namespacedEntity_children (by assumption))
        (by assumption)
    | exact COK.of_scopeExit (by assumption) (by assumption)
    | exact COK.of_removeLastChild (by assumption) (by assumption)
    | exact COK.update (by assumption) _ _ (fun e => ⟨rfl, List.Sublist.refl _⟩)
    | exact COK.of_termList (by assumption) _ _
    | dsimp only [Parser.scopeEnter]
    | split

set_option linter.unreachableTactic false in
set_option linter.unusedTactic false in
set_option maxHeartbeats 1000000 in
theorem pres_parseMethodInvocationOrNameRef (env : Env) (fuel : Nat) (ih : AllPres env fuel)
    (p : Parser) (h : COK p.heap) :
    Pres (parseMethodInvocationOrNameRef env (fuel + 1) p) := by
  rw [parseMethodInvocationOrNameRef]
  try dsimp only
  repeat' first
    | exact Pres.fault
    | exact Pres.noFuel
    | with_reducible apply Pres.ok
    | with_reducible apply pres_finishArg
    | with_reducible apply pres_finalizeObj
    | with_reducible apply pres_popChild
    | with_reducible apply ih.objList
    | with_reducible apply ih.obj
    | with_reducible apply ih.args
    | with_reducible apply ih.arg
    | with_reducible apply ih.argObj
    | with_reducible apply ih.invocation
    | with_reducible apply ih.invocationArgs
    | with_reducible apply ih.scope
    | with_reducible apply ih.namespacedObj
    | with_reducible apply ih.superName
    | with_reducible apply ih.target
    | with_reducible apply ih.fieldList
    | with_reducible apply ih.fieldElements
    | with_reducible refine Pres.bind ?_ (fun _ _ _ => ?_)
    | assumption
    | exact COK.alloc (by assumption) rfl
    | exact COK.of_append (by assumption) rfl (by assumption)
    | exact COK.of_append (by assumption) (makeObjForOpcode_children _) (by assumption)
    | exact COK.of_append (by assumption) (makeFieldEntity_children (by assumption))
        (by assumption)
    | exact COK.of_append (by assumption) (namespacedEntity_children (by assumption))
        (by assumption)
    | exact COK.of_scopeExit (by assumption) (by assumption)
    | exact COK.of_removeLastChild (by assumption) (by assumption)
    | exact COK.update (by assumption) _ _ (fun e => ⟨rfl, List.Sublist.refl _⟩)
    | exact COK.of_termList (by assumption) _ _
    | dsimp only [Parser.scopeEnter]
    | split

set_option linter.unreachableTactic false in
set_option linter.unusedTactic false in
set_option maxHeartbeats 1000000 in
theorem pres_parseInvocationArgs (env : Env) (fuel : Nat) (ih : AllPres env fuel)
    (methodDef argIndex : Nat) (args : List Value) (p : Parser) (h : COK p.heap) :
    Pres (parseInvocationArgs env (fuel + 1) methodDef argIndex args p) := by
  rw [parseInvocationArgs]
  try dsimp only
  repeat' first
    | exact Pres.fault
    | exact Pres.noFuel
    | with_reducible apply Pres.ok
    | with_reducible apply pres_finishArg
    | with_reducible apply pres_finalizeObj
    | with_reducible apply pres_popChild
    | with_reducible apply ih.objList
    | with_reducible apply ih.obj
    | with_reducible apply ih.args
    | with_reducible apply ih.arg
    | with_reducible apply ih.argObj
    | with_reducible apply ih.invocation
    | with_reducible apply ih.invocationArgs
    | with_reducible apply ih.scope
    | with_reducible apply ih.namespacedObj
    | with_reducible apply ih.superName
    | with_reducible apply ih.target
    | with_reducible apply ih.fieldList
    | with_reducible apply ih.fieldElements
    | with_reducible refine Pres.bind ?_ (fun _ _ _ => ?_)
    | assumption
    | exact COK.alloc (by assumption) rfl
    | exact COK.of_append (by assumption) rfl (by assumption)
    | exact COK.of_append (by assumption) (makeObjForOpcode_children _) (by assumption)
    | exact COK.of_append (by assumption) (makeFieldEntity_children (by assumption))
        (by assumption)
    | exact COK.of_append (by assumption) (namespacedEntity_children (by assumption))
        (by assumption)
    | exact COK.of_scopeExit (by assumption) (by assumption)
    | exact COK.of_removeLastChild (by assumption) (by assumption)
    | exact COK.update (by assumption) _ _ (fun e => ⟨rfl, List.Sublist.refl _⟩)
    | exact COK.of_termList (by assumption) _ _
    | dsimp only [Parser.scopeEnter]
    | split

set_option linter.unreachableTactic false in
set_option linter.unusedTactic false in
set_option maxHeartbeats 1000000 in
theorem pres_parseScope (env : Env) (fuel : Nat) (ih : AllPres env fuel)
    (maxReadOffset : Nat) (p : Parser) (h : COK p.heap) :
    Pres (parseScope env (fuel + 1) maxReadOffset p) := by
  rw [parseScope]
  try dsimp only
  repeat' first
    | exact Pres.fault
    | exact Pres.noFuel
    | with_reducible apply Pres.ok
    | with_reducible apply pres_finishArg
    | with_reducible apply pres_finalizeObj
    | with_reducible apply pres_popChild
    | with_reducible apply ih.objList
    | with_reducible apply ih.obj
    | with_reducible apply ih.args
    | with_reducible apply ih.arg
    | with_reducible apply ih.argObj
    | with_reducible apply ih.invocation
    | with_reducible apply ih.invocationArgs
    | with_reducible apply ih.scope
    | with_reducible apply ih.namespacedObj
    | with_reducible apply ih.superName
    | with_reducible apply ih.target
    | with_reducible apply ih.fieldList
    | with_reducible apply ih.fieldElements
    | with_reducible refine Pres.bind ?_ (fun _ _ _ => ?_)
    | assumption
    | exact COK.alloc (by assumption) rfl
    | exact COK.of_append (by assumption) rfl (by assumption)
    | exact COK.of_append (by assumption) (makeObjForOpcode_children _) (by assumption)
    | exact COK.of_append (by assumption) (makeFieldEntity_children (by assumption))
        (by assumption)
    | exact COK.of_append (by assumption) (namespacedEntity_children (by assumption))
        (by assumption)
    | exact COK.of_scopeExit (by assumption) (by assumption)
    | exact COK.of_removeLastChild (by assumption) (by assumption)
    | exact COK.update (by assumption) _ _ (fun e => ⟨rfl, List.Sublist.refl _⟩)
    | exact COK.of_termList (by assumption) _ _
    | dsimp only [Parser.scopeEnter]
    | split

set_option linter.unreachableTactic false in
set_option linter.unusedTactic false in
set_option maxHeartbeats 1000000 in
theorem pres_parseNamespacedObj (env : Env) (fuel : Nat) (ih : AllPres env fuel)
    (op maxReadOffset : Nat) (p : Parser) (h : COK p.heap) :
    Pres (parseNamespacedObj env (fuel + 1) op maxReadOffset p) := by
  rw [parseNamespacedObj]
  try dsimp only
  repeat' first
    | exact Pres.fault
    | exact Pres.noFuel
    | with_reducible apply Pres.ok
    | with_reducible apply pres_finishArg
    | with_reducible apply pres_finalizeObj
    | with_reducible apply pres_popChild
    | with_reducible apply ih.objList
    | with_reducible apply ih.obj
    | with_reducible apply ih.args
    | with_reducible apply ih.arg
    | with_reducible apply ih.argObj
    | with_reducible apply ih.invocation
    | with_reducible apply ih.invocationArgs
    | with_reducible apply ih.scope
    | with_reducible apply ih.namespacedObj
    | with_reducible apply ih.superName
    | with_reducible apply ih.target
    | with_reducible apply ih.fieldList
    | with_reducible apply ih.fieldElements
    | with_reducible refine Pres.bind ?_ (fun _ _ _ => ?_)
    | assumption
    | exact COK.alloc (by assumption) rfl
    | exact COK.of_append (by assumption) rfl (by assumption)
    | exact COK.of_append (by assumption) (makeObjForOpcode_children _) (by assumption)
    | exact COK.of_append (by assumption) (makeFieldEntity_children (by assumption))
        (by assumption)
    | exact COK.of_append (by assumption) (namespacedEntity_children (by assumption))
        (by assumption)
    | exact COK.of_scopeExit (by assumption) (by assumption)
    | exact COK.of_removeLastChild (by assumption) (by assumption)
    | exact COK.update (by assumption) _ _ (fun e => ⟨rfl, List.Sublist.refl _⟩)
    | exact COK.of_termList (by assumption) _ _
    | dsimp only [Parser.scopeEnter]
    | split

set_option linter.unreachableTactic false in
set_option linter.unusedTactic false in
set_option maxHeartbeats 1000000 in
theorem pres_parseSuperName (env : Env) (fuel : Nat) (ih : AllPres env fuel)
    (p : Parser) (h : COK p.heap) :
    Pres (parseSuperName env (fuel + 1) p) := by
  rw [parseSuperName]
  try dsimp only
  repeat' first
    | exact Pres.fault
    | exact Pres.noFuel
    | with_reducible apply Pres.ok
    | with_reducible apply pres_finishArg
    | with_reducible apply pres_finalizeObj
    | with_reducible apply pres_popChild
    | with_reducible apply ih.objList
    | with_reducible apply ih.obj
    | with_reducible apply ih.args
    | with_reducible apply ih.arg
    | with_reducible apply ih.argObj
    | with_reducible apply ih.invocation
    | with_reducible apply ih.invocationArgs
    | with_reducible apply ih.scope
    | with_reducible apply ih.namespacedObj
    | with_reducible apply ih.superName
    | with_reducible apply ih.target
    | with_reducible apply ih.fieldList
    | with_reducible apply ih.fieldElements
    | with_reducible refine Pres.bind ?_ (fun _ _ _ => ?_)
    | assumption
    | exact COK.alloc (by assumption) rfl
    | exact COK.of_append (by assumption) rfl (by assumption)
    | exact COK.of_append (by assumption) (makeObjForOpcode_children _) (by assumption)
    | exact COK.of_append (by assumption) (makeFieldEntity_children (by assumption))
        (by assumption)
    | exact COK.of_append (by assumption) (namespacedEntity_children (by assumption))
        (by assumption)
    | exact COK.of_scopeExit (by assumption) (by assumption)
    | exact COK.of_removeLastChild (by assumption) (by assumption)
    | exact COK.update (by assumption) _ _ (fun e => ⟨rfl, List.Sublist.refl _⟩)
    | exact COK.of_termList (by assumption) _ _
    | dsimp only [Parser.scopeEnter]
    | split

set_option linter.unreachableTactic false in
set_option linter.unusedTactic false in
set_option maxHeartbeats 1000000 in
theorem pres_parseTarget (env : Env) (fuel : Nat) (ih : AllPres env fuel)
    (p : Parser) (h : COK p.heap) :
    Pres (parseTarget env (fuel + 1) p) := by
  rw [parseTarget]
  try dsimp only
  repeat' first
    | exact Pres.fault
    | exact Pres.noFuel
    | with_reducible apply Pres.ok
    | with_reducible apply pres_finishArg
    | with_reducible apply pres_finalizeObj
    | with_reducible apply pres_popChild
    | with_reducible apply ih.objList
    | with_reducible apply ih.obj
    | with_reducible apply ih.args
    | with_reducible apply ih.arg
    | with_reducible apply ih.argObj
    | with_reducible apply ih.invocation
    | with_reducible apply ih.invocationArgs
    | with_reducible apply ih.scope
    | with_reducible apply ih.namespacedObj
    | with_reducible apply ih.superName
    | with_reducible apply ih.target
    | with_reducible apply ih.fieldList
    | with_reducible apply ih.fieldElements
    | with_reducible refine Pres.bind ?_ (fun _ _ _ => ?_)
    | assumption
    | exact COK.alloc (by assumption) rfl
    | exact COK.of_append (by assumption) rfl (by assumption)
    | exact COK.of_append (by assumption) (makeObjForOpcode_children _) (by assumption)
    | exact COK.of_append (by assumption) (makeFieldEntity_children (by assumption))
        (by assumption)
    | exact COK.of_append (by assumption) (namespacedEntity_children (by assumption))
        (by assumption)
    | exact COK.of_scopeExit (by assumption) (by assumption)
    | exact COK.of_removeLastChild (by assumption) (by assumption)
    | exact COK.update (by assumption) _ _ (fun e => ⟨rfl, List.Sublist.refl _⟩)
    | exact COK.of_termList (by assumption) _ _
    | dsimp only [Parser.scopeEnter]
    | split

set_option linter.unreachableTactic false in
set_option linter.unusedTactic false in
set_option maxHeartbeats 1000000 in
theorem pres_parseFieldList (env : Env) (fuel : Nat) (ih : AllPres env fuel)
    (op : Nat) (args : List Value) (maxReadOffset : Nat) (p : Parser) (h : COK p.heap) :
    Pres (parseFieldList env (fuel + 1) op args maxReadOffset p) := by
  rw [parseFieldList]
  repeat' first
    | exact Pres.fault
    | exact Pres.noFuel
    | with_reducible apply Pres.ok
    | with_reducible apply pres_finishArg
    | with_reducible apply pres_finalizeObj
    | with_reducible apply pres_popChild
    | with_reducible apply ih.objList
    | with_reducible apply ih.obj
    | with_reducible apply ih.args
    | with_reducible apply ih.arg
    | with_reducible apply ih.argObj
    | with_reducible apply ih.invocation
    | with_reducible apply ih.invocationArgs
    | with_reducible apply ih.scope
    | with_reducible apply ih.namespacedObj
    | with_reducible apply ih.superName
    | with_reducible apply ih.target
    | with_reducible apply ih.fieldList
    | with_reducible apply ih.fieldElements
    | with_reducible refine Pres.bind ?_ (fun _ _ _ => ?_)
    | assumption
    | exact COK.alloc (by assumption) rfl
    | exact COK.of_append (by assumption) rfl (by assumption)
    | exact COK.of_append (by assumption) (makeObjForOpcode_children _) (by assumption)
    | exact COK.of_append (by assumption) (makeFieldEntity_children (by assumption))
        (by assumption)
    | exact COK.of_append (by assumption) (namespacedEntity_children (by assumption))
        (by assumption)
    | exact COK.of_scopeExit (by assumption) (by assumption)
    | exact COK.of_removeLastChild (by assumption) (by assumption)
    | exact COK.update (by assumption) _ _ (fun e => ⟨rfl, List.Sublist.refl _⟩)
    | exact COK.of_termList (by assumption) _ _
    | dsimp only [Parser.scopeEnter]
    | split

set_option linter.unreachableTactic false in
set_option linter.unusedTactic false in
set_option maxHeartbeats 1000000 in
theorem pres_parseFieldElements (env : Env) (fuel : Nat) (ih : AllPres env fuel)
    (op : Nat) (name0 name1 : Str) (lock : Bool)
    (updateRule maxReadOffset : Nat) (st : FieldListState) (p : Parser) (h : COK p.heap) :
    Pres (parseFieldElements env (fuel + 1) op name0 name1 lock updateRule maxReadOffset st p) := by
  rw [parseFieldElements]
  try dsimp only
  repeat' first
    | exact Pres.fault
    | exact Pres.noFuel
    | with_reducible apply Pres.ok
    | with_reducible apply pres_finishArg
    | with_reducible apply pres_finalizeObj
    | with_reducible apply pres_popChild
    | with_reducible apply ih.objList
    | with_reducible apply ih.obj
    | with_reducible apply ih.args
    | with_reducible apply ih.arg
    | with_reducible apply ih.argObj
    | with_reducible apply ih.invocation
    | with_reducible apply ih.invocationArgs
    | with_reducible apply ih.scope
    | with_reducible apply ih.namespacedObj
    | with_reducible apply ih.superName
    | with_reducible apply ih.target
    | with_reducible apply ih.fieldList
    | with_reducible apply ih.fieldElements
    | with_reducible refine Pres.bind ?_ (fun _ _ _ => ?_)
    | assumption
    | exact COK.alloc (by assumption) rfl
    | exact COK.of_append (by assumption) rfl (by assumption)
    | exact COK.of_append (by assumption) (makeObjForOpcode_children _) (by assumption)
    | exact COK.of_append (by assumption) (makeFieldEntity_children (by assumption))
        (by assumption)
    | exact COK.of_append (by assumption) (namespacedEntity_children (by assumption))
        (by assumption)
    | exact COK.of_scopeExit (by assumption) (by assumption)
    | exact COK.of_removeLastChild (by assumption) (by assumption)
    | exact COK.update (by assumption) _ _ (fun e => ⟨rfl, List.Sublist.refl _⟩)
    | exact COK.of_termList (by assumption) _ _
    | dsimp only [Parser.scopeEnter]
    | split

/-- One more unit of fuel: every routine keeps the children invariant if the routines it
calls do. -/
theorem allPres_succ (env : Env) (fuel : Nat) (ih : AllPres env fuel) :
    AllPres env (fuel + 1) :=
  { objList := pres_parseObjList env fuel ih
    obj := pres_parseObj env fuel ih
    args := pres_parseArgs env fuel ih
    arg := pres_parseArg env fuel ih
    argObj := pres_parseArgObj env fuel ih
    invocation := pres_parseMethodInvocationOrNameRef env fuel ih
    invocationArgs := pres_parseInvocationArgs env fuel ih
    scope := pres_parseScope env fuel ih
    namespacedObj := pres_parseNamespacedObj env fuel ih
    superName := pres_parseSuperName env fuel ih
    target := pres_parseTarget env fuel ih
    fieldList := pres_parseFieldList env fuel ih
    fieldElements := pres_parseFieldElements env fuel ih }

/-- Every routine of the parser keeps the children invariant, whatever the fuel. -/
theorem allPres (env : Env) : ∀ fuel : Nat, AllPres env fuel
  | 0 => allPres_zero env
  | fuel + 1 => allPres_succ env fuel (allPres env fuel)

/-- C7 (the code departs from the claim). On `A0 02 01 A1 01 A1 01`
(`If (One) {} Else {} Else {}`) pass 1 succeeds and every Else is appended to the argument
list of the If: with `If` a plain entity the second Else (index 11) lands at index 3, and
with `If` a scope entity its then-block is held as children, so the first Else (index 8)
lands at index 1. -/
theorem else_not_at_index_two :
    (pass1 sampleEnv 20 [0xa0, 0x02, 0x01, 0xa1, 0x01, 0xa1, 0x01] 0 initialHeap).value? =
        some true ∧
      ((pass1 sampleEnv 20 [0xa0, 0x02, 0x01, 0xa1, 0x01, 0xa1, 0x01] 0 initialHeap).state?.map
        fun p =>
          (p.heap[6]?.map (fun e => (e.getOpcode, e.args)),
            p.heap[11]?.map (fun e => e.getOpcode))) =
        some (some (opIf, [Value.ent 7, Value.ent 8, Value.ent 9, Value.ent 11]), some opElse) ∧
      (pass1 scopedIfEnv 20 [0xa0, 0x02, 0x01, 0xa1, 0x01, 0xa1, 0x01] 0 initialHeap).value? =
        some true ∧
      ((pass1 scopedIfEnv 20 [0xa0, 0x02, 0x01, 0xa1, 0x01, 0xa1, 0x01] 0 initialHeap).state?.map
        fun p =>
          (p.heap[6]?.map (fun e => (e.getOpcode, e.args)),
            p.heap[8]?.map (fun e => e.getOpcode))) =
        some (some (opIf, [Value.ent 7, Value.ent 8, Value.ent 9]), some opElse) := by
  decide!

/-! ## Theorems: lists -/

theorem List.set_self_of_getElem? {α : Type} (l : List α) (i : Nat) (a : α)
    (h : l[i]? = some a) : l.set i a = l := by
  apply List.ext_getElem?
  intro j
  rw [List.getElem?_set]
  split
  · rename_i hij
    subst hij
    split
    · exact h.symm
    · rename_i hlt
      rw [List.getElem?_eq_none (by omega)]
  · rfl

theorem List.getElem?_set_self_of_some {α : Type} (l : List α) (i : Nat) (a b : α)
    (h : l[i]? = some a) : (l.set i b)[i]? = some b := by
  have hlt : i < l.length := by
    rcases Nat.lt_or_ge i l.length with h1 | h1
    · exact h1
    · rw [List.getElem?_eq_none h1] at h; cases h
  rw [List.getElem?_set]
  simp [hlt]

/-! ## Theorems: numeric constants and strings -/

theorem pow256 (c : Nat) : 256 ^ c = 2 ^ (8 * c) := by
  rw [show (256 : Nat) = 2 ^ 8 from rfl, ← Nat.pow_mul]

/-- One step of the accumulation in `parseNumConstant`: or-ing in byte `c` adds
`b * 256 ^ c`, and nothing is lost in the `uint64`. -/
theorem numConstant_step (c res b : Nat) (hc : c < 8) (hres : res < 256 ^ c) (hb : b < 256) :
    (res ||| (b <<< (8 * c % 256)) % 2 ^ 64) % 2 ^ 64 = res + b * 256 ^ c ∧
      res + b * 256 ^ c < 256 ^ (c + 1) := by
  have hlt : res + b * 256 ^ c < 256 ^ (c + 1) := by
    rw [Nat.pow_succ]
    nlinarith
  have hle : 256 ^ (c + 1) ≤ 2 ^ 64 := by
    rw [show (2 : Nat) ^ 64 = 256 ^ 8 from by norm_num]
    exact Nat.pow_le_pow_right (by norm_num) (by omega)
  have hb64 : b * 256 ^ c < 2 ^ 64 := by omega
  have hsh : 8 * c % 256 = 8 * c := Nat.mod_eq_of_lt (by omega)
  rw [hsh, Nat.shiftLeft_eq, ← pow256, Nat.mod_eq_of_lt hb64]
  have hor : res ||| b * 256 ^ c = res + b * 256 ^ c := by
    apply lor_eq_add_comm (8 * c)
    · rw [← pow256]; exact Nat.mul_mod_left _ _
    · rw [← pow256]; exact hres
  rw [hor, Nat.mod_eq_of_lt (by omega)]
  exact ⟨rfl, hlt⟩

/-- The loop of `parseNumConstant` over the bytes `bs` at the cursor, from digit `c` on. -/
theorem parseNumConstantLoop_ok : ∀ (bs : List Nat) (c res : Nat) (r : Reader) (rest : List Nat),
    c + bs.length ≤ 8 → res < 256 ^ c → (∀ b ∈ bs, b < 256) →
    r.data.drop r.offset = bs ++ rest →
    parseNumConstantLoop bs.length c res r =
        ((res + littleEndianFrom c bs, true), { r with offset := r.offset + bs.length }) ∧
      res + littleEndianFrom c bs < 256 ^ (c + bs.length) := by
  intro bs
  induction bs with
  | nil =>
    intro c res r rest _ hres _ _
    exact ⟨rfl, hres⟩
  | cons b bs ih =>
    intro c res r rest hc hres hb hdata
    have hrd := Reader.read_cons (r := r) (b := b) (t := bs ++ rest) (by simpa using hdata)
    have hstep := numConstant_step c res b (by simp at hc; omega) hres
      (hb b (List.mem_cons_self _ _))
    have := ih (c + 1) (res + b * 256 ^ c) { r with offset := r.offset + 1 } rest
      (by simp at hc ⊢; omega) hstep.2 (fun x hx => hb x (List.mem_cons_of_mem _ hx)) hrd.2
    simp only [List.length_cons, parseNumConstantLoop, hrd.1, hstep.1, littleEndianFrom]
    refine ⟨?_, ?_⟩
    · rw [this.1]
      simp only [Nat.add_assoc, Nat.add_comm 1]
    · have h2 := this.2
      simp only [Nat.add_assoc, Nat.add_comm 1] at h2 ⊢
      exact h2

/-- The loop of `parseNumConstant` fails when fewer bytes are left than it has to read. -/
theorem parseNumConstantLoop_short : ∀ (k c res : Nat) (r : Reader),
    r.data.length - r.offset < k → (parseNumConstantLoop k c res r).1 = (0, false) := by
  intro k
  induction k with
  | zero => intro c res r h; omega
  | succ k ih =>
    intro c res r h
    rcases Reader.readByte_cases r with ⟨_, e⟩ | ⟨b, hlt, _, e⟩
    · simp only [parseNumConstantLoop, e]
    · simp only [parseNumConstantLoop, e]
      apply ih
      show r.data.length - (r.offset + 1) < k
      omega

/-- C16. Little-endian constants: with `numBytes <= 8` (so for 1, 2, 4 and 8) and the bytes
`bs` of length `numBytes` at the cursor, `parseNumConstant` succeeds, moves the cursor by
`numBytes` and returns the sum of `b_i * 256 ^ i`, a value below `256 ^ numBytes`; with
fewer than `numBytes` bytes left it fails. -/
theorem parseNumConstant_little_endian (numBytes : Nat) (r : Reader) (hn : numBytes ≤ 8) :
    (∀ (bs rest : List Nat), bs.length = numBytes → (∀ b ∈ bs, b < 256) →
        r.data.drop r.offset = bs ++ rest →
        parseNumConstant numBytes r =
            ((littleEndian bs, true), { r with offset := r.offset + numBytes }) ∧
          littleEndian bs < 256 ^ numBytes) ∧
      (r.data.length - r.offset < numBytes → (parseNumConstant numBytes r).1 = (0, false)) := by
  constructor
  · intro bs rest hlen hb hdata
    subst hlen
    have := parseNumConstantLoop_ok bs 0 0 r rest (by simpa using hn) (by norm_num) hb hdata
    simpa [parseNumConstant, littleEndian] using this
  · exact parseNumConstantLoop_short numBytes 0 0 r

theorem parseNumConstant_little_endian_witness :
    (parseNumConstant 4 ⟨[0x0c, 0x78, 0x56, 0x34, 0x12, 0xff], 1⟩ =
        ((littleEndian [0x78, 0x56, 0x34, 0x12], true),
          ⟨[0x0c, 0x78, 0x56, 0x34, 0x12, 0xff], 1 + 4⟩) ∧
      littleEndian [0x78, 0x56, 0x34, 0x12] < 256 ^ 4) ∧
      littleEndian [0x78, 0x56, 0x34, 0x12] = 0x12345678 ∧
      (parseNumConstant 4 ⟨[0x0c, 0x78, 0x56], 1⟩).1 = (0, false) :=
  ⟨(parseNumConstant_little_endian 4 ⟨[0x0c, 0x78, 0x56, 0x34, 0x12, 0xff], 1⟩
      (by decide)).1 [0x78, 0x56, 0x34, 0x12] [0xff] rfl (by decide) rfl,
    by decide,
    (parseNumConstant_little_endian 4 ⟨[0x0c, 0x78, 0x56], 1⟩ (by decide)).2 (by decide)⟩

/-- The loop of `parseString` on a well-formed string: the bytes `s` in `0x01..0x7F`, then
the terminator. -/
theorem parseStringLoop_ok : ∀ (s : List Nat) (fuel : Nat) (str : Str) (r : Reader)
    (rest : List Nat), r.data.drop r.offset = s ++ 0 :: rest → s.length < fuel →
    (∀ b ∈ s, 1 ≤ b ∧ b ≤ 0x7f) →
    parseStringLoop fuel str r =
      ((str ++ s, true), { r with offset := r.offset + s.length + 1 }) := by
  intro s
  induction s with
  | nil =>
    intro fuel str r rest hdata hfuel _
    obtain ⟨k, rfl⟩ : ∃ k, fuel = k + 1 := ⟨fuel - 1, by simp at hfuel; omega⟩
    have hrd := Reader.read_cons (r := r) (b := 0) (t := rest) (by simpa using hdata)
    simp [parseStringLoop, hrd.1]
  | cons b s ih =>
    intro fuel str r rest hdata hfuel hb
    obtain ⟨k, rfl⟩ : ∃ k, fuel = k + 1 := ⟨fuel - 1, by simp at hfuel; omega⟩
    have hrd := Reader.read_cons (r := r) (b := b) (t := s ++ 0 :: rest) (by simpa using hdata)
    have hb1 := hb b (List.mem_cons_self _ _)
    have hne : ¬ b = 0 := by omega
    have := ih k (str ++ [b]) { r with offset := r.offset + 1 } rest hrd.2
      (by simp at hfuel; omega) (fun x hx => hb x (List.mem_cons_of_mem _ hx))
    simp only [parseStringLoop, hrd.1, hne, if_false, hb1, and_self, if_true, this]
    simp [Nat.add_assoc, Nat.add_comm 1]

/-- When the loop of `parseString` succeeds, the bytes at the cursor are a well-formed
string. -/
theorem parseStringLoop_true : ∀ (fuel : Nat) (str : Str) (r : Reader),
    (parseStringLoop fuel str r).1.2 = true →
    ∃ s rest, r.data.drop r.offset = s ++ 0 :: rest ∧ ∀ b ∈ s, 1 ≤ b ∧ b ≤ 0x7f := by
  intro fuel
  induction fuel with
  | zero => intro str r h; simp [parseStringLoop] at h
  | succ k ih =>
    intro str r h
    rcases Reader.readByte_cases r with ⟨_, e⟩ | ⟨b, hlt, hget, e⟩
    · simp [parseStringLoop, e] at h
    · have hdrop : r.data.drop r.offset = b :: r.data.drop (r.offset + 1) := by
        rw [List.drop_eq_getElem_cons hlt]
        congr 1
        have := List.getElem?_eq_getElem hlt
        rw [hget] at this
        exact (Option.some.inj this).symm
      simp only [parseStringLoop, e] at h
      by_cases h0 : b = 0
      · subst h0
        exact ⟨[], r.data.drop (r.offset + 1), by simpa using hdrop, by simp⟩
      · simp only [h0, if_false] at h
        by_cases hr : 1 ≤ b ∧ b ≤ 0x7f
        · simp only [hr, and_self, if_true] at h
          obtain ⟨s, rest, hs, hall⟩ := ih _ _ h
          refine ⟨b :: s, rest, ?_, ?_⟩
          · rw [hdrop]
            simp only [List.cons_append]
            congr 1
          · intro x hx
            rcases List.mem_cons.1 hx with rfl | hx
            · exact hr
            · exact hall x hx
        · simp [hr] at h

/-- C17. `parseString` succeeds if and only if the bytes from the cursor are some bytes in
`0x01..0x7F` followed by a `0x00` terminator; it then returns exactly those bytes and
leaves the cursor just past the terminator. -/
theorem parseString_spec (r : Reader) :
    ((parseString r).1.2 = true ↔
        ∃ s rest, r.data.drop r.offset = s ++ 0 :: rest ∧ ∀ b ∈ s, 1 ≤ b ∧ b ≤ 0x7f) ∧
      ∀ (s rest : List Nat), r.data.drop r.offset = s ++ 0 :: rest →
        (∀ b ∈ s, 1 ≤ b ∧ b ≤ 0x7f) →
        parseString r = ((s, true), { r with offset := r.offset + s.length + 1 }) := by
  have hok : ∀ (s rest : List Nat), r.data.drop r.offset = s ++ 0 :: rest →
      (∀ b ∈ s, 1 ≤ b ∧ b ≤ 0x7f) →
      parseString r = ((s, true), { r with offset := r.offset + s.length + 1 }) := by
    intro s rest hdata hall
    have hlen := congrArg List.length hdata
    simp only [List.length_drop, List.length_append, List.length_cons] at hlen
    have := parseStringLoop_ok s (r.data.length - r.offset + 1) [] r rest hdata (by omega) hall
    simpa [parseString] using this
  refine ⟨⟨parseStringLoop_true _ _ r, ?_⟩, hok⟩
  rintro ⟨s, rest, hdata, hall⟩
  rw [hok s rest hdata hall]

theorem parseString_spec_witness :
    parseString ⟨[0x0d, 0x41, 0x42, 0x00, 0x43], 1⟩ =
        (([0x41, 0x42], true), ⟨[0x0d, 0x41, 0x42, 0x00, 0x43], 1 + 2 + 1⟩) ∧
      (parseString ⟨[0x0d, 0x41, 0x80, 0x00], 1⟩).1.2 = false ∧
      (parseString ⟨[0x0d, 0x41, 0x42], 1⟩).1.2 = false :=
  ⟨(parseString_spec ⟨[0x0d, 0x41, 0x42, 0x00, 0x43], 1⟩).2 [0x41, 0x42] [0x43] rfl
      (by decide),
    by decide, by decide⟩

/-! ## Theorems: what every routine keeps -/

theorem sameCore_refl (e : Entity) : e.sameCore e := by
  unfold Entity.sameCore
  cases e
  simp

theorem sameCore_parent (e : Entity) (s : Option Nat) : e.sameCore { e with parent := s } := by
  unfold Entity.sameCore
  cases e
  simp

theorem sameCore_children (e : Entity) (c : List Nat) :
    e.sameCore { e with children := c } := by
  unfold Entity.sameCore
  cases e
  simp

theorem sameCore_methodMap (e : Entity) (m : List (Str × Nat)) :
    e.sameCore { e with methodMap := m } := by
  unfold Entity.sameCore
  cases e
  simp

theorem sameCore_setArg (e : Entity) (i : Nat) (v : Value) : e.sameCore (e.setArg i v).1 := by
  unfold Entity.sameCore Entity.setArg Entity.setArgNamed
  repeat' split
  all_goals (cases e; simp_all)

theorem keeps_ok {I : List Entity → Prop} {α : Type} {a : α} {p : Parser} (h : I p.heap) :
    Keeps I (Outcome.ok a p) := by
  intro a' p' heq
  cases heq
  exact h

theorem keeps_fault {I : List Entity → Prop} {α : Type} :
    Keeps I (Outcome.fault : Outcome α) := by
  intro a' p' heq
  cases heq

theorem keeps_noFuel {I : List Entity → Prop} {α : Type} :
    Keeps I (Outcome.noFuel : Outcome α) := by
  intro a' p' heq
  cases heq

theorem keeps_bind {I : List Entity → Prop} {α β : Type} {x : Outcome α}
    {f : α → Parser → Outcome β} (hx : Keeps I x)
    (hf : ∀ a p, I p.heap → Keeps I (f a p)) : Keeps I (x.bind f) := by
  cases x with
  | ok a p => exact hf a p (hx a p rfl)
  | fault => exact keeps_fault
  | noFuel => exact keeps_noFuel

theorem closed_update {I : List Entity → Prop} (hI : HeapClosed I) {p : Parser}
    (h : I p.heap) (id : Nat) (f : Entity → Entity) (hf : ∀ e : Entity, e.sameCore (f e)) :
    I (p.update id f).heap := by
  unfold Parser.update
  cases hid : p.heap[id]? with
  | none => exact h
  | some e => exact hI.write _ _ _ _ h hid (hf e)

theorem closed_alloc {I : List Entity → Prop} (hI : HeapClosed I) {p : Parser}
    (h : I p.heap) (e : Entity) : I (p.alloc e).2.heap :=
  hI.alloc _ _ h

theorem closed_append {I : List Entity → Prop} (hI : HeapClosed I) {p p' : Parser}
    {s c : Nat} (happ : p.Append s c = some p') (h : I p.heap) : I p'.heap := by
  unfold Parser.Append at happ
  split at happ
  · split at happ
    · injection happ with happ
      rw [← happ]
      exact closed_update hI (closed_update hI h _ _ (fun e => sameCore_parent e _)) _ _
        (fun e => sameCore_children e _)
    · cases happ
  · cases happ

theorem closed_append_new {I : List Entity → Prop} (hI : HeapClosed I) {p p' : Parser}
    {e : Entity} {s : Nat} (happ : (p.alloc e).2.Append s p.heap.length = some p')
    (h : I p.heap) : I p'.heap :=
  closed_append hI happ (closed_alloc hI h e)

theorem closed_scopeExit {I : List Entity → Prop} {p p' : Parser}
    (hexit : p.scopeExit = some p') (h : I p.heap) : I p'.heap := by
  unfold Parser.scopeExit at hexit
  split at hexit
  · cases hexit
  · cases hexit
    exact h

theorem closed_removeLastChild {I : List Entity → Prop} (hI : HeapClosed I) {p p' : Parser}
    {s c : Nat} (hr : p.removeLastChild s = some (c, p')) (h : I p.heap) : I p'.heap := by
  unfold Parser.removeLastChild at hr
  split at hr
  · cases hr
    exact closed_update hI h s _ (fun e => sameCore_children e _)
  · cases hr

theorem closed_setArg {I : List Entity → Prop} (hI : HeapClosed I) {p p' : Parser}
    {id i : Nat} {v : Value} {b : Bool} (hs : p.setArg id i v = some (p', b))
    (h : I p.heap) : I p'.heap := by
  unfold Parser.setArg at hs
  split at hs
  · cases hs
    exact closed_update hI h id _ (fun e => sameCore_setArg e i v)
  · cases hs

theorem closed_termList {I : List Entity → Prop} (hI : HeapClosed I) {p : Parser}
    (h : I p.heap) (obj argIndex : Nat) :
    I (((p.alloc anonymousScope).2.scopeEnter p.heap.length).update obj
      (fun e => (e.setArg argIndex (Value.ent p.heap.length)).1)).heap :=
  closed_update (p := (p.alloc anonymousScope).2.scopeEnter p.heap.length) hI
    (closed_alloc hI h _) obj _ (fun e => sameCore_setArg e _ _)

theorem keeps_finishArg {I : List Entity → Prop} (hI : HeapClosed I) {obj argIndex : Nat}
    {arg : Value} {ok : Bool} {p : Parser} (h : I p.heap) :
    Keeps I (finishArg obj argIndex arg ok p) := by
  unfold finishArg
  split
  · exact keeps_ok h
  · split
    · exact keeps_fault
    · rename_i hs
      exact keeps_ok (closed_setArg hI hs h)

theorem keeps_finalizeObj {I : List Entity → Prop} (hI : HeapClosed I) {env : Env}
    {op obj : Nat} {p : Parser} (h : I p.heap) : Keeps I (finalizeObj env op obj p) := by
  unfold finalizeObj
  split
  · split
    · exact keeps_fault
    · split
      · exact keeps_fault
      · rename_i hr
        have h1 := closed_removeLastChild hI hr h
        split
        · exact keeps_fault
        · split
          · exact keeps_fault
          · split
            · exact keeps_ok h1
            · split
              · exact keeps_fault
              · rename_i hs
                exact keeps_ok (closed_setArg hI hs h1)
  · split
    · split
      · split
        · exact keeps_ok (closed_update hI h obj _ (fun e => sameCore_methodMap e _))
        · exact keeps_fault
      · exact keeps_fault
    · exact keeps_ok h

theorem keeps_popChild {I : List Entity → Prop} (hI : HeapClosed I) {p : Parser}
    (h : I p.heap) :
    Keeps I (match p.scopeCurrent with
      | none => Outcome.fault
      | some cur =>
        match p.removeLastChild cur with
        | none => Outcome.fault
        | some (child, p) => Outcome.ok (Value.ent child, true) p) := by
  split
  · exact keeps_fault
  · split
    · exact keeps_fault
    · rename_i hr
      exact keeps_ok (closed_removeLastChild hI hr h)

theorem allKeep_zero (I : List Entity → Prop) (env : Env) : AllKeep I env 0 := by
  constructor <;> intros <;> first
    | (rw [parseObjList]; exact keeps_noFuel)
    | (rw [parseObj]; exact keeps_noFuel)
    | (rw [parseArgs]; exact keeps_noFuel)
    | (rw [parseArg]; exact keeps_noFuel)
    | (rw [parseArgObj]; exact keeps_noFuel)
    | (rw [parseMethodInvocationOrNameRef]; exact keeps_noFuel)
    | (rw [parseInvocationArgs]; exact keeps_noFuel)
    | (rw [parseScope]; exact keeps_noFuel)
    | (rw [parseNamespacedObj]; exact keeps_noFuel)
    | (rw [parseSuperName]; exact keeps_noFuel)
    | (rw [parseTarget]; exact keeps_noFuel)
    | (rw [parseFieldList]; exact keeps_noFuel)
    | (rw [parseFieldElements]; exact keeps_noFuel)

set_option linter.unusedVariables false in
set_option linter.unreachableTactic false in
set_option linter.unusedTactic false in
set_option maxHeartbeats 1000000 in
theorem keeps_parseObjList {I : List Entity → Prop} (hI : HeapClosed I) (env : Env) (fuel : Nat)
    (ih : AllKeep I env fuel) (maxOffset : Nat) (p : Parser) (h : I p.heap) :
    Keeps I (parseObjList env (fuel + 1) maxOffset p) := by
  rw [parseObjList]
  repeat' first
    | exact keeps_fault
    | exact keeps_noFuel
    | with_reducible apply keeps_ok
    | with_reducible apply keeps_finishArg hI
    | with_reducible apply keeps_finalizeObj hI
    | with_reducible apply keeps_popChild hI
    | with_reducible apply ih.objList
    | with_reducible apply ih.obj
    | with_reducible apply ih.args
    | with_reducible apply ih.arg
    | with_reducible apply ih.argObj
    | with_reducible apply ih.invocation
    | with_reducible apply ih.invocationArgs
    | with_reducible apply ih.scope
    | with_reducible apply ih.namespacedObj
    | with_reducible apply ih.superName
    | with_reducible apply ih.target
    | with_reducible apply ih.fieldList
    | with_reducible apply ih.fieldElements
    | with_reducible refine keeps_bind ?_ (fun _ _ _ => ?_)
    | assumption
    | exact closed_alloc hI (by assumption) _
    | exact closed_append_new hI (by assumption) (by assumption)
    | exact closed_scopeExit (by assumption) (by assumption)
    | exact closed_removeLastChild hI (by assumption) (by assumption)
    | exact closed_termList hI (by assumption) _ _
    | dsimp only [Parser.scopeEnter]
    | split

set_option linter.unusedVariables false in
set_option linter.unreachableTactic false in
set_option linter.unusedTactic false in
set_option maxHeartbeats 1000000 in
theorem keeps_parseObj {I : List Entity → Prop} (hI : HeapClosed I) (env : Env) (fuel : Nat)
    (ih : AllKeep I env fuel) (p : Parser) (h : I p.heap) :
    Keeps I (parseObj env (fuel + 1) p) := by
  rw [parseObj]
  try dsimp only
  repeat' first
    | exact keeps_fault
    | exact keeps_noFuel
    | with_reducible apply keeps_ok
    | with_reducible apply keeps_finishArg hI
    | with_reducible apply keeps_finalizeObj hI
    | with_reducible apply keeps_popChild hI
    | with_reducible apply ih.objList
    | with_reducible apply ih.obj
    | with_reducible apply ih.args
    | with_reducible apply ih.arg
    | with_reducible apply ih.argObj
    | with_reducible apply ih.invocation
    | with_reducible apply ih.invocationArgs
    | with_reducible apply ih.scope
    | with_reducible apply ih.namespacedObj
    | with_reducible apply ih.superName
    | with_reducible apply ih.target
    | with_reducible apply ih.fieldList
    | with_reducible apply ih.fieldElements
    | with_reducible refine keeps_bind ?_ (fun _ _ _ => ?_)
    | assumption
    | exact closed_alloc hI (by assumption) _
    | exact closed_append_new hI (by assumption) (by assumption)
    | exact closed_scopeExit (by assumption) (by assumption)
    | exact closed_removeLastChild hI (by assumption) (by assumption)
    | exact closed_termList hI (by assumption) _ _
    | dsimp only [Parser.scopeEnter]
    | split

set_option linter.unusedVariables false in
set_option linter.unreachableTactic false in
set_option linter.unusedTactic false in
set_option maxHeartbeats 1000000 in
theorem keeps_parseArgs {I : List Entity → Prop} (hI : HeapClosed I) (env : Env) (fuel : Nat)
    (ih : AllKeep I env fuel) (info : OpcodeInfo) (obj argIndex maxReadOffset : Nat) (p : Parser) (h : I p.heap) :
    Keeps I (parseArgs env (fuel + 1) info obj argIndex maxReadOffset p) := by
  rw [parseArgs]
  repeat' first
    | exact keeps_fault
    | exact keeps_noFuel
    | with_reducible apply keeps_ok
    | with_reducible apply keeps_finishArg hI
    | with_reducible apply keeps_finalizeObj hI
    | with_reducible apply keeps_popChild hI
    | with_reducible apply ih.objList
    | with_reducible apply ih.obj
    | with_reducible apply ih.args
    | with_reducible apply ih.arg
    | with_reducible apply ih.argObj
    | with_reducible apply ih.invocation
    | with_reducible apply ih.invocationArgs
    | with_reducible apply ih.scope
    | with_reducible apply ih.namespacedObj
    | with_reducible apply ih.superName
    | with_reducible apply ih.target
    | with_reducible apply ih.fieldList
    | with_reducible apply ih.fieldElements
    | with_reducible refine keeps_bind ?_ (fun _ _ _ => ?_)
    | assumption
    | exact closed_alloc hI (by assumption) _
    | exact closed_append_new hI (by assumption) (by assumption)
    | exact closed_scopeExit (by assumption) (by assumption)
    | exact closed_removeLastChild hI (by assumption) (by assumption)
    | exact closed_termList hI (by assumption) _ _
    | dsimp only [Parser.scopeEnter]
    | split

set_option linter.unusedVariables false in
set_option linter.unreachableTactic false in
set_option linter.unusedTactic false in
set_option maxHeartbeats 1000000 in
theorem keeps_parseArg {I : List Entity → Prop} (hI : HeapClosed I) (env : Env) (fuel : Nat)
    (ih : AllKeep I env fuel) (info : OpcodeInfo) (obj argIndex : Nat) (argType : OpArg) (maxReadOffset : Nat)
    (p : Parser) (h : I p.heap) :
    Keeps I (parseArg env (fuel + 1) info obj argIndex argType maxReadOffset p) := by
  cases argType <;> rw [parseArg] <;> try dsimp only
  repeat' first
    | exact keeps_fault
    | exact keeps_noFuel
    | with_reducible apply keeps_ok
    | with_reducible apply keeps_finishArg hI
    | with_reducible apply keeps_finalizeObj hI
    | with_reducible apply keeps_popChild hI
    | with_reducible apply ih.objList
    | with_reducible apply ih.obj
    | with_reducible apply ih.args
    | with_reducible apply ih.arg
    | with_reducible apply ih.argObj
    | with_reducible apply ih.invocation
    | with_reducible apply ih.invocationArgs
    | with_reducible apply ih.scope
    | with_reducible apply ih.namespacedObj
    | with_reducible apply ih.superName
    | with_reducible apply ih.target
    | with_reducible apply ih.fieldList
    | with_reducible apply ih.fieldElements
    | with_reducible refine keeps_bind ?_ (fun _ _ _ => ?_)
    | assumption
    | exact closed_alloc hI (by assumption) _
    | exact closed_append_new hI (by assumption) (by assumption)
    | exact closed_scopeExit (by assumption) (by assumption)
    | exact closed_removeLastChild hI (by assumption) (by assumption)
    | exact closed_termList hI (by assumption) _ _
    | dsimp only [Parser.scopeEnter]
    | split

set_option linter.unusedVariables false in
set_option linter.unreachableTactic false in
set_option linter.unusedTactic false in
set_option maxHeartbeats 1000000 in
theorem keeps_parseArgObj {I : List Entity → Prop} (hI : HeapClosed I) (env : Env) (fuel : Nat)
    (ih : AllKeep I env fuel) (p : Parser) (h : I p.heap) :
    Keeps I (parseArgObj env (fuel + 1) p) := by
  rw [parseArgObj]
  repeat' first
    | exact keeps_fault
    | exact keeps_noFuel
    | with_reducible apply keeps_ok
    | with_reducible apply keeps_finishArg hI
    | with_reducible apply keeps_finalizeObj hI
    | with_reducible apply keeps_popChild hI
    | with_reducible apply ih.objList
    | with_reducible apply ih.obj
    | with_reducible apply ih.args
    | with_reducible apply ih.arg
    | with_reducible apply ih.argObj
    | with_reducible apply ih.invocation
    | with_reducible apply ih.invocationArgs
    | with_reducible apply ih.scope
    | with_reducible apply ih.namespacedObj
    | with_reducible apply ih.superName
    | with_reducible apply ih.target
    | with_reducible apply ih.fieldList
    | with_reducible apply ih.fieldElements
    | with_reducible refine keeps_bind ?_ (fun _ _ _ => ?_)
    | assumption
    | exact closed_alloc hI (by assumption) _
    | exact closed_append_new hI (by assumption) (by assumption)
    | exact closed_scopeExit (by assumption) (by assumption)
    | exact closed_removeLastChild hI (by assumption) (by assumption)
    | exact closed_termList hI (by assumption) _ _
    | dsimp only [Parser.scopeEnter]
    | split

set_option linter.unusedVariables false in
set_option linter.unreachableTactic false in
set_option linter.unusedTactic false in
set_option maxHeartbeats 1000000 in
theorem keeps_parseMethodInvocationOrNameRef {I : List Entity → Prop} (hI : HeapClosed I) (env : Env) (fuel : Nat)
    (ih : AllKeep I env fuel) (p : Parser) (h : I p.heap) :
    Keeps I (parseMethodInvocationOrNameRef env (fuel + 1) p) := by
  rw [parseMethodInvocationOrNameRef]
  try dsimp only
  repeat' first
    | exact keeps_fault
    | exact keeps_noFuel
    | with_reducible apply keeps_ok
    | with_reducible apply keeps_finishArg hI
    | with_reducible apply keeps_finalizeObj hI
    | with_reducible apply keeps_popChild hI
    | with_reducible apply ih.objList
    | with_reducible apply ih.obj
    | with_reducible apply ih.args
    | with_reducible apply ih.arg
    | with_reducible apply ih.argObj
    | with_reducible apply ih.invocation
    | with_reducible apply ih.invocationArgs
    | with_reducible apply ih.scope
    | with_reducible apply ih.namespacedObj
    | with_reducible apply ih.superName
    | with_reducible apply ih.target
    | with_reducible apply ih.fieldList
    | with_reducible apply ih.fieldElements
    | with_reducible refine keeps_bind ?_ (fun _ _ _ => ?_)
    | assumption
    | exact closed_alloc hI (by assumption) _
    | exact closed_append_new hI (by assumption) (by assumption)
    | exact closed_scopeExit (by assumption) (by assumption)
    | exact closed_removeLastChild hI (by assumption) (by assumption)
    | exact closed_termList hI (by assumption) _ _
    | dsimp only [Parser.scopeEnter]
    | split

set_option linter.unusedVariables false in
set_option linter.unreachableTactic false in
set_option linter.unusedTactic false in
set_option maxHeartbeats 1000000 in
theorem keeps_parseInvocationArgs {I : List Entity → Prop} (hI : HeapClosed I) (env : Env) (fuel : Nat)
    (ih : AllKeep I env fuel) (methodDef argIndex : Nat) (args : List Value) (p : Parser) (h : I p.heap) :
    Keeps I (parseInvocationArgs env (fuel + 1) methodDef argIndex args p) := by
  rw [parseInvocationArgs]
  try dsimp only
  repeat' first
    | exact keeps_fault
    | exact keeps_noFuel
    | with_reducible apply keeps_ok
    | with_reducible apply keeps_finishArg hI
    | with_reducible apply keeps_finalizeObj hI
    | with_reducible apply keeps_popChild hI
    | with_reducible apply ih.objList
    | with_reducible apply ih.obj
    | with_reducible apply ih.args
    | with_reducible apply ih.arg
    | with_reducible apply ih.argObj
    | with_reducible apply ih.invocation
    | with_reducible apply ih.invocationArgs
    | with_reducible apply ih.scope
    | with_reducible apply ih.namespacedObj
    | with_reducible apply ih.superName
    | with_reducible apply ih.target
    | with_reducible apply ih.fieldList
    | with_reducible apply ih.fieldElements
    | with_reducible refine keeps_bind ?_ (fun _ _ _ => ?_)
    | assumption
    | exact closed_alloc hI (by assumption) _
    | exact closed_append_new hI (by assumption) (by assumption)
    | exact closed_scopeExit (by assumption) (by assumption)
    | exact closed_removeLastChild hI (by assumption) (by assumption)
    | exact closed_termList hI (by assumption) _ _
    | dsimp only [Parser.scopeEnter]
    | split

set_option linter.unusedVariables false in
set_option linter.unreachableTactic false in
set_option linter.unusedTactic false in
set_option maxHeartbeats 1000000 in
theorem keeps_parseScope {I : List Entity → Prop} (hI : HeapClosed I) (env : Env) (fuel : Nat)
    (ih : AllKeep I env fuel) (maxReadOffset : Nat) (p : Parser) (h : I p.heap) :
    Keeps I (parseScope env (fuel + 1) maxReadOffset p) := by
  rw [parseScope]
  try dsimp only
  repeat' first
    | exact keeps_fault
    | exact keeps_noFuel
    | with_reducible apply keeps_ok
    | with_reducible apply keeps_finishArg hI
    | with_reducible apply keeps_finalizeObj hI
    | with_reducible apply keeps_popChild hI
    | with_reducible apply ih.objList
    | with_reducible apply ih.obj
    | with_reducible apply ih.args
    | with_reducible apply ih.arg
    | with_reducible apply ih.argObj
    | with_reducible apply ih.invocation
    | with_reducible apply ih.invocationArgs
    | with_reducible apply ih.scope
    | with_reducible apply ih.namespacedObj
    | with_reducible apply ih.superName
    | with_reducible apply ih.target
    | with_reducible apply ih.fieldList
    | with_reducible apply ih.fieldElements
    | with_reducible refine keeps_bind ?_ (fun _ _ _ => ?_)
    | assumption
    | exact closed_alloc hI (by assumption) _
    | exact closed_append_new hI (by assumption) (by assumption)
    | exact closed_scopeExit (by assumption) (by assumption)
    | exact closed_removeLastChild hI (by assumption) (by assumption)
    | exact closed_termList hI (by assumption) _ _
    | dsimp only [Parser.scopeEnter]
    | split

set_option linter.unusedVariables false in
set_option linter.unreachableTactic false in
set_option linter.unusedTactic false in
set_option maxHeartbeats 1000000 in
theorem keeps_parseNamespacedObj {I : List Entity → Prop} (hI : HeapClosed I) (env : Env) (fuel : Nat)
    (ih : AllKeep I env fuel) (op maxReadOffset : Nat) (p : Parser) (h : I p.heap) :
    Keeps I (parseNamespacedObj env (fuel + 1) op maxReadOffset p) := by
  rw [parseNamespacedObj]
  try dsimp only
  repeat' first
    | exact keeps_fault
    | exact keeps_noFuel
    | with_reducible apply keeps_ok
    | with_reducible apply keeps_finishArg hI
    | with_reducible apply keeps_finalizeObj hI
    | with_reducible apply keeps_popChild hI
    | with_reducible apply ih.objList
    | with_reducible apply ih.obj
    | with_reducible apply ih.args
    | with_reducible apply ih.arg
    | with_reducible apply ih.argObj
    | with_reducible apply ih.invocation
    | with_reducible apply ih.invocationArgs
    | with_reducible apply ih.scope
    | with_reducible apply ih.namespacedObj
    | with_reducible apply ih.superName
    | with_reducible apply ih.target
    | with_reducible apply ih.fieldList
    | with_reducible apply ih.fieldElements
    | with_reducible refine keeps_bind ?_ (fun _ _ _ => ?_)
    | assumption
    | exact closed_alloc hI (by assumption) _
    | exact closed_append_new hI (by assumption) (by assumption)
    | exact closed_scopeExit (by assumption) (by assumption)
    | exact closed_removeLastChild hI (by assumption) (by assumption)
    | exact closed_termList hI (by assumption) _ _
    | dsimp only [Parser.scopeEnter]
    | split

set_option linter.unusedVariables false in
set_option linter.unreachableTactic false in
set_option linter.unusedTactic false in
set_option maxHeartbeats 1000000 in
theorem keeps_parseSuperName {I : List Entity → Prop} (hI : HeapClosed I) (env : Env) (fuel : Nat)
    (ih : AllKeep I env fuel) (p : Parser) (h : I p.heap) :
    Keeps I (parseSuperName env (fuel + 1) p) := by
  rw [parseSuperName]
  try dsimp only
  repeat' first
    | exact keeps_fault
    | exact keeps_noFuel
    | with_reducible apply keeps_ok
    | with_reducible apply keeps_finishArg hI
    | with_reducible apply keeps_finalizeObj hI
    | with_reducible apply keeps_popChild hI
    | with_reducible apply ih.objList
    | with_reducible apply ih.obj
    | with_reducible apply ih.args
    | with_reducible apply ih.arg
    | with_reducible apply ih.argObj
    | with_reducible apply ih.invocation
    | with_reducible apply ih.invocationArgs
    | with_reducible apply ih.scope
    | with_reducible apply ih.namespacedObj
    | with_reducible apply ih.superName
    | with_reducible apply ih.target
    | with_reducible apply ih.fieldList
    | with_reducible apply ih.fieldElements
    | with_reducible refine keeps_bind ?_ (fun _ _ _ => ?_)
    | assumption
    | exact closed_alloc hI (by assumption) _
    | exact closed_append_new hI (by assumption) (by assumption)
    | exact closed_scopeExit (by assumption) (by assumption)
    | exact closed_removeLastChild hI (by assumption) (by assumption)
    | exact closed_termList hI (by assumption) _ _
    | dsimp only [Parser.scopeEnter]
    | split

set_option linter.unusedVariables false in
set_option linter.unreachableTactic false in
set_option linter.unusedTactic false in
set_option maxHeartbeats 1000000 in
theorem keeps_parseTarget {I : List Entity → Prop} (hI : HeapClosed I) (env : Env) (fuel : Nat)
    (ih : AllKeep I env fuel) (p : Parser) (h : I p.heap) :
    Keeps I (parseTarget env (fuel + 1) p) := by
  rw [parseTarget]
  try dsimp only
  repeat' first
    | exact keeps_fault
    | exact keeps_noFuel
    | with_reducible apply keeps_ok
    | with_reducible apply keeps_finishArg hI
    | with_reducible apply keeps_finalizeObj hI
    | with_reducible apply keeps_popChild hI
    | with_reducible apply ih.objList
    | with_reducible apply ih.obj
    | with_reducible apply ih.args
    | with_reducible apply ih.arg
    | with_reducible apply ih.argObj
    | with_reducible apply ih.invocation
    | with_reducible apply ih.invocationArgs
    | with_reducible apply ih.scope
    | with_reducible apply ih.namespacedObj
    | with_reducible apply ih.superName
    | with_reducible apply ih.target
    | with_reducible apply ih.fieldList
    | with_reducible apply ih.fieldElements
    | with_reducible refine keeps_bind ?_ (fun _ _ _ => ?_)
    | assumption
    | exact closed_alloc hI (by assumption) _
    | exact closed_append_new hI (by assumption) (by assumption)
    | exact closed_scopeExit (by assumption) (by assumption)
    | exact closed_removeLastChild hI (by assumption) (by assumption)
    | exact closed_termList hI (by assumption) _ _
    | dsimp only [Parser.scopeEnter]
    | split

set_option linter.unusedVariables false in
set_option linter.unreachableTactic false in
set_option linter.unusedTactic false in
set_option maxHeartbeats 1000000 in
theorem keeps_parseFieldList {I : List Entity → Prop} (hI : HeapClosed I) (env : Env) (fuel : Nat)
    (ih : AllKeep I env fuel) (op : Nat) (args : List Value) (maxReadOffset : Nat) (p : Parser) (h : I p.heap) :
    Keeps I (parseFieldList env (fuel + 1) op args maxReadOffset p) := by
  rw [parseFieldList]
  repeat' first
    | exact keeps_fault
    | exact keeps_noFuel
    | with_reducible apply keeps_ok
    | with_reducible apply keeps_finishArg hI
    | with_reducible apply keeps_finalizeObj hI
    | with_reducible apply keeps_popChild hI
    | with_reducible apply ih.objList
    | with_reducible apply ih.obj
    | with_reducible apply ih.args
    | with_reducible apply ih.arg
    | with_reducible apply ih.argObj
    | with_reducible apply ih.invocation
    | with_reducible apply ih.invocationArgs
    | with_reducible apply ih.scope
    | with_reducible apply ih.namespacedObj
    | with_reducible apply ih.superName
    | with_reducible apply ih.target
    | with_reducible apply ih.fieldList
    | with_reducible apply ih.fieldElements
    | with_reducible refine keeps_bind ?_ (fun _ _ _ => ?_)
    | assumption
    | exact closed_alloc hI (by assumption) _
    | exact closed_append_new hI (by assumption) (by assumption)
    | exact closed_scopeExit (by assumption) (by assumption)
    | exact closed_removeLastChild hI (by assumption) (by assumption)
    | exact closed_termList hI (by assumption) _ _
    | dsimp only [Parser.scopeEnter]
    | split

set_option linter.unusedVariables false in
set_option linter.unreachableTactic false in
set_option linter.unusedTactic false in
set_option maxHeartbeats 1000000 in
theorem keeps_parseFieldElements {I : List Entity → Prop} (hI : HeapClosed I) (env : Env) (fuel : Nat)
    (ih : AllKeep I env fuel) (op : Nat) (name0 name1 : Str) (lock : Bool)
    (updateRule maxReadOffset : Nat) (st : FieldListState) (p : Parser) (h : I p.heap) :
    Keeps I (parseFieldElements env (fuel + 1) op name0 name1 lock updateRule maxReadOffset st p) := by
  rw [parseFieldElements]
  try dsimp only
  repeat' first
    | exact keeps_fault
    | exact keeps_noFuel
    | with_reducible apply keeps_ok
    | with_reducible apply keeps_finishArg hI
    | with_reducible apply keeps_finalizeObj hI
    | with_reducible apply keeps_popChild hI
    | with_reducible apply ih.objList
    | with_reducible apply ih.obj
    | with_reducible apply ih.args
    | with_reducible apply ih.arg
    | with_reducible apply ih.argObj
    | with_reducible apply ih.invocation
    | with_reducible apply ih.invocationArgs
    | with_reducible apply ih.scope
    | with_reducible apply ih.namespacedObj
    | with_reducible apply ih.superName
    | with_reducible apply ih.target
    | with_reducible apply ih.fieldList
    | with_reducible apply ih.fieldElements
    | with_reducible refine keeps_bind ?_ (fun _ _ _ => ?_)
    | assumption
    | exact closed_alloc hI (by assumption) _
    | exact closed_append_new hI (by assumption) (by assumption)
    | exact closed_scopeExit (by assumption) (by assumption)
    | exact closed_removeLastChild hI (by assumption) (by assumption)
    | exact closed_termList hI (by assumption) _ _
    | dsimp only [Parser.scopeEnter]
    | split

/-- One more unit of fuel: every routine keeps a closed property of the store if the routines
it calls do. -/
theorem allKeep_succ {I : List Entity → Prop} (hI : HeapClosed I) (env : Env) (fuel : Nat)
    (ih : AllKeep I env fuel) : AllKeep I env (fuel + 1) :=
  { objList := keeps_parseObjList hI env fuel ih
    obj := keeps_parseObj hI env fuel ih
    args := keeps_parseArgs hI env fuel ih
    arg := keeps_parseArg hI env fuel ih
    argObj := keeps_parseArgObj hI env fuel ih
    invocation := keeps_parseMethodInvocationOrNameRef hI env fuel ih
    invocationArgs := keeps_parseInvocationArgs hI env fuel ih
    scope := keeps_parseScope hI env fuel ih
    namespacedObj := keeps_parseNamespacedObj hI env fuel ih
    superName := keeps_parseSuperName hI env fuel ih
    target := keeps_parseTarget hI env fuel ih
    fieldList := keeps_parseFieldList hI env fuel ih
    fieldElements := keeps_parseFieldElements hI env fuel ih }

/-- Every routine of the parser keeps every property of the store that survives a new entity
and a write to the mutable fields, whatever the fuel. -/
theorem allKeep {I : List Entity → Prop} (hI : HeapClosed I) (env : Env) :
    ∀ fuel : Nat, AllKeep I env fuel
  | 0 => allKeep_zero I env
  | fuel + 1 => allKeep_succ hI env fuel (allKeep hI env fuel)

/-! ## Theorems: field lists and object lists -/

/-- A property of the state in which a sequence of two routines returns true follows from
the second routine. -/
theorem Outcome.bind_ok_true {α : Type} {x : Outcome α} {f : α → Parser → Outcome Bool}
    {P : Parser → Prop} (hf : ∀ (a : α) (p p' : Parser), f a p = Outcome.ok true p' → P p') :
    ∀ p', x.bind f = Outcome.ok true p' → P p' := by
  intro p' h
  cases x with
  | ok a p => exact hf a p p' h
  | fault => cases h
  | noFuel => cases h

/-- The loop of `parseFieldList` returns true only with the reader at `maxReadOffset`. -/
theorem parseFieldElements_end_check (env : Env) : ∀ (fuel op : Nat) (name0 name1 : Str)
    (lock : Bool) (updateRule maxReadOffset : Nat) (st : FieldListState) (p p' : Parser),
    parseFieldElements env fuel op name0 name1 lock updateRule maxReadOffset st p =
      Outcome.ok true p' → p'.r.Offset = maxReadOffset := by
  intro fuel
  induction fuel with
  | zero =>
    intro op name0 name1 lock updateRule maxReadOffset st p p' h
    rw [parseFieldElements] at h
    cases h
  | succ fuel ih =>
    intro op name0 name1 lock updateRule maxReadOffset st p
    rw [parseFieldElements]
    dsimp only
    repeat' first
      | exact ih _ _ _ _ _ _ _ _
      | (intro p' h; cases h)
      | (intro p' h; injection h with h1 h2; subst h2; simp at h1; exact h1.2)
      | refine Outcome.bind_ok_true (fun a p1 => ?_)
      | split

/-- C13. Field list end check: whenever `parseFieldList` returns true, the reader offset
equals `maxReadOffset`; so a field list whose last element ends before or beyond
`maxReadOffset` is rejected. -/
theorem parseFieldList_end_check (env : Env) (fuel op : Nat) (args : List Value)
    (maxReadOffset : Nat) (p p' : Parser)
    (h : parseFieldList env fuel op args maxReadOffset p = Outcome.ok true p') :
    p'.r.Offset = maxReadOffset := by
  cases fuel with
  | zero => rw [parseFieldList] at h; cases h
  | succ fuel =>
    rw [parseFieldList] at h
    split at h
    · cases h
    · exact parseFieldElements_end_check env _ _ _ _ _ _ _ _ _ _ h

set_option maxRecDepth 100000 in
theorem parseFieldList_end_check_witness :
    ((parseFieldList sampleEnv 4 opField [Value.str [0x52, 0x45, 0x47, 0x4e], Value.num 0] 10
        (parserAt [0x54, 0x45, 0x4d, 0x50, 0x08, 0x46, 0x41, 0x4e, 0x5f, 0x08]
          initialHeap)).state?.getD (parserAt [] [])).r.Offset = 10 ∧
      (parseFieldList sampleEnv 4 opField [Value.str [0x52, 0x45, 0x47, 0x4e], Value.num 0] 9
        (parserAt [0x54, 0x45, 0x4d, 0x50, 0x08, 0x46, 0x41, 0x4e, 0x5f, 0x08]
          initialHeap)).value? = some false ∧
      (parseFieldList sampleEnv 4 opField [Value.str [0x52, 0x45, 0x47, 0x4e], Value.num 0] 11
        (parserAt [0x54, 0x45, 0x4d, 0x50, 0x08, 0x46, 0x41, 0x4e, 0x5f, 0x08]
          initialHeap)).value? = some false :=
  ⟨parseFieldList_end_check sampleEnv 4 opField [Value.str [0x52, 0x45, 0x47, 0x4e], Value.num 0]
      10 (parserAt [0x54, 0x45, 0x4d, 0x50, 0x08, 0x46, 0x41, 0x4e, 0x5f, 0x08] initialHeap) _
      (by decide!),
    by decide!, by decide!⟩

/-- C14. Field list argument validation: for `opField`, `parseFieldList` returns false
unless `args` is a string followed by a `uint64`, and for `opIndexField` unless `args` is
two strings followed by a `uint64`; when it rejects the arguments the parser is in the
state it was called in, so no byte was read and no entity appended. -/
theorem parseFieldList_arg_validation (env : Env) (fuel : Nat) (args : List Value)
    (maxReadOffset : Nat) (p : Parser) :
    ((¬ ∃ name0 flags, args = [Value.str name0, Value.num flags]) →
        parseFieldList env (fuel + 1) opField args maxReadOffset p = Outcome.ok false p) ∧
      ((¬ ∃ name0 name1 flags, args = [Value.str name0, Value.str name1, Value.num flags]) →
        parseFieldList env (fuel + 1) opIndexField args maxReadOffset p = Outcome.ok false p) := by
  constructor
  · intro h
    have hargs : fieldListArgs opField args = none := by
      unfold fieldListArgs
      rw [if_pos rfl]
      split
      · exact absurd ⟨_, _, rfl⟩ h
      · rfl
    rw [parseFieldList, hargs]
  · intro h
    have hargs : fieldListArgs opIndexField args = none := by
      unfold fieldListArgs
      rw [if_neg (by decide), if_pos rfl]
      split
      · exact absurd ⟨_, _, _, rfl⟩ h
      · rfl
    rw [parseFieldList, hargs]

theorem parseFieldList_arg_validation_witness :
    parseFieldList sampleEnv (0 + 1) opField [Value.num 0, Value.str [0x52, 0x45, 0x47, 0x4e]] 10
        (parserAt [0x54, 0x45, 0x4d, 0x50, 0x08] initialHeap) =
        Outcome.ok false (parserAt [0x54, 0x45, 0x4d, 0x50, 0x08] initialHeap) ∧
      parseFieldList sampleEnv (0 + 1) opIndexField
          [Value.str [0x49, 0x44, 0x58, 0x5f], Value.num 0] 10
          (parserAt [0x54, 0x45, 0x4d, 0x50, 0x08] initialHeap) =
        Outcome.ok false (parserAt [0x54, 0x45, 0x4d, 0x50, 0x08] initialHeap) :=
  ⟨(parseFieldList_arg_validation sampleEnv 0 [Value.num 0, Value.str [0x52, 0x45, 0x47, 0x4e]]
      10 (parserAt [0x54, 0x45, 0x4d, 0x50, 0x08] initialHeap)).1 (by simp),
    (parseFieldList_arg_validation sampleEnv 0 [Value.str [0x49, 0x44, 0x58, 0x5f], Value.num 0]
      10 (parserAt [0x54, 0x45, 0x4d, 0x50, 0x08] initialHeap)).2 (by simp)⟩

/-- When `parseObjList` returns true the reader is at EOF or at or past `maxOffset`: the
loop checks the bound between objects only. -/
theorem parseObjList_stop (env : Env) : ∀ (fuel maxOffset : Nat) (p p' : Parser),
    parseObjList env fuel maxOffset p = Outcome.ok true p' →
    p'.r.EOF = true ∨ maxOffset ≤ p'.r.Offset := by
  intro fuel
  induction fuel with
  | zero => intro maxOffset p p' h; rw [parseObjList] at h; cases h
  | succ fuel ih =>
    intro maxOffset p
    rw [parseObjList]
    split
    · refine Outcome.bind_ok_true (fun a p1 => ?_)
      split
      · intro p' h; cases h
      · exact ih _ _
    · rename_i hc
      intro p' h
      injection h with _ h2
      subst h2
      simp only [Bool.and_eq_true, Bool.not_eq_true', decide_eq_true_eq, not_and, not_lt] at hc
      cases he : p.r.EOF with
      | true => exact Or.inl rfl
      | false => exact Or.inr (hc he)

/-- C20 (the code departs from the claim). `parseObjList` checks its bound only between
objects: called with `maxOffset = 3` at offset 0 on `08 41 42 43 44 0A 2A 01`
(`Name (ABCD, 0x2A)`, then `One`), it reads the whole seven-byte object and returns true at
offset 7, neither at EOF nor at `maxOffset`.  So the table
`10 04 5C 00 08 41 42 43 44 0A 2A 01`, whose `Scope (\\)` has a package length that ends
inside the `Name` object, passes pass 1. -/
theorem parseObjList_reads_past_bound :
    (parseObjList sampleEnv 10 3
        (parserAt [0x08, 0x41, 0x42, 0x43, 0x44, 0x0a, 0x2a, 0x01] initialHeap)).value? =
        some true ∧
      ((parseObjList sampleEnv 10 3
        (parserAt [0x08, 0x41, 0x42, 0x43, 0x44, 0x0a, 0x2a, 0x01] initialHeap)).state?.map
          fun p => (p.r.Offset, p.r.EOF)) = some (7, false) ∧
      (pass1 sampleEnv 20
        [0x10, 0x04, 0x5c, 0x00, 0x08, 0x41, 0x42, 0x43, 0x44, 0x0a, 0x2a, 0x01] 0
        initialHeap).value? = some true := by
  decide!

/-! ## Theorems: pass 2 -/

/-- The connection lookup of a resolver touches only the entity it is called on, and of
that entity only `resolvedConnection`; when the resolver goes on, a connection that was
named is resolved. -/
theorem resolveConnection_true (env : Env) (root id : Nat) (heap heap1 : List Entity)
    (e : Entity) (he : heap[id]? = some e)
    (h : resolveConnection env root id heap = some (heap1, true)) :
    ∃ e1, heap1 = heap.set id e1 ∧ heap1[id]? = some e1 ∧ e1.kind = e.kind ∧
      e1.parent = e.parent ∧ e1.regionName = e.regionName ∧
      e1.resolvedRegion = e.resolvedRegion ∧ e1.connectionName = e.connectionName ∧
      (e1.connectionName ≠ [] → e1.resolvedConnection ≠ none) := by
  unfold resolveConnection at h
  rw [he] at h
  dsimp only at h
  split at h
  · split at h
    · cases h
    · rename_i parent hp
      injection h with h
      injection h with h1 h2
      refine ⟨{ e with resolvedConnection := env.scopeFind heap parent root e.connectionName },
        h1.symm, ?_, rfl, rfl, rfl, rfl, rfl, fun _ hc => ?_⟩
      · rw [← h1]
        exact List.getElem?_set_self_of_some heap id e _ he
      · dsimp only at hc
        rw [hc] at h2
        cases h2
  · rename_i hc
    injection h with h
    injection h with h1 _
    refine ⟨e, ?_, ?_, rfl, rfl, rfl, rfl, rfl, fun hn hc2 => hc ⟨hn, hc2⟩⟩
    · rw [← h1]
      exact (List.set_self_of_getElem? heap id e he).symm
    · rw [← h1]
      exact he

/-- The type assertion to `kind` yields an entity of that kind. -/
theorem entityOfKind_some {heap : List Entity} {kind : Kind} {found : Option Nat} {r : Nat}
    (h : entityOfKind heap kind found = some r) :
    ∃ re, heap[r]? = some re ∧ re.kind = kind := by
  unfold entityOfKind at h
  split at h
  · cases h
  · split at h
    · rename_i te hte
      split at h
      · rename_i hk
        injection h with h
        subst h
        exact ⟨te, hte, hk⟩
      · cases h
    · cases h

/-- The region lookup of `fieldUnitEntity.Resolve` returns true only with `resolvedRegion`
a Region; it leaves the connection alone. -/
theorem resolveRegion_true (env : Env) (root id : Nat) (heap1 heap' : List Entity)
    (e1 : Entity) (h1 : heap1[id]? = some e1) (hkind : e1.kind = Kind.fieldUnit)
    (htyped : ∀ r, e1.resolvedRegion = some r →
      ∃ re, heap1[r]? = some re ∧ re.kind = Kind.region)
    (h : resolveRegion env root id heap1 = some (heap', true)) :
    ∃ e' r re, heap'[id]? = some e' ∧ e'.resolvedRegion = some r ∧
      heap'[r]? = some re ∧ re.kind = Kind.region ∧
      e'.connectionName = e1.connectionName ∧ e'.resolvedConnection = e1.resolvedConnection := by
  unfold resolveRegion at h
  rw [h1] at h
  dsimp only at h
  split at h
  · split at h
    · cases h
    · rename_i parent hp
      injection h with h
      injection h with h2 h3
      subst h2
      cases hr : entityOfKind heap1 Kind.region
          (env.scopeFind heap1 parent root e1.regionName) with
      | none => rw [hr] at h3; cases h3
      | some r =>
        obtain ⟨re, hre, hk⟩ := entityOfKind_some hr
        have hne : r ≠ id := by
          rintro rfl
          rw [h1] at hre
          injection hre with hre
          rw [← hre, hkind] at hk
          cases hk
        refine ⟨{ e1 with resolvedRegion := some r }, r, re, ?_, rfl, ?_, hk, rfl, rfl⟩
        · exact List.getElem?_set_self_of_some heap1 id e1 _ h1
        · rw [List.getElem?_set, if_neg (Ne.symm hne)]
          exact hre
  · rename_i hset
    injection h with h
    injection h with h2 _
    subst h2
    obtain ⟨r, hr⟩ : ∃ r, e1.resolvedRegion = some r := by
      cases hx : e1.resolvedRegion with
      | none => exact absurd hx hset
      | some r => exact ⟨r, rfl⟩
    obtain ⟨re, hre, hk⟩ := htyped r hr
    exact ⟨e1, r, re, h1, hr, hre, hk, rfl, rfl⟩

/-- The region lookup of `fieldUnitEntity.Resolve` returns false when the region is unset
and the lookup does not yield a Region. -/
theorem resolveRegion_false (env : Env) (root id parent : Nat) (heap1 : List Entity)
    (e1 : Entity) (h1 : heap1[id]? = some e1) (hp : e1.parent = some parent)
    (hnone : e1.resolvedRegion = none)
    (hfail : entityOfKind heap1 Kind.region (env.scopeFind heap1 parent root e1.regionName) =
      none) :
    ∃ heap', resolveRegion env root id heap1 = some (heap', false) := by
  unfold resolveRegion
  rw [h1]
  dsimp only
  rw [if_pos hnone]
  split
  · rename_i hx
    rw [hp] at hx
    cases hx
  · rename_i parent2 hx
    rw [hp] at hx
    injection hx with hx
    subst hx
    rw [hfail]
    exact ⟨_, rfl⟩

/-- C19. Field unit resolution: for a field unit whose `resolvedRegion`, if set, is a
Region, whenever `fieldUnitEntity.Resolve` returns true, `resolvedRegion` is a Region in the
store and, if `connectionName` is non-empty, `resolvedConnection` is non-nil; and when
`resolvedRegion` was unset and the lookup of `regionName` finds nothing or an entity that
is not a Region, it returns false. -/
theorem resolveFieldUnit_spec (env : Env) (root id : Nat) (heap : List Entity) (e : Entity)
    (he : heap[id]? = some e) (hkind : e.kind = Kind.fieldUnit)
    (htyped : ∀ r, e.resolvedRegion = some r →
      ∃ re, heap[r]? = some re ∧ re.kind = Kind.region) :
    (∀ heap', resolveFieldUnit env root id heap = some (heap', true) →
        ∃ e' r re, heap'[id]? = some e' ∧ e'.resolvedRegion = some r ∧
          heap'[r]? = some re ∧ re.kind = Kind.region ∧
          (e'.connectionName ≠ [] → e'.resolvedConnection ≠ none)) ∧
      (∀ parent, e.parent = some parent → e.resolvedRegion = none →
        (∀ heap1 ok1, resolveConnection env root id heap = some (heap1, ok1) →
          env.scopeFind heap1 parent root e.regionName = none ∨
          ∃ t te, env.scopeFind heap1 parent root e.regionName = some t ∧
            heap1[t]? = some te ∧ te.kind ≠ Kind.region) →
        ∃ heap', resolveFieldUnit env root id heap = some (heap', false)) := by
  constructor
  · intro heap' h
    unfold resolveFieldUnit at h
    split at h
    · cases h
    · cases h
    · rename_i heap1 hc
      obtain ⟨e1, hset, h1, hk1, _, _, hreg, _, hconn⟩ :=
        resolveConnection_true env root id heap heap1 e he hc
      have htyped1 : ∀ r, e1.resolvedRegion = some r →
          ∃ re, heap1[r]? = some re ∧ re.kind = Kind.region := by
        intro r hr
        obtain ⟨re, hre, hk⟩ := htyped r (hreg ▸ hr)
        have hne : r ≠ id := by
          rintro rfl
          rw [he] at hre
          injection hre with hre
          rw [← hre, hkind] at hk
          cases hk
        refine ⟨re, ?_, hk⟩
        rw [hset, List.getElem?_set, if_neg (Ne.symm hne)]
        exact hre
      obtain ⟨e', r, re, a1, a2, a3, a4, a5, a6⟩ :=
        resolveRegion_true env root id heap1 heap' e1 h1 (hk1.trans hkind) htyped1 h
      exact ⟨e', r, re, a1, a2, a3, a4, by rw [a5, a6]; exact hconn⟩
  · intro parent hp hnone hlook
    unfold resolveFieldUnit
    cases hc : resolveConnection env root id heap with
    | none =>
      exfalso
      unfold resolveConnection at hc
      rw [he] at hc
      dsimp only at hc
      rw [hp] at hc
      split at hc <;> cases hc
    | some res =>
      obtain ⟨heap1, ok1⟩ := res
      cases ok1 with
      | false => exact ⟨heap1, rfl⟩
      | true =>
        obtain ⟨e1, _, h1, _, hp1, hrn, hreg, _, _⟩ :=
          resolveConnection_true env root id heap heap1 e he hc
        dsimp only
        apply resolveRegion_false env root id parent heap1 e1 h1 (hp1.trans hp)
          (hreg.trans hnone)
        rw [hrn]
        rcases hlook _ _ hc with h | ⟨t, te, ht, hte, hk⟩
        · rw [h]; rfl
        · rw [ht]
          unfold entityOfKind
          simp only [hte, hk, if_false]

theorem resolveFieldUnit_spec_witness :
    (∃ e' r re,
        (((resolveFieldUnit sampleEnv 0 7 heapWithRegion).map Prod.fst).getD [])[7]? = some e' ∧
        e'.resolvedRegion = some r ∧
        (((resolveFieldUnit sampleEnv 0 7 heapWithRegion).map Prod.fst).getD [])[r]? = some re ∧
        re.kind = Kind.region ∧ (e'.connectionName ≠ [] → e'.resolvedConnection ≠ none)) ∧
      ∃ heap', resolveFieldUnit sampleEnv 0 7 heapWithNamedObject = some (heap', false) :=
  ⟨(resolveFieldUnit_spec sampleEnv 0 7 heapWithRegion _ rfl rfl
      (fun r hr => by cases hr)).1 _ (by decide),
    (resolveFieldUnit_spec sampleEnv 0 7 heapWithNamedObject _ rfl rfl
      (fun r hr => by cases hr)).2 0 rfl rfl
      (fun heap1 ok1 h => by
        have h1 : heap1 =
            ((resolveConnection sampleEnv 0 7 heapWithNamedObject).map Prod.fst).getD [] := by
          rw [h]; rfl
        rw [h1]
        exact Or.inr ⟨6, namedObjectREGN, by decide, by decide, by decide⟩)⟩

theorem sameTree_refl (h : List Entity) : sameTree h h :=
  ⟨rfl, fun _ e he => ⟨e, he, rfl, rfl, rfl, rfl⟩⟩

theorem sameTree_trans {h1 h2 h3 : List Entity} (a : sameTree h1 h2) (b : sameTree h2 h3) :
    sameTree h1 h3 := by
  refine ⟨b.1.trans a.1, fun id e he => ?_⟩
  obtain ⟨e2, he2, k2, n2, p2, c2⟩ := a.2 id e he
  obtain ⟨e3, he3, k3, n3, p3, c3⟩ := b.2 id e2 he2
  exact ⟨e3, he3, k3.trans k2, n3.trans n2, p3.trans p2, c3.trans c2⟩

theorem sameTree_set {h : List Entity} {id : Nat} {e e' : Entity} (he : h[id]? = some e)
    (hk : e'.kind = e.kind) (hn : e'.name = e.name) (hp : e'.parent = e.parent)
    (hc : e'.children = e.children) : sameTree h (h.set id e') := by
  refine ⟨List.length_set .., fun j x hx => ?_⟩
  by_cases hj : id = j
  · subst hj
    rw [he] at hx
    injection hx with hx
    subst hx
    exact ⟨e', List.getElem?_set_self_of_some h id e e' he, hk, hn, hp, hc⟩
  · exact ⟨x, by rw [List.getElem?_set, if_neg hj]; exact hx, rfl, rfl, rfl, rfl⟩

theorem resolveConnection_sameTree (env : Env) (root id : Nat) (heap heap' : List Entity)
    (b : Bool) (h : resolveConnection env root id heap = some (heap', b)) :
    sameTree heap heap' := by
  unfold resolveConnection at h
  split at h
  · cases h
  · rename_i e he
    dsimp only at h
    split at h
    · split at h
      · cases h
      · injection h with h
        injection h with h1 _
        subst h1
        exact sameTree_set he rfl rfl rfl rfl
    · injection h with h
      injection h with h1 _
      subst h1
      exact sameTree_refl _

theorem resolveRegion_sameTree (env : Env) (root id : Nat) (heap heap' : List Entity)
    (b : Bool) (h : resolveRegion env root id heap = some (heap', b)) :
    sameTree heap heap' := by
  unfold resolveRegion at h
  split at h
  · cases h
  · rename_i e he
    dsimp only at h
    split at h
    · split at h
      · cases h
      · injection h with h
        injection h with h1 _
        subst h1
        exact sameTree_set he rfl rfl rfl rfl
    · injection h with h
      injection h with h1 _
      subst h1
      exact sameTree_refl _

theorem resolveIndexReg_sameTree (env : Env) (root id : Nat) (heap heap' : List Entity)
    (h : resolveIndexReg env root id heap = some heap') : sameTree heap heap' := by
  unfold resolveIndexReg at h
  split at h
  · cases h
  · rename_i e he
    dsimp only at h
    split at h
    · split at h
      · cases h
      · injection h with h1
        subst h1
        exact sameTree_set he rfl rfl rfl rfl
    · injection h with h1
      subst h1
      exact sameTree_refl _

theorem resolveDataReg_sameTree (env : Env) (root id : Nat) (heap heap' : List Entity)
    (b : Bool) (h : resolveDataReg env root id heap = some (heap', b)) :
    sameTree heap heap' := by
  unfold resolveDataReg at h
  split at h
  · cases h
  · rename_i e he
    dsimp only at h
    split at h
    · split at h
      · cases h
      · injection h with h
        injection h with h1 _
        subst h1
        exact sameTree_set he rfl rfl rfl rfl
    · injection h with h
      injection h with h1 _
      subst h1
      exact sameTree_refl _

theorem resolveNamedReference_sameTree (env : Env) (root id : Nat) (heap heap' : List Entity)
    (b : Bool) (h : resolveNamedReference env root id heap = some (heap', b)) :
    sameTree heap heap' := by
  unfold resolveNamedReference at h
  split at h
  · cases h
  · rename_i e he
    dsimp only at h
    split at h
    · cases h
    · injection h with h
      injection h with h1 _
      subst h1
      exact sameTree_set he rfl rfl rfl rfl

/-- A resolver changes no entity's type, name, parent or children. -/
theorem resolveEntity_sameTree (env : Env) (root id : Nat) (heap heap' : List Entity)
    (b : Bool) (h : resolveEntity env root id heap = some (heap', b)) :
    sameTree heap heap' := by
  unfold resolveEntity at h
  split at h
  · cases h
  · split at h
    · unfold resolveFieldUnit at h
      split at h
      · cases h
      · rename_i hc
        injection h with h
        injection h with h1 _
        subst h1
        exact resolveConnection_sameTree _ _ _ _ _ _ hc
      · rename_i hc
        exact sameTree_trans (resolveConnection_sameTree _ _ _ _ _ _ hc)
          (resolveRegion_sameTree _ _ _ _ _ _ h)
    · unfold resolveIndexField at h
      split at h
      · cases h
      · rename_i hc
        injection h with h
        injection h with h1 _
        subst h1
        exact resolveConnection_sameTree _ _ _ _ _ _ hc
      · rename_i hc
        split at h
        · cases h
        · rename_i hi
          exact sameTree_trans (sameTree_trans (resolveConnection_sameTree _ _ _ _ _ _ hc)
            (resolveIndexReg_sameTree _ _ _ _ _ hi))
            (resolveDataReg_sameTree _ _ _ _ _ _ h)
    · exact resolveNamedReference_sameTree _ _ _ _ _ _ h
    · injection h with h
      injection h with h1 _
      subst h1
      exact sameTree_refl _

/-- Pass 2 changes no entity's type, name, parent or children. -/
theorem resolveAll_sameTree (env : Env) (root : Nat) : ∀ (ids : List Nat)
    (heap heap' : List Entity) (failed failed' : Bool),
    resolveAll env root ids heap failed = some (heap', failed') → sameTree heap heap' := by
  intro ids
  induction ids with
  | nil =>
    intro heap heap' failed failed' h
    simp only [resolveAll] at h
    injection h with h
    injection h with h1 _
    subst h1
    exact sameTree_refl _
  | cons id ids ih =>
    intro heap heap' failed failed' h
    simp only [resolveAll] at h
    split at h
    · cases h
    · rename_i heap1 ok hr
      exact sameTree_trans (resolveEntity_sameTree _ _ _ _ _ _ hr) (ih _ _ _ _ h)

/-- C18 as stated fails. The table `41 42 43 44` (a reference to `ABCD`, which is never
defined) ends in `errResolvingEntities` and the table `08 41 42 43 44 0A 2A A1 01`
(`Name (ABCD, 0x2A)`, then an `Else` without `If`) in `errParsingAML`; in both cases the
entity created first, at index 6, is still a child of the root afterwards. -/
theorem parseAML_leaves_entities :
    (parseAML sampleEnv (fun h r => scopeVisitList h (h.length + 1) r) 20
        [0x41, 0x42, 0x43, 0x44] 0 (parserAt [] initialHeap)).value? =
        some (some ParseError.errResolvingEntities) ∧
      ((parseAML sampleEnv (fun h r => scopeVisitList h (h.length + 1) r) 20
        [0x41, 0x42, 0x43, 0x44] 0 (parserAt [] initialHeap)).state?.map fun p =>
          (p.heap[0]?.map (fun e => e.children), p.heap[6]?.map (fun e => (e.kind, e.parent)))) =
        some (some [1, 2, 3, 4, 5, 6], some (Kind.namedReference, some 0)) ∧
      (parseAML sampleEnv (fun h r => scopeVisitList h (h.length + 1) r) 20
        [0x08, 0x41, 0x42, 0x43, 0x44, 0x0a, 0x2a, 0xa1, 0x01] 0
        (parserAt [] initialHeap)).value? = some (some ParseError.errParsingAML) ∧
      ((parseAML sampleEnv (fun h r => scopeVisitList h (h.length + 1) r) 20
        [0x08, 0x41, 0x42, 0x43, 0x44, 0x0a, 0x2a, 0xa1, 0x01] 0
        (parserAt [] initialHeap)).state?.map fun p =>
          (p.heap[0]?.map (fun e => e.children), p.heap[6]?.map (fun e => (e.name, e.parent)))) =
        some (some [1, 2, 3, 4, 5, 6], some ([0x41, 0x42, 0x43, 0x44], some 0)) ∧
      initialHeap[0]?.map (fun e => e.children) = some [1, 2, 3, 4, 5] := by
  decide!

/-- C18 as amended. `parseAML` undoes nothing: when it returns `errParsingAML`, pass 1
returned false and the parser and the namespace are as pass 1 left them; when it returns
`errResolvingEntities`, pass 1 returned true and pass 2 changed no entity's type, name,
parent or children, so the tree is the one pass 1 built. -/
theorem parseAML_error_state (env : Env) (visit : List Entity → Nat → List Nat)
    (fuel : Nat) (table : List Nat) (headerSize : Nat) (p p' : Parser) (err : ParseError)
    (h : parseAML env visit fuel table headerSize p = Outcome.ok (some err) p') :
    (err = ParseError.errParsingAML ∧
        parseObjList env fuel table.length
          (Parser.scopeEnter { p with r := Reader.Init table headerSize, scopeStack := [] }
            p.root) = Outcome.ok false p') ∨
      (err = ParseError.errResolvingEntities ∧
        ∃ p1, parseObjList env fuel table.length
          (Parser.scopeEnter { p with r := Reader.Init table headerSize, scopeStack := [] }
            p.root) = Outcome.ok true p1 ∧ sameTree p1.heap p'.heap) := by
  unfold parseAML at h
  cases hp : parseObjList env fuel table.length
      (Parser.scopeEnter { p with r := Reader.Init table headerSize, scopeStack := [] }
        p.root) with
  | fault => rw [hp] at h; cases h
  | noFuel => rw [hp] at h; cases h
  | ok b p1 =>
    rw [hp] at h
    simp only [Outcome.bind] at h
    cases b with
    | false =>
      simp only [Bool.not_false, if_true] at h
      injection h with h1 h2
      injection h1 with h1
      exact Or.inl ⟨h1.symm, by rw [h2]⟩
    | true =>
      simp only [Bool.not_true, Bool.false_eq_true, if_false] at h
      split at h
      · cases h
      · rename_i p2 hexit
        split at h
        · cases h
        · rename_i heap2 failed hres
          have hst := resolveAll_sameTree _ _ _ _ _ _ _ hres
          have hheap : p2.heap = p1.heap := by
            unfold Parser.scopeExit at hexit
            split at hexit
            · cases hexit
            · injection hexit with hexit
              rw [← hexit]
          split at h
          · injection h with h1 h2
            injection h1 with h1
            refine Or.inr ⟨h1.symm, p1, rfl, ?_⟩
            rw [← h2, ← hheap]
            exact hst
          · cases h

set_option maxRecDepth 100000 in
theorem parseAML_error_state_witness :
    (ParseError.errResolvingEntities = ParseError.errParsingAML ∧
        parseObjList sampleEnv 20 [0x41, 0x42, 0x43, 0x44].length
          (Parser.scopeEnter
            { parserAt [] initialHeap with
              r := Reader.Init [0x41, 0x42, 0x43, 0x44] 0, scopeStack := [] }
            (parserAt [] initialHeap).root) =
          Outcome.ok false
            ((parseAML sampleEnv (fun h r => scopeVisitList h (h.length + 1) r) 20
              [0x41, 0x42, 0x43, 0x44] 0 (parserAt [] initialHeap)).state?.getD
                (parserAt [] []))) ∨
      (ParseError.errResolvingEntities = ParseError.errResolvingEntities ∧
        ∃ p1, parseObjList sampleEnv 20 [0x41, 0x42, 0x43, 0x44].length
          (Parser.scopeEnter
            { parserAt [] initialHeap with
              r := Reader.Init [0x41, 0x42, 0x43, 0x44] 0, scopeStack := [] }
            (parserAt [] initialHeap).root) = Outcome.ok true p1 ∧
          sameTree p1.heap
            ((parseAML sampleEnv (fun h r => scopeVisitList h (h.length + 1) r) 20
              [0x41, 0x42, 0x43, 0x44] 0 (parserAt [] initialHeap)).state?.getD
                (parserAt [] [])).heap) :=
  parseAML_error_state sampleEnv (fun h r => scopeVisitList h (h.length + 1) r) 20
    [0x41, 0x42, 0x43, 0x44] 0 (parserAt [] initialHeap) _ ParseError.errResolvingEntities
    (by decide!)

/-- A Method stored at index `n` stays a Method with the same flags whatever the parser does
to the store. -/
theorem hasMethod_closed (n argCount : Nat) (serialized : Bool) (syncLevel : Nat) :
    HeapClosed (hasMethod n argCount serialized syncLevel) := by
  constructor
  · rintro h e ⟨m, hm, hk, ha, hs, hl⟩
    refine ⟨m, ?_, hk, ha, hs, hl⟩
    rw [List.getElem?_append_left (getElem?_lt hm)]
    exact hm
  · rintro h id e e' ⟨m, hm, hk, ha, hs, hl⟩ he hsame
    by_cases hid : id = n
    · subst hid
      rw [he] at hm
      injection hm with hm
      subst hm
      refine ⟨e', List.getElem?_set_self_of_some h id e e' he, ?_, ?_, ?_, ?_⟩
      · rw [hsame]; exact hk
      · rw [hsame]; exact ha
      · rw [hsame]; exact hs
      · rw [hsame]
        simp only [hk]
        exact hl
    · refine ⟨m, ?_, hk, ha, hs, hl⟩
      rw [List.getElem?_set, if_neg hid]
      exact hm

/-- The fields that `parseNamespacedObj` decodes from a flags byte `f`. -/
theorem newMethod_flags (name : Str) (f : Nat) (hf : f < 256) :
    (newMethod name f).kind = Kind.method ∧
      (newMethod name f).argCount = f &&& 0x7 ∧
      (newMethod name f).serialized = decide ((f >>> 3) &&& 0x1 = 0x1) ∧
      (newMethod name f).syncLevel = f >>> 4 ∧
      (f &&& 0x7) + 8 * (if decide ((f >>> 3) &&& 0x1 = 0x1) then 1 else 0) + 16 * (f >>> 4) = f ∧
      f &&& 0x7 ≤ 7 ∧ f >>> 4 ≤ 15 := by
  have h256 : f % 256 = f := Nat.mod_eq_of_lt hf
  have h7 : f &&& 7 = f % 8 := Nat.and_pow_two_sub_one_eq_mod f 3
  have h1 : (f >>> 3) &&& 1 = f / 8 % 2 := by
    rw [Nat.shiftRight_eq_div_pow]
    exact Nat.and_pow_two_sub_one_eq_mod _ 1
  have h4 : f >>> 4 = f / 16 := by rw [Nat.shiftRight_eq_div_pow]
  have h15 : (f >>> 4) &&& 15 = f >>> 4 := by
    rw [h4]
    have := Nat.and_pow_two_sub_one_eq_mod (f / 16) 4
    simp only [Nat.reducePow, Nat.add_one_sub_one] at this
    rw [this]
    omega
  refine ⟨rfl, ?_, ?_, ?_, ?_, ?_, ?_⟩
  · simp only [newMethod, h256]
  · simp only [newMethod, h256]
  · simp only [newMethod, h256, h15]
  · rw [h7, h1, h4]
    by_cases hb : f / 8 % 2 = 1
    · simp only [hb, decide_True, if_true]; omega
    · simp only [hb, decide_False, Bool.false_eq_true, if_false]; omega
  · rw [h7]; omega
  · rw [h4]; omega

/-- C15. Method flags decoding: when `parseNamespacedObj` is called for a Method, has read
the name and the flags byte `f` and returns, the Method it created (stored at the next free
index) has `argCount = f & 0x7`, `serialized` = bit 3 of `f` and `syncLevel = f >> 4`, so
that `argCount + 8 * serialized + 16 * syncLevel = f`, `argCount <= 7` and
`syncLevel <= 15`. -/
theorem parseNamespacedObj_method_flags (env : Env) (fuel maxReadOffset : Nat)
    (p p' : Parser) (b : Bool) (scopeExpr name : Str) (r1 : Reader) (cur parent f : Nat)
    (hname : parseNameString p.r = ((scopeExpr, true), r1))
    (hcur : p.scopeCurrent = some cur)
    (hres : env.scopeResolvePath p.heap cur p.root scopeExpr = (some parent, name))
    (hflags : r1.data[r1.offset]? = some f) (hf : f < 256)
    (hret : parseNamespacedObj env fuel opMethod maxReadOffset p = Outcome.ok b p') :
    ∃ m : Entity, p'.heap[p.heap.length]? = some m ∧ m.kind = Kind.method ∧
      m.argCount = f &&& 0x7 ∧ m.serialized = decide ((f >>> 3) &&& 0x1 = 0x1) ∧
      m.syncLevel = f >>> 4 ∧
      m.argCount + 8 * (if m.serialized then 1 else 0) + 16 * m.syncLevel = f ∧
      m.argCount ≤ 7 ∧ m.syncLevel ≤ 15 := by
  obtain ⟨k0, k1, k2, k3, k4, k5, k6⟩ := newMethod_flags name f hf
  have hI := hasMethod_closed p.heap.length (f &&& 0x7) (decide ((f >>> 3) &&& 0x1 = 0x1))
    (f >>> 4)
  suffices h : hasMethod p.heap.length (f &&& 0x7) (decide ((f >>> 3) &&& 0x1 = 0x1))
      (f >>> 4) p'.heap by
    obtain ⟨m, hm, hk, ha, hs, hl⟩ := h
    exact ⟨m, hm, hk, ha, hs, hl, by rw [ha, hs, hl]; exact k4, by rw [ha]; exact k5,
      by rw [hl]; exact k6⟩
  have hnum : parseNumConstant 1 r1 = ((f, true), { r1 with offset := r1.offset + 1 }) := by
    simp only [parseNumConstant, parseNumConstantLoop, Reader.readByte_of_get hflags]
    have := (numConstant_step 0 0 f (by decide) (by decide) hf).1
    simp only [Nat.pow_zero, Nat.mul_one, Nat.zero_add] at this
    rw [this]
  cases fuel with
  | zero => rw [parseNamespacedObj] at hret; cases hret
  | succ fuel =>
    rw [parseNamespacedObj] at hret
    simp only [hname, Bool.not_true, Bool.false_eq_true, if_false] at hret
    have hc2 : ({ r := r1, root := p.root, scopeStack := p.scopeStack, heap := p.heap } :
        Parser).scopeCurrent = some cur := hcur
    have hent : namespacedEntity opMethod name f = some (newMethod name f) := by
      unfold namespacedEntity
      rw [if_neg (by decide), if_pos rfl]
    simp only [hc2, hres, hnum, Bool.not_true, Bool.false_eq_true, and_false, if_false, hent,
      if_true] at hret
    split at hret
    · cases hret
    · rename_i p1 happ
      have h1 : hasMethod p.heap.length (f &&& 0x7) (decide ((f >>> 3) &&& 0x1 = 0x1))
          (f >>> 4) p1.heap := by
        refine closed_append hI happ ⟨newMethod name f, ?_, k0, k1, k2, k3⟩
        simp [Parser.alloc]
      have h2 := (allKeep hI env fuel).objList maxReadOffset (p1.scopeEnter p.heap.length) h1
      cases hobj : parseObjList env fuel maxReadOffset (p1.scopeEnter p.heap.length) with
      | fault => rw [hobj] at hret; cases hret
      | noFuel => rw [hobj] at hret; cases hret
      | ok ok p2 =>
        rw [hobj] at hret
        simp only [Outcome.bind] at hret
        have h3 := h2 ok p2 hobj
        split at hret
        · cases hret
        · rename_i p3 hexit
          have h4 := closed_scopeExit (I := hasMethod p.heap.length (f &&& 0x7)
            (decide ((f >>> 3) &&& 0x1 = 0x1)) (f >>> 4)) hexit h3
          split at hret
          · injection hret with _ hp
            rw [← hp]
            exact h4
          · exact keeps_finalizeObj hI h4 b p' hret

set_option maxRecDepth 100000 in
theorem parseNamespacedObj_method_flags_witness :
    ∃ m : Entity,
      ((parseNamespacedObj sampleEnv 5 opMethod 7
          { parserAt [0x14, 0x06, 0x4d, 0x41, 0x49, 0x4e, 0x01] initialHeap with
            r := ⟨[0x14, 0x06, 0x4d, 0x41, 0x49, 0x4e, 0x01], 2⟩ }).state?.getD
        (parserAt [] [])).heap[initialHeap.length]? = some m ∧
      m.kind = Kind.method ∧ m.argCount = 1 ∧ m.serialized = false ∧ m.syncLevel = 0 ∧
      m.argCount + 8 * (if m.serialized then 1 else 0) + 16 * m.syncLevel = 0x01 ∧
      m.argCount ≤ 7 ∧ m.syncLevel ≤ 15 :=
  parseNamespacedObj_method_flags sampleEnv 5 7
    { parserAt [0x14, 0x06, 0x4d, 0x41, 0x49, 0x4e, 0x01] initialHeap with
      r := ⟨[0x14, 0x06, 0x4d, 0x41, 0x49, 0x4e, 0x01], 2⟩ } _ true
    [0x4d, 0x41, 0x49, 0x4e] [0x4d, 0x41, 0x49, 0x4e]
    ⟨[0x14, 0x06, 0x4d, 0x41, 0x49, 0x4e, 0x01], 6⟩ 0 0 0x01 (by decide) rfl (by decide)
    (by decide) (by decide) (by decide!)

/-! ## Theorems: field lists as lists of elements -/

/-- A PkgLength at the cursor is decoded to the value it encodes. -/
theorem parsePkgLength_at (r : Reader) (n v : Nat) (rest : List Nat) (hfit : widthFits n v)
    (hdata : r.data.drop r.offset = encodePkgLength n v ++ rest) :
    parsePkgLength r = ((v, true), { r with offset := r.offset + 1 + n }) := by
  have hle : r.offset ≤ r.data.length := by
    rcases Nat.lt_or_ge r.data.length r.offset with h | h
    · rw [List.drop_eq_nil_of_le (Nat.le_of_lt h)] at hdata
      simp [encodePkgLength] at hdata
    · exact h
  have hl : (r.data.take r.offset).length = r.offset := List.length_take_of_le hle
  have hd : r.data.take r.offset ++ encodePkgLength n v ++ rest = r.data := by
    rw [List.append_assoc, ← hdata, List.take_append_drop]
  have key := parsePkgLength_roundtrip n v (r.data.take r.offset) rest hfit.1 hfit.2
  rw [hd, hl] at key
  exact key

/-- A NameSeg at the cursor is parsed as a name of four characters. -/
theorem parseNameString_seg (r : Reader) (name : Str) (t : List Nat)
    (hseg : validNameSeg name = true) (hdata : r.data.drop r.offset = name ++ t) :
    parseNameString r = ((name, true), { r with offset := r.offset + 4 }) ∧
      name.length = 4 ∧ ∃ c0 l, name = c0 :: l ∧ isLeadNameChar c0 = true := by
  match name, hseg with
  | [c0, c1, c2, c3], hseg =>
    simp only [validNameSeg, Bool.and_eq_true] at hseg
    have hlead := hseg.1.1.1
    have hl := (isLeadNameChar_iff c0).1 hlead
    have hd : r.data.drop r.offset = c0 :: c1 :: c2 :: c3 :: t := by simpa using hdata
    have hp := Reader.peek_at hd c0 (by simp)
    have n1 : ¬ c0 = 0x5c := by omega
    have n2 : ¬ c0 = 0x5e := by omega
    refine ⟨?_, rfl, c0, _, rfl, hlead⟩
    simp only [parseNameString, hp, n1, n2, if_false]
    have := parseNamePath_seg [] r c0 c1 c2 c3 t hd hlead
    simpa using this

theorem Reader.not_eof_of_cons {r : Reader} {b : Nat} {t : List Nat}
    (h : r.data.drop r.offset = b :: t) : r.EOF = false := by
  unfold Reader.EOF
  rcases Nat.lt_or_ge r.offset r.data.length with hlt | hge
  · simp [hlt]
  · rw [List.drop_eq_nil_of_le hge] at h
    cases h

/-- One turn of the loop of `parseFieldList` on a ReservedField. -/
theorem parseFieldElements_reserved (env : Env) (fuel op : Nat) (name0 name1 : Str)
    (lock : Bool) (updateRule maxReadOffset : Nat) (st : FieldListState) (p : Parser)
    (n width : Nat) (rest : List Nat) (hfit : widthFits n width)
    (hdata : p.r.data.drop p.r.offset = (FieldElement.reserved n width).encode ++ rest)
    (hlt : p.r.offset < maxReadOffset) :
    parseFieldElements env (fuel + 1) op name0 name1 lock updateRule maxReadOffset st p =
      parseFieldElements env fuel op name0 name1 lock updateRule maxReadOffset
        (FieldElement.step st (FieldElement.reserved n width))
        { p with r := { p.r with offset :=
            p.r.offset + ((FieldElement.reserved n width).encode).length } } := by
  have hd : p.r.data.drop p.r.offset = 0x00 :: (encodePkgLength n width ++ rest) := by
    simpa [FieldElement.encode] using hdata
  have heof := Reader.not_eof_of_cons hd
  obtain ⟨hrd, hd1⟩ := Reader.read_cons hd
  have hpk := parsePkgLength_at { p.r with offset := p.r.offset + 1 } n width rest hfit hd1
  have hlen : ((FieldElement.reserved n width).encode).length = 1 + (1 + n) := by
    simp [FieldElement.encode, encodePkgLength]
    omega
  rw [parseFieldElements]
  simp only [Reader.Offset, hlt, heof, decide_True, Bool.not_false, Bool.and_self, if_true, hrd,
    hpk, Bool.not_true, Bool.false_eq_true, if_false, FieldElement.step, hlen]
  simp only [Nat.add_assoc]

/-- One turn of the loop of `parseFieldList` on an AccessField. -/
theorem parseFieldElements_access (env : Env) (fuel op : Nat) (name0 name1 : Str)
    (lock : Bool) (updateRule maxReadOffset : Nat) (st : FieldListState) (p : Parser)
    (accType attrib : Nat) (rest : List Nat)
    (hdata : p.r.data.drop p.r.offset = (FieldElement.access accType attrib).encode ++ rest)
    (hlt : p.r.offset < maxReadOffset) :
    parseFieldElements env (fuel + 1) op name0 name1 lock updateRule maxReadOffset st p =
      parseFieldElements env fuel op name0 name1 lock updateRule maxReadOffset
        (FieldElement.step st (FieldElement.access accType attrib))
        { p with r := { p.r with offset :=
            p.r.offset + ((FieldElement.access accType attrib).encode).length } } := by
  have hd : p.r.data.drop p.r.offset = 0x01 :: accType :: attrib :: rest := by
    simpa [FieldElement.encode] using hdata
  have heof := Reader.not_eof_of_cons hd
  obtain ⟨hrd, hd1⟩ := Reader.read_cons hd
  obtain ⟨hrd1, hd2⟩ := Reader.read_cons (r := { p.r with offset := p.r.offset + 1 }) hd1
  obtain ⟨hrd2, _⟩ := Reader.read_cons (r := { p.r with offset := p.r.offset + 1 + 1 }) hd2
  rw [parseFieldElements]
  simp only [Reader.Offset, hlt, heof, decide_True, Bool.not_false, Bool.and_self, if_true, hrd,
    hrd1, hrd2, FieldElement.step, FieldElement.encode, List.length_cons, List.length_nil]
  simp

/-- One turn of the loop of `parseFieldList` on an ExtendedAccessField. -/
theorem parseFieldElements_extendedAccess (env : Env) (fuel op : Nat) (name0 name1 : Str)
    (lock : Bool) (updateRule maxReadOffset : Nat) (st : FieldListState) (p : Parser)
    (accType attrib length : Nat) (rest : List Nat)
    (hdata : p.r.data.drop p.r.offset =
      (FieldElement.extendedAccess accType attrib length).encode ++ rest)
    (hlt : p.r.offset < maxReadOffset) :
    parseFieldElements env (fuel + 1) op name0 name1 lock updateRule maxReadOffset st p =
      parseFieldElements env fuel op name0 name1 lock updateRule maxReadOffset
        (FieldElement.step st (FieldElement.extendedAccess accType attrib length))
        { p with r := { p.r with offset :=
            p.r.offset + ((FieldElement.extendedAccess accType attrib length).encode).length } } := by
  have hd : p.r.data.drop p.r.offset = 0x03 :: accType :: attrib :: length :: rest := by
    simpa [FieldElement.encode] using hdata
  have heof := Reader.not_eof_of_cons hd
  obtain ⟨hrd, hd1⟩ := Reader.read_cons hd
  obtain ⟨hrd1, hd2⟩ := Reader.read_cons (r := { p.r with offset := p.r.offset + 1 }) hd1
  obtain ⟨hrd2, hd3⟩ := Reader.read_cons (r := { p.r with offset := p.r.offset + 1 + 1 }) hd2
  obtain ⟨hrd3, _⟩ := Reader.read_cons (r := { p.r with offset := p.r.offset + 1 + 1 + 1 }) hd3
  rw [parseFieldElements]
  simp only [Reader.Offset, hlt, heof, decide_True, Bool.not_false, Bool.and_self, if_true, hrd,
    hrd1, hrd2, hrd3, FieldElement.step, FieldElement.encode, List.length_cons, List.length_nil]
  simp

/-- One turn of the loop of `parseFieldList` on a ConnectField that holds a name. -/
theorem parseFieldElements_connect (env : Env) (fuel op : Nat) (name0 name1 : Str)
    (lock : Bool) (updateRule maxReadOffset : Nat) (st : FieldListState) (p : Parser)
    (name : Str) (rest : List Nat) (hseg : validNameSeg name = true)
    (hdata : p.r.data.drop p.r.offset = (FieldElement.connect name).encode ++ rest)
    (hlt : p.r.offset < maxReadOffset) :
    parseFieldElements env (fuel + 1) op name0 name1 lock updateRule maxReadOffset st p =
      parseFieldElements env fuel op name0 name1 lock updateRule maxReadOffset
        (FieldElement.step st (FieldElement.connect name))
        { p with r := { p.r with offset :=
            p.r.offset + ((FieldElement.connect name).encode).length } } := by
  have hd : p.r.data.drop p.r.offset = 0x02 :: (name ++ rest) := by
    simpa [FieldElement.encode] using hdata
  have heof := Reader.not_eof_of_cons hd
  obtain ⟨hrd, hd1⟩ := Reader.read_cons hd
  obtain ⟨hnm, hlen, _⟩ :=
    parseNameString_seg { p.r with offset := p.r.offset + 1 } name rest hseg hd1
  rw [parseFieldElements]
  simp only [Reader.Offset, hlt, heof, decide_True, Bool.not_false, Bool.and_self, if_true, hrd,
    hnm, FieldElement.step, FieldElement.encode, List.length_cons, hlen]
  simp [Nat.add_assoc]

/-- One turn of the loop of `parseFieldList` on a NamedField: the field unit is created and
appended to the current scope. -/
theorem parseFieldElements_named (env : Env) (fuel op : Nat) (name0 name1 : Str)
    (lock : Bool) (updateRule maxReadOffset : Nat) (st : FieldListState) (p : Parser)
    (name : Str) (n width : Nat) (rest : List Nat) (cur : Nat) (ce e : Entity)
    (hseg : validNameSeg name = true) (hfit : widthFits n width)
    (hdata : p.r.data.drop p.r.offset = (FieldElement.named name n width).encode ++ rest)
    (hlt : p.r.offset < maxReadOffset)
    (hcur : p.scopeCurrent = some cur) (hce : p.heap[cur]? = some ce)
    (hscope : ce.isScopeEntity = true)
    (he : makeFieldEntity op name0 name1 name lock updateRule width st = some e) :
    parseFieldElements env (fuel + 1) op name0 name1 lock updateRule maxReadOffset st p =
      parseFieldElements env fuel op name0 name1 lock updateRule maxReadOffset
        (FieldElement.step st (FieldElement.named name n width))
        { p with
          r := { p.r with offset :=
            p.r.offset + ((FieldElement.named name n width).encode).length }
          heap := p.heap.set cur { ce with children := ce.children ++ [p.heap.length] } ++
            [{ e with parent := some cur }] } := by
  have hd : p.r.data.drop p.r.offset = name ++ (encodePkgLength n width ++ rest) := by
    simpa [FieldElement.encode] using hdata
  obtain ⟨hnm, hlen, c0, l, hname, hlead⟩ := parseNameString_seg p.r name _ hseg hd
  have hd0 : p.r.data.drop p.r.offset = c0 :: (l ++ (encodePkgLength n width ++ rest)) := by
    rw [hd, hname]; rfl
  have heof := Reader.not_eof_of_cons hd0
  obtain ⟨hrd, _⟩ := Reader.read_cons hd0
  have hl := (isLeadNameChar_iff c0).1 hlead
  have n0 : ¬ c0 = 0 := by omega
  have n1 : ¬ c0 = 1 := by omega
  have n2 : ¬ c0 = 2 := by omega
  have n3 : ¬ c0 = 3 := by omega
  have hun : Reader.UnreadByte { p.r with offset := p.r.offset + 1 } = p.r := by
    simp [Reader.UnreadByte]
  have hd4 : List.drop (p.r.offset + 4) p.r.data = encodePkgLength n width ++ rest := by
    have := Reader.drop_advance (l := name) hd
    rw [hlen] at this
    exact this
  have hpk := parsePkgLength_at { p.r with offset := p.r.offset + 4 } n width rest hfit hd4
  have hc2 : ∀ r : Reader, ({ p with r := r } : Parser).scopeCurrent = some cur := fun _ => hcur
  have happ := fun r : Reader => Parser.append_new { p with r := r } e ce cur hce hscope
  have hlen2 : ((FieldElement.named name n width).encode).length = 4 + (1 + n) := by
    simp [FieldElement.encode, encodePkgLength, hlen]
    omega
  rw [parseFieldElements]
  simp only [Reader.Offset, hlt, heof, decide_True, Bool.not_false, Bool.and_self, if_true, hrd,
    n0, n1, n2, n3, if_false, hun, hnm, hpk, Bool.not_true, Bool.false_eq_true, he, hc2, happ,
    FieldElement.step, hlen2]
  simp only [Nat.add_assoc]

theorem appendAll_nil (heap : List Entity) (cur : Nat) (ce : Entity)
    (hce : heap[cur]? = some ce) : appendAll heap cur ce [] = heap := by
  unfold appendAll
  simp only [List.length_nil, List.range_zero, List.map_nil, List.append_nil]
  exact List.set_self_of_getElem? heap cur ce hce

theorem appendAll_cons (heap : List Entity) (cur : Nat) (ce e : Entity) (units : List Entity)
    (hlt : cur < heap.length) :
    appendAll
        (heap.set cur { ce with children := ce.children ++ [heap.length] } ++
          [{ e with parent := some cur }])
        cur { ce with children := ce.children ++ [heap.length] } units =
      appendAll heap cur ce (e :: units) := by
  unfold appendAll
  have hr : (List.range (units.length + 1)).map (heap.length + ·) =
      heap.length :: (List.range units.length).map (heap.length + 1 + ·) := by
    rw [List.range_succ_eq_map]
    simp only [List.map_cons, List.map_map, Nat.add_zero]
    congr 1
    apply List.map_congr_left
    intro a _
    simp only [Function.comp]
    omega
  simp only [List.length_append, List.length_set, List.length_cons, List.length_nil, List.map_cons,
    hr, Nat.zero_add]
  rw [List.set_append_left _ _ (by simpa using hlt), List.set_set]
  simp

/-- The loop of `parseFieldList` run over the encoding of well-formed field elements up to
their end: it returns true at the end of the encoding, having created and appended one
entity per NamedField, in order. -/
theorem parseFieldElements_elements (env : Env) (op : Nat) (name0 name1 : Str) (lock : Bool)
    (updateRule : Nat) (hop : op = opField ∨ op = opIndexField) :
    ∀ (els : List FieldElement) (fuel : Nat) (st : FieldListState) (p : Parser) (cur : Nat)
      (ce : Entity) (rest : List Nat),
      (∀ el ∈ els, el.wellFormed) → st.ok = true →
      p.r.data.drop p.r.offset = encodeFieldList els ++ rest →
      p.scopeCurrent = some cur → p.heap[cur]? = some ce → ce.isScopeEntity = true →
      els.length < fuel →
      parseFieldElements env fuel op name0 name1 lock updateRule
          (p.r.offset + (encodeFieldList els).length) st p =
        Outcome.ok true
          { p with
            r := { p.r with offset := p.r.offset + (encodeFieldList els).length }
            heap := appendAll p.heap cur ce
              (fieldUnits op name0 name1 lock updateRule st els) } := by
  intro els
  induction els with
  | nil =>
    intro fuel st p cur ce rest _ hok _ _ hce _ hfuel
    obtain ⟨k, rfl⟩ : ∃ k, fuel = k + 1 := ⟨fuel - 1, by simp at hfuel; omega⟩
    rw [parseFieldElements]
    simp only [encodeFieldList, List.map_nil, List.flatten_nil, List.length_nil, Nat.add_zero,
      Reader.Offset, Nat.lt_irrefl, decide_False, Bool.false_and, Bool.false_eq_true, if_false,
      hok, decide_True, Bool.and_self, fieldUnits, appendAll_nil p.heap cur ce hce]
  | cons el els ih =>
    intro fuel st p cur ce rest hwf hok hdata hcur hce hscope hfuel
    obtain ⟨k, rfl⟩ : ∃ k, fuel = k + 1 := ⟨fuel - 1, by simp at hfuel; omega⟩
    have hk : els.length < k := by simp at hfuel; omega
    have hwf1 := hwf el (List.mem_cons_self _ _)
    have hwf2 : ∀ x ∈ els, x.wellFormed := fun x hx => hwf x (List.mem_cons_of_mem _ hx)
    have henc : encodeFieldList (el :: els) = el.encode ++ encodeFieldList els := by
      simp [encodeFieldList]
    have hd : p.r.data.drop p.r.offset = el.encode ++ (encodeFieldList els ++ rest) := by
      rw [hdata, henc, List.append_assoc]
    have hpos : 0 < el.encode.length := by
      cases el <;> simp [FieldElement.encode, encodePkgLength]
    have hlt : p.r.offset < p.r.offset + (encodeFieldList (el :: els)).length := by
      rw [henc, List.length_append]; omega
    have hmax : p.r.offset + (encodeFieldList (el :: els)).length =
        p.r.offset + el.encode.length + (encodeFieldList els).length := by
      rw [henc, List.length_append, Nat.add_assoc]
    have hd1 : List.drop (p.r.offset + el.encode.length) p.r.data =
        encodeFieldList els ++ rest := Reader.drop_advance hd
    have hstep : (FieldElement.step st el).ok = true := by
      cases el <;> simp [FieldElement.step, hok]
    cases el with
    | reserved n width =>
      rw [parseFieldElements_reserved env k op name0 name1 lock updateRule _ st p n width _
        hwf1 hd hlt, hmax]
      exact ih k _ { p with r := { p.r with offset := p.r.offset + _ } } cur ce rest hwf2 hstep
        hd1 hcur hce hscope hk
    | access accType attrib =>
      rw [parseFieldElements_access env k op name0 name1 lock updateRule _ st p accType attrib _
        hd hlt, hmax]
      exact ih k _ { p with r := { p.r with offset := p.r.offset + _ } } cur ce rest hwf2 hstep
        hd1 hcur hce hscope hk
    | connect name =>
      rw [parseFieldElements_connect env k op name0 name1 lock updateRule _ st p name _
        hwf1 hd hlt, hmax]
      exact ih k _ { p with r := { p.r with offset := p.r.offset + _ } } cur ce rest hwf2 hstep
        hd1 hcur hce hscope hk
    | extendedAccess accType attrib length =>
      rw [parseFieldElements_extendedAccess env k op name0 name1 lock updateRule _ st p accType
        attrib length _ hd hlt, hmax]
      exact ih k _ { p with r := { p.r with offset := p.r.offset + _ } } cur ce rest hwf2 hstep
        hd1 hcur hce hscope hk
    | named name n width =>
      obtain ⟨e, he⟩ : ∃ e, makeFieldEntity op name0 name1 name lock updateRule width st =
          some e := by
        unfold makeFieldEntity
        rcases hop with rfl | rfl
        · exact ⟨_, if_pos rfl⟩
        · exact ⟨_, by rw [if_neg (by decide), if_pos rfl]⟩
      have hcl := getElem?_lt hce
      rw [parseFieldElements_named env k op name0 name1 lock updateRule _ st p name n width _
        cur ce e hwf1.1 hwf1.2 hd hlt hcur hce hscope he, hmax]
      have := ih k (FieldElement.step st (FieldElement.named name n width))
        { p with
          r := { p.r with offset :=
            p.r.offset + ((FieldElement.named name n width).encode).length }
          heap := p.heap.set cur { ce with children := ce.children ++ [p.heap.length] } ++
            [{ e with parent := some cur }] }
        cur { ce with children := ce.children ++ [p.heap.length] } rest hwf2 hstep hd1 hcur
        (by
          show (p.heap.set cur _ ++ [_])[cur]? = some _
          rw [List.getElem?_append_left (by simpa using hcl)]
          exact List.getElem?_set_self_of_some p.heap cur ce _ hce)
        hscope hk
      rw [this]
      simp only [fieldUnits, he, Option.toList, List.singleton_append,
        appendAll_cons p.heap cur ce e _ hcl]

/-- The entities made for a field list have the names, widths and running offsets of the
layout. -/
theorem fieldUnits_layout (op : Nat) (name0 name1 : Str) (lock : Bool) (updateRule : Nat)
    (hop : op = opField ∨ op = opIndexField) : ∀ (els : List FieldElement)
      (st : FieldListState) (sum : Nat), st.curBitOffset = sum % 2 ^ 32 →
      (fieldUnits op name0 name1 lock updateRule st els).map
          (fun e => (e.name, e.bitOffset, e.bitWidth)) = fieldLayout sum els := by
  intro els
  induction els with
  | nil => intro st sum _; rfl
  | cons el els ih =>
    intro st sum hsum
    have hnext : ∀ width : Nat, (st.curBitOffset + width) % 2 ^ 32 = (sum + width) % 2 ^ 32 := by
      intro width
      rw [hsum, Nat.mod_add_mod]
    cases el with
    | reserved n width =>
      simp only [fieldUnits, fieldLayout]
      exact ih _ _ (hnext width)
    | access accType attrib =>
      simp only [fieldUnits, fieldLayout]
      exact ih _ _ hsum
    | connect name =>
      simp only [fieldUnits, fieldLayout]
      exact ih _ _ hsum
    | extendedAccess accType attrib length =>
      simp only [fieldUnits, fieldLayout]
      exact ih _ _ hsum
    | named name n width =>
      simp only [fieldUnits, fieldLayout]
      rw [List.map_append, ih _ _ (hnext width)]
      rcases hop with rfl | rfl
      · simp [makeFieldEntity, hsum]
      · simp [makeFieldEntity, hsum, show opIndexField ≠ opField from by decide]

/-- The entities made for a field list carry the lock, the update rule and the names that
were handed to `parseFieldList`. -/
theorem fieldUnits_flags (op : Nat) (name0 name1 : Str) (lock : Bool) (updateRule : Nat) :
    ∀ (els : List FieldElement) (st : FieldListState),
      ∀ e ∈ fieldUnits op name0 name1 lock updateRule st els,
        e.lock = lock ∧ e.updateRule = updateRule ∧
        (op = opField → e.kind = Kind.fieldUnit ∧ e.regionName = name0) ∧
        (op = opIndexField →
          e.kind = Kind.indexField ∧ e.indexRegName = name0 ∧ e.dataRegName = name1) := by
  intro els
  induction els with
  | nil => intro st e he; simp [fieldUnits] at he
  | cons el els ih =>
    intro st e he
    cases el with
    | reserved n width => exact ih _ e (by simpa [fieldUnits] using he)
    | access accType attrib => exact ih _ e (by simpa [fieldUnits] using he)
    | connect name => exact ih _ e (by simpa [fieldUnits] using he)
    | extendedAccess accType attrib length => exact ih _ e (by simpa [fieldUnits] using he)
    | named name n width =>
      simp only [fieldUnits, List.mem_append] at he
      rcases he with he | he
      · unfold makeFieldEntity at he
        split at he
        · rename_i h1
          simp only [Option.toList, List.mem_singleton] at he
          subst he
          refine ⟨rfl, rfl, fun _ => ⟨rfl, rfl⟩, fun h2 => ?_⟩
          rw [h1] at h2
          exact absurd h2 (by decide)
        · split at he
          · rename_i h1 h2
            simp only [Option.toList, List.mem_singleton] at he
            subst he
            exact ⟨rfl, rfl, fun h3 => absurd h3 h1, fun _ => ⟨rfl, rfl, rfl⟩⟩
          · simp [Option.toList] at he
      · exact ih _ e he

/-- The entities made for field elements without an AccessField or ExtendedAccessField have
the access type the loop was entered with, and the entities of a longer list start with
them. -/
theorem fieldUnits_access (op : Nat) (name0 name1 : Str) (lock : Bool) (updateRule : Nat) :
    ∀ (pre post : List FieldElement) (st : FieldListState),
      (∀ el ∈ pre, el.isAccess = false) →
      (∀ e ∈ fieldUnits op name0 name1 lock updateRule st pre, e.accessType = st.accessType) ∧
      ∃ st',
        fieldUnits op name0 name1 lock updateRule st (pre ++ post) =
          fieldUnits op name0 name1 lock updateRule st pre ++
            fieldUnits op name0 name1 lock updateRule st' post := by
  intro pre
  induction pre with
  | nil =>
    intro post st _
    exact ⟨fun e he => by simp [fieldUnits] at he, st, by simp [fieldUnits]⟩
  | cons el pre ih =>
    intro post st hacc
    have h1 := hacc el (List.mem_cons_self _ _)
    have h2 : ∀ x ∈ pre, x.isAccess = false := fun x hx => hacc x (List.mem_cons_of_mem _ hx)
    cases el with
    | access accType attrib => simp [FieldElement.isAccess] at h1
    | extendedAccess accType attrib length => simp [FieldElement.isAccess] at h1
    | reserved n width =>
      obtain ⟨a, st', c⟩ := ih post (FieldElement.step st (FieldElement.reserved n width)) h2
      exact ⟨fun e he => a e (by simpa [fieldUnits] using he), st',
        by simpa [fieldUnits] using c⟩
    | connect name =>
      obtain ⟨a, st', c⟩ := ih post (FieldElement.step st (FieldElement.connect name)) h2
      exact ⟨fun e he => a e (by simpa [fieldUnits] using he), st',
        by simpa [fieldUnits] using c⟩
    | named name n width =>
      obtain ⟨a, st', c⟩ :=
        ih post (FieldElement.step st (FieldElement.named name n width)) h2
      refine ⟨fun e he => ?_, st', ?_⟩
      · simp only [fieldUnits, List.mem_append] at he
        rcases he with he | he
        · unfold makeFieldEntity at he
          split at he
          · simp only [Option.toList, List.mem_singleton] at he
            subst he
            rfl
          · split at he
            · simp only [Option.toList, List.mem_singleton] at he
              subst he
              rfl
            · simp [Option.toList] at he
        · exact a e he
      · simp only [List.cons_append, fieldUnits]
        rw [List.append_assoc]
        exact congrArg
          (fun x => (makeFieldEntity op name0 name1 name lock updateRule width st).toList ++ x) c

/-- The call of `parseFieldList` on the encoding of well-formed field elements, in terms of
the entities of `fieldUnits`. -/
theorem parseFieldList_elements (env : Env) (fuel op : Nat) (args : List Value)
    (name0 name1 : Str) (flags : Nat) (els : List FieldElement) (rest : List Nat) (p : Parser)
    (cur : Nat) (ce : Entity)
    (hargs : (op = opField ∧ name1 = [] ∧ args = [Value.str name0, Value.num flags]) ∨
      (op = opIndexField ∧ args = [Value.str name0, Value.str name1, Value.num flags]))
    (hwf : ∀ el ∈ els, el.wellFormed)
    (hdata : p.r.data.drop p.r.offset = encodeFieldList els ++ rest)
    (hcur : p.scopeCurrent = some cur) (hce : p.heap[cur]? = some ce)
    (hscope : ce.isScopeEntity = true) (hfuel : els.length + 1 < fuel) :
    parseFieldList env fuel op args (p.r.offset + (encodeFieldList els).length) p =
      Outcome.ok true
        { p with
          r := { p.r with offset := p.r.offset + (encodeFieldList els).length }
          heap := appendAll p.heap cur ce
            (fieldUnits op name0 name1 (decide ((flags >>> 4) &&& 0x1 = 0x1))
              ((flags >>> 5) &&& 0x3) { ok := true, accessType := (flags &&& 0xf) % 256 }
              els) } := by
  obtain ⟨k, rfl⟩ : ∃ k, fuel = k + 1 := ⟨fuel - 1, by omega⟩
  have hop : op = opField ∨ op = opIndexField := by
    rcases hargs with h | h
    · exact Or.inl h.1
    · exact Or.inr h.1
  have hfa : fieldListArgs op args = some (name0, name1, flags, true) := by
    rcases hargs with ⟨rfl, rfl, rfl⟩ | ⟨rfl, rfl⟩
    · simp [fieldListArgs]
    · simp [fieldListArgs, show opIndexField ≠ opField from by decide]
  rw [parseFieldList, hfa]
  exact parseFieldElements_elements env op name0 name1 _ _ hop els k _ p cur ce rest hwf rfl
    hdata hcur hce hscope (by omega)

/-- C11. Field unit layout: for a field list of well-formed elements parsed under `opField`
or `opIndexField` up to its end, `parseFieldList` returns true having appended to the
current scope, in stream order, one entity per named field, each with `bitWidth` the width
its PkgLength encodes and `bitOffset` the sum modulo `2 ^ 32` of the widths of the named and
reserved fields before it. -/
theorem parseFieldList_layout (env : Env) (fuel op : Nat) (args : List Value)
    (name0 name1 : Str) (flags : Nat) (els : List FieldElement) (rest : List Nat) (p : Parser)
    (cur : Nat) (ce : Entity)
    (hargs : (op = opField ∧ args = [Value.str name0, Value.num flags]) ∨
      (op = opIndexField ∧ args = [Value.str name0, Value.str name1, Value.num flags]))
    (hwf : ∀ el ∈ els, el.wellFormed)
    (hdata : p.r.data.drop p.r.offset = encodeFieldList els ++ rest)
    (hcur : p.scopeCurrent = some cur) (hce : p.heap[cur]? = some ce)
    (hscope : ce.isScopeEntity = true) (hfuel : els.length + 1 < fuel) :
    ∃ units : List Entity,
      parseFieldList env fuel op args (p.r.offset + (encodeFieldList els).length) p =
        Outcome.ok true
          { p with
            r := { p.r with offset := p.r.offset + (encodeFieldList els).length }
            heap := appendAll p.heap cur ce units } ∧
      units.map (fun e => (e.name, e.bitOffset, e.bitWidth)) = fieldLayout 0 els := by
  rcases hargs with ⟨hop, ha⟩ | ⟨hop, ha⟩
  · exact ⟨_, parseFieldList_elements env fuel op args name0 [] flags els rest p cur ce
      (Or.inl ⟨hop, rfl, ha⟩) hwf hdata hcur hce hscope hfuel,
      fieldUnits_layout op name0 [] _ _ (Or.inl hop) els _ 0 rfl⟩
  · exact ⟨_, parseFieldList_elements env fuel op args name0 name1 flags els rest p cur ce
      (Or.inr ⟨hop, ha⟩) hwf hdata hcur hce hscope hfuel,
      fieldUnits_layout op name0 name1 _ _ (Or.inr hop) els _ 0 rfl⟩

theorem parseFieldList_layout_witness :
    ∃ units : List Entity,
      parseFieldList sampleEnv 4 opField [Value.str [0x52, 0x45, 0x47, 0x4e], Value.num 0] 10
          (parserAt [0x54, 0x45, 0x4d, 0x50, 0x08, 0x46, 0x41, 0x4e, 0x5f, 0x08] initialHeap) =
        Outcome.ok true
          { parserAt [0x54, 0x45, 0x4d, 0x50, 0x08, 0x46, 0x41, 0x4e, 0x5f, 0x08] initialHeap with
            r := ⟨[0x54, 0x45, 0x4d, 0x50, 0x08, 0x46, 0x41, 0x4e, 0x5f, 0x08], 10⟩
            heap := appendAll initialHeap 0
              { kind := Kind.scope, op := opScope, name := [0x5c], children := [1, 2, 3, 4, 5] }
              units } ∧
      units.map (fun e => (e.name, e.bitOffset, e.bitWidth)) =
        [([0x54, 0x45, 0x4d, 0x50], 0, 8), ([0x46, 0x41, 0x4e, 0x5f], 8, 8)] :=
  parseFieldList_layout sampleEnv 4 opField [Value.str [0x52, 0x45, 0x47, 0x4e], Value.num 0]
    [0x52, 0x45, 0x47, 0x4e] [] 0
    [FieldElement.named [0x54, 0x45, 0x4d, 0x50] 0 8,
      FieldElement.named [0x46, 0x41, 0x4e, 0x5f] 0 8] []
    (parserAt [0x54, 0x45, 0x4d, 0x50, 0x08, 0x46, 0x41, 0x4e, 0x5f, 0x08] initialHeap) 0
    { kind := Kind.scope, op := opScope, name := [0x5c], children := [1, 2, 3, 4, 5] }
    (Or.inl ⟨rfl, rfl⟩)
    (by
      intro el h
      simp only [List.mem_cons, List.mem_singleton, List.not_mem_nil, or_false] at h
      rcases h with rfl | rfl <;> exact ⟨by decide, by decide, by decide⟩)
    (by decide) rfl rfl rfl (by decide)

/-- C12. Field flags decoding: for the flags value `f` handed to `parseFieldList` with a
field list of well-formed elements, the entities of the elements before any AccessField or
ExtendedAccessField (the elements `pre`) have `accessType = f & 0xF`, and every entity has
`lock` = bit 4 of `f`, `updateRule = (f >> 5) & 0x3` and the region name, or the index and
data register names, of the arguments. -/
theorem parseFieldList_flags (env : Env) (fuel op : Nat) (args : List Value)
    (name0 name1 : Str) (flags : Nat) (pre post : List FieldElement) (rest : List Nat)
    (p : Parser) (cur : Nat) (ce : Entity)
    (hargs : (op = opField ∧ args = [Value.str name0, Value.num flags]) ∨
      (op = opIndexField ∧ args = [Value.str name0, Value.str name1, Value.num flags]))
    (hpre : ∀ el ∈ pre, el.isAccess = false)
    (hwf : ∀ el ∈ pre ++ post, el.wellFormed)
    (hdata : p.r.data.drop p.r.offset = encodeFieldList (pre ++ post) ++ rest)
    (hcur : p.scopeCurrent = some cur) (hce : p.heap[cur]? = some ce)
    (hscope : ce.isScopeEntity = true) (hfuel : (pre ++ post).length + 1 < fuel) :
    ∃ unitsPre unitsPost : List Entity,
      parseFieldList env fuel op args (p.r.offset + (encodeFieldList (pre ++ post)).length) p =
        Outcome.ok true
          { p with
            r := { p.r with offset := p.r.offset + (encodeFieldList (pre ++ post)).length }
            heap := appendAll p.heap cur ce (unitsPre ++ unitsPost) } ∧
      unitsPre.map (fun e => (e.name, e.bitOffset, e.bitWidth)) = fieldLayout 0 pre ∧
      (∀ e ∈ unitsPre, e.accessType = flags &&& 0xf) ∧
      ∀ e ∈ unitsPre ++ unitsPost,
        e.lock = decide ((flags >>> 4) &&& 0x1 = 0x1) ∧ e.updateRule = (flags >>> 5) &&& 0x3 ∧
        (op = opField → e.kind = Kind.fieldUnit ∧ e.regionName = name0) ∧
        (op = opIndexField →
          e.kind = Kind.indexField ∧ e.indexRegName = name0 ∧ e.dataRegName = name1) := by
  have hmod : (flags &&& 0xf) % 256 = flags &&& 0xf :=
    Nat.mod_eq_of_lt (Nat.lt_of_le_of_lt Nat.and_le_right (by decide))
  have main : ∀ (n1 : Str),
      (op = opField ∧ n1 = [] ∧ args = [Value.str name0, Value.num flags]) ∨
        (op = opIndexField ∧ args = [Value.str name0, Value.str n1, Value.num flags]) →
      (op = opIndexField → n1 = name1) →
      ∃ unitsPre unitsPost : List Entity,
        parseFieldList env fuel op args (p.r.offset + (encodeFieldList (pre ++ post)).length) p =
          Outcome.ok true
            { p with
              r := { p.r with offset := p.r.offset + (encodeFieldList (pre ++ post)).length }
              heap := appendAll p.heap cur ce (unitsPre ++ unitsPost) } ∧
        unitsPre.map (fun e => (e.name, e.bitOffset, e.bitWidth)) = fieldLayout 0 pre ∧
        (∀ e ∈ unitsPre, e.accessType = flags &&& 0xf) ∧
        ∀ e ∈ unitsPre ++ unitsPost,
          e.lock = decide ((flags >>> 4) &&& 0x1 = 0x1) ∧
          e.updateRule = (flags >>> 5) &&& 0x3 ∧
          (op = opField → e.kind = Kind.fieldUnit ∧ e.regionName = name0) ∧
          (op = opIndexField →
            e.kind = Kind.indexField ∧ e.indexRegName = name0 ∧ e.dataRegName = name1) := by
    intro n1 ha hn1
    have hop : op = opField ∨ op = opIndexField := by
      rcases ha with h | h
      · exact Or.inl h.1
      · exact Or.inr h.1
    have hrun := parseFieldList_elements env fuel op args name0 n1 flags (pre ++ post) rest p
      cur ce ha hwf hdata hcur hce hscope hfuel
    obtain ⟨hacc, st', hsplit⟩ := fieldUnits_access op name0 n1
      (decide ((flags >>> 4) &&& 0x1 = 0x1)) ((flags >>> 5) &&& 0x3) pre post
      { ok := true, accessType := (flags &&& 0xf) % 256 } hpre
    rw [hsplit] at hrun
    refine ⟨_, _, hrun, fieldUnits_layout op name0 n1 _ _ hop pre _ 0 rfl, ?_, ?_⟩
    · intro e he
      rw [hacc e he]
      exact hmod
    · intro e he
      rw [← hsplit] at he
      obtain ⟨a, b, c, d⟩ := fieldUnits_flags op name0 n1 _ _ _ _ e he
      exact ⟨a, b, c, fun h => by rw [← hn1 h]; exact d h⟩
  rcases hargs with ⟨hop, ha⟩ | ⟨hop, ha⟩
  · exact main [] (Or.inl ⟨hop, rfl, ha⟩) (fun h => by rw [hop] at h; exact absurd h (by decide))
  · exact main name1 (Or.inr ⟨hop, ha⟩) (fun _ => rfl)

theorem parseFieldList_flags_witness :
    ∃ unitsPre unitsPost : List Entity,
      parseFieldList sampleEnv 5 opField [Value.str [0x52, 0x45, 0x47, 0x4e], Value.num 0x31]
          13
          (parserAt [0x54, 0x45, 0x4d, 0x50, 0x08, 0x01, 0x02, 0x00, 0x46, 0x41, 0x4e, 0x5f, 0x08]
            initialHeap) =
        Outcome.ok true
          { parserAt [0x54, 0x45, 0x4d, 0x50, 0x08, 0x01, 0x02, 0x00, 0x46, 0x41, 0x4e, 0x5f, 0x08]
              initialHeap with
            r := ⟨[0x54, 0x45, 0x4d, 0x50, 0x08, 0x01, 0x02, 0x00, 0x46, 0x41, 0x4e, 0x5f, 0x08],
              13⟩
            heap := appendAll initialHeap 0
              { kind := Kind.scope, op := opScope, name := [0x5c], children := [1, 2, 3, 4, 5] }
              (unitsPre ++ unitsPost) } ∧
      unitsPre.map (fun e => (e.name, e.bitOffset, e.bitWidth)) =
        [([0x54, 0x45, 0x4d, 0x50], 0, 8)] ∧
      (∀ e ∈ unitsPre, e.accessType = 1) ∧
      ∀ e ∈ unitsPre ++ unitsPost,
        e.lock = true ∧ e.updateRule = 1 ∧
        (opField = opField → e.kind = Kind.fieldUnit ∧ e.regionName = [0x52, 0x45, 0x47, 0x4e]) ∧
        (opField = opIndexField →
          e.kind = Kind.indexField ∧ e.indexRegName = [0x52, 0x45, 0x47, 0x4e] ∧
            e.dataRegName = []) :=
  parseFieldList_flags sampleEnv 5 opField [Value.str [0x52, 0x45, 0x47, 0x4e], Value.num 0x31]
    [0x52, 0x45, 0x47, 0x4e] [] 0x31
    [FieldElement.named [0x54, 0x45, 0x4d, 0x50] 0 8]
    [FieldElement.access 0x02 0x00, FieldElement.named [0x46, 0x41, 0x4e, 0x5f] 0 8] []
    (parserAt [0x54, 0x45, 0x4d, 0x50, 0x08, 0x01, 0x02, 0x00, 0x46, 0x41, 0x4e, 0x5f, 0x08]
      initialHeap) 0
    { kind := Kind.scope, op := opScope, name := [0x5c], children := [1, 2, 3, 4, 5] }
    (Or.inl ⟨rfl, rfl⟩)
    (by
      intro el h
      simp only [List.mem_singleton] at h
      subst h
      rfl)
    (by
      intro el h
      simp only [List.cons_append, List.nil_append, List.mem_cons, List.mem_singleton,
        List.not_mem_nil, or_false] at h
      rcases h with rfl | rfl | rfl
      · exact ⟨by decide, by decide, by decide⟩
      · exact True.intro
      · exact ⟨by decide, by decide, by decide⟩)
    (by decide) rfl rfl rfl (by decide)

/-! ## Theorems: entity methods -/

/-- C21 (the code departs from the claim). `bufferFieldEntity.setArg`: the name is taken at
index 2 for every opcode, `CreateField` included, and at index 3 for `CreateField`; every
other index is appended and gives true.  So for `CreateField` the argument at index 2 is not
appended: it is taken as the name, and a value that is not a string clears the name and
gives false. -/
theorem bufferField_setArg_spec (e : Entity) (v : Value) (hk : e.kind = Kind.bufferField) :
    e.setArg 2 v = ({ e with name := (Entity.asString v).1 }, (Entity.asString v).2) ∧
      (e.op = opCreateField →
        e.setArg 3 v = ({ e with name := (Entity.asString v).1 }, (Entity.asString v).2)) ∧
      ∀ i : Nat, i ≠ 2 → ¬ (e.op = opCreateField ∧ i = 3) →
        e.setArg i v = ({ e with args := e.args ++ [v] }, true) := by
  refine ⟨?_, ?_, ?_⟩
  · simp [Entity.setArg, hk]
  · intro hop
    simp [Entity.setArg, hk, hop]
  · intro i h2 h3
    simp [Entity.setArg, hk, h2, h3]

theorem bufferField_setArg_spec_witness :
    sampleCreateField.setArg 2 (Value.num 8) =
        ({ sampleCreateField with name := [] }, false) ∧
      (sampleCreateField.setArg 2 (Value.num 8)).1.args = [Value.ent 7, Value.num 0] ∧
      sampleCreateField.setArg 3 (Value.str [0x41]) =
        ({ sampleCreateField with name := [0x41] }, true) :=
  ⟨(bufferField_setArg_spec sampleCreateField (Value.num 8) rfl).1, by decide,
    (bufferField_setArg_spec sampleCreateField (Value.str [0x41]) rfl).2.1 rfl⟩

/-- C22 (the code departs from the claim). `constEntity.setArg` stores the argument as the
value of the entity whatever the index is; the index only decides the returned flag.  So
`setArg(i, v)` with `i != 0` overwrites the memoized value and returns false. -/
theorem const_setArg_spec (e : Entity) (i : Nat) (v : Value) (hk : e.kind = Kind.const) :
    e.setArg i v = ({ e with val := v }, decide (i = 0)) := by
  simp [Entity.setArg, hk]

theorem const_setArg_spec_witness :
    sampleConst.setArg 1 (Value.num 7) = ({ sampleConst with val := Value.num 7 }, false) ∧
      sampleConst.val = Value.num 5 :=
  ⟨const_setArg_spec sampleConst 1 (Value.num 7) rfl, rfl⟩

/-- C23. Implicit constants: `constEntity.setOpcode` sets the value to the `uint64` 0, 1 and
`2 ^ 64 - 1` for the opcodes Zero, One and Ones, and for every other opcode it changes the
opcode only, so the stored value stays. -/
theorem const_setOpcode_spec (e : Entity) (hk : e.kind = Kind.const) :
    e.setOpcode opZero = { e with op := opZero, val := Value.num 0 } ∧
      e.setOpcode opOne = { e with op := opOne, val := Value.num 1 } ∧
      e.setOpcode opOnes = { e with op := opOnes, val := Value.num (2 ^ 64 - 1) } ∧
      ∀ op : Nat, op ≠ opZero → op ≠ opOne → op ≠ opOnes →
        e.setOpcode op = { e with op := op } ∧ (e.setOpcode op).val = e.val := by
  refine ⟨?_, ?_, ?_, ?_⟩
  · simp [Entity.setOpcode, hk]
  · simp [Entity.setOpcode, hk, opOne, opZero]
  · simp [Entity.setOpcode, hk, opOnes, opZero, opOne]
  · intro op h0 h1 h2
    simp [Entity.setOpcode, hk, h0, h1, h2]

theorem const_setOpcode_spec_witness :
    sampleConst.setOpcode opOnes =
        { sampleConst with op := opOnes, val := Value.num 18446744073709551615 } ∧
      (sampleConst.setOpcode 0x0b = { sampleConst with op := 0x0b } ∧
        (sampleConst.setOpcode 0x0b).val = sampleConst.val) :=
  ⟨(const_setOpcode_spec sampleConst rfl).2.2.1,
    (const_setOpcode_spec sampleConst rfl).2.2.2 0x0b (by decide) (by decide) (by decide)⟩

/-- C25. Argument classifiers: `opIsLocalArg` holds exactly of `Local0..Local7` and
`opIsArg` exactly of `Arg0..Arg6`, no opcode satisfies both, and the rows of
`TestOpcodeIsX` for the two classifiers come out as expected. -/
theorem opIsLocalArg_opIsArg_spec (op : Nat) :
    (opIsLocalArg op = true ↔ op ∈ [0x60, 0x61, 0x62, 0x63, 0x64, 0x65, 0x66, 0x67]) ∧
      (opIsArg op = true ↔ op ∈ [0x68, 0x69, 0x6a, 0x6b, 0x6c, 0x6d, 0x6e]) ∧
      ¬ (opIsLocalArg op = true ∧ opIsArg op = true) ∧
      opIsLocalArg opLocal0 = true ∧ opIsLocalArg opLocal7 = true ∧
      opIsLocalArg opArg0 = false ∧ opIsLocalArg opDivide = false ∧
      opIsArg opArg0 = true ∧ opIsArg opArg6 = true ∧
      opIsArg opLocal7 = false ∧ opIsArg opIf = false := by
  refine ⟨?_, ?_, ?_, by decide, by decide, by decide, by decide, by decide, by decide,
    by decide, by decide⟩
  · simp only [opIsLocalArg, opLocal0, opLocal7, decide_eq_true_eq, List.mem_cons,
      List.mem_singleton, List.not_mem_nil, or_false]
    omega
  · simp only [opIsArg, opArg0, opArg6, decide_eq_true_eq, List.mem_cons,
      List.mem_singleton, List.not_mem_nil, or_false]
    omega
  · simp only [opIsLocalArg, opIsArg, opLocal0, opLocal7, opArg0, opArg6, decide_eq_true_eq]
    omega

/-! ## Theorems: Else, Scope targets, connections, Append -/

/-- C26 (the code departs from the claim). When the Else that has just been parsed is the
only child of the current scope, `finalizeObj` removes it and then asks the empty children
list for its last element: the call faults (index out of range in `lastChild`), it does not
return false. -/
theorem finalizeObj_else_first (env : Env) (obj : Nat) (p : Parser) (cur c : Nat)
    (ce : Entity) (hcur : p.scopeCurrent = some cur) (hce : p.heap[cur]? = some ce)
    (hscope : ce.isScopeEntity = true) (hch : ce.children = [c]) :
    finalizeObj env opElse obj p = Outcome.fault := by
  have hlast : p.lastChild cur = some c := by
    simp [Parser.lastChild, hce, hscope, hch]
  have hrem : p.removeLastChild cur =
      some (c, p.update cur (fun e => { e with children := e.children.dropLast })) := by
    simp [Parser.removeLastChild, hlast]
  have hlast2 : (p.update cur (fun e => { e with children := e.children.dropLast })).lastChild
      cur = none := by
    have h1 : (p.update cur (fun e => { e with children := e.children.dropLast })).heap[cur]? =
        some { ce with children := ce.children.dropLast } := by
      simp only [Parser.update, hce]
      exact List.getElem?_set_self_of_some p.heap cur ce _ hce
    simp only [Parser.lastChild, h1]
    simp [Entity.isScopeEntity, hch] at hscope ⊢
  simp only [finalizeObj, if_true, hcur, hrem, hlast2]

set_option maxRecDepth 100000 in
theorem finalizeObj_else_first_witness :
    finalizeObj sampleEnv opElse 6
        { parserAt [0x10, 0x07, 0x5f, 0x53, 0x42, 0x5f, 0xa1, 0x01] heapWithElse with
          r := ⟨[0x10, 0x07, 0x5f, 0x53, 0x42, 0x5f, 0xa1, 0x01], 8⟩, scopeStack := [0, 3] } =
        Outcome.fault ∧
      pass1 sampleEnv 20 [0x10, 0x07, 0x5f, 0x53, 0x42, 0x5f, 0xa1, 0x01] 0 initialHeap =
        Outcome.fault ∧
      (pass1 sampleEnv 20 [0xa1, 0x01] 0 initialHeap).value? = some false :=
  ⟨finalizeObj_else_first sampleEnv 6
      { parserAt [0x10, 0x07, 0x5f, 0x53, 0x42, 0x5f, 0xa1, 0x01] heapWithElse with
        r := ⟨[0x10, 0x07, 0x5f, 0x53, 0x42, 0x5f, 0xa1, 0x01], 8⟩, scopeStack := [0, 3] }
      3 6 _ rfl rfl rfl rfl,
    by decide!, by decide!⟩

/-- C28 (the code departs from the claim). When the name of a `Scope` resolves to a named
entity that is not a scope entity, `parseScope` passes the check on the name and then
faults in the type assertion `target.(ScopeEntity)`: it does not return false. -/
theorem parseScope_non_scope_target (env : Env) (fuel maxReadOffset : Nat) (p : Parser)
    (name : Str) (r1 : Reader) (cur target : Nat) (t : Entity)
    (hname : parseNameString p.r = ((name, true), r1))
    (hcur : p.scopeCurrent = some cur)
    (hfind : env.scopeFind p.heap cur p.root name = some target)
    (ht : p.heap[target]? = some t) (hnamed : t.Name ≠ [])
    (hns : t.isScopeEntity = false) :
    parseScope env (fuel + 1) maxReadOffset p = Outcome.fault := by
  have hc2 : ({ r := r1, root := p.root, scopeStack := p.scopeStack, heap := p.heap } :
      Parser).scopeCurrent = some cur := hcur
  rw [parseScope]
  simp only [hname, Bool.not_true, Bool.false_eq_true, if_false, hc2, hfind, ht, hns]
  split <;> simp_all

set_option maxRecDepth 100000 in
theorem parseScope_non_scope_target_witness :
    parseScope sampleEnv (0 + 1) 13
        { parserAt [0x08, 0x41, 0x42, 0x43, 0x44, 0x0a, 0x2a, 0x10, 0x05, 0x41, 0x42, 0x43, 0x44]
            heapWithName with
          r := ⟨[0x08, 0x41, 0x42, 0x43, 0x44, 0x0a, 0x2a, 0x10, 0x05, 0x41, 0x42, 0x43, 0x44],
            9⟩ } = Outcome.fault ∧
      pass1 sampleEnv 20
        [0x08, 0x41, 0x42, 0x43, 0x44, 0x0a, 0x2a, 0x10, 0x05, 0x41, 0x42, 0x43, 0x44] 0
        initialHeap = Outcome.fault ∧
      ((pass1 sampleEnv 20 [0x08, 0x41, 0x42, 0x43, 0x44, 0x0a, 0x2a] 0 initialHeap).state?.map
        fun p => p.heap) = some heapWithName :=
  ⟨parseScope_non_scope_target sampleEnv 0 13
      { parserAt [0x08, 0x41, 0x42, 0x43, 0x44, 0x0a, 0x2a, 0x10, 0x05, 0x41, 0x42, 0x43, 0x44]
          heapWithName with
        r := ⟨[0x08, 0x41, 0x42, 0x43, 0x44, 0x0a, 0x2a, 0x10, 0x05, 0x41, 0x42, 0x43, 0x44],
          9⟩ }
      [0x41, 0x42, 0x43, 0x44]
      ⟨[0x08, 0x41, 0x42, 0x43, 0x44, 0x0a, 0x2a, 0x10, 0x05, 0x41, 0x42, 0x43, 0x44], 13⟩
      0 6 _ (by decide) rfl (by decide) rfl (by decide) rfl,
    by decide!, by decide!⟩

/-- C29 (the code departs from the claim). In the field list
`02 0A 05  02 "CONN"  "TEMP" 08` (a ConnectField that holds an object, a ConnectField that
holds the name `CONN`, a NamedField) the second ConnectField sets `connectionName` and
leaves `resolvedConnection` as it is: the unit `TEMP` carries the name `CONN` together with
the object of the first ConnectField (index 6).  In the other order
(`02 "CONN"  02 0A 05  "TEMP" 08`) the name is cleared. -/
theorem parseFieldList_stale_connection :
    (parseFieldList sampleEnv 20 opField [Value.str [0x52, 0x45, 0x47, 0x4e], Value.num 0] 13
        (parserAt [0x02, 0x0a, 0x05, 0x02, 0x43, 0x4f, 0x4e, 0x4e, 0x54, 0x45, 0x4d, 0x50, 0x08]
          initialHeap)).value? = some true ∧
      ((parseFieldList sampleEnv 20 opField [Value.str [0x52, 0x45, 0x47, 0x4e], Value.num 0] 13
        (parserAt [0x02, 0x0a, 0x05, 0x02, 0x43, 0x4f, 0x4e, 0x4e, 0x54, 0x45, 0x4d, 0x50, 0x08]
          initialHeap)).state?.map fun p => p.heap[7]?.map fun e => (e.kind, e.name)) =
        some (some (Kind.fieldUnit, [0x54, 0x45, 0x4d, 0x50])) ∧
      ((parseFieldList sampleEnv 20 opField [Value.str [0x52, 0x45, 0x47, 0x4e], Value.num 0] 13
        (parserAt [0x02, 0x0a, 0x05, 0x02, 0x43, 0x4f, 0x4e, 0x4e, 0x54, 0x45, 0x4d, 0x50, 0x08]
          initialHeap)).state?.map fun p =>
            p.heap[7]?.map fun e => (e.connectionName, e.resolvedConnection)) =
        some (some ([0x43, 0x4f, 0x4e, 0x4e], some 6)) ∧
      ((parseFieldList sampleEnv 20 opField [Value.str [0x52, 0x45, 0x47, 0x4e], Value.num 0] 13
        (parserAt [0x02, 0x0a, 0x05, 0x02, 0x43, 0x4f, 0x4e, 0x4e, 0x54, 0x45, 0x4d, 0x50, 0x08]
          initialHeap)).state?.map fun p => p.heap[6]?.map fun e => (e.kind, e.val)) =
        some (some (Kind.const, Value.num 5)) ∧
      ((parseFieldList sampleEnv 20 opField [Value.str [0x52, 0x45, 0x47, 0x4e], Value.num 0] 13
        (parserAt [0x02, 0x43, 0x4f, 0x4e, 0x4e, 0x02, 0x0a, 0x05, 0x54, 0x45, 0x4d, 0x50, 0x08]
          initialHeap)).state?.map fun p =>
            p.heap[7]?.map fun e => (e.connectionName, e.resolvedConnection)) =
        some (some ([], some 6)) := by
  decide!

theorem Parser.update_get_same (p : Parser) (id : Nat) (f : Entity → Entity) (e : Entity)
    (h : p.heap[id]? = some e) : (p.update id f).heap[id]? = some (f e) := by
  simp only [Parser.update, h]
  exact List.getElem?_set_self_of_some p.heap id e _ h

theorem Parser.update_get_other (p : Parser) (id j : Nat) (f : Entity → Entity)
    (h : j ≠ id) : (p.update id f).heap[j]? = p.heap[j]? := by
  unfold Parser.update
  split
  · show (p.heap.set id _)[j]? = _
    rw [List.getElem?_set, if_neg (Ne.symm h)]
  · rfl

/-- C30. Append and removeLastChild round trip: for a scope entity `s` with children `cs`
and an entity `e`, `s.Append(e)` succeeds, makes the children `cs` followed by `e` and sets
the parent of `e` to `s`; a following `s.removeLastChild()` returns `e` and restores the
children to `cs`, and the parent of `e` is still `s`. -/
theorem append_removeLastChild_roundtrip (p : Parser) (s c : Nat) (se ce : Entity)
    (hs : p.heap[s]? = some se) (hc : p.heap[c]? = some ce)
    (hscope : se.isScopeEntity = true) :
    ∃ (p1 p2 : Parser) (se1 ce1 se2 ce2 : Entity),
      p.Append s c = some p1 ∧ p1.heap[s]? = some se1 ∧ se1.children = se.children ++ [c] ∧
      p1.heap[c]? = some ce1 ∧ ce1.parent = some s ∧
      p1.removeLastChild s = some (c, p2) ∧ p2.heap[s]? = some se2 ∧
      se2.children = se.children ∧ p2.heap[c]? = some ce2 ∧ ce2.parent = some s := by
  obtain ⟨ce1, hce1, hpar1, hch1, hsc1⟩ : ∃ x : Entity,
      (p.update c (fun e => { e with parent := some s })).heap[s]? = some x ∧
        (c = s → x.parent = some s) ∧ x.children = se.children ∧
        x.isScopeEntity = true := by
    by_cases hcs : c = s
    · subst hcs
      rw [hs] at hc
      injection hc with hc
      subst hc
      exact ⟨_, Parser.update_get_same p c _ se hs, fun _ => rfl, rfl, hscope⟩
    · refine ⟨se, ?_, fun h => absurd h hcs, rfl, hscope⟩
      rw [Parser.update_get_other p c s _ (Ne.symm hcs)]
      exact hs
  have happ : p.Append s c =
      some ((p.update c (fun e => { e with parent := some s })).update s
        (fun e => { e with children := e.children ++ [c] })) := by
    simp [Parser.Append, hs, hc, hscope]
  have h1s := Parser.update_get_same (p.update c (fun e => { e with parent := some s })) s
    (fun e => { e with children := e.children ++ [c] }) ce1 hce1
  have h1c : ∃ x : Entity,
      ((p.update c (fun e => { e with parent := some s })).update s
        (fun e => { e with children := e.children ++ [c] })).heap[c]? = some x ∧
        x.parent = some s := by
    by_cases hcs : c = s
    · subst hcs
      exact ⟨_, h1s, hpar1 rfl⟩
    · refine ⟨{ ce with parent := some s }, ?_, rfl⟩
      rw [Parser.update_get_other _ s c _ hcs]
      exact Parser.update_get_same p c _ ce hc
  obtain ⟨x1, hx1, hx1p⟩ := h1c
  have hlast : Parser.lastChild ((p.update c (fun e => { e with parent := some s })).update s
      (fun e => { e with children := e.children ++ [c] })) s = some c := by
    simp only [Parser.lastChild, h1s]
    have : Entity.isScopeEntity { ce1 with children := ce1.children ++ [c] } = true := hsc1
    simp [this]
  have hrem : Parser.removeLastChild
      ((p.update c (fun e => { e with parent := some s })).update s
        (fun e => { e with children := e.children ++ [c] })) s =
      some (c, (((p.update c (fun e => { e with parent := some s })).update s
        (fun e => { e with children := e.children ++ [c] })).update s
          (fun e => { e with children := e.children.dropLast }))) := by
    simp only [Parser.removeLastChild, hlast]
  have h2s := Parser.update_get_same
    ((p.update c (fun e => { e with parent := some s })).update s
      (fun e => { e with children := e.children ++ [c] })) s
    (fun e => { e with children := e.children.dropLast }) _ h1s
  have h2c : ∃ x : Entity,
      (((p.update c (fun e => { e with parent := some s })).update s
        (fun e => { e with children := e.children ++ [c] })).update s
          (fun e => { e with children := e.children.dropLast })).heap[c]? = some x ∧
        x.parent = some s := by
    by_cases hcs : c = s
    · subst hcs
      exact ⟨_, h2s, hpar1 rfl⟩
    · refine ⟨x1, ?_, hx1p⟩
      rw [Parser.update_get_other _ s c _ hcs]
      exact hx1
  obtain ⟨x2, hx2, hx2p⟩ := h2c
  refine ⟨_, _, _, x1, _, x2, happ, h1s, ?_, hx1, hx1p, hrem, h2s, ?_, hx2, hx2p⟩
  · simp [hch1]
  · simp [hch1]

theorem append_removeLastChild_roundtrip_witness :
    ∃ (p1 p2 : Parser) (se1 ce1 se2 ce2 : Entity),
      (parserAt [] heapWithName).Append 3 6 = some p1 ∧ p1.heap[3]? = some se1 ∧
      se1.children = [] ++ [6] ∧ p1.heap[6]? = some ce1 ∧ ce1.parent = some 3 ∧
      p1.removeLastChild 3 = some (6, p2) ∧ p2.heap[3]? = some se2 ∧
      se2.children = [] ∧ p2.heap[6]? = some ce2 ∧ ce2.parent = some 3 :=
  append_removeLastChild_roundtrip (parserAt [] heapWithName) 3 6 _ _ rfl rfl rfl

/-! ## Theorems: the multiboot tag chain -/

namespace Multiboot

/-- For a size below `2 ^ 31 - 7` the step of `findTagByType` is the size rounded up to a
multiple of 8. -/
theorem tagStep_small (ptrBits size : Nat) (h32 : 32 ≤ ptrBits) (hsize : size + 7 < 2 ^ 31) :
    tagStep ptrBits size = roundUp8 size := by
  have hp : (2 : Nat) ^ 32 ≤ 2 ^ ptrBits := Nat.pow_le_pow_right (by decide) h32
  have h1 : (size + 7) % 2 ^ 32 = size + 7 := Nat.mod_eq_of_lt (by omega)
  have h2 : size + 7 - (size + 7) % 8 = roundUp8 size := by
    unfold roundUp8
    omega
  unfold tagStep
  simp only [h1, h2]
  have h3 : roundUp8 size < 2 ^ 31 := by
    rw [← h2]; omega
  rw [if_pos h3]
  exact Nat.mod_eq_of_lt (by omega)

/-- The loop of `findTagByType` walks the chain of the claim as long as the tags are below
`2 ^ 31 - 7` in size and of another type than the one looked for. -/
theorem findTagLoop_walk (ptrBits : Nat) (mem : Nat → Nat) (infoData t : Nat)
    (h32 : 32 ≤ ptrBits) : ∀ (k fuel : Nat),
    (∀ j < k, tagTypeAt mem (tagChain mem infoData j) ≠ tagMbSectionEnd) →
    (∀ j < k, tagTypeAt mem (tagChain mem infoData j) ≠ t) →
    (∀ j < k, tagSizeAt mem (tagChain mem infoData j) + 7 < 2 ^ 31) →
    (∀ j ≤ k, tagChain mem infoData j < 2 ^ ptrBits) →
    findTagByType ptrBits mem infoData (fuel + k) t =
      findTagLoop ptrBits mem t fuel (tagChain mem infoData k) := by
  intro k
  induction k with
  | zero =>
    intro fuel _ _ _ haddr
    have := haddr 0 (Nat.le_refl _)
    simp only [tagChain] at this
    simp only [findTagByType, Nat.add_zero, tagChain, Nat.mod_eq_of_lt this]
  | succ k ih =>
    intro fuel hend ht hsize haddr
    have h := ih (fuel + 1) (fun j hj => hend j (by omega)) (fun j hj => ht j (by omega))
      (fun j hj => hsize j (by omega)) (fun j hj => haddr j (by omega))
    have e : fuel + (k + 1) = fuel + 1 + k := by omega
    rw [e, h, findTagLoop, if_neg (hend k (by omega)), if_neg (ht k (by omega)),
      tagStep_small ptrBits _ h32 (hsize k (by omega))]
    have := haddr (k + 1) (Nat.le_refl _)
    simp only [tagChain] at this ⊢
    rw [Nat.mod_eq_of_lt this]

/-- What `findTagByType` does on a chain whose tags before the end tag are below
`2 ^ 31 - 7` in size: for the first tag of type `t` it returns the address of the tag plus
8 and its size minus 8 (in `uint32`), and `(0, 0)` when no tag before the end tag has type
`t`. -/
theorem findTagByType_small_tags (ptrBits : Nat) (mem : Nat → Nat) (infoData n t fuel : Nat)
    (h32 : 32 ≤ ptrBits) (hfuel : n < fuel)
    (hend : tagTypeAt mem (tagChain mem infoData n) = tagMbSectionEnd)
    (hbefore : ∀ j < n, tagTypeAt mem (tagChain mem infoData j) ≠ tagMbSectionEnd)
    (hsize : ∀ j < n, tagSizeAt mem (tagChain mem infoData j) + 7 < 2 ^ 31)
    (haddr : ∀ j ≤ n, tagChain mem infoData j < 2 ^ ptrBits) :
    (∀ k < n, tagTypeAt mem (tagChain mem infoData k) = t →
        (∀ j < k, tagTypeAt mem (tagChain mem infoData j) ≠ t) →
        findTagByType ptrBits mem infoData fuel t =
          some ((tagChain mem infoData k + 8) % 2 ^ ptrBits,
            (tagSizeAt mem (tagChain mem infoData k) + 2 ^ 32 - 8) % 2 ^ 32)) ∧
      ((∀ j < n, tagTypeAt mem (tagChain mem infoData j) ≠ t) →
        findTagByType ptrBits mem infoData fuel t = some (0, 0)) := by
  constructor
  · intro k hk htype hfirst
    obtain ⟨f, rfl⟩ : ∃ f, fuel = f + 1 + k := ⟨fuel - 1 - k, by omega⟩
    rw [findTagLoop_walk ptrBits mem infoData t h32 k (f + 1)
      (fun j hj => hbefore j (by omega)) hfirst (fun j hj => hsize j (by omega))
      (fun j hj => haddr j (by omega))]
    rw [findTagLoop, if_neg (hbefore k hk), if_pos htype]
  · intro hnone
    obtain ⟨f, rfl⟩ : ∃ f, fuel = f + 1 + n := ⟨fuel - 1 - n, by omega⟩
    rw [findTagLoop_walk ptrBits mem infoData t h32 n (f + 1) hbefore hnone hsize haddr]
    rw [findTagLoop, if_pos hend]

theorem findTagByType_small_tags_example :
    findTagByType 64 smallTagMemory 0x1000 3 6 = some (0x1018 + 8, 24 - 8) ∧
      findTagByType 64 smallTagMemory 0x1000 3 4 = some (0, 0) ∧
      findTagByType 64 smallTagMemory 0x1000 3 tagMbSectionEnd = some (0, 0) := by
  decide

/-- C24 (the code departs from the claim). With a 64-bit `uintptr`, a tag of size
`0x80000000` makes the step `uintptr(int32(size+7) & ^7)` negative: in `hugeTagMemory` the
chain of the claim goes from the tag at `0x100000008` to the tag of type 6 at `0x180000008`
and then to the end tag, but `findTagByType` steps back by `2 ^ 31` to `0x80000008`, finds
the type 0 there and returns `(0, 0)` for type 6 instead of `(0x180000010, 8)`. -/
theorem findTagByType_sign_extension :
    tagChain hugeTagMemory 0x100000000 0 = 0x100000008 ∧
      tagChain hugeTagMemory 0x100000000 1 = 0x180000008 ∧
      tagTypeAt hugeTagMemory (tagChain hugeTagMemory 0x100000000 1) = 6 ∧
      tagSizeAt hugeTagMemory (tagChain hugeTagMemory 0x100000000 1) = 16 ∧
      tagTypeAt hugeTagMemory (tagChain hugeTagMemory 0x100000000 2) = tagMbSectionEnd ∧
      tagStep 64 0x80000000 = 2 ^ 64 - 2 ^ 31 ∧
      (0x100000008 + tagStep 64 0x80000000) % 2 ^ 64 = 0x80000008 ∧
      findTagByType 64 hugeTagMemory 0x100000000 5 6 = some (0, 0) := by
  decide

end Multiboot

/-! ## Theorems: the scope stack -/

theorem stack_ok {s : List Nat} {α : Type} {a : α} {p : Parser} (h : p.scopeStack = s) :
    SameStack s (Outcome.ok a p) := by
  intro a' p' heq
  cases heq
  exact h

theorem stack_fault {s : List Nat} {α : Type} : SameStack s (Outcome.fault : Outcome α) := by
  intro a' p' heq
  cases heq

theorem stack_noFuel {s : List Nat} {α : Type} :
    SameStack s (Outcome.noFuel : Outcome α) := by
  intro a' p' heq
  cases heq

theorem stack_bind {s : List Nat} {α β : Type} {x : Outcome α}
    {f : α → Parser → Outcome β} (hx : SameStack s x)
    (hf : ∀ a p, p.scopeStack = s → SameStack s (f a p)) : SameStack s (x.bind f) := by
  cases x with
  | ok a p => exact hf a p (hx a p rfl)
  | fault => exact stack_fault
  | noFuel => exact stack_noFuel

/-- The TermList of a scope: the object list is parsed with the scope `t` on top of the
stack `s`, and what follows starts with `t` still on the stack. -/
theorem stack_scoped {env : Env} {fuel : Nat} (ih : AllStack env fuel) {s : List Nat}
    (t : Nat) {maxOffset : Nat} {P : Parser} {β : Type} {f : Bool → Parser → Outcome β}
    (hP : P.scopeStack = s ++ [t])
    (hf : ∀ a p, p.scopeStack = s ++ [t] → SameStack s (f a p)) :
    SameStack s ((parseObjList env fuel maxOffset P).bind f) := by
  have hx := ih.objList (s ++ [t]) maxOffset P hP
  cases hobj : parseObjList env fuel maxOffset P with
  | ok a p => exact hf a p (hx a p hobj)
  | fault => exact stack_fault
  | noFuel => exact stack_noFuel

/-- The TermList of a scope that has just been entered. -/
theorem stack_scoped_enter {env : Env} {fuel : Nat} (ih : AllStack env fuel) {s : List Nat}
    {t maxOffset : Nat} {p1 : Parser} {β : Type} {f : Bool → Parser → Outcome β}
    (h : p1.scopeStack = s)
    (hf : ∀ a p, p.scopeStack = s ++ [t] → SameStack s (f a p)) :
    SameStack s ((parseObjList env fuel maxOffset (p1.scopeEnter t)).bind f) :=
  stack_scoped ih t (by simp [Parser.scopeEnter, h]) hf

theorem stack_reader {s : List Nat} {p : Parser} (r : Reader) (h : p.scopeStack = s) :
    ({ p with r := r } : Parser).scopeStack = s := h

theorem stack_update {s : List Nat} {p : Parser} (h : p.scopeStack = s) (id : Nat)
    (f : Entity → Entity) : (p.update id f).scopeStack = s := by
  unfold Parser.update
  split
  · exact h
  · exact h

theorem stack_alloc {s : List Nat} {p : Parser} (h : p.scopeStack = s) (e : Entity) :
    (p.alloc e).2.scopeStack = s := h

theorem stack_enter {s : List Nat} {p : Parser} (h : p.scopeStack = s) (t : Nat) :
    (p.scopeEnter t).scopeStack = s ++ [t] := by
  simp [Parser.scopeEnter, h]

theorem stack_append {s : List Nat} {p p' : Parser} {c1 c2 : Nat}
    (happ : p.Append c1 c2 = some p') (h : p.scopeStack = s) : p'.scopeStack = s := by
  unfold Parser.Append at happ
  split at happ
  · split at happ
    · injection happ with happ
      rw [← happ]
      exact stack_update (stack_update h _ _) _ _
    · cases happ
  · cases happ

theorem stack_append_new {s : List Nat} {p p' : Parser} {e : Entity} {c1 c2 : Nat}
    (happ : (p.alloc e).2.Append c1 c2 = some p') (h : p.scopeStack = s) :
    p'.scopeStack = s :=
  stack_append happ (stack_alloc h e)

theorem stack_scopeExit {s : List Nat} {t : Nat} {p p' : Parser}
    (hexit : p.scopeExit = some p') (h : p.scopeStack = s ++ [t]) : p'.scopeStack = s := by
  unfold Parser.scopeExit at hexit
  split at hexit
  · cases hexit
  · injection hexit with hexit
    rw [← hexit]
    simp [h]

theorem stack_removeLastChild {s : List Nat} {p p' : Parser} {c1 c2 : Nat}
    (hr : p.removeLastChild c1 = some (c2, p')) (h : p.scopeStack = s) :
    p'.scopeStack = s := by
  unfold Parser.removeLastChild at hr
  split at hr
  · cases hr
    exact stack_update h _ _
  · cases hr

theorem stack_setArg {s : List Nat} {p p' : Parser} {id i : Nat} {v : Value} {b : Bool}
    (hs : p.setArg id i v = some (p', b)) (h : p.scopeStack = s) : p'.scopeStack = s := by
  unfold Parser.setArg at hs
  split at hs
  · cases hs
    exact stack_update h _ _
  · cases hs

theorem stack_finishArg {s : List Nat} {obj argIndex : Nat} {arg : Value} {ok : Bool}
    {p : Parser} (h : p.scopeStack = s) : SameStack s (finishArg obj argIndex arg ok p) := by
  unfold finishArg
  split
  · exact stack_ok h
  · split
    · exact stack_fault
    · rename_i hs
      exact stack_ok (stack_setArg hs h)

theorem stack_finalizeObj {s : List Nat} {env : Env} {op obj : Nat} {p : Parser}
    (h : p.scopeStack = s) : SameStack s (finalizeObj env op obj p) := by
  unfold finalizeObj
  split
  · split
    · exact stack_fault
    · split
      · exact stack_fault
      · rename_i hr
        have h1 := stack_removeLastChild hr h
        split
        · exact stack_fault
        · split
          · exact stack_fault
          · split
            · exact stack_ok h1
            · split
              · exact stack_fault
              · rename_i hs
                exact stack_ok (stack_setArg hs h1)
  · split
    · split
      · split
        · exact stack_ok (stack_update h _ _)
        · exact stack_fault
      · exact stack_fault
    · exact stack_ok h

theorem stack_popChild {s : List Nat} {p : Parser} (h : p.scopeStack = s) :
    SameStack s (match p.scopeCurrent with
      | none => Outcome.fault
      | some cur =>
        match p.removeLastChild cur with
        | none => Outcome.fault
        | some (child, p) => Outcome.ok (Value.ent child, true) p) := by
  split
  · exact stack_fault
  · split
    · exact stack_fault
    · rename_i hr
      exact stack_ok (stack_removeLastChild hr h)

theorem allStack_zero (env : Env) : AllStack env 0 := by
  constructor <;> intros <;> first
    | (rw [parseObjList]; exact stack_noFuel)
    | (rw [parseObj]; exact stack_noFuel)
    | (rw [parseArgs]; exact stack_noFuel)
    | (rw [parseArg]; exact stack_noFuel)
    | (rw [parseArgObj]; exact stack_noFuel)
    | (rw [parseMethodInvocationOrNameRef]; exact stack_noFuel)
    | (rw [parseInvocationArgs]; exact stack_noFuel)
    | (rw [parseScope]; exact stack_noFuel)
    | (rw [parseNamespacedObj]; exact stack_noFuel)
    | (rw [parseSuperName]; exact stack_noFuel)
    | (rw [parseTarget]; exact stack_noFuel)
    | (rw [parseFieldList]; exact stack_noFuel)
    | (rw [parseFieldElements]; exact stack_noFuel)

set_option linter.unusedVariables false in
set_option linter.unreachableTactic false in
set_option linter.unusedTactic false in
set_option maxHeartbeats 1000000 in
theorem stack_parseObjList (env : Env) (fuel : Nat) (ih : AllStack env fuel) (s : List Nat)
    (maxOffset : Nat) (p : Parser) (h : p.scopeStack = s) :
    SameStack s (parseObjList env (fuel + 1) maxOffset p) := by
  rw [parseObjList]
  repeat' first
    | exact stack_fault
    | exact stack_noFuel
    | with_reducible apply stack_ok
    | with_reducible apply stack_finishArg
    | with_reducible apply stack_finalizeObj
    | with_reducible apply stack_popChild
    | with_reducible apply ih.objList
    | with_reducible apply ih.obj
    | with_reducible apply ih.args
    | with_reducible apply ih.arg
    | with_reducible apply ih.argObj
    | with_reducible apply ih.invocation
    | with_reducible apply ih.invocationArgs
    | with_reducible apply ih.scope
    | with_reducible apply ih.namespacedObj
    | with_reducible apply ih.superName
    | with_reducible apply ih.target
    | with_reducible apply ih.fieldList
    | with_reducible apply ih.fieldElements
    | with_reducible refine stack_scoped_enter ih ?_ (fun _ _ _ => ?_)
    | with_reducible refine stack_bind ?_ (fun _ _ _ => ?_)
    | assumption
    | exact stack_reader _ (by assumption)
    | exact stack_alloc (stack_reader _ (by assumption)) _
    | exact stack_alloc (by assumption) _
    | exact stack_append_new (by assumption) (by assumption)
    | exact stack_append_new (by assumption) (stack_reader _ (by assumption))
    | exact stack_scopeExit (by assumption) (by assumption)
    | exact stack_removeLastChild (by assumption) (by assumption)
    | exact stack_enter (by assumption) _
    | exact stack_enter (stack_reader _ (by assumption)) _
    | exact stack_enter (stack_append_new (by assumption) (by assumption)) _
    | exact stack_enter (stack_append_new (by assumption) (stack_reader _ (by assumption))) _
    | split

set_option linter.unusedVariables false in
set_option linter.unreachableTactic false in
set_option linter.unusedTactic false in
set_option maxHeartbeats 1000000 in
theorem stack_parseObj (env : Env) (fuel : Nat) (ih : AllStack env fuel) (s : List Nat)
    (p : Parser) (h : p.scopeStack = s) :
    SameStack s (parseObj env (fuel + 1) p) := by
  rw [parseObj]
  try dsimp only
  repeat' first
    | exact stack_fault
    | exact stack_noFuel
    | with_reducible apply stack_ok
    | with_reducible apply stack_finishArg
    | with_reducible apply stack_finalizeObj
    | with_reducible apply stack_popChild
    | with_reducible apply ih.objList
    | with_reducible apply ih.obj
    | with_reducible apply ih.args
    | with_reducible apply ih.arg
    | with_reducible apply ih.argObj
    | with_reducible apply ih.invocation
    | with_reducible apply ih.invocationArgs
    | with_reducible apply ih.scope
    | with_reducible apply ih.namespacedObj
    | with_reducible apply ih.superName
    | with_reducible apply ih.target
    | with_reducible apply ih.fieldList
    | with_reducible apply ih.fieldElements
    | with_reducible refine stack_scoped_enter ih ?_ (fun _ _ _ => ?_)
    | with_reducible refine stack_bind ?_ (fun _ _ _ => ?_)
    | assumption
    | exact stack_reader _ (by assumption)
    | exact stack_alloc (stack_reader _ (by assumption)) _
    | exact stack_alloc (by assumption) _
    | exact stack_append_new (by assumption) (by assumption)
    | exact stack_append_new (by assumption) (stack_reader _ (by assumption))
    | exact stack_scopeExit (by assumption) (by assumption)
    | exact stack_removeLastChild (by assumption) (by assumption)
    | exact stack_enter (by assumption) _
    | exact stack_enter (stack_reader _ (by assumption)) _
    | exact stack_enter (stack_append_new (by assumption) (by assumption)) _
    | exact stack_enter (stack_append_new (by assumption) (stack_reader _ (by assumption))) _
    | split

set_option linter.unusedVariables false in
set_option linter.unreachableTactic false in
set_option linter.unusedTactic false in
set_option maxHeartbeats 1000000 in
theorem stack_parseArgs (env : Env) (fuel : Nat) (ih : AllStack env fuel) (s : List Nat)
    (info : OpcodeInfo) (obj argIndex maxReadOffset : Nat) (p : Parser) (h : p.scopeStack = s) :
    SameStack s (parseArgs env (fuel + 1) info obj argIndex maxReadOffset p) := by
  rw [parseArgs]
  repeat' first
    | exact stack_fault
    | exact stack_noFuel
    | with_reducible apply stack_ok
    | with_reducible apply stack_finishArg
    | with_reducible apply stack_finalizeObj
    | with_reducible apply stack_popChild
    | with_reducible apply ih.objList
    | with_reducible apply ih.obj
    | with_reducible apply ih.args
    | with_reducible apply ih.arg
    | with_reducible apply ih.argObj
    | with_reducible apply ih.invocation
    | with_reducible apply ih.invocationArgs
    | with_reducible apply ih.scope
    | with_reducible apply ih.namespacedObj
    | with_reducible apply ih.superName
    | with_reducible apply ih.target
    | with_reducible apply ih.fieldList
    | with_reducible apply ih.fieldElements
    | with_reducible refine stack_scoped_enter ih ?_ (fun _ _ _ => ?_)
    | with_reducible refine stack_bind ?_ (fun _ _ _ => ?_)
    | assumption
    | exact stack_reader _ (by assumption)
    | exact stack_alloc (stack_reader _ (by assumption)) _
    | exact stack_alloc (by assumption) _
    | exact stack_append_new (by assumption) (by assumption)
    | exact stack_append_new (by assumption) (stack_reader _ (by assumption))
    | exact stack_scopeExit (by assumption) (by assumption)
    | exact stack_removeLastChild (by assumption) (by assumption)
    | exact stack_enter (by assumption) _
    | exact stack_enter (stack_reader _ (by assumption)) _
    | exact stack_enter (stack_append_new (by assumption) (by assumption)) _
    | exact stack_enter (stack_append_new (by assumption) (stack_reader _ (by assumption))) _
    | split

set_option linter.unusedVariables false in
set_option linter.unreachableTactic false in
set_option linter.unusedTactic false in
set_option maxHeartbeats 1000000 in
theorem stack_parseArgObj (env : Env) (fuel : Nat) (ih : AllStack env fuel) (s : List Nat)
    (p : Parser) (h : p.scopeStack = s) :
    SameStack s (parseArgObj env (fuel + 1) p) := by
  rw [parseArgObj]
  repeat' first
    | exact stack_fault
    | exact stack_noFuel
    | with_reducible apply stack_ok
    | with_reducible apply stack_finishArg
    | with_reducible apply stack_finalizeObj
    | with_reducible apply stack_popChild
    | with_reducible apply ih.objList
    | with_reducible apply ih.obj
    | with_reducible apply ih.args
    | with_reducible apply ih.arg
    | with_reducible apply ih.argObj
    | with_reducible apply ih.invocation
    | with_reducible apply ih.invocationArgs
    | with_reducible apply ih.scope
    | with_reducible apply ih.namespacedObj
    | with_reducible apply ih.superName
    | with_reducible apply ih.target
    | with_reducible apply ih.fieldList
    | with_reducible apply ih.fieldElements
    | with_reducible refine stack_scoped_enter ih ?_ (fun _ _ _ => ?_)
    | with_reducible refine stack_bind ?_ (fun _ _ _ => ?_)
    | assumption
    | exact stack_reader _ (by assumption)
    | exact stack_alloc (stack_reader _ (by assumption)) _
    | exact stack_alloc (by assumption) _
    | exact stack_append_new (by assumption) (by assumption)
    | exact stack_append_new (by assumption) (stack_reader _ (by assumption))
    | exact stack_scopeExit (by assumption) (by assumption)
    | exact stack_removeLastChild (by assumption) (by assumption)
    | exact stack_enter (by assumption) _
    | exact stack_enter (stack_reader _ (by assumption)) _
    | exact stack_enter (stack_append_new (by assumption) (by assumption)) _
    | exact stack_enter (stack_append_new (by assumption) (stack_reader _ (by assumption))) _
    | split

set_option linter.unusedVariables false in
set_option linter.unreachableTactic false in
set_option linter.unusedTactic false in
set_option maxHeartbeats 1000000 in
theorem stack_parseMethodInvocationOrNameRef (env : Env) (fuel : Nat) (ih : AllStack env fuel) (s : List Nat)
    (p : Parser) (h : p.scopeStack = s) :
    SameStack s (parseMethodInvocationOrNameRef env (fuel + 1) p) := by
  rw [parseMethodInvocationOrNameRef]
  try dsimp only
  repeat' first
    | exact stack_fault
    | exact stack_noFuel
    | with_reducible apply stack_ok
    | with_reducible apply stack_finishArg
    | with_reducible apply stack_finalizeObj
    | with_reducible apply stack_popChild
    | with_reducible apply ih.objList
    | with_reducible apply ih.obj
    | with_reducible apply ih.args
    | with_reducible apply ih.arg
    | with_reducible apply ih.argObj
    | with_reducible apply ih.invocation
    | with_reducible apply ih.invocationArgs
    | with_reducible apply ih.scope
    | with_reducible apply ih.namespacedObj
    | with_reducible apply ih.superName
    | with_reducible apply ih.target
    | with_reducible apply ih.fieldList
    | with_reducible apply ih.fieldElements
    | with_reducible refine stack_scoped_enter ih ?_ (fun _ _ _ => ?_)
    | with_reducible refine stack_bind ?_ (fun _ _ _ => ?_)
    | assumption
    | exact stack_reader _ (by assumption)
    | exact stack_alloc (stack_reader _ (by assumption)) _
    | exact stack_alloc (by assumption) _
    | exact stack_append_new (by assumption) (by assumption)
    | exact stack_append_new (by assumption) (stack_reader _ (by assumption))
    | exact stack_scopeExit (by assumption) (by assumption)
    | exact stack_removeLastChild (by assumption) (by assumption)
    | exact stack_enter (by assumption) _
    | exact stack_enter (stack_reader _ (by assumption)) _
    | exact stack_enter (stack_append_new (by assumption) (by assumption)) _
    | exact stack_enter (stack_append_new (by assumption) (stack_reader _ (by assumption))) _
    | split

set_option linter.unusedVariables false in
set_option linter.unreachableTactic false in
set_option linter.unusedTactic false in
set_option maxHeartbeats 1000000 in
theorem stack_parseInvocationArgs (env : Env) (fuel : Nat) (ih : AllStack env fuel) (s : List Nat)
    (methodDef argIndex : Nat) (args : List Value) (p : Parser) (h : p.scopeStack = s) :
    SameStack s (parseInvocationArgs env (fuel + 1) methodDef argIndex args p) := by
  rw [parseInvocationArgs]
  try dsimp only
  repeat' first
    | exact stack_fault
    | exact stack_noFuel
    | with_reducible apply stack_ok
    | with_reducible apply stack_finishArg
    | with_reducible apply stack_finalizeObj
    | with_reducible apply stack_popChild
    | with_reducible apply ih.objList
    | with_reducible apply ih.obj
    | with_reducible apply ih.args
    | with_reducible apply ih.arg
    | with_reducible apply ih.argObj
    | with_reducible apply ih.invocation
    | with_reducible apply ih.invocationArgs
    | with_reducible apply ih.scope
    | with_reducible apply ih.namespacedObj
    | with_reducible apply ih.superName
    | with_reducible apply ih.target
    | with_reducible apply ih.fieldList
    | with_reducible apply ih.fieldElements
    | with_reducible refine stack_scoped_enter ih ?_ (fun _ _ _ => ?_)
    | with_reducible refine stack_bind ?_ (fun _ _ _ => ?_)
    | assumption
    | exact stack_reader _ (by assumption)
    | exact stack_alloc (stack_reader _ (by assumption)) _
    | exact stack_alloc (by assumption) _
    | exact stack_append_new (by assumption) (by assumption)
    | exact stack_append_new (by assumption) (stack_reader _ (by assumption))
    | exact stack_scopeExit (by assumption) (by assumption)
    | exact stack_removeLastChild (by assumption) (by assumption)
    | exact stack_enter (by assumption) _
    | exact stack_enter (stack_reader _ (by assumption)) _
    | exact stack_enter (stack_append_new (by assumption) (by assumption)) _
    | exact stack_enter (stack_append_new (by assumption) (stack_reader _ (by assumption))) _
    | split

set_option linter.unusedVariables false in
set_option linter.unreachableTactic false in
set_option linter.unusedTactic false in
set_option maxHeartbeats 1000000 in
theorem stack_parseScope (env : Env) (fuel : Nat) (ih : AllStack env fuel) (s : List Nat)
    (maxReadOffset : Nat) (p : Parser) (h : p.scopeStack = s) :
    SameStack s (parseScope env (fuel + 1) maxReadOffset p) := by
  rw [parseScope]
  try dsimp only
  repeat' first
    | exact stack_fault
    | exact stack_noFuel
    | with_reducible apply stack_ok
    | with_reducible apply stack_finishArg
    | with_reducible apply stack_finalizeObj
    | with_reducible apply stack_popChild
    | with_reducible apply ih.objList
    | with_reducible apply ih.obj
    | with_reducible apply ih.args
    | with_reducible apply ih.arg
    | with_reducible apply ih.argObj
    | with_reducible apply ih.invocation
    | with_reducible apply ih.invocationArgs
    | with_reducible apply ih.scope
    | with_reducible apply ih.namespacedObj
    | with_reducible apply ih.superName
    | with_reducible apply ih.target
    | with_reducible apply ih.fieldList
    | with_reducible apply ih.fieldElements
    | with_reducible refine stack_scoped_enter ih ?_ (fun _ _ _ => ?_)
    | with_reducible refine stack_bind ?_ (fun _ _ _ => ?_)
    | assumption
    | exact stack_reader _ (by assumption)
    | exact stack_alloc (stack_reader _ (by assumption)) _
    | exact stack_alloc (by assumption) _
    | exact stack_append_new (by assumption) (by assumption)
    | exact stack_append_new (by assumption) (stack_reader _ (by assumption))
    | exact stack_scopeExit (by assumption) (by assumption)
    | exact stack_removeLastChild (by assumption) (by assumption)
    | exact stack_enter (by assumption) _
    | exact stack_enter (stack_reader _ (by assumption)) _
    | exact stack_enter (stack_append_new (by assumption) (by assumption)) _
    | exact stack_enter (stack_append_new (by assumption) (stack_reader _ (by assumption))) _
    | split

set_option linter.unusedVariables false in
set_option linter.unreachableTactic false in
set_option linter.unusedTactic false in
set_option maxHeartbeats 1000000 in
theorem stack_parseNamespacedObj (env : Env) (fuel : Nat) (ih : AllStack env fuel) (s : List Nat)
    (op maxReadOffset : Nat) (p : Parser) (h : p.scopeStack = s) :
    SameStack s (parseNamespacedObj env (fuel + 1) op maxReadOffset p) := by
  rw [parseNamespacedObj]
  try dsimp only
  repeat' first
    | exact stack_fault
    | exact stack_noFuel
    | with_reducible apply stack_ok
    | with_reducible apply stack_finishArg
    | with_reducible apply stack_finalizeObj
    | with_reducible apply stack_popChild
    | with_reducible apply ih.objList
    | with_reducible apply ih.obj
    | with_reducible apply ih.args
    | with_reducible apply ih.arg
    | with_reducible apply ih.argObj
    | with_reducible apply ih.invocation
    | with_reducible apply ih.invocationArgs
    | with_reducible apply ih.scope
    | with_reducible apply ih.namespacedObj
    | with_reducible apply ih.superName
    | with_reducible apply ih.target
    | with_reducible apply ih.fieldList
    | with_reducible apply ih.fieldElements
    | with_reducible refine stack_scoped_enter ih ?_ (fun _ _ _ => ?_)
    | with_reducible refine stack_bind ?_ (fun _ _ _ => ?_)
    | assumption
    | exact stack_reader _ (by assumption)
    | exact stack_alloc (stack_reader _ (by assumption)) _
    | exact stack_alloc (by assumption) _
    | exact stack_append_new (by assumption) (by assumption)
    | exact stack_append_new (by assumption) (stack_reader _ (by assumption))
    | exact stack_scopeExit (by assumption) (by assumption)
    | exact stack_removeLastChild (by assumption) (by assumption)
    | exact stack_enter (by assumption) _
    | exact stack_enter (stack_reader _ (by assumption)) _
    | exact stack_enter (stack_append_new (by assumption) (by assumption)) _
    | exact stack_enter (stack_append_new (by assumption) (stack_reader _ (by assumption))) _
    | split

set_option linter.unusedVariables false in
set_option linter.unreachableTactic false in
set_option linter.unusedTactic false in
set_option maxHeartbeats 1000000 in
theorem stack_parseSuperName (env : Env) (fuel : Nat) (ih : AllStack env fuel) (s : List Nat)
    (p : Parser) (h : p.scopeStack = s) :
    SameStack s (parseSuperName env (fuel + 1) p) := by
  rw [parseSuperName]
  try dsimp only
  repeat' first
    | exact stack_fault
    | exact stack_noFuel
    | with_reducible apply stack_ok
    | with_reducible apply stack_finishArg
    | with_reducible apply stack_finalizeObj
    | with_reducible apply stack_popChild
    | with_reducible apply ih.objList
    | with_reducible apply ih.obj
    | with_reducible apply ih.args
    | with_reducible apply ih.arg
    | with_reducible apply ih.argObj
    | with_reducible apply ih.invocation
    | with_reducible apply ih.invocationArgs
    | with_reducible apply ih.scope
    | with_reducible apply ih.namespacedObj
    | with_reducible apply ih.superName
    | with_reducible apply ih.target
    | with_reducible apply ih.fieldList
    | with_reducible apply ih.fieldElements
    | with_reducible refine stack_scoped_enter ih ?_ (fun _ _ _ => ?_)
    | with_reducible refine stack_bind ?_ (fun _ _ _ => ?_)
    | assumption
    | exact stack_reader _ (by assumption)
    | exact stack_alloc (stack_reader _ (by assumption)) _
    | exact stack_alloc (by assumption) _
    | exact stack_append_new (by assumption) (by assumption)
    | exact stack_append_new (by assumption) (stack_reader _ (by assumption))
    | exact stack_scopeExit (by assumption) (by assumption)
    | exact stack_removeLastChild (by assumption) (by assumption)
    | exact stack_enter (by assumption) _
    | exact stack_enter (stack_reader _ (by assumption)) _
    | exact stack_enter (stack_append_new (by assumption) (by assumption)) _
    | exact stack_enter (stack_append_new (by assumption) (stack_reader _ (by assumption))) _
    | split

set_option linter.unusedVariables false in
set_option linter.unreachableTactic false in
set_option linter.unusedTactic false in
set_option maxHeartbeats 1000000 in
theorem stack_parseTarget (env : Env) (fuel : Nat) (ih : AllStack env fuel) (s : List Nat)
    (p : Parser) (h : p.scopeStack = s) :
    SameStack s (parseTarget env (fuel + 1) p) := by
  rw [parseTarget]
  try dsimp only
  repeat' first
    | exact stack_fault
    | exact stack_noFuel
    | with_reducible apply stack_ok
    | with_reducible apply stack_finishArg
    | with_reducible apply stack_finalizeObj
    | with_reducible apply stack_popChild
    | with_reducible apply ih.objList
    | with_reducible apply ih.obj
    | with_reducible apply ih.args
    | with_reducible apply ih.arg
    | with_reducible apply ih.argObj
    | with_reducible apply ih.invocation
    | with_reducible apply ih.invocationArgs
    | with_reducible apply ih.scope
    | with_reducible apply ih.namespacedObj
    | with_reducible apply ih.superName
    | with_reducible apply ih.target
    | with_reducible apply ih.fieldList
    | with_reducible apply ih.fieldElements
    | with_reducible refine stack_scoped_enter ih ?_ (fun _ _ _ => ?_)
    | with_reducible refine stack_bind ?_ (fun _ _ _ => ?_)
    | assumption
    | exact stack_reader _ (by assumption)
    | exact stack_alloc (stack_reader _ (by assumption)) _
    | exact stack_alloc (by assumption) _
    | exact stack_append_new (by assumption) (by assumption)
    | exact stack_append_new (by assumption) (stack_reader _ (by assumption))
    | exact stack_scopeExit (by assumption) (by assumption)
    | exact stack_removeLastChild (by assumption) (by assumption)
    | exact stack_enter (by assumption) _
    | exact stack_enter (stack_reader _ (by assumption)) _
    | exact stack_enter (stack_append_new (by assumption) (by assumption)) _
    | exact stack_enter (stack_append_new (by assumption) (stack_reader _ (by assumption))) _
    | split

set_option linter.unusedVariables false in
set_option linter.unreachableTactic false in
set_option linter.unusedTactic false in
set_option maxHeartbeats 1000000 in
theorem stack_parseFieldList (env : Env) (fuel : Nat) (ih : AllStack env fuel) (s : List Nat)
    (op : Nat) (args : List Value) (maxReadOffset : Nat) (p : Parser) (h : p.scopeStack = s) :
    SameStack s (parseFieldList env (fuel + 1) op args maxReadOffset p) := by
  rw [parseFieldList]
  repeat' first
    | exact stack_fault
    | exact stack_noFuel
    | with_reducible apply stack_ok
    | with_reducible apply stack_finishArg
    | with_reducible apply stack_finalizeObj
    | with_reducible apply stack_popChild
    | with_reducible apply ih.objList
    | with_reducible apply ih.obj
    | with_reducible apply ih.args
    | with_reducible apply ih.arg
    | with_reducible apply ih.argObj
    | with_reducible apply ih.invocation
    | with_reducible apply ih.invocationArgs
    | with_reducible apply ih.scope
    | with_reducible apply ih.namespacedObj
    | with_reducible apply ih.superName
    | with_reducible apply ih.target
    | with_reducible apply ih.fieldList
    | with_reducible apply ih.fieldElements
    | with_reducible refine stack_scoped_enter ih ?_ (fun _ _ _ => ?_)
    | with_reducible refine stack_bind ?_ (fun _ _ _ => ?_)
    | assumption
    | exact stack_reader _ (by assumption)
    | exact stack_alloc (stack_reader _ (by assumption)) _
    | exact stack_alloc (by assumption) _
    | exact stack_append_new (by assumption) (by assumption)
    | exact stack_append_new (by assumption) (stack_reader _ (by assumption))
    | exact stack_scopeExit (by assumption) (by assumption)
    | exact stack_removeLastChild (by assumption) (by assumption)
    | exact stack_enter (by assumption) _
    | exact stack_enter (stack_reader _ (by assumption)) _
    | exact stack_enter (stack_append_new (by assumption) (by assumption)) _
    | exact stack_enter (stack_append_new (by assumption) (stack_reader _ (by assumption))) _
    | split

set_option linter.unusedVariables false in
set_option linter.unreachableTactic false in
set_option linter.unusedTactic false in
set_option maxHeartbeats 1000000 in
theorem stack_parseFieldElements (env : Env) (fuel : Nat) (ih : AllStack env fuel) (s : List Nat)
    (op : Nat) (name0 name1 : Str) (lock : Bool)
    (updateRule maxReadOffset : Nat) (st : FieldListState) (p : Parser) (h : p.scopeStack = s) :
    SameStack s (parseFieldElements env (fuel + 1) op name0 name1 lock updateRule maxReadOffset st p) := by
  rw [parseFieldElements]
  try dsimp only
  repeat' first
    | exact stack_fault
    | exact stack_noFuel
    | with_reducible apply stack_ok
    | with_reducible apply stack_finishArg
    | with_reducible apply stack_finalizeObj
    | with_reducible apply stack_popChild
    | with_reducible apply ih.objList
    | with_reducible apply ih.obj
    | with_reducible apply ih.args
    | with_reducible apply ih.arg
    | with_reducible apply ih.argObj
    | with_reducible apply ih.invocation
    | with_reducible apply ih.invocationArgs
    | with_reducible apply ih.scope
    | with_reducible apply ih.namespacedObj
    | with_reducible apply ih.superName
    | with_reducible apply ih.target
    | with_reducible apply ih.fieldList
    | with_reducible apply ih.fieldElements
    | with_reducible refine stack_scoped_enter ih ?_ (fun _ _ _ => ?_)
    | with_reducible refine stack_bind ?_ (fun _ _ _ => ?_)
    | assumption
    | exact stack_reader _ (by assumption)
    | exact stack_alloc (stack_reader _ (by assumption)) _
    | exact stack_alloc (by assumption) _
    | exact stack_append_new (by assumption) (by assumption)
    | exact stack_append_new (by assumption) (stack_reader _ (by assumption))
    | exact stack_scopeExit (by assumption) (by assumption)
    | exact stack_removeLastChild (by assumption) (by assumption)
    | exact stack_enter (by assumption) _
    | exact stack_enter (stack_reader _ (by assumption)) _
    | exact stack_enter (stack_append_new (by assumption) (by assumption)) _
    | exact stack_enter (stack_append_new (by assumption) (stack_reader _ (by assumption))) _
    | split

set_option linter.unusedVariables false in
set_option linter.unreachableTactic false in
set_option linter.unusedTactic false in
set_option maxHeartbeats 1000000 in
theorem stack_parseArg (env : Env) (fuel : Nat) (ih : AllStack env fuel) (s : List Nat)
    (info : OpcodeInfo) (obj argIndex : Nat) (argType : OpArg) (maxReadOffset : Nat)
    (p : Parser) (h : p.scopeStack = s) :
    SameStack s (parseArg env (fuel + 1) info obj argIndex argType maxReadOffset p) := by
  by_cases hterm : argType = OpArg.termList
  · subst hterm
    rw [parseArg]
    split
    · exact stack_fault
    · rename_i e he
      dsimp only
      have hexit : ∀ (t : Nat) (a : Bool) (p2 : Parser), p2.scopeStack = s ++ [t] →
          SameStack s (match p2.scopeExit with
            | none => Outcome.fault
            | some p => Outcome.ok a p) := by
        intro t a p2 h2
        split
        · exact stack_fault
        · rename_i hx
          exact stack_ok (stack_scopeExit hx h2)
      by_cases hsc : e.isScopeEntity = true
      · rw [if_pos hsc]
        exact stack_scoped_enter ih h (hexit obj)
      · rw [if_neg hsc]
        refine stack_scoped ih p.heap.length ?_ (hexit p.heap.length)
        exact stack_update (stack_enter (stack_alloc h anonymousScope) _) _ _
  · cases argType <;> first | exact absurd rfl hterm | skip
    all_goals rw [parseArg]
    all_goals try dsimp only
    all_goals repeat' first
      | exact stack_fault
      | exact stack_noFuel
      | with_reducible apply stack_ok
      | with_reducible apply stack_finishArg
      | with_reducible apply stack_finalizeObj
      | with_reducible apply stack_popChild
      | with_reducible apply ih.objList
      | with_reducible apply ih.obj
      | with_reducible apply ih.args
      | with_reducible apply ih.arg
      | with_reducible apply ih.argObj
      | with_reducible apply ih.invocation
      | with_reducible apply ih.invocationArgs
      | with_reducible apply ih.scope
      | with_reducible apply ih.namespacedObj
      | with_reducible apply ih.superName
      | with_reducible apply ih.target
      | with_reducible apply ih.fieldList
      | with_reducible apply ih.fieldElements
      | with_reducible refine stack_scoped_enter ih ?_ (fun _ _ _ => ?_)
      | with_reducible refine stack_bind ?_ (fun _ _ _ => ?_)
      | assumption
      | exact stack_reader _ (by assumption)
      | exact stack_alloc (stack_reader _ (by assumption)) _
      | exact stack_alloc (by assumption) _
      | exact stack_append_new (by assumption) (by assumption)
      | exact stack_append_new (by assumption) (stack_reader _ (by assumption))
      | exact stack_scopeExit (by assumption) (by assumption)
      | exact stack_removeLastChild (by assumption) (by assumption)
      | exact stack_enter (by assumption) _
      | exact stack_enter (stack_reader _ (by assumption)) _
      | exact stack_enter (stack_append_new (by assumption) (by assumption)) _
      | exact stack_enter (stack_append_new (by assumption) (stack_reader _ (by assumption))) _
      | split

/-- One more unit of fuel: every routine returns with the scope stack it was called with if
the routines it calls do. -/
theorem allStack_succ (env : Env) (fuel : Nat) (ih : AllStack env fuel) :
    AllStack env (fuel + 1) :=
  { objList := stack_parseObjList env fuel ih
    obj := stack_parseObj env fuel ih
    args := stack_parseArgs env fuel ih
    arg := stack_parseArg env fuel ih
    argObj := stack_parseArgObj env fuel ih
    invocation := stack_parseMethodInvocationOrNameRef env fuel ih
    invocationArgs := stack_parseInvocationArgs env fuel ih
    scope := stack_parseScope env fuel ih
    namespacedObj := stack_parseNamespacedObj env fuel ih
    superName := stack_parseSuperName env fuel ih
    target := stack_parseTarget env fuel ih
    fieldList := stack_parseFieldList env fuel ih
    fieldElements := stack_parseFieldElements env fuel ih }

/-- Every routine of the parser returns with the scope stack it was called with, whatever
the fuel. -/
theorem allStack (env : Env) : ∀ fuel : Nat, AllStack env fuel
  | 0 => allStack_zero env
  | fuel + 1 => allStack_succ env fuel (allStack env fuel)

/-- C27. Scope stack symmetry: every call of `parseObj`, `parseArg`, `parseScope`,
`parseNamespacedObj` or `parseObjList` that returns, with true or with false, returns with
the scope stack it was called with. -/
theorem scope_stack_symmetry (env : Env) (fuel : Nat) (p p' : Parser) (b : Bool) :
    (parseObj env fuel p = Outcome.ok b p' → p'.scopeStack = p.scopeStack) ∧
      (∀ (info : OpcodeInfo) (obj argIndex : Nat) (argType : OpArg) (maxReadOffset : Nat),
        parseArg env fuel info obj argIndex argType maxReadOffset p = Outcome.ok b p' →
        p'.scopeStack = p.scopeStack) ∧
      (∀ maxReadOffset : Nat, parseScope env fuel maxReadOffset p = Outcome.ok b p' →
        p'.scopeStack = p.scopeStack) ∧
      (∀ op maxReadOffset : Nat,
        parseNamespacedObj env fuel op maxReadOffset p = Outcome.ok b p' →
        p'.scopeStack = p.scopeStack) ∧
      (∀ maxOffset : Nat, parseObjList env fuel maxOffset p = Outcome.ok b p' →
        p'.scopeStack = p.scopeStack) :=
  ⟨fun h => (allStack env fuel).obj _ p rfl b p' h,
    fun info obj argIndex argType maxReadOffset h =>
      (allStack env fuel).arg _ info obj argIndex argType maxReadOffset p rfl b p' h,
    fun maxReadOffset h => (allStack env fuel).scope _ maxReadOffset p rfl b p' h,
    fun op maxReadOffset h => (allStack env fuel).namespacedObj _ op maxReadOffset p rfl b p' h,
    fun maxOffset h => (allStack env fuel).objList _ maxOffset p rfl b p' h⟩

set_option maxRecDepth 100000 in
theorem scope_stack_symmetry_witness :
    ((parseObj sampleEnv 20
        (parserAt [0x10, 0x0a, 0x5c, 0x00, 0x08, 0x41, 0x42, 0x43, 0x44, 0x0a, 0x2a]
          initialHeap)).state?.getD (parserAt [] [])).scopeStack =
        (parserAt [0x10, 0x0a, 0x5c, 0x00, 0x08, 0x41, 0x42, 0x43, 0x44, 0x0a, 0x2a]
          initialHeap).scopeStack ∧
      ((parseObjList sampleEnv 20 9
        (parserAt [0x14, 0x09, 0x4d, 0x41, 0x49, 0x4e, 0x00, 0x01, 0xa1, 0x01]
          initialHeap)).state?.getD (parserAt [] [])).scopeStack =
        (parserAt [0x14, 0x09, 0x4d, 0x41, 0x49, 0x4e, 0x00, 0x01, 0xa1, 0x01]
          initialHeap).scopeStack :=
  ⟨(scope_stack_symmetry sampleEnv 20
      (parserAt [0x10, 0x0a, 0x5c, 0x00, 0x08, 0x41, 0x42, 0x43, 0x44, 0x0a, 0x2a] initialHeap)
      _ true).1 (by decide!),
    (scope_stack_symmetry sampleEnv 20
      (parserAt [0x14, 0x09, 0x4d, 0x41, 0x49, 0x4e, 0x00, 0x01, 0xa1, 0x01] initialHeap)
      _ false).2.2.2.2 9 (by decide!)⟩

/-! ## Theorems: the reader only moves forward -/

theorem ahead_refl (r : Reader) : Ahead r r := ⟨rfl, Nat.le_refl _⟩

theorem ahead_trans {r1 r2 r3 : Reader} (h12 : Ahead r1 r2) (h23 : Ahead r2 r3) :
    Ahead r1 r3 := ⟨h23.1.trans h12.1, Nat.le_trans h12.2 h23.2⟩

theorem above_of_ahead {d : List Nat} {o : Nat} {r r' : Reader} (h : Ahead r r')
    (h0 : ReaderAbove d o r) : ReaderAbove d o r' :=
  ⟨h.1.trans h0.1, Nat.le_trans h0.2 h.2⟩

theorem readByte_some {r r' : Reader} {b : Nat} (h : r.ReadByte = (some b, r')) :
    r'.data = r.data ∧ r'.offset = r.offset + 1 ∧ r.offset < r.data.length := by
  unfold Reader.ReadByte at h
  split at h
  · rename_i b' hb
    have hlt : r.offset < r.data.length := by
      by_contra hge
      rw [List.getElem?_eq_none (by omega)] at hb
      cases hb
    cases h
    exact ⟨rfl, rfl, hlt⟩
  · cases h

theorem readByte_none {r r' : Reader} (h : r.ReadByte = (none, r')) : r' = r := by
  unfold Reader.ReadByte at h
  split at h
  · cases h
  · cases h
    rfl

theorem readByte_ahead (r : Reader) : Ahead r (r.ReadByte).2 := by
  unfold Reader.ReadByte
  split
  · exact ⟨rfl, Nat.le_succ _⟩
  · exact ahead_refl r

theorem ahead_of_readByte {r r' : Reader} {x : Option Nat} (h : r.ReadByte = (x, r')) :
    Ahead r r' := by
  have h1 := readByte_ahead r
  rw [h] at h1
  exact h1

theorem nextOpcode_ahead (env : Env) (r : Reader) : Ahead r (nextOpcode env r).2 := by
  unfold nextOpcode
  split
  · rename_i r1 h1
    rw [readByte_none h1]
    exact ahead_refl r
  · rename_i next r1 h1
    split
    · exact ahead_of_readByte h1
    · split
      · rename_i r2 h2
        exact ahead_trans (ahead_of_readByte h1) (ahead_of_readByte h2)
      · rename_i next2 r2 h2
        exact ahead_trans (ahead_of_readByte h1) (ahead_of_readByte h2)

theorem nextOpcode_some {env : Env} {r : Reader} {info : OpcodeInfo}
    (h : (nextOpcode env r).1 = some info) :
    r.offset + 1 ≤ (nextOpcode env r).2.offset ∧ r.offset < r.data.length := by
  unfold nextOpcode at h ⊢
  split at h
  · cases h
  · rename_i next r1 h1
    have hr := readByte_some h1
    split
    · show r.offset + 1 ≤ r1.offset ∧ _
      exact ⟨by omega, hr.2.2⟩
    · split
      · rename_i r2 h2
        have := (ahead_of_readByte h2).2
        show r.offset + 1 ≤ r2.offset ∧ _
        exact ⟨by omega, hr.2.2⟩
      · rename_i next2 r2 h2
        have := (ahead_of_readByte h2).2
        show r.offset + 1 ≤ r2.offset ∧ _
        exact ⟨by omega, hr.2.2⟩

theorem parsePkgLength_ahead (r : Reader) : Ahead r (parsePkgLength r).2 := by
  unfold parsePkgLength
  repeat' first
    | exact ahead_refl _
    | exact ahead_of_readByte (by assumption)
    | exact ahead_trans (ahead_of_readByte (by assumption)) (ahead_of_readByte (by assumption))
    | exact ahead_trans (ahead_of_readByte (by assumption))
        (ahead_trans (ahead_of_readByte (by assumption)) (ahead_of_readByte (by assumption)))
    | exact ahead_trans (ahead_of_readByte (by assumption))
        (ahead_trans (ahead_of_readByte (by assumption))
          (ahead_trans (ahead_of_readByte (by assumption)) (ahead_of_readByte (by assumption))))
    | split

theorem parseNumConstantLoop_ahead (k c res : Nat) (r : Reader) :
    Ahead r (parseNumConstantLoop k c res r).2 := by
  induction k generalizing c res r with
  | zero => exact ahead_refl r
  | succ k ih =>
    rw [parseNumConstantLoop]
    split
    · exact ahead_of_readByte (by assumption)
    · exact ahead_trans (ahead_of_readByte (by assumption)) (ih _ _ _)

theorem parseNumConstant_ahead (numBytes : Nat) (r : Reader) :
    Ahead r (parseNumConstant numBytes r).2 :=
  parseNumConstantLoop_ahead numBytes 0 0 r

theorem parseStringLoop_ahead (fuel : Nat) (str : Str) (r : Reader) :
    Ahead r (parseStringLoop fuel str r).2 := by
  induction fuel generalizing str r with
  | zero => exact ahead_refl r
  | succ k ih =>
    rw [parseStringLoop]
    split
    · exact ahead_of_readByte (by assumption)
    · split
      · exact ahead_of_readByte (by assumption)
      · split
        · exact ahead_trans (ahead_of_readByte (by assumption)) (ih _ _)
        · exact ahead_of_readByte (by assumption)

theorem parseString_ahead (r : Reader) : Ahead r (parseString r).2 :=
  parseStringLoop_ahead _ [] r

theorem parsePrefixPath_ahead (fuel : Nat) (str : Str) (r : Reader) :
    Ahead r (parsePrefixPath fuel str r).2 := by
  induction fuel generalizing str r with
  | zero => exact ahead_refl r
  | succ k ih =>
    rw [parsePrefixPath]
    split
    · exact ahead_refl r
    · split
      · exact ahead_refl r
      · exact ahead_trans (readByte_ahead r) (ih _ _)

theorem readNameChars_ahead (readCount index : Nat) (str : Str) (r : Reader) :
    Ahead r (readNameChars readCount index str r).2 := by
  induction readCount generalizing index str r with
  | zero => exact ahead_refl r
  | succ k ih =>
    rw [readNameChars]
    split
    · exact ahead_of_readByte (by assumption)
    · exact ahead_trans (ahead_of_readByte (by assumption)) (ih _ _ _)

theorem parseNamePath_ahead (str : Str) (r : Reader) :
    Ahead (r.ReadByte).2 (parseNamePath str r).2 := by
  unfold parseNamePath
  dsimp only
  split
  · exact readNameChars_ahead _ _ _ _
  · split
    · exact readNameChars_ahead _ _ _ _
    · split
      · split
        · exact ahead_of_readByte (by assumption)
        · split
          · exact ahead_of_readByte (by assumption)
          · exact ahead_trans (ahead_of_readByte (by assumption)) (readNameChars_ahead _ _ _ _)
      · split
        · exact ahead_refl _
        · exact readNameChars_ahead _ _ _ _

theorem readByte_of_peek {r : Reader} {b : Nat} (h : r.PeekByte = some b) :
    (r.ReadByte).2.offset = r.offset + 1 ∧ r.offset < r.data.length := by
  unfold Reader.PeekByte at h
  have h1 : r.ReadByte = (some b, { r with offset := r.offset + 1 }) := by
    unfold Reader.ReadByte
    rw [h]
  have h2 := readByte_some h1
  rw [h1]
  exact ⟨rfl, h2.2.2⟩

/-- A NameString that is accepted takes at least one byte; in any case the reader does not
move back. -/
theorem parseNameString_ahead (r : Reader) :
    Ahead r (parseNameString r).2 ∧
      ((parseNameString r).1.2 = true →
        r.offset + 1 ≤ (parseNameString r).2.offset ∧ r.offset < r.data.length) := by
  unfold parseNameString
  split
  · exact ⟨ahead_refl r, fun h => by cases h⟩
  · rename_i next hpeek
    have hp := readByte_of_peek hpeek
    split
    · have h1 := parseNamePath_ahead [next] (r.ReadByte).2
      have h2 := readByte_ahead (r.ReadByte).2
      have h3 := ahead_trans h2 h1
      have h4 := readByte_ahead r
      exact ⟨ahead_trans h4 h3, fun _ => ⟨by have := h3.2; omega, hp.2⟩⟩
    · split
      · rename_i hnext
        have hstep : parsePrefixPath (r.data.length - r.offset + 1) [next] r =
            parsePrefixPath (r.data.length - r.offset) ([next] ++ [next]) (r.ReadByte).2 := by
          rw [parsePrefixPath, hpeek]
          simp [hnext]
        have hpp := parsePrefixPath_ahead (r.data.length - r.offset) ([next] ++ [next])
          (r.ReadByte).2
        rw [← hstep] at hpp
        split
        · rename_i r1 heq
          rw [heq] at hpp
          exact ⟨ahead_trans (readByte_ahead r) hpp, fun h => by cases h⟩
        · rename_i str r1 heq
          rw [heq] at hpp
          have h1 := ahead_trans (readByte_ahead r1) (parseNamePath_ahead str r1)
          have h2 := ahead_trans hpp h1
          exact ⟨ahead_trans (readByte_ahead r) h2, fun _ => ⟨by have := h2.2; omega, hp.2⟩⟩
      · have h1 := parseNamePath_ahead [] r
        exact ⟨ahead_trans (readByte_ahead r) h1, fun _ => ⟨by have := h1.2; omega, hp.2⟩⟩

theorem parseByteList_ahead (fuel maxReadOffset : Nat) (bl : List Nat) (r : Reader) :
    Ahead r (parseByteList fuel maxReadOffset bl r).2 := by
  induction fuel generalizing bl r with
  | zero => exact ahead_refl r
  | succ k ih =>
    rw [parseByteList]
    split
    · split
      · exact ahead_of_readByte (by assumption)
      · exact ahead_trans (ahead_of_readByte (by assumption)) (ih _ _)
    · exact ahead_refl r

theorem setOffset_data (r : Reader) (off : Nat) : (r.SetOffset off).data = r.data := by
  unfold Reader.SetOffset
  split <;> rfl

/-! ## Theorems: no routine returns before the offset it started at -/

theorem adv_ok {d : List Nat} {o : Nat} {α : Type} {a : α} {p : Parser} (h : Above d o p) :
    Adv d o (Outcome.ok a p) := by
  intro a' p' heq
  cases heq
  exact h

theorem adv_fault {d : List Nat} {o : Nat} {α : Type} :
    Adv d o (Outcome.fault : Outcome α) := by
  intro a' p' heq
  cases heq

theorem adv_noFuel {d : List Nat} {o : Nat} {α : Type} :
    Adv d o (Outcome.noFuel : Outcome α) := by
  intro a' p' heq
  cases heq

theorem adv_bind {d : List Nat} {o : Nat} {α β : Type} {x : Outcome α}
    {f : α → Parser → Outcome β} (hx : Adv d o x)
    (hf : ∀ a p, Above d o p → Adv d o (f a p)) : Adv d o (x.bind f) := by
  cases x with
  | ok a p => exact hf a p (hx a p rfl)
  | fault => exact adv_fault
  | noFuel => exact adv_noFuel

theorem adv_weaken {d : List Nat} {o o' : Nat} {α : Type} {x : Outcome α} (h : Adv d o' x)
    (hle : o ≤ o') : Adv d o x :=
  fun a p' heq => ⟨(h a p' heq).1, Nat.le_trans hle (h a p' heq).2⟩

theorem above_mk {d : List Nat} {o : Nat} {r : Reader} {root : Nat} {stack : List Nat}
    {heap : List Entity} (h : ReaderAbove d o r) :
    Above d o { r := r, root := root, scopeStack := stack, heap := heap } := h

theorem above_r {d : List Nat} {o : Nat} {p : Parser} (h : Above d o p) :
    ReaderAbove d o p.r := h

theorem above_update {d : List Nat} {o : Nat} {p : Parser} (id : Nat) (f : Entity → Entity)
    (h : Above d o p) : Above d o (p.update id f) := by
  unfold Parser.update
  split
  · exact h
  · exact h

theorem above_alloc {d : List Nat} {o : Nat} {p : Parser} (e : Entity) (h : Above d o p) :
    Above d o (p.alloc e).2 := h

theorem above_enter {d : List Nat} {o : Nat} {p : Parser} (t : Nat) (h : Above d o p) :
    Above d o (p.scopeEnter t) := h

theorem above_ite {d : List Nat} {o : Nat} {c : Prop} [Decidable c] {p q : Parser}
    (hp : Above d o p) (hq : Above d o q) : Above d o (if c then p else q) := by
  split
  · exact hp
  · exact hq

theorem above_append {d : List Nat} {o : Nat} {p p' : Parser} {c1 c2 : Nat}
    (happ : p.Append c1 c2 = some p') (h : Above d o p) : Above d o p' := by
  unfold Parser.Append at happ
  split at happ
  · split at happ
    · injection happ with happ
      rw [← happ]
      exact above_update _ _ (above_update _ _ h)
    · cases happ
  · cases happ

theorem above_scopeExit {d : List Nat} {o : Nat} {p p' : Parser}
    (hexit : p.scopeExit = some p') (h : Above d o p) : Above d o p' := by
  unfold Parser.scopeExit at hexit
  split at hexit
  · cases hexit
  · injection hexit with hexit
    rw [← hexit]
    exact h

theorem above_removeLastChild {d : List Nat} {o : Nat} {p p' : Parser} {c1 c2 : Nat}
    (hr : p.removeLastChild c1 = some (c2, p')) (h : Above d o p) : Above d o p' := by
  unfold Parser.removeLastChild at hr
  split at hr
  · cases hr
    exact above_update _ _ h
  · cases hr

theorem above_setArg {d : List Nat} {o : Nat} {p p' : Parser} {id i : Nat} {v : Value}
    {b : Bool} (hs : p.setArg id i v = some (p', b)) (h : Above d o p) : Above d o p' := by
  unfold Parser.setArg at hs
  split at hs
  · cases hs
    exact above_update _ _ h
  · cases hs

theorem adv_finishArg {d : List Nat} {o : Nat} {obj argIndex : Nat} {arg : Value} {ok : Bool}
    {p : Parser} (h : Above d o p) : Adv d o (finishArg obj argIndex arg ok p) := by
  unfold finishArg
  split
  · exact adv_ok h
  · split
    · exact adv_fault
    · rename_i hs
      exact adv_ok (above_setArg hs h)

theorem adv_finalizeObj {d : List Nat} {o : Nat} {env : Env} {op obj : Nat} {p : Parser}
    (h : Above d o p) : Adv d o (finalizeObj env op obj p) := by
  unfold finalizeObj
  split
  · split
    · exact adv_fault
    · split
      · exact adv_fault
      · rename_i hr
        have h1 := above_removeLastChild hr h
        split
        · exact adv_fault
        · split
          · exact adv_fault
          · split
            · exact adv_ok h1
            · split
              · exact adv_fault
              · rename_i hs
                exact adv_ok (above_setArg hs h1)
  · split
    · split
      · split
        · exact adv_ok (above_update _ _ h)
        · exact adv_fault
      · exact adv_fault
    · exact adv_ok h

theorem adv_popChild {d : List Nat} {o : Nat} {p : Parser} (h : Above d o p) :
    Adv d o (match p.scopeCurrent with
      | none => Outcome.fault
      | some cur =>
        match p.removeLastChild cur with
        | none => Outcome.fault
        | some (child, p) => Outcome.ok (Value.ent child, true) p) := by
  split
  · exact adv_fault
  · split
    · exact adv_fault
    · rename_i hr
      exact adv_ok (above_removeLastChild hr h)

theorem ahead_of_nextOpcode {env : Env} {r r' : Reader} {x : Option OpcodeInfo}
    (h : nextOpcode env r = (x, r')) : Ahead r r' := by
  have h1 := nextOpcode_ahead env r
  rw [h] at h1
  exact h1

theorem rabove_setOffset {d : List Nat} {o : Nat} {r : Reader} {off : Nat}
    (h : ReaderAbove d o r) (hoff : o ≤ off) : ReaderAbove d o (r.SetOffset off) := by
  unfold Reader.SetOffset
  split
  · exact ⟨h.1, hoff⟩
  · exact h

theorem rabove_ite {d : List Nat} {o : Nat} {c : Prop} [Decidable c] {r q : Reader}
    (hr : ReaderAbove d o r) (hq : ReaderAbove d o q) :
    ReaderAbove d o (if c then r else q) := by
  split
  · exact hr
  · exact hq

theorem rabove_ite_snd {d : List Nat} {o : Nat} {α : Type} {c : Prop} [Decidable c]
    {x y : α × Reader} (hx : ReaderAbove d o x.2) (hy : ReaderAbove d o y.2) :
    ReaderAbove d o (if c then x else y).2 := by
  split
  · exact hx
  · exact hy

theorem rabove_unread {d : List Nat} {o : Nat} {r r' : Reader} {b : Nat}
    (h : r.ReadByte = (some b, r')) (h0 : ReaderAbove d o r) :
    ReaderAbove d o r'.UnreadByte := by
  have hr := readByte_some h
  refine ⟨hr.1.trans h0.1, ?_⟩
  have := h0.2
  show o ≤ r'.offset - 1
  omega

theorem rabove_nullName {d : List Nat} {o : Nat} {env : Env} {r : Reader}
    {info : OpcodeInfo} (h : (nextOpcode env r).1 = some info) (hd : d.length < 2 ^ 32)
    (h0 : ReaderAbove d o r) :
    ReaderAbove d o
      (((nextOpcode env r).2.SetOffset r.Offset).SetOffset ((r.Offset + 1) % 2 ^ 32)) := by
  have hs := nextOpcode_some h
  have hlen : r.offset < d.length := by
    rw [← h0.1]
    exact hs.2
  have h1 : ReaderAbove d o ((nextOpcode env r).2.SetOffset r.Offset) :=
    rabove_setOffset (above_of_ahead (nextOpcode_ahead env r) h0) h0.2
  refine rabove_setOffset h1 ?_
  have := h0.2
  show o ≤ (r.offset + 1) % 2 ^ 32
  rw [Nat.mod_eq_of_lt (by omega)]
  omega

theorem rabove_offset (d : List Nat) {o : Nat} {r : Reader} (h : ReaderAbove d o r) :
    o ≤ r.Offset := h.2

theorem allAdv_zero (env : Env) (d : List Nat) : AllAdv env d 0 := by
  constructor <;> intros <;> first
    | (rw [parseObjList]; exact adv_noFuel)
    | (rw [parseObj]; exact adv_noFuel)
    | (rw [parseArgs]; exact adv_noFuel)
    | (rw [parseArg]; exact adv_noFuel)
    | (rw [parseArgObj]; exact adv_noFuel)
    | (rw [parseMethodInvocationOrNameRef]; exact adv_noFuel)
    | (rw [parseInvocationArgs]; exact adv_noFuel)
    | (rw [parseScope]; exact adv_noFuel)
    | (rw [parseNamespacedObj]; exact adv_noFuel)
    | (rw [parseSuperName]; exact adv_noFuel)
    | (rw [parseTarget]; exact adv_noFuel)
    | (rw [parseFieldList]; exact adv_noFuel)
    | (rw [parseFieldElements]; exact adv_noFuel)

theorem rabove_nameString_strict {d : List Nat} {o : Nat} {r : Reader}
    (h : ¬(!(parseNameString r).1.2) = true) (h0 : ReaderAbove d o r) :
    ReaderAbove d (o + 1) (parseNameString r).2 := by
  have hs := (parseNameString_ahead r).2 (by simpa using h)
  have ha := (parseNameString_ahead r).1
  exact ⟨ha.1.trans h0.1, by have := h0.2; omega⟩

theorem rabove_nameString_true {d : List Nat} {o : Nat} {r : Reader}
    (h : (parseNameString r).1.2 = true) (h0 : ReaderAbove d o r) :
    ReaderAbove d (o + 1) (parseNameString r).2 :=
  rabove_nameString_strict (by simp [h]) h0

theorem rabove_nextOpcode_some {d : List Nat} {o : Nat} {env : Env} {r r' : Reader}
    {info : OpcodeInfo} (h : nextOpcode env r = (some info, r')) (h0 : ReaderAbove d o r) :
    ReaderAbove d (o + 1) r' := by
  have hs := @nextOpcode_some env r info (by rw [h])
  have ha := ahead_of_nextOpcode h
  rw [h] at hs
  have hs1 : r.offset + 1 ≤ r'.offset := hs.1
  exact ⟨ha.1.trans h0.1, by have := h0.2; omega⟩

theorem rabove_readByte_some {d : List Nat} {o : Nat} {r r' : Reader} {b : Nat}
    (h : r.ReadByte = (some b, r')) (h0 : ReaderAbove d o r) :
    ReaderAbove d (o + 1) r' := by
  have hs := readByte_some h
  exact ⟨hs.1.trans h0.1, by have := h0.2; omega⟩

theorem above_pred {d : List Nat} {o : Nat} {p : Parser} (h : Above d (o + 1) p) :
    Above d o p := ⟨h.1, Nat.le_of_succ_le h.2⟩

theorem rabove_pred {d : List Nat} {o : Nat} {r : Reader} (h : ReaderAbove d (o + 1) r) :
    ReaderAbove d o r := ⟨h.1, Nat.le_of_succ_le h.2⟩

set_option linter.unusedVariables false in
set_option linter.unreachableTactic false in
set_option linter.unusedTactic false in
set_option maxHeartbeats 1000000 in
theorem adv_parseObjList (env : Env) (d : List Nat)
    (hd : d.length < 2 ^ 32) (fuel : Nat) (ih : AllAdv env d fuel) (o : Nat)
    (maxOffset : Nat) (p : Parser) (h : Above d o p) :
    Adv d o
      (parseObjList env (fuel + 1) maxOffset p) := by
  rw [parseObjList]
  all_goals repeat' first
    | exact adv_fault
    | exact adv_noFuel
    | with_reducible apply adv_ok
    | with_reducible apply adv_finishArg
    | with_reducible apply adv_finalizeObj
    | with_reducible apply adv_popChild
    | with_reducible apply ih.objList
    | with_reducible apply ih.obj
    | with_reducible apply ih.args
    | with_reducible apply ih.arg
    | with_reducible apply ih.argObj
    | with_reducible apply ih.invocation
    | with_reducible apply ih.invocationArgs
    | with_reducible apply ih.scope
    | with_reducible apply ih.namespacedObj
    | with_reducible apply ih.superName
    | with_reducible apply ih.target
    | with_reducible apply ih.fieldList
    | with_reducible apply ih.fieldElements
    | with_reducible refine adv_bind ?_ (fun _ _ _ => ?_)
    | assumption
    | with_reducible refine above_append (by assumption) ?_
    | with_reducible refine above_scopeExit (by assumption) ?_
    | with_reducible refine above_removeLastChild (by assumption) ?_
    | with_reducible apply above_update
    | with_reducible apply above_alloc
    | with_reducible apply above_enter
    | with_reducible apply above_ite
    | with_reducible apply above_mk
    | with_reducible exact above_r (by assumption)
    | with_reducible refine rabove_nameString_strict (by assumption) ?_
    | with_reducible refine rabove_nameString_true (by assumption) ?_
    | with_reducible refine rabove_nextOpcode_some (by assumption) ?_
    | with_reducible refine rabove_readByte_some (by assumption) ?_
    | with_reducible refine above_of_ahead (parseNameString_ahead _).1 ?_
    | with_reducible refine above_of_ahead (parsePkgLength_ahead _) ?_
    | with_reducible refine above_of_ahead (parseNumConstant_ahead _ _) ?_
    | with_reducible refine above_of_ahead (parseString_ahead _) ?_
    | with_reducible refine above_of_ahead (parseByteList_ahead _ _ _ _) ?_
    | with_reducible refine above_of_ahead (nextOpcode_ahead _ _) ?_
    | with_reducible refine above_of_ahead (readByte_ahead _) ?_
    | with_reducible refine above_of_ahead (ahead_of_readByte (by assumption)) ?_
    | with_reducible refine above_of_ahead (ahead_of_nextOpcode (by assumption)) ?_
    | with_reducible refine rabove_unread (by assumption) ?_
    | with_reducible refine rabove_nullName (by assumption) hd ?_
    | with_reducible refine rabove_setOffset ?_ ?_
    | with_reducible apply rabove_ite
    | with_reducible apply rabove_ite_snd
    | with_reducible refine rabove_offset d ?_
    | with_reducible exact above_pred (by assumption)
    | with_reducible exact rabove_pred (above_r (by assumption))
    | split

set_option linter.unusedVariables false in
set_option linter.unreachableTactic false in
set_option linter.unusedTactic false in
set_option maxHeartbeats 1000000 in
theorem adv_parseObj (env : Env) (d : List Nat)
    (hd : d.length < 2 ^ 32) (fuel : Nat) (ih : AllAdv env d fuel) (o : Nat)
    (p : Parser) (h : Above d o p) :
    Adv d o
      (parseObj env (fuel + 1) p) := by
  rw [parseObj]
  try dsimp only
  all_goals repeat' first
    | exact adv_fault
    | exact adv_noFuel
    | with_reducible apply adv_ok
    | with_reducible apply adv_finishArg
    | with_reducible apply adv_finalizeObj
    | with_reducible apply adv_popChild
    | with_reducible apply ih.objList
    | with_reducible apply ih.obj
    | with_reducible apply ih.args
    | with_reducible apply ih.arg
    | with_reducible apply ih.argObj
    | with_reducible apply ih.invocation
    | with_reducible apply ih.invocationArgs
    | with_reducible apply ih.scope
    | with_reducible apply ih.namespacedObj
    | with_reducible apply ih.superName
    | with_reducible apply ih.target
    | with_reducible apply ih.fieldList
    | with_reducible apply ih.fieldElements
    | with_reducible refine adv_bind ?_ (fun _ _ _ => ?_)
    | assumption
    | with_reducible refine above_append (by assumption) ?_
    | with_reducible refine above_scopeExit (by assumption) ?_
    | with_reducible refine above_removeLastChild (by assumption) ?_
    | with_reducible apply above_update
    | with_reducible apply above_alloc
    | with_reducible apply above_enter
    | with_reducible apply above_ite
    | with_reducible apply above_mk
    | with_reducible exact above_r (by assumption)
    | with_reducible refine rabove_nameString_strict (by assumption) ?_
    | with_reducible refine rabove_nameString_true (by assumption) ?_
    | with_reducible refine rabove_nextOpcode_some (by assumption) ?_
    | with_reducible refine rabove_readByte_some (by assumption) ?_
    | with_reducible refine above_of_ahead (parseNameString_ahead _).1 ?_
    | with_reducible refine above_of_ahead (parsePkgLength_ahead _) ?_
    | with_reducible refine above_of_ahead (parseNumConstant_ahead _ _) ?_
    | with_reducible refine above_of_ahead (parseString_ahead _) ?_
    | with_reducible refine above_of_ahead (parseByteList_ahead _ _ _ _) ?_
    | with_reducible refine above_of_ahead (nextOpcode_ahead _ _) ?_
    | with_reducible refine above_of_ahead (readByte_ahead _) ?_
    | with_reducible refine above_of_ahead (ahead_of_readByte (by assumption)) ?_
    | with_reducible refine above_of_ahead (ahead_of_nextOpcode (by assumption)) ?_
    | with_reducible refine rabove_unread (by assumption) ?_
    | with_reducible refine rabove_nullName (by assumption) hd ?_
    | with_reducible refine rabove_setOffset ?_ ?_
    | with_reducible apply rabove_ite
    | with_reducible apply rabove_ite_snd
    | with_reducible refine rabove_offset d ?_
    | with_reducible exact above_pred (by assumption)
    | with_reducible exact rabove_pred (above_r (by assumption))
    | split

set_option linter.unusedVariables false in
set_option linter.unreachableTactic false in
set_option linter.unusedTactic false in
set_option maxHeartbeats 1000000 in
theorem adv_parseArgs (env : Env) (d : List Nat)
    (hd : d.length < 2 ^ 32) (fuel : Nat) (ih : AllAdv env d fuel) (o : Nat)
    (info : OpcodeInfo) (obj argIndex maxReadOffset : Nat) (p : Parser) (h : Above d o p) :
    Adv d o
      (parseArgs env (fuel + 1) info obj argIndex maxReadOffset p) := by
  rw [parseArgs]
  all_goals repeat' first
    | exact adv_fault
    | exact adv_noFuel
    | with_reducible apply adv_ok
    | with_reducible apply adv_finishArg
    | with_reducible apply adv_finalizeObj
    | with_reducible apply adv_popChild
    | with_reducible apply ih.objList
    | with_reducible apply ih.obj
    | with_reducible apply ih.args
    | with_reducible apply ih.arg
    | with_reducible apply ih.argObj
    | with_reducible apply ih.invocation
    | with_reducible apply ih.invocationArgs
    | with_reducible apply ih.scope
    | with_reducible apply ih.namespacedObj
    | with_reducible apply ih.superName
    | with_reducible apply ih.target
    | with_reducible apply ih.fieldList
    | with_reducible apply ih.fieldElements
    | with_reducible refine adv_bind ?_ (fun _ _ _ => ?_)
    | assumption
    | with_reducible refine above_append (by assumption) ?_
    | with_reducible refine above_scopeExit (by assumption) ?_
    | with_reducible refine above_removeLastChild (by assumption) ?_
    | with_reducible apply above_update
    | with_reducible apply above_alloc
    | with_reducible apply above_enter
    | with_reducible apply above_ite
    | with_reducible apply above_mk
    | with_reducible exact above_r (by assumption)
    | with_reducible refine rabove_nameString_strict (by assumption) ?_
    | with_reducible refine rabove_nameString_true (by assumption) ?_
    | with_reducible refine rabove_nextOpcode_some (by assumption) ?_
    | with_reducible refine rabove_readByte_some (by assumption) ?_
    | with_reducible refine above_of_ahead (parseNameString_ahead _).1 ?_
    | with_reducible refine above_of_ahead (parsePkgLength_ahead _) ?_
    | with_reducible refine above_of_ahead (parseNumConstant_ahead _ _) ?_
    | with_reducible refine above_of_ahead (parseString_ahead _) ?_
    | with_reducible refine above_of_ahead (parseByteList_ahead _ _ _ _) ?_
    | with_reducible refine above_of_ahead (nextOpcode_ahead _ _) ?_
    | with_reducible refine above_of_ahead (readByte_ahead _) ?_
    | with_reducible refine above_of_ahead (ahead_of_readByte (by assumption)) ?_
    | with_reducible refine above_of_ahead (ahead_of_nextOpcode (by assumption)) ?_
    | with_reducible refine rabove_unread (by assumption) ?_
    | with_reducible refine rabove_nullName (by assumption) hd ?_
    | with_reducible refine rabove_setOffset ?_ ?_
    | with_reducible apply rabove_ite
    | with_reducible apply rabove_ite_snd
    | with_reducible refine rabove_offset d ?_
    | with_reducible exact above_pred (by assumption)
    | with_reducible exact rabove_pred (above_r (by assumption))
    | split

set_option linter.unusedVariables false in
set_option linter.unreachableTactic false in
set_option linter.unusedTactic false in
set_option maxHeartbeats 1000000 in
theorem adv_parseArg (env : Env) (d : List Nat)
    (hd : d.length < 2 ^ 32) (fuel : Nat) (ih : AllAdv env d fuel) (o : Nat)
    (info : OpcodeInfo) (obj argIndex : Nat) (argType : OpArg)
    (maxReadOffset : Nat) (p : Parser) (h : Above d o p) :
    Adv d o
      (parseArg env (fuel + 1) info obj argIndex argType maxReadOffset p) := by
  cases argType
  all_goals rw [parseArg]
  all_goals try dsimp only
  all_goals repeat' first
    | exact adv_fault
    | exact adv_noFuel
    | with_reducible apply adv_ok
    | with_reducible apply adv_finishArg
    | with_reducible apply adv_finalizeObj
    | with_reducible apply adv_popChild
    | with_reducible apply ih.objList
    | with_reducible apply ih.obj
    | with_reducible apply ih.args
    | with_reducible apply ih.arg
    | with_reducible apply ih.argObj
    | with_reducible apply ih.invocation
    | with_reducible apply ih.invocationArgs
    | with_reducible apply ih.scope
    | with_reducible apply ih.namespacedObj
    | with_reducible apply ih.superName
    | with_reducible apply ih.target
    | with_reducible apply ih.fieldList
    | with_reducible apply ih.fieldElements
    | with_reducible refine adv_bind ?_ (fun _ _ _ => ?_)
    | assumption
    | with_reducible refine above_append (by assumption) ?_
    | with_reducible refine above_scopeExit (by assumption) ?_
    | with_reducible refine above_removeLastChild (by assumption) ?_
    | with_reducible apply above_update
    | with_reducible apply above_alloc
    | with_reducible apply above_enter
    | with_reducible apply above_ite
    | with_reducible apply above_mk
    | with_reducible exact above_r (by assumption)
    | with_reducible refine rabove_nameString_strict (by assumption) ?_
    | with_reducible refine rabove_nameString_true (by assumption) ?_
    | with_reducible refine rabove_nextOpcode_some (by assumption) ?_
    | with_reducible refine rabove_readByte_some (by assumption) ?_
    | with_reducible refine above_of_ahead (parseNameString_ahead _).1 ?_
    | with_reducible refine above_of_ahead (parsePkgLength_ahead _) ?_
    | with_reducible refine above_of_ahead (parseNumConstant_ahead _ _) ?_
    | with_reducible refine above_of_ahead (parseString_ahead _) ?_
    | with_reducible refine above_of_ahead (parseByteList_ahead _ _ _ _) ?_
    | with_reducible refine above_of_ahead (nextOpcode_ahead _ _) ?_
    | with_reducible refine above_of_ahead (readByte_ahead _) ?_
    | with_reducible refine above_of_ahead (ahead_of_readByte (by assumption)) ?_
    | with_reducible refine above_of_ahead (ahead_of_nextOpcode (by assumption)) ?_
    | with_reducible refine rabove_unread (by assumption) ?_
    | with_reducible refine rabove_nullName (by assumption) hd ?_
    | with_reducible refine rabove_setOffset ?_ ?_
    | with_reducible apply rabove_ite
    | with_reducible apply rabove_ite_snd
    | with_reducible refine rabove_offset d ?_
    | with_reducible exact above_pred (by assumption)
    | with_reducible exact rabove_pred (above_r (by assumption))
    | split

set_option linter.unusedVariables false in
set_option linter.unreachableTactic false in
set_option linter.unusedTactic false in
set_option maxHeartbeats 1000000 in
theorem adv_parseArgObj (env : Env) (d : List Nat)
    (hd : d.length < 2 ^ 32) (fuel : Nat) (ih : AllAdv env d fuel) (o : Nat)
    (p : Parser) (h : Above d o p) :
    Adv d o
      (parseArgObj env (fuel + 1) p) := by
  rw [parseArgObj]
  all_goals repeat' first
    | exact adv_fault
    | exact adv_noFuel
    | with_reducible apply adv_ok
    | with_reducible apply adv_finishArg
    | with_reducible apply adv_finalizeObj
    | with_reducible apply adv_popChild
    | with_reducible apply ih.objList
    | with_reducible apply ih.obj
    | with_reducible apply ih.args
    | with_reducible apply ih.arg
    | with_reducible apply ih.argObj
    | with_reducible apply ih.invocation
    | with_reducible apply ih.invocationArgs
    | with_reducible apply ih.scope
    | with_reducible apply ih.namespacedObj
    | with_reducible apply ih.superName
    | with_reducible apply ih.target
    | with_reducible apply ih.fieldList
    | with_reducible apply ih.fieldElements
    | with_reducible refine adv_bind ?_ (fun _ _ _ => ?_)
    | assumption
    | with_reducible refine above_append (by assumption) ?_
    | with_reducible refine above_scopeExit (by assumption) ?_
    | with_reducible refine above_removeLastChild (by assumption) ?_
    | with_reducible apply above_update
    | with_reducible apply above_alloc
    | with_reducible apply above_enter
    | with_reducible apply above_ite
    | with_reducible apply above_mk
    | with_reducible exact above_r (by assumption)
    | with_reducible refine rabove_nameString_strict (by assumption) ?_
    | with_reducible refine rabove_nameString_true (by assumption) ?_
    | with_reducible refine rabove_nextOpcode_some (by assumption) ?_
    | with_reducible refine rabove_readByte_some (by assumption) ?_
    | with_reducible refine above_of_ahead (parseNameString_ahead _).1 ?_
    | with_reducible refine above_of_ahead (parsePkgLength_ahead _) ?_
    | with_reducible refine above_of_ahead (parseNumConstant_ahead _ _) ?_
    | with_reducible refine above_of_ahead (parseString_ahead _) ?_
    | with_reducible refine above_of_ahead (parseByteList_ahead _ _ _ _) ?_
    | with_reducible refine above_of_ahead (nextOpcode_ahead _ _) ?_
    | with_reducible refine above_of_ahead (readByte_ahead _) ?_
    | with_reducible refine above_of_ahead (ahead_of_readByte (by assumption)) ?_
    | with_reducible refine above_of_ahead (ahead_of_nextOpcode (by assumption)) ?_
    | with_reducible refine rabove_unread (by assumption) ?_
    | with_reducible refine rabove_nullName (by assumption) hd ?_
    | with_reducible refine rabove_setOffset ?_ ?_
    | with_reducible apply rabove_ite
    | with_reducible apply rabove_ite_snd
    | with_reducible refine rabove_offset d ?_
    | with_reducible exact above_pred (by assumption)
    | with_reducible exact rabove_pred (above_r (by assumption))
    | split

set_option linter.unusedVariables false in
set_option linter.unreachableTactic false in
set_option linter.unusedTactic false in
set_option maxHeartbeats 1000000 in
theorem adv_parseMethodInvocationOrNameRef (env : Env) (d : List Nat)
    (hd : d.length < 2 ^ 32) (fuel : Nat) (ih : AllAdv env d fuel) (o : Nat)
    (p : Parser) (h : Above d o p) :
    Adv d o
      (parseMethodInvocationOrNameRef env (fuel + 1) p) := by
  rw [parseMethodInvocationOrNameRef]
  try dsimp only
  all_goals repeat' first
    | exact adv_fault
    | exact adv_noFuel
    | with_reducible apply adv_ok
    | with_reducible apply adv_finishArg
    | with_reducible apply adv_finalizeObj
    | with_reducible apply adv_popChild
    | with_reducible apply ih.objList
    | with_reducible apply ih.obj
    | with_reducible apply ih.args
    | with_reducible apply ih.arg
    | with_reducible apply ih.argObj
    | with_reducible apply ih.invocation
    | with_reducible apply ih.invocationArgs
    | with_reducible apply ih.scope
    | with_reducible apply ih.namespacedObj
    | with_reducible apply ih.superName
    | with_reducible apply ih.target
    | with_reducible apply ih.fieldList
    | with_reducible apply ih.fieldElements
    | with_reducible refine adv_bind ?_ (fun _ _ _ => ?_)
    | assumption
    | with_reducible refine above_append (by assumption) ?_
    | with_reducible refine above_scopeExit (by assumption) ?_
    | with_reducible refine above_removeLastChild (by assumption) ?_
    | with_reducible apply above_update
    | with_reducible apply above_alloc
    | with_reducible apply above_enter
    | with_reducible apply above_ite
    | with_reducible apply above_mk
    | with_reducible exact above_r (by assumption)
    | with_reducible refine rabove_nameString_strict (by assumption) ?_
    | with_reducible refine rabove_nameString_true (by assumption) ?_
    | with_reducible refine rabove_nextOpcode_some (by assumption) ?_
    | with_reducible refine rabove_readByte_some (by assumption) ?_
    | with_reducible refine above_of_ahead (parseNameString_ahead _).1 ?_
    | with_reducible refine above_of_ahead (parsePkgLength_ahead _) ?_
    | with_reducible refine above_of_ahead (parseNumConstant_ahead _ _) ?_
    | with_reducible refine above_of_ahead (parseString_ahead _) ?_
    | with_reducible refine above_of_ahead (parseByteList_ahead _ _ _ _) ?_
    | with_reducible refine above_of_ahead (nextOpcode_ahead _ _) ?_
    | with_reducible refine above_of_ahead (readByte_ahead _) ?_
    | with_reducible refine above_of_ahead (ahead_of_readByte (by assumption)) ?_
    | with_reducible refine above_of_ahead (ahead_of_nextOpcode (by assumption)) ?_
    | with_reducible refine rabove_unread (by assumption) ?_
    | with_reducible refine rabove_nullName (by assumption) hd ?_
    | with_reducible refine rabove_setOffset ?_ ?_
    | with_reducible apply rabove_ite
    | with_reducible apply rabove_ite_snd
    | with_reducible refine rabove_offset d ?_
    | with_reducible exact above_pred (by assumption)
    | with_reducible exact rabove_pred (above_r (by assumption))
    | split

set_option linter.unusedVariables false in
set_option linter.unreachableTactic false in
set_option linter.unusedTactic false in
set_option maxHeartbeats 1000000 in
theorem adv_parseInvocationArgs (env : Env) (d : List Nat)
    (hd : d.length < 2 ^ 32) (fuel : Nat) (ih : AllAdv env d fuel) (o : Nat)
    (methodDef argIndex : Nat) (args : List Value) (p : Parser) (h : Above d o p) :
    Adv d o
      (parseInvocationArgs env (fuel + 1) methodDef argIndex args p) := by
  rw [parseInvocationArgs]
  try dsimp only
  all_goals repeat' first
    | exact adv_fault
    | exact adv_noFuel
    | with_reducible apply adv_ok
    | with_reducible apply adv_finishArg
    | with_reducible apply adv_finalizeObj
    | with_reducible apply adv_popChild
    | with_reducible apply ih.objList
    | with_reducible apply ih.obj
    | with_reducible apply ih.args
    | with_reducible apply ih.arg
    | with_reducible apply ih.argObj
    | with_reducible apply ih.invocation
    | with_reducible apply ih.invocationArgs
    | with_reducible apply ih.scope
    | with_reducible apply ih.namespacedObj
    | with_reducible apply ih.superName
    | with_reducible apply ih.target
    | with_reducible apply ih.fieldList
    | with_reducible apply ih.fieldElements
    | with_reducible refine adv_bind ?_ (fun _ _ _ => ?_)
    | assumption
    | with_reducible refine above_append (by assumption) ?_
    | with_reducible refine above_scopeExit (by assumption) ?_
    | with_reducible refine above_removeLastChild (by assumption) ?_
    | with_reducible apply above_update
    | with_reducible apply above_alloc
    | with_reducible apply above_enter
    | with_reducible apply above_ite
    | with_reducible apply above_mk
    | with_reducible exact above_r (by assumption)
    | with_reducible refine rabove_nameString_strict (by assumption) ?_
    | with_reducible refine rabove_nameString_true (by assumption) ?_
    | with_reducible refine rabove_nextOpcode_some (by assumption) ?_
    | with_reducible refine rabove_readByte_some (by assumption) ?_
    | with_reducible refine above_of_ahead (parseNameString_ahead _).1 ?_
    | with_reducible refine above_of_ahead (parsePkgLength_ahead _) ?_
    | with_reducible refine above_of_ahead (parseNumConstant_ahead _ _) ?_
    | with_reducible refine above_of_ahead (parseString_ahead _) ?_
    | with_reducible refine above_of_ahead (parseByteList_ahead _ _ _ _) ?_
    | with_reducible refine above_of_ahead (nextOpcode_ahead _ _) ?_
    | with_reducible refine above_of_ahead (readByte_ahead _) ?_
    | with_reducible refine above_of_ahead (ahead_of_readByte (by assumption)) ?_
    | with_reducible refine above_of_ahead (ahead_of_nextOpcode (by assumption)) ?_
    | with_reducible refine rabove_unread (by assumption) ?_
    | with_reducible refine rabove_nullName (by assumption) hd ?_
    | with_reducible refine rabove_setOffset ?_ ?_
    | with_reducible apply rabove_ite
    | with_reducible apply rabove_ite_snd
    | with_reducible refine rabove_offset d ?_
    | with_reducible exact above_pred (by assumption)
    | with_reducible exact rabove_pred (above_r (by assumption))
    | split

set_option linter.unusedVariables false in
set_option linter.unreachableTactic false in
set_option linter.unusedTactic false in
set_option maxHeartbeats 1000000 in
theorem adv_parseScope (env : Env) (d : List Nat)
    (hd : d.length < 2 ^ 32) (fuel : Nat) (ih : AllAdv env d fuel) (o : Nat)
    (maxReadOffset : Nat) (p : Parser) (h : Above d o p) :
    Adv d o
      (parseScope env (fuel + 1) maxReadOffset p) := by
  rw [parseScope]
  try dsimp only
  all_goals repeat' first
    | exact adv_fault
    | exact adv_noFuel
    | with_reducible apply adv_ok
    | with_reducible apply adv_finishArg
    | with_reducible apply adv_finalizeObj
    | with_reducible apply adv_popChild
    | with_reducible apply ih.objList
    | with_reducible apply ih.obj
    | with_reducible apply ih.args
    | with_reducible apply ih.arg
    | with_reducible apply ih.argObj
    | with_reducible apply ih.invocation
    | with_reducible apply ih.invocationArgs
    | with_reducible apply ih.scope
    | with_reducible apply ih.namespacedObj
    | with_reducible apply ih.superName
    | with_reducible apply ih.target
    | with_reducible apply ih.fieldList
    | with_reducible apply ih.fieldElements
    | with_reducible refine adv_bind ?_ (fun _ _ _ => ?_)
    | assumption
    | with_reducible refine above_append (by assumption) ?_
    | with_reducible refine above_scopeExit (by assumption) ?_
    | with_reducible refine above_removeLastChild (by assumption) ?_
    | with_reducible apply above_update
    | with_reducible apply above_alloc
    | with_reducible apply above_enter
    | with_reducible apply above_ite
    | with_reducible apply above_mk
    | with_reducible exact above_r (by assumption)
    | with_reducible refine rabove_nameString_strict (by assumption) ?_
    | with_reducible refine rabove_nameString_true (by assumption) ?_
    | with_reducible refine rabove_nextOpcode_some (by assumption) ?_
    | with_reducible refine rabove_readByte_some (by assumption) ?_
    | with_reducible refine above_of_ahead (parseNameString_ahead _).1 ?_
    | with_reducible refine above_of_ahead (parsePkgLength_ahead _) ?_
    | with_reducible refine above_of_ahead (parseNumConstant_ahead _ _) ?_
    | with_reducible refine above_of_ahead (parseString_ahead _) ?_
    | with_reducible refine above_of_ahead (parseByteList_ahead _ _ _ _) ?_
    | with_reducible refine above_of_ahead (nextOpcode_ahead _ _) ?_
    | with_reducible refine above_of_ahead (readByte_ahead _) ?_
    | with_reducible refine above_of_ahead (ahead_of_readByte (by assumption)) ?_
    | with_reducible refine above_of_ahead (ahead_of_nextOpcode (by assumption)) ?_
    | with_reducible refine rabove_unread (by assumption) ?_
    | with_reducible refine rabove_nullName (by assumption) hd ?_
    | with_reducible refine rabove_setOffset ?_ ?_
    | with_reducible apply rabove_ite
    | with_reducible apply rabove_ite_snd
    | with_reducible refine rabove_offset d ?_
    | with_reducible exact above_pred (by assumption)
    | with_reducible exact rabove_pred (above_r (by assumption))
    | split

set_option linter.unusedVariables false in
set_option linter.unreachableTactic false in
set_option linter.unusedTactic false in
set_option maxHeartbeats 1000000 in
theorem adv_parseNamespacedObj (env : Env) (d : List Nat)
    (hd : d.length < 2 ^ 32) (fuel : Nat) (ih : AllAdv env d fuel) (o : Nat)
    (op maxReadOffset : Nat) (p : Parser) (h : Above d o p) :
    Adv d o
      (parseNamespacedObj env (fuel + 1) op maxReadOffset p) := by
  rw [parseNamespacedObj]
  try dsimp only
  all_goals repeat' first
    | exact adv_fault
    | exact adv_noFuel
    | with_reducible apply adv_ok
    | with_reducible apply adv_finishArg
    | with_reducible apply adv_finalizeObj
    | with_reducible apply adv_popChild
    | with_reducible apply ih.objList
    | with_reducible apply ih.obj
    | with_reducible apply ih.args
    | with_reducible apply ih.arg
    | with_reducible apply ih.argObj
    | with_reducible apply ih.invocation
    | with_reducible apply ih.invocationArgs
    | with_reducible apply ih.scope
    | with_reducible apply ih.namespacedObj
    | with_reducible apply ih.superName
    | with_reducible apply ih.target
    | with_reducible apply ih.fieldList
    | with_reducible apply ih.fieldElements
    | with_reducible refine adv_bind ?_ (fun _ _ _ => ?_)
    | assumption
    | with_reducible refine above_append (by assumption) ?_
    | with_reducible refine above_scopeExit (by assumption) ?_
    | with_reducible refine above_removeLastChild (by assumption) ?_
    | with_reducible apply above_update
    | with_reducible apply above_alloc
    | with_reducible apply above_enter
    | with_reducible apply above_ite
    | with_reducible apply above_mk
    | with_reducible exact above_r (by assumption)
    | with_reducible refine rabove_nameString_strict (by assumption) ?_
    | with_reducible refine rabove_nameString_true (by assumption) ?_
    | with_reducible refine rabove_nextOpcode_some (by assumption) ?_
    | with_reducible refine rabove_readByte_some (by assumption) ?_
    | with_reducible refine above_of_ahead (parseNameString_ahead _).1 ?_
    | with_reducible refine above_of_ahead (parsePkgLength_ahead _) ?_
    | with_reducible refine above_of_ahead (parseNumConstant_ahead _ _) ?_
    | with_reducible refine above_of_ahead (parseString_ahead _) ?_
    | with_reducible refine above_of_ahead (parseByteList_ahead _ _ _ _) ?_
    | with_reducible refine above_of_ahead (nextOpcode_ahead _ _) ?_
    | with_reducible refine above_of_ahead (readByte_ahead _) ?_
    | with_reducible refine above_of_ahead (ahead_of_readByte (by assumption)) ?_
    | with_reducible refine above_of_ahead (ahead_of_nextOpcode (by assumption)) ?_
    | with_reducible refine rabove_unread (by assumption) ?_
    | with_reducible refine rabove_nullName (by assumption) hd ?_
    | with_reducible refine rabove_setOffset ?_ ?_
    | with_reducible apply rabove_ite
    | with_reducible apply rabove_ite_snd
    | with_reducible refine rabove_offset d ?_
    | with_reducible exact above_pred (by assumption)
    | with_reducible exact rabove_pred (above_r (by assumption))
    | split

set_option linter.unusedVariables false in
set_option linter.unreachableTactic false in
set_option linter.unusedTactic false in
set_option maxHeartbeats 1000000 in
theorem adv_parseSuperName (env : Env) (d : List Nat)
    (hd : d.length < 2 ^ 32) (fuel : Nat) (ih : AllAdv env d fuel) (o : Nat)
    (p : Parser) (h : Above d o p) :
    Adv d o
      (parseSuperName env (fuel + 1) p) := by
  rw [parseSuperName]
  try dsimp only
  all_goals repeat' first
    | exact adv_fault
    | exact adv_noFuel
    | with_reducible apply adv_ok
    | with_reducible apply adv_finishArg
    | with_reducible apply adv_finalizeObj
    | with_reducible apply adv_popChild
    | with_reducible apply ih.objList
    | with_reducible apply ih.obj
    | with_reducible apply ih.args
    | with_reducible apply ih.arg
    | with_reducible apply ih.argObj
    | with_reducible apply ih.invocation
    | with_reducible apply ih.invocationArgs
    | with_reducible apply ih.scope
    | with_reducible apply ih.namespacedObj
    | with_reducible apply ih.superName
    | with_reducible apply ih.target
    | with_reducible apply ih.fieldList
    | with_reducible apply ih.fieldElements
    | with_reducible refine adv_bind ?_ (fun _ _ _ => ?_)
    | assumption
    | with_reducible refine above_append (by assumption) ?_
    | with_reducible refine above_scopeExit (by assumption) ?_
    | with_reducible refine above_removeLastChild (by assumption) ?_
    | with_reducible apply above_update
    | with_reducible apply above_alloc
    | with_reducible apply above_enter
    | with_reducible apply above_ite
    | with_reducible apply above_mk
    | with_reducible exact above_r (by assumption)
    | with_reducible refine rabove_nameString_strict (by assumption) ?_
    | with_reducible refine rabove_nameString_true (by assumption) ?_
    | with_reducible refine rabove_nextOpcode_some (by assumption) ?_
    | with_reducible refine rabove_readByte_some (by assumption) ?_
    | with_reducible refine above_of_ahead (parseNameString_ahead _).1 ?_
    | with_reducible refine above_of_ahead (parsePkgLength_ahead _) ?_
    | with_reducible refine above_of_ahead (parseNumConstant_ahead _ _) ?_
    | with_reducible refine above_of_ahead (parseString_ahead _) ?_
    | with_reducible refine above_of_ahead (parseByteList_ahead _ _ _ _) ?_
    | with_reducible refine above_of_ahead (nextOpcode_ahead _ _) ?_
    | with_reducible refine above_of_ahead (readByte_ahead _) ?_
    | with_reducible refine above_of_ahead (ahead_of_readByte (by assumption)) ?_
    | with_reducible refine above_of_ahead (ahead_of_nextOpcode (by assumption)) ?_
    | with_reducible refine rabove_unread (by assumption) ?_
    | with_reducible refine rabove_nullName (by assumption) hd ?_
    | with_reducible refine rabove_setOffset ?_ ?_
    | with_reducible apply rabove_ite
    | with_reducible apply rabove_ite_snd
    | with_reducible refine rabove_offset d ?_
    | with_reducible exact above_pred (by assumption)
    | with_reducible exact rabove_pred (above_r (by assumption))
    | split

set_option linter.unusedVariables false in
set_option linter.unreachableTactic false in
set_option linter.unusedTactic false in
set_option maxHeartbeats 1000000 in
theorem adv_parseTarget (env : Env) (d : List Nat)
    (hd : d.length < 2 ^ 32) (fuel : Nat) (ih : AllAdv env d fuel) (o : Nat)
    (p : Parser) (h : Above d o p) :
    Adv d o
      (parseTarget env (fuel + 1) p) := by
  rw [parseTarget]
  try dsimp only
  all_goals repeat' first
    | exact adv_fault
    | exact adv_noFuel
    | with_reducible apply adv_ok
    | with_reducible apply adv_finishArg
    | with_reducible apply adv_finalizeObj
    | with_reducible apply adv_popChild
    | with_reducible apply ih.objList
    | with_reducible apply ih.obj
    | with_reducible apply ih.args
    | with_reducible apply ih.arg
    | with_reducible apply ih.argObj
    | with_reducible apply ih.invocation
    | with_reducible apply ih.invocationArgs
    | with_reducible apply ih.scope
    | with_reducible apply ih.namespacedObj
    | with_reducible apply ih.superName
    | with_reducible apply ih.target
    | with_reducible apply ih.fieldList
    | with_reducible apply ih.fieldElements
    | with_reducible refine adv_bind ?_ (fun _ _ _ => ?_)
    | assumption
    | with_reducible refine above_append (by assumption) ?_
    | with_reducible refine above_scopeExit (by assumption) ?_
    | with_reducible refine above_removeLastChild (by assumption) ?_
    | with_reducible apply above_update
    | with_reducible apply above_alloc
    | with_reducible apply above_enter
    | with_reducible apply above_ite
    | with_reducible apply above_mk
    | with_reducible exact above_r (by assumption)
    | with_reducible refine rabove_nameString_strict (by assumption) ?_
    | with_reducible refine rabove_nameString_true (by assumption) ?_
    | with_reducible refine rabove_nextOpcode_some (by assumption) ?_
    | with_reducible refine rabove_readByte_some (by assumption) ?_
    | with_reducible refine above_of_ahead (parseNameString_ahead _).1 ?_
    | with_reducible refine above_of_ahead (parsePkgLength_ahead _) ?_
    | with_reducible refine above_of_ahead (parseNumConstant_ahead _ _) ?_
    | with_reducible refine above_of_ahead (parseString_ahead _) ?_
    | with_reducible refine above_of_ahead (parseByteList_ahead _ _ _ _) ?_
    | with_reducible refine above_of_ahead (nextOpcode_ahead _ _) ?_
    | with_reducible refine above_of_ahead (readByte_ahead _) ?_
    | with_reducible refine above_of_ahead (ahead_of_readByte (by assumption)) ?_
    | with_reducible refine above_of_ahead (ahead_of_nextOpcode (by assumption)) ?_
    | with_reducible refine rabove_unread (by assumption) ?_
    | with_reducible refine rabove_nullName (by assumption) hd ?_
    | with_reducible refine rabove_setOffset ?_ ?_
    | with_reducible apply rabove_ite
    | with_reducible apply rabove_ite_snd
    | with_reducible refine rabove_offset d ?_
    | with_reducible exact above_pred (by assumption)
    | with_reducible exact rabove_pred (above_r (by assumption))
    | split

set_option linter.unusedVariables false in
set_option linter.unreachableTactic false in
set_option linter.unusedTactic false in
set_option maxHeartbeats 1000000 in
theorem adv_parseFieldList (env : Env) (d : List Nat)
    (hd : d.length < 2 ^ 32) (fuel : Nat) (ih : AllAdv env d fuel) (o : Nat)
    (op : Nat) (args : List Value) (maxReadOffset : Nat) (p : Parser) (h : Above d o p) :
    Adv d o
      (parseFieldList env (fuel + 1) op args maxReadOffset p) := by
  rw [parseFieldList]
  all_goals repeat' first
    | exact adv_fault
    | exact adv_noFuel
    | with_reducible apply adv_ok
    | with_reducible apply adv_finishArg
    | with_reducible apply adv_finalizeObj
    | with_reducible apply adv_popChild
    | with_reducible apply ih.objList
    | with_reducible apply ih.obj
    | with_reducible apply ih.args
    | with_reducible apply ih.arg
    | with_reducible apply ih.argObj
    | with_reducible apply ih.invocation
    | with_reducible apply ih.invocationArgs
    | with_reducible apply ih.scope
    | with_reducible apply ih.namespacedObj
    | with_reducible apply ih.superName
    | with_reducible apply ih.target
    | with_reducible apply ih.fieldList
    | with_reducible apply ih.fieldElements
    | with_reducible refine adv_bind ?_ (fun _ _ _ => ?_)
    | assumption
    | with_reducible refine above_append (by assumption) ?_
    | with_reducible refine above_scopeExit (by assumption) ?_
    | with_reducible refine above_removeLastChild (by assumption) ?_
    | with_reducible apply above_update
    | with_reducible apply above_alloc
    | with_reducible apply above_enter
    | with_reducible apply above_ite
    | with_reducible apply above_mk
    | with_reducible exact above_r (by assumption)
    | with_reducible refine rabove_nameString_strict (by assumption) ?_
    | with_reducible refine rabove_nameString_true (by assumption) ?_
    | with_reducible refine rabove_nextOpcode_some (by assumption) ?_
    | with_reducible refine rabove_readByte_some (by assumption) ?_
    | with_reducible refine above_of_ahead (parseNameString_ahead _).1 ?_
    | with_reducible refine above_of_ahead (parsePkgLength_ahead _) ?_
    | with_reducible refine above_of_ahead (parseNumConstant_ahead _ _) ?_
    | with_reducible refine above_of_ahead (parseString_ahead _) ?_
    | with_reducible refine above_of_ahead (parseByteList_ahead _ _ _ _) ?_
    | with_reducible refine above_of_ahead (nextOpcode_ahead _ _) ?_
    | with_reducible refine above_of_ahead (readByte_ahead _) ?_
    | with_reducible refine above_of_ahead (ahead_of_readByte (by assumption)) ?_
    | with_reducible refine above_of_ahead (ahead_of_nextOpcode (by assumption)) ?_
    | with_reducible refine rabove_unread (by assumption) ?_
    | with_reducible refine rabove_nullName (by assumption) hd ?_
    | with_reducible refine rabove_setOffset ?_ ?_
    | with_reducible apply rabove_ite
    | with_reducible apply rabove_ite_snd
    | with_reducible refine rabove_offset d ?_
    | with_reducible exact above_pred (by assumption)
    | with_reducible exact rabove_pred (above_r (by assumption))
    | split

set_option linter.unusedVariables false in
set_option linter.unreachableTactic false in
set_option linter.unusedTactic false in
set_option maxHeartbeats 1000000 in
theorem adv_parseFieldElements (env : Env) (d : List Nat)
    (hd : d.length < 2 ^ 32) (fuel : Nat) (ih : AllAdv env d fuel) (o : Nat)
    (op : Nat) (name0 name1 : Str) (lock : Bool)
    (updateRule maxReadOffset : Nat) (st : FieldListState) (p : Parser) (h : Above d o p) :
    Adv d o
      (parseFieldElements env (fuel + 1) op name0 name1 lock updateRule maxReadOffset st p) := by
  rw [parseFieldElements]
  try dsimp only
  all_goals repeat' first
    | exact adv_fault
    | exact adv_noFuel
    | with_reducible apply adv_ok
    | with_reducible apply adv_finishArg
    | with_reducible apply adv_finalizeObj
    | with_reducible apply adv_popChild
    | with_reducible apply ih.objList
    | with_reducible apply ih.obj
    | with_reducible apply ih.args
    | with_reducible apply ih.arg
    | with_reducible apply ih.argObj
    | with_reducible apply ih.invocation
    | with_reducible apply ih.invocationArgs
    | with_reducible apply ih.scope
    | with_reducible apply ih.namespacedObj
    | with_reducible apply ih.superName
    | with_reducible apply ih.target
    | with_reducible apply ih.fieldList
    | with_reducible apply ih.fieldElements
    | with_reducible refine adv_bind ?_ (fun _ _ _ => ?_)
    | assumption
    | with_reducible refine above_append (by assumption) ?_
    | with_reducible refine above_scopeExit (by assumption) ?_
    | with_reducible refine above_removeLastChild (by assumption) ?_
    | with_reducible apply above_update
    | with_reducible apply above_alloc
    | with_reducible apply above_enter
    | with_reducible apply above_ite
    | with_reducible apply above_mk
    | with_reducible exact above_r (by assumption)
    | with_reducible refine rabove_nameString_strict (by assumption) ?_
    | with_reducible refine rabove_nameString_true (by assumption) ?_
    | with_reducible refine rabove_nextOpcode_some (by assumption) ?_
    | with_reducible refine rabove_readByte_some (by assumption) ?_
    | with_reducible refine above_of_ahead (parseNameString_ahead _).1 ?_
    | with_reducible refine above_of_ahead (parsePkgLength_ahead _) ?_
    | with_reducible refine above_of_ahead (parseNumConstant_ahead _ _) ?_
    | with_reducible refine above_of_ahead (parseString_ahead _) ?_
    | with_reducible refine above_of_ahead (parseByteList_ahead _ _ _ _) ?_
    | with_reducible refine above_of_ahead (nextOpcode_ahead _ _) ?_
    | with_reducible refine above_of_ahead (readByte_ahead _) ?_
    | with_reducible refine above_of_ahead (ahead_of_readByte (by assumption)) ?_
    | with_reducible refine above_of_ahead (ahead_of_nextOpcode (by assumption)) ?_
    | with_reducible refine rabove_unread (by assumption) ?_
    | with_reducible refine rabove_nullName (by assumption) hd ?_
    | with_reducible refine rabove_setOffset ?_ ?_
    | with_reducible apply rabove_ite
    | with_reducible apply rabove_ite_snd
    | with_reducible refine rabove_offset d ?_
    | with_reducible exact above_pred (by assumption)
    | with_reducible exact rabove_pred (above_r (by assumption))
    | split

/-- One more unit of fuel: no routine returns before the offset it started at if the
routines it calls do not. -/
theorem allAdv_succ (env : Env) (d : List Nat) (hd : d.length < 2 ^ 32) (fuel : Nat)
    (ih : AllAdv env d fuel) : AllAdv env d (fuel + 1) :=
  { objList := adv_parseObjList env d hd fuel ih
    obj := adv_parseObj env d hd fuel ih
    args := adv_parseArgs env d hd fuel ih
    arg := adv_parseArg env d hd fuel ih
    argObj := adv_parseArgObj env d hd fuel ih
    invocation := adv_parseMethodInvocationOrNameRef env d hd fuel ih
    invocationArgs := adv_parseInvocationArgs env d hd fuel ih
    scope := adv_parseScope env d hd fuel ih
    namespacedObj := adv_parseNamespacedObj env d hd fuel ih
    superName := adv_parseSuperName env d hd fuel ih
    target := adv_parseTarget env d hd fuel ih
    fieldList := adv_parseFieldList env d hd fuel ih
    fieldElements := adv_parseFieldElements env d hd fuel ih }

/-- No routine of the parser returns before the offset it started at, whatever the fuel:
the rewinds go back to an offset that the routine itself has seen. -/
theorem allAdv (env : Env) (d : List Nat) (hd : d.length < 2 ^ 32) :
    ∀ fuel : Nat, AllAdv env d fuel
  | 0 => allAdv_zero env d
  | fuel + 1 => allAdv_succ env d hd fuel (allAdv env d hd fuel)

set_option linter.unusedVariables false in
set_option linter.unreachableTactic false in
set_option linter.unusedTactic false in
set_option maxHeartbeats 1000000 in
/-- A method invocation or name reference that is accepted has taken at least one byte. -/
theorem strict_invocation (env : Env) (d : List Nat) (hd : d.length < 2 ^ 32) (fuel : Nat)
    (o : Nat) (p p' : Parser) (h : Above d o p)
    (heq : parseMethodInvocationOrNameRef env fuel p = Outcome.ok true p') :
    Above d (o + 1) p' ∧ o < d.length := by
  cases fuel with
  | zero =>
    rw [parseMethodInvocationOrNameRef] at heq
    cases heq
  | succ fuel =>
    have ih := allAdv env d hd fuel
    rw [parseMethodInvocationOrNameRef] at heq
    dsimp only at heq
    split at heq
    · cases heq
    · rename_i hname
      have hs := (parseNameString_ahead p.r).2 (by simpa using hname)
      have hlt : o < d.length := by
        have h1 := h.1
        have h2 := h.2
        rw [← h1]
        omega
      refine ⟨(show Adv d (o + 1) _ from ?_) true p' heq, hlt⟩
      all_goals repeat' first
        | exact adv_fault
        | exact adv_noFuel
        | with_reducible apply adv_ok
        | with_reducible apply adv_finishArg
        | with_reducible apply adv_finalizeObj
        | with_reducible apply adv_popChild
        | with_reducible apply ih.objList
        | with_reducible apply ih.obj
        | with_reducible apply ih.args
        | with_reducible apply ih.arg
        | with_reducible apply ih.argObj
        | with_reducible apply ih.invocation
        | with_reducible apply ih.invocationArgs
        | with_reducible apply ih.scope
        | with_reducible apply ih.namespacedObj
        | with_reducible apply ih.superName
        | with_reducible apply ih.target
        | with_reducible apply ih.fieldList
        | with_reducible apply ih.fieldElements
        | with_reducible refine adv_bind ?_ (fun _ _ _ => ?_)
        | assumption
        | with_reducible refine above_append (by assumption) ?_
        | with_reducible refine above_scopeExit (by assumption) ?_
        | with_reducible refine above_removeLastChild (by assumption) ?_
        | with_reducible apply above_update
        | with_reducible apply above_alloc
        | with_reducible apply above_enter
        | with_reducible apply above_ite
        | with_reducible apply above_mk
        | with_reducible exact above_r (by assumption)
        | with_reducible refine rabove_nameString_strict (by assumption) ?_
        | with_reducible refine rabove_nameString_true (by assumption) ?_
        | with_reducible refine rabove_nextOpcode_some (by assumption) ?_
        | with_reducible refine rabove_readByte_some (by assumption) ?_
        | with_reducible refine above_of_ahead (parseNameString_ahead _).1 ?_
        | with_reducible refine above_of_ahead (parsePkgLength_ahead _) ?_
        | with_reducible refine above_of_ahead (parseNumConstant_ahead _ _) ?_
        | with_reducible refine above_of_ahead (parseString_ahead _) ?_
        | with_reducible refine above_of_ahead (parseByteList_ahead _ _ _ _) ?_
        | with_reducible refine above_of_ahead (nextOpcode_ahead _ _) ?_
        | with_reducible refine above_of_ahead (readByte_ahead _) ?_
        | with_reducible refine above_of_ahead (ahead_of_readByte (by assumption)) ?_
        | with_reducible refine above_of_ahead (ahead_of_nextOpcode (by assumption)) ?_
        | with_reducible refine rabove_unread (by assumption) ?_
        | with_reducible refine rabove_nullName (by assumption) hd ?_
        | with_reducible refine rabove_setOffset ?_ ?_
        | with_reducible apply rabove_ite
        | with_reducible apply rabove_ite_snd
        | with_reducible refine rabove_offset d ?_
        | with_reducible exact above_pred (by assumption)
        | with_reducible exact rabove_pred (above_r (by assumption))
        | split

set_option linter.unusedVariables false in
set_option linter.unreachableTactic false in
set_option linter.unusedTactic false in
set_option maxHeartbeats 1000000 in
/-- An object that is accepted has taken at least one byte. -/
theorem strict_obj (env : Env) (d : List Nat) (hd : d.length < 2 ^ 32) (fuel : Nat)
    (o : Nat) (p p' : Parser) (h : Above d o p)
    (heq : parseObj env fuel p = Outcome.ok true p') :
    Above d (o + 1) p' ∧ o < d.length := by
  cases fuel with
  | zero =>
    rw [parseObj] at heq
    cases heq
  | succ fuel =>
    have ih := allAdv env d hd fuel
    rw [parseObj] at heq
    dsimp only at heq
    split at heq
    · rename_i r hop
      refine strict_invocation env d hd fuel o _ p' ?_ heq
      exact above_mk (rabove_setOffset (above_of_ahead (ahead_of_nextOpcode hop) h) h.2)
    · rename_i info r hop
      have hs := @nextOpcode_some env p.r info (by rw [hop])
      have hlt : o < d.length := by
        have h1 := h.1
        have h2 := h.2
        rw [← h1]
        omega
      refine ⟨(show Adv d (o + 1) _ from ?_) true p' heq, hlt⟩
      all_goals repeat' first
        | exact adv_fault
        | exact adv_noFuel
        | with_reducible apply adv_ok
        | with_reducible apply adv_finishArg
        | with_reducible apply adv_finalizeObj
        | with_reducible apply adv_popChild
        | with_reducible apply ih.objList
        | with_reducible apply ih.obj
        | with_reducible apply ih.args
        | with_reducible apply ih.arg
        | with_reducible apply ih.argObj
        | with_reducible apply ih.invocation
        | with_reducible apply ih.invocationArgs
        | with_reducible apply ih.scope
        | with_reducible apply ih.namespacedObj
        | with_reducible apply ih.superName
        | with_reducible apply ih.target
        | with_reducible apply ih.fieldList
        | with_reducible apply ih.fieldElements
        | with_reducible refine adv_bind ?_ (fun _ _ _ => ?_)
        | assumption
        | with_reducible refine above_append (by assumption) ?_
        | with_reducible refine above_scopeExit (by assumption) ?_
        | with_reducible refine above_removeLastChild (by assumption) ?_
        | with_reducible apply above_update
        | with_reducible apply above_alloc
        | with_reducible apply above_enter
        | with_reducible apply above_ite
        | with_reducible apply above_mk
        | with_reducible exact above_r (by assumption)
        | with_reducible refine rabove_nameString_strict (by assumption) ?_
        | with_reducible refine rabove_nameString_true (by assumption) ?_
        | with_reducible refine rabove_nextOpcode_some (by assumption) ?_
        | with_reducible refine rabove_readByte_some (by assumption) ?_
        | with_reducible refine above_of_ahead (parseNameString_ahead _).1 ?_
        | with_reducible refine above_of_ahead (parsePkgLength_ahead _) ?_
        | with_reducible refine above_of_ahead (parseNumConstant_ahead _ _) ?_
        | with_reducible refine above_of_ahead (parseString_ahead _) ?_
        | with_reducible refine above_of_ahead (parseByteList_ahead _ _ _ _) ?_
        | with_reducible refine above_of_ahead (nextOpcode_ahead _ _) ?_
        | with_reducible refine above_of_ahead (readByte_ahead _) ?_
        | with_reducible refine above_of_ahead (ahead_of_readByte (by assumption)) ?_
        | with_reducible refine above_of_ahead (ahead_of_nextOpcode (by assumption)) ?_
        | with_reducible refine rabove_unread (by assumption) ?_
        | with_reducible refine rabove_nullName (by assumption) hd ?_
        | with_reducible refine rabove_setOffset ?_ ?_
        | with_reducible apply rabove_ite
        | with_reducible apply rabove_ite_snd
        | with_reducible refine rabove_offset d ?_
        | with_reducible exact above_pred (by assumption)
        | with_reducible exact rabove_pred (above_r (by assumption))
        | split

/-- An argument object that is accepted has taken at least one byte. -/
theorem strict_argObj (env : Env) (d : List Nat) (hd : d.length < 2 ^ 32) (fuel : Nat)
    (o : Nat) (p p' : Parser) (a : Value × Bool) (h : Above d o p)
    (heq : parseArgObj env fuel p = Outcome.ok a p') (ha : a.2 = true) :
    Above d (o + 1) p' ∧ o < d.length := by
  cases fuel with
  | zero =>
    rw [parseArgObj] at heq
    cases heq
  | succ fuel =>
    rw [parseArgObj] at heq
    cases hobj : parseObj env fuel p with
    | ok b p1 =>
      rw [hobj] at heq
      simp only [Outcome.bind] at heq
      cases b with
      | false =>
        simp only [Bool.not_false, if_true] at heq
        cases heq
        cases ha
      | true =>
        have hs := strict_obj env d hd fuel o p p1 h hobj
        refine ⟨?_, hs.2⟩
        simp only [Bool.not_true, Bool.false_eq_true, if_false] at heq
        exact adv_popChild hs.1 a p' heq
    | fault =>
      rw [hobj] at heq
      cases heq
    | noFuel =>
      rw [hobj] at heq
      cases heq

/-- A nested invocation that is accepted as a term argument has taken at least one byte. -/
theorem strict_invocationPop (env : Env) (d : List Nat) (hd : d.length < 2 ^ 32) (fuel : Nat)
    (o : Nat) (p p' : Parser) (a : Value × Bool) (h : Above d o p)
    (heq : ((parseMethodInvocationOrNameRef env fuel p).bind fun ok p =>
      if !ok then Outcome.ok (Value.null, false) p
      else
        match p.scopeCurrent with
        | none => Outcome.fault
        | some cur =>
          match p.removeLastChild cur with
          | none => Outcome.fault
          | some (child, p) => Outcome.ok (Value.ent child, true) p) = Outcome.ok a p')
    (ha : a.2 = true) : Above d (o + 1) p' ∧ o < d.length := by
  cases hobj : parseMethodInvocationOrNameRef env fuel p with
  | ok b p1 =>
    rw [hobj] at heq
    simp only [Outcome.bind] at heq
    cases b with
    | false =>
      simp only [Bool.not_false, if_true] at heq
      cases heq
      cases ha
    | true =>
      have hs := strict_invocation env d hd fuel o p p1 h hobj
      refine ⟨?_, hs.2⟩
      simp only [Bool.not_true, Bool.false_eq_true, if_false] at heq
      exact adv_popChild hs.1 a p' heq
  | fault =>
    rw [hobj] at heq
    cases heq
  | noFuel =>
    rw [hobj] at heq
    cases heq

/-! ## Theorems: more fuel does not change the outcome of a run that ended -/

theorem stable_refl {α : Type} (x : Outcome α) : Stable x x := fun _ => rfl

theorem stable_of_noFuel {α : Type} (y : Outcome α) : Stable Outcome.noFuel y :=
  fun h => absurd rfl h

theorem stable_bind {α β : Type} {x y : Outcome α} {f g : α → Parser → Outcome β}
    (hx : Stable x y) (hf : ∀ a p, Stable (f a p) (g a p)) :
    Stable (x.bind f) (y.bind g) := by
  intro hne
  cases x with
  | ok a p =>
    rw [hx (by intro h; cases h)]
    exact hf a p hne
  | fault =>
    rw [hx (by intro h; cases h)]
    rfl
  | noFuel => exact absurd rfl hne

theorem allStable_zero (env : Env) : AllStable env 0 1 := by
  constructor <;> intros <;> first
    | (rw [parseObjList]; exact stable_of_noFuel _)
    | (rw [parseObj]; exact stable_of_noFuel _)
    | (rw [parseArgs]; exact stable_of_noFuel _)
    | (rw [parseArg]; exact stable_of_noFuel _)
    | (rw [parseArgObj]; exact stable_of_noFuel _)
    | (rw [parseMethodInvocationOrNameRef]; exact stable_of_noFuel _)
    | (rw [parseInvocationArgs]; exact stable_of_noFuel _)
    | (rw [parseScope]; exact stable_of_noFuel _)
    | (rw [parseNamespacedObj]; exact stable_of_noFuel _)
    | (rw [parseSuperName]; exact stable_of_noFuel _)
    | (rw [parseTarget]; exact stable_of_noFuel _)
    | (rw [parseFieldList]; exact stable_of_noFuel _)
    | (rw [parseFieldElements]; exact stable_of_noFuel _)

set_option linter.unusedVariables false in
set_option linter.unreachableTactic false in
set_option linter.unusedTactic false in
set_option maxHeartbeats 1000000 in
theorem stable_parseObjList (env : Env) (f1 f2 : Nat) (ih : AllStable env f1 f2)
    (maxOffset : Nat) (p : Parser) :
    Stable (parseObjList env (f1 + 1) maxOffset p)
      (parseObjList env (f2 + 1) maxOffset p) := by
  rw [parseObjList, parseObjList]
  all_goals repeat' first
    | with_reducible exact stable_refl _
    | with_reducible apply ih.objList
    | with_reducible apply ih.obj
    | with_reducible apply ih.args
    | with_reducible apply ih.arg
    | with_reducible apply ih.argObj
    | with_reducible apply ih.invocation
    | with_reducible apply ih.invocationArgs
    | with_reducible apply ih.scope
    | with_reducible apply ih.namespacedObj
    | with_reducible apply ih.superName
    | with_reducible apply ih.target
    | with_reducible apply ih.fieldList
    | with_reducible apply ih.fieldElements
    | with_reducible refine stable_bind ?_ (fun _ _ => ?_)
    | split

set_option linter.unusedVariables false in
set_option linter.unreachableTactic false in
set_option linter.unusedTactic false in
set_option maxHeartbeats 1000000 in
theorem stable_parseObj (env : Env) (f1 f2 : Nat) (ih : AllStable env f1 f2)
    (p : Parser) :
    Stable (parseObj env (f1 + 1) p)
      (parseObj env (f2 + 1) p) := by
  rw [parseObj, parseObj]
  try dsimp only
  all_goals repeat' first
    | with_reducible exact stable_refl _
    | with_reducible apply ih.objList
    | with_reducible apply ih.obj
    | with_reducible apply ih.args
    | with_reducible apply ih.arg
    | with_reducible apply ih.argObj
    | with_reducible apply ih.invocation
    | with_reducible apply ih.invocationArgs
    | with_reducible apply ih.scope
    | with_reducible apply ih.namespacedObj
    | with_reducible apply ih.superName
    | with_reducible apply ih.target
    | with_reducible apply ih.fieldList
    | with_reducible apply ih.fieldElements
    | with_reducible refine stable_bind ?_ (fun _ _ => ?_)
    | split

set_option linter.unusedVariables false in
set_option linter.unreachableTactic false in
set_option linter.unusedTactic false in
set_option maxHeartbeats 1000000 in
theorem stable_parseArgs (env : Env) (f1 f2 : Nat) (ih : AllStable env f1 f2)
    (info : OpcodeInfo) (obj argIndex maxReadOffset : Nat) (p : Parser) :
    Stable (parseArgs env (f1 + 1) info obj argIndex maxReadOffset p)
      (parseArgs env (f2 + 1) info obj argIndex maxReadOffset p) := by
  rw [parseArgs, parseArgs]
  all_goals repeat' first
    | with_reducible exact stable_refl _
    | with_reducible apply ih.objList
    | with_reducible apply ih.obj
    | with_reducible apply ih.args
    | with_reducible apply ih.arg
    | with_reducible apply ih.argObj
    | with_reducible apply ih.invocation
    | with_reducible apply ih.invocationArgs
    | with_reducible apply ih.scope
    | with_reducible apply ih.namespacedObj
    | with_reducible apply ih.superName
    | with_reducible apply ih.target
    | with_reducible apply ih.fieldList
    | with_reducible apply ih.fieldElements
    | with_reducible refine stable_bind ?_ (fun _ _ => ?_)
    | split

set_option linter.unusedVariables false in
set_option linter.unreachableTactic false in
set_option linter.unusedTactic false in
set_option maxHeartbeats 1000000 in
theorem stable_parseArg (env : Env) (f1 f2 : Nat) (ih : AllStable env f1 f2)
    (info : OpcodeInfo) (obj argIndex : Nat) (argType : OpArg)
    (maxReadOffset : Nat) (p : Parser) :
    Stable (parseArg env (f1 + 1) info obj argIndex argType maxReadOffset p)
      (parseArg env (f2 + 1) info obj argIndex argType maxReadOffset p) := by
  cases argType
  all_goals rw [parseArg, parseArg]
  all_goals try dsimp only
  all_goals repeat' first
    | with_reducible exact stable_refl _
    | with_reducible apply ih.objList
    | with_reducible apply ih.obj
    | with_reducible apply ih.args
    | with_reducible apply ih.arg
    | with_reducible apply ih.argObj
    | with_reducible apply ih.invocation
    | with_reducible apply ih.invocationArgs
    | with_reducible apply ih.scope
    | with_reducible apply ih.namespacedObj
    | with_reducible apply ih.superName
    | with_reducible apply ih.target
    | with_reducible apply ih.fieldList
    | with_reducible apply ih.fieldElements
    | with_reducible refine stable_bind ?_ (fun _ _ => ?_)
    | split

set_option linter.unusedVariables false in
set_option linter.unreachableTactic false in
set_option linter.unusedTactic false in
set_option maxHeartbeats 1000000 in
theorem stable_parseArgObj (env : Env) (f1 f2 : Nat) (ih : AllStable env f1 f2)
    (p : Parser) :
    Stable (parseArgObj env (f1 + 1) p)
      (parseArgObj env (f2 + 1) p) := by
  rw [parseArgObj, parseArgObj]
  all_goals repeat' first
    | with_reducible exact stable_refl _
    | with_reducible apply ih.objList
    | with_reducible apply ih.obj
    | with_reducible apply ih.args
    | with_reducible apply ih.arg
    | with_reducible apply ih.argObj
    | with_reducible apply ih.invocation
    | with_reducible apply ih.invocationArgs
    | with_reducible apply ih.scope
    | with_reducible apply ih.namespacedObj
    | with_reducible apply ih.superName
    | with_reducible apply ih.target
    | with_reducible apply ih.fieldList
    | with_reducible apply ih.fieldElements
    | with_reducible refine stable_bind ?_ (fun _ _ => ?_)
    | split

set_option linter.unusedVariables false in
set_option linter.unreachableTactic false in
set_option linter.unusedTactic false in
set_option maxHeartbeats 1000000 in
theorem stable_parseMethodInvocationOrNameRef (env : Env) (f1 f2 : Nat) (ih : AllStable env f1 f2)
    (p : Parser) :
    Stable (parseMethodInvocationOrNameRef env (f1 + 1) p)
      (parseMethodInvocationOrNameRef env (f2 + 1) p) := by
  rw [parseMethodInvocationOrNameRef, parseMethodInvocationOrNameRef]
  try dsimp only
  all_goals repeat' first
    | with_reducible exact stable_refl _
    | with_reducible apply ih.objList
    | with_reducible apply ih.obj
    | with_reducible apply ih.args
    | with_reducible apply ih.arg
    | with_reducible apply ih.argObj
    | with_reducible apply ih.invocation
    | with_reducible apply ih.invocationArgs
    | with_reducible apply ih.scope
    | with_reducible apply ih.namespacedObj
    | with_reducible apply ih.superName
    | with_reducible apply ih.target
    | with_reducible apply ih.fieldList
    | with_reducible apply ih.fieldElements
    | with_reducible refine stable_bind ?_ (fun _ _ => ?_)
    | split

set_option linter.unusedVariables false in
set_option linter.unreachableTactic false in
set_option linter.unusedTactic false in
set_option maxHeartbeats 1000000 in
theorem stable_parseInvocationArgs (env : Env) (f1 f2 : Nat) (ih : AllStable env f1 f2)
    (methodDef argIndex : Nat) (args : List Value) (p : Parser) :
    Stable (parseInvocationArgs env (f1 + 1) methodDef argIndex args p)
      (parseInvocationArgs env (f2 + 1) methodDef argIndex args p) := by
  rw [parseInvocationArgs, parseInvocationArgs]
  try dsimp only
  all_goals repeat' first
    | with_reducible exact stable_refl _
    | with_reducible apply ih.objList
    | with_reducible apply ih.obj
    | with_reducible apply ih.args
    | with_reducible apply ih.arg
    | with_reducible apply ih.argObj
    | with_reducible apply ih.invocation
    | with_reducible apply ih.invocationArgs
    | with_reducible apply ih.scope
    | with_reducible apply ih.namespacedObj
    | with_reducible apply ih.superName
    | with_reducible apply ih.target
    | with_reducible apply ih.fieldList
    | with_reducible apply ih.fieldElements
    | with_reducible refine stable_bind ?_ (fun _ _ => ?_)
    | split

set_option linter.unusedVariables false in
set_option linter.unreachableTactic false in
set_option linter.unusedTactic false in
set_option maxHeartbeats 1000000 in
theorem stable_parseScope (env : Env) (f1 f2 : Nat) (ih : AllStable env f1 f2)
    (maxReadOffset : Nat) (p : Parser) :
    Stable (parseScope env (f1 + 1) maxReadOffset p)
      (parseScope env (f2 + 1) maxReadOffset p) := by
  rw [parseScope, parseScope]
  try dsimp only
  all_goals repeat' first
    | with_reducible exact stable_refl _
    | with_reducible apply ih.objList
    | with_reducible apply ih.obj
    | with_reducible apply ih.args
    | with_reducible apply ih.arg
    | with_reducible apply ih.argObj
    | with_reducible apply ih.invocation
    | with_reducible apply ih.invocationArgs
    | with_reducible apply ih.scope
    | with_reducible apply ih.namespacedObj
    | with_reducible apply ih.superName
    | with_reducible apply ih.target
    | with_reducible apply ih.fieldList
    | with_reducible apply ih.fieldElements
    | with_reducible refine stable_bind ?_ (fun _ _ => ?_)
    | split

set_option linter.unusedVariables false in
set_option linter.unreachableTactic false in
set_option linter.unusedTactic false in
set_option maxHeartbeats 1000000 in
theorem stable_parseNamespacedObj (env : Env) (f1 f2 : Nat) (ih : AllStable env f1 f2)
    (op maxReadOffset : Nat) (p : Parser) :
    Stable (parseNamespacedObj env (f1 + 1) op maxReadOffset p)
      (parseNamespacedObj env (f2 + 1) op maxReadOffset p) := by
  rw [parseNamespacedObj, parseNamespacedObj]
  try dsimp only
  all_goals repeat' first
    | with_reducible exact stable_refl _
    | with_reducible apply ih.objList
    | with_reducible apply ih.obj
    | with_reducible apply ih.args
    | with_reducible apply ih.arg
    | with_reducible apply ih.argObj
    | with_reducible apply ih.invocation
    | with_reducible apply ih.invocationArgs
    | with_reducible apply ih.scope
    | with_reducible apply ih.namespacedObj
    | with_reducible apply ih.superName
    | with_reducible apply ih.target
    | with_reducible apply ih.fieldList
    | with_reducible apply ih.fieldElements
    | with_reducible refine stable_bind ?_ (fun _ _ => ?_)
    | split

set_option linter.unusedVariables false in
set_option linter.unreachableTactic false in
set_option linter.unusedTactic false in
set_option maxHeartbeats 1000000 in
theorem stable_parseSuperName (env : Env) (f1 f2 : Nat) (ih : AllStable env f1 f2)
    (p : Parser) :
    Stable (parseSuperName env (f1 + 1) p)
      (parseSuperName env (f2 + 1) p) := by
  rw [parseSuperName, parseSuperName]
  try dsimp only
  all_goals repeat' first
    | with_reducible exact stable_refl _
    | with_reducible apply ih.objList
    | with_reducible apply ih.obj
    | with_reducible apply ih.args
    | with_reducible apply ih.arg
    | with_reducible apply ih.argObj
    | with_reducible apply ih.invocation
    | with_reducible apply ih.invocationArgs
    | with_reducible apply ih.scope
    | with_reducible apply ih.namespacedObj
    | with_reducible apply ih.superName
    | with_reducible apply ih.target
    | with_reducible apply ih.fieldList
    | with_reducible apply ih.fieldElements
    | with_reducible refine stable_bind ?_ (fun _ _ => ?_)
    | split

set_option linter.unusedVariables false in
set_option linter.unreachableTactic false in
set_option linter.unusedTactic false in
set_option maxHeartbeats 1000000 in
theorem stable_parseTarget (env : Env) (f1 f2 : Nat) (ih : AllStable env f1 f2)
    (p : Parser) :
    Stable (parseTarget env (f1 + 1) p)
      (parseTarget env (f2 + 1) p) := by
  rw [parseTarget, parseTarget]
  try dsimp only
  all_goals repeat' first
    | with_reducible exact stable_refl _
    | with_reducible apply ih.objList
    | with_reducible apply ih.obj
    | with_reducible apply ih.args
    | with_reducible apply ih.arg
    | with_reducible apply ih.argObj
    | with_reducible apply ih.invocation
    | with_reducible apply ih.invocationArgs
    | with_reducible apply ih.scope
    | with_reducible apply ih.namespacedObj
    | with_reducible apply ih.superName
    | with_reducible apply ih.target
    | with_reducible apply ih.fieldList
    | with_reducible apply ih.fieldElements
    | with_reducible refine stable_bind ?_ (fun _ _ => ?_)
    | split

set_option linter.unusedVariables false in
set_option linter.unreachableTactic false in
set_option linter.unusedTactic false in
set_option maxHeartbeats 1000000 in
theorem stable_parseFieldList (env : Env) (f1 f2 : Nat) (ih : AllStable env f1 f2)
    (op : Nat) (args : List Value) (maxReadOffset : Nat) (p : Parser) :
    Stable (parseFieldList env (f1 + 1) op args maxReadOffset p)
      (parseFieldList env (f2 + 1) op args maxReadOffset p) := by
  rw [parseFieldList, parseFieldList]
  all_goals repeat' first
    | with_reducible exact stable_refl _
    | with_reducible apply ih.objList
    | with_reducible apply ih.obj
    | with_reducible apply ih.args
    | with_reducible apply ih.arg
    | with_reducible apply ih.argObj
    | with_reducible apply ih.invocation
    | with_reducible apply ih.invocationArgs
    | with_reducible apply ih.scope
    | with_reducible apply ih.namespacedObj
    | with_reducible apply ih.superName
    | with_reducible apply ih.target
    | with_reducible apply ih.fieldList
    | with_reducible apply ih.fieldElements
    | with_reducible refine stable_bind ?_ (fun _ _ => ?_)
    | split

set_option linter.unusedVariables false in
set_option linter.unreachableTactic false in
set_option linter.unusedTactic false in
set_option maxHeartbeats 1000000 in
theorem stable_parseFieldElements (env : Env) (f1 f2 : Nat) (ih : AllStable env f1 f2)
    (op : Nat) (name0 name1 : Str) (lock : Bool)
    (updateRule maxReadOffset : Nat) (st : FieldListState) (p : Parser) :
    Stable (parseFieldElements env (f1 + 1) op name0 name1 lock updateRule maxReadOffset st p)
      (parseFieldElements env (f2 + 1) op name0 name1 lock updateRule maxReadOffset st p) := by
  rw [parseFieldElements, parseFieldElements]
  try dsimp only
  all_goals repeat' first
    | with_reducible exact stable_refl _
    | with_reducible apply ih.objList
    | with_reducible apply ih.obj
    | with_reducible apply ih.args
    | with_reducible apply ih.arg
    | with_reducible apply ih.argObj
    | with_reducible apply ih.invocation
    | with_reducible apply ih.invocationArgs
    | with_reducible apply ih.scope
    | with_reducible apply ih.namespacedObj
    | with_reducible apply ih.superName
    | with_reducible apply ih.target
    | with_reducible apply ih.fieldList
    | with_reducible apply ih.fieldElements
    | with_reducible refine stable_bind ?_ (fun _ _ => ?_)
    | split

/-- One more unit of fuel on both sides. -/
theorem allStable_succ (env : Env) (f1 f2 : Nat) (ih : AllStable env f1 f2) :
    AllStable env (f1 + 1) (f2 + 1) :=
  { objList := stable_parseObjList env f1 f2 ih
    obj := stable_parseObj env f1 f2 ih
    args := stable_parseArgs env f1 f2 ih
    arg := stable_parseArg env f1 f2 ih
    argObj := stable_parseArgObj env f1 f2 ih
    invocation := stable_parseMethodInvocationOrNameRef env f1 f2 ih
    invocationArgs := stable_parseInvocationArgs env f1 f2 ih
    scope := stable_parseScope env f1 f2 ih
    namespacedObj := stable_parseNamespacedObj env f1 f2 ih
    superName := stable_parseSuperName env f1 f2 ih
    target := stable_parseTarget env f1 f2 ih
    fieldList := stable_parseFieldList env f1 f2 ih
    fieldElements := stable_parseFieldElements env f1 f2 ih }

/-- A run that ended gives the same outcome with one more unit of fuel. -/
theorem allStable (env : Env) : ∀ fuel : Nat, AllStable env fuel (fuel + 1)
  | 0 => allStable_zero env
  | fuel + 1 => allStable_succ env fuel (fuel + 1) (allStable env fuel)

/-- An object list whose run ended with the fuel `f0` gives the same outcome with every
larger amount of fuel. -/
theorem parseObjList_fuel_independent (env : Env) (f0 maxOffset : Nat) (p : Parser)
    (hend : parseObjList env f0 maxOffset p ≠ Outcome.noFuel) :
    ∀ fuel : Nat, f0 ≤ fuel →
      parseObjList env fuel maxOffset p = parseObjList env f0 maxOffset p := by
  intro fuel hle
  induction fuel with
  | zero =>
    have h0 : f0 = 0 := by omega
    rw [h0]
  | succ k ih =>
    by_cases hk : f0 = k + 1
    · rw [hk]
    · have h1 := ih (by omega)
      have h2 := (allStable env k).objList maxOffset p (by rw [h1]; exact hend)
      rw [h2, h1]

/-! ## Theorems: the parser ends -/

theorem total_ok {α : Type} {a : α} {p : Parser} : Total (Outcome.ok a p) := by
  intro h
  cases h

theorem total_fault {α : Type} : Total (Outcome.fault : Outcome α) := by
  intro h
  cases h

theorem total_bind_eq {α β : Type} {x : Outcome α} {f : α → Parser → Outcome β}
    (hx : Total x) (hf : ∀ a p', x = Outcome.ok a p' → Total (f a p')) :
    Total (x.bind f) := by
  cases x with
  | ok a p => exact hf a p rfl
  | fault => exact total_fault
  | noFuel => exact absurd rfl hx

theorem total_bind_adv (d : List Nat) (o : Nat) {α β : Type} {x : Outcome α}
    {f : α → Parser → Outcome β} (hx : Total x) (ha : Adv d o x)
    (hf : ∀ a p', Above d o p' → Total (f a p')) : Total (x.bind f) :=
  total_bind_eq hx (fun a p' heq => hf a p' (ha a p' heq))

theorem total_finishArg {obj argIndex : Nat} {arg : Value} {ok : Bool} {p : Parser} :
    Total (finishArg obj argIndex arg ok p) := by
  unfold finishArg
  split
  · exact total_ok
  · split
    · exact total_fault
    · exact total_ok

theorem total_finalizeObj {env : Env} {op obj : Nat} {p : Parser} :
    Total (finalizeObj env op obj p) := by
  unfold finalizeObj
  repeat' first
    | exact total_ok
    | exact total_fault
    | split

theorem total_popChild {p : Parser} :
    Total (match p.scopeCurrent with
      | none => Outcome.fault
      | some cur =>
        match p.removeLastChild cur with
        | none => Outcome.fault
        | some (child, p) => Outcome.ok (Value.ent child, true) p) := by
  repeat' first
    | exact total_ok
    | exact total_fault
    | split

theorem budget_same {A : Nat} {d : List Nat} {o R R' fuel : Nat}
    (hb : budget A d o R < fuel + 1) (hR : R' < R) : budget A d o R' < fuel := by
  unfold budget at *
  omega

theorem budget_step {A : Nat} {d : List Nat} {o o' R R' fuel : Nat}
    (hb : budget A d o R < fuel + 1) (hle : o ≤ o') (hlt : o' < d.length)
    (hR : R' < A + 6) : budget A d (o' + 1) R' < fuel := by
  unfold budget at *
  have h1 : (A + 6) * (d.length - (o' + 1)) + (A + 6) = (A + 6) * (d.length - o') := by
    have h2 : d.length - o' = (d.length - (o' + 1)) + 1 := by omega
    rw [h2, Nat.mul_succ]
  have h3 : (A + 6) * (d.length - o') ≤ (A + 6) * (d.length - o) :=
    Nat.mul_le_mul_left _ (by omega)
  omega

theorem allTotal_zero (env : Env) (d : List Nat) (A : Nat) : AllTotal env d A 0 := by
  constructor <;> intros <;> omega

set_option linter.unusedVariables false in
set_option linter.unreachableTactic false in
set_option linter.unusedTactic false in
set_option maxHeartbeats 1000000 in
theorem total_parseObjList (env : Env) (d : List Nat)
    (hd : d.length < 2 ^ 32) (A : Nat)
    (hA : ∀ (r r' : Reader) (info : OpcodeInfo), r.data = d →
      nextOpcode env r = (some info, r') → info.argFlags.length ≤ A)
    (fuel : Nat) (ih : AllTotal env d A fuel) (o : Nat)
    (maxOffset : Nat) (p : Parser)
    (h : Above d o p)
    (hb : budget A d o 2 < fuel + 1) :
    Total
      (parseObjList env (fuel + 1) maxOffset p) := by
  have ha := allAdv env d hd fuel
  rw [parseObjList]
  split
  · refine total_bind_eq (ih.obj o p h (budget_same hb (by omega))) (fun ok p' heq => ?_)
    split
    · exact total_ok
    · rename_i hok
      have hok' : ok = true := by simpa using hok
      subst hok'
      have hs := strict_obj env d hd fuel o p p' h heq
      exact ih.objList (o + 1) _ _ hs.1 (budget_step hb (Nat.le_refl _) hs.2 (by omega))
  · exact total_ok

set_option linter.unusedVariables false in
set_option linter.unreachableTactic false in
set_option linter.unusedTactic false in
set_option maxHeartbeats 1000000 in
theorem total_parseObj (env : Env) (d : List Nat)
    (hd : d.length < 2 ^ 32) (A : Nat)
    (hA : ∀ (r r' : Reader) (info : OpcodeInfo), r.data = d →
      nextOpcode env r = (some info, r') → info.argFlags.length ≤ A)
    (fuel : Nat) (ih : AllTotal env d A fuel) (o : Nat)
    (p : Parser)
    (h : Above d o p)
    (hb : budget A d o 1 < fuel + 1) :
    Total
      (parseObj env (fuel + 1) p) := by
  have ha := allAdv env d hd fuel
  rw [parseObj]
  dsimp only
  split
  · rename_i r hop
    refine ih.invocation o _ ?_ (budget_same hb (by omega))
    exact above_mk (rabove_setOffset (above_of_ahead (ahead_of_nextOpcode hop) h) h.2)
  · rename_i info r hop
    have hs := @nextOpcode_some env p.r info (by rw [hop])
    have hlt : o < d.length := by
      have h1 := h.1
      have h2 := h.2
      rw [← h1]
      omega
    have halen : info.argFlags.length ≤ A := hA p.r r info h.1 hop
    have hstep : ∀ R : Nat, R < A + 6 → budget A d (o + 1) R < fuel :=
      fun R hR => budget_step hb (Nat.le_refl _) hlt hR
    all_goals repeat' first
      | exact total_ok
      | exact total_fault
      | with_reducible apply total_finishArg
      | with_reducible apply total_finalizeObj
      | with_reducible apply total_popChild
      | with_reducible refine ih.objList (o + 1) _ _ ?_ (hstep _ (by omega))
      | with_reducible refine ih.obj (o + 1) _ ?_ (hstep _ (by omega))
      | with_reducible refine ih.args (o + 1) _ _ _ _ _ ?_ (by assumption) (hstep _ (by omega))
      | with_reducible refine ih.arg (o + 1) _ _ _ _ _ _ ?_ (hstep _ (by omega))
      | with_reducible refine ih.argObj (o + 1) _ ?_ (hstep _ (by omega))
      | with_reducible refine ih.invocation (o + 1) _ ?_ (hstep _ (by omega))
      | with_reducible refine ih.invocationArgs (o + 1) _ _ _ _ ?_ (hstep _ (by omega))
      | with_reducible refine ih.scope (o + 1) _ _ ?_ (hstep _ (by omega))
      | with_reducible refine ih.namespacedObj (o + 1) _ _ _ ?_ (hstep _ (by omega))
      | with_reducible refine ih.superName (o + 1) _ ?_ (hstep _ (by omega))
      | with_reducible refine ih.target (o + 1) _ ?_ (hstep _ (by omega))
      | with_reducible refine ih.fieldList (o + 1) _ _ _ _ ?_ (hstep _ (by omega))
      | with_reducible refine ih.fieldElements (o + 1) _ _ _ _ _ _ _ _ ?_ (hstep _ (by omega))
      | with_reducible apply ha.objList
      | with_reducible apply ha.obj
      | with_reducible apply ha.args
      | with_reducible apply ha.arg
      | with_reducible apply ha.argObj
      | with_reducible apply ha.invocation
      | with_reducible apply ha.invocationArgs
      | with_reducible apply ha.scope
      | with_reducible apply ha.namespacedObj
      | with_reducible apply ha.superName
      | with_reducible apply ha.target
      | with_reducible apply ha.fieldList
      | with_reducible apply ha.fieldElements
      | with_reducible refine total_bind_adv d (o + 1) ?_ ?_ (fun _ _ _ => ?_)
      | assumption
      | with_reducible refine above_append (by assumption) ?_
      | with_reducible refine above_scopeExit (by assumption) ?_
      | with_reducible refine above_removeLastChild (by assumption) ?_
      | with_reducible apply above_update
      | with_reducible apply above_alloc
      | with_reducible apply above_enter
      | with_reducible apply above_ite
      | with_reducible apply above_mk
      | with_reducible exact above_r (by assumption)
      | with_reducible refine rabove_nameString_strict (by assumption) ?_
      | with_reducible refine rabove_nameString_true (by assumption) ?_
      | with_reducible refine rabove_nextOpcode_some (by assumption) ?_
      | with_reducible refine rabove_readByte_some (by assumption) ?_
      | with_reducible refine above_of_ahead (parseNameString_ahead _).1 ?_
      | with_reducible refine above_of_ahead (parsePkgLength_ahead _) ?_
      | with_reducible refine above_of_ahead (parseNumConstant_ahead _ _) ?_
      | with_reducible refine above_of_ahead (parseString_ahead _) ?_
      | with_reducible refine above_of_ahead (parseByteList_ahead _ _ _ _) ?_
      | with_reducible refine above_of_ahead (nextOpcode_ahead _ _) ?_
      | with_reducible refine above_of_ahead (readByte_ahead _) ?_
      | with_reducible refine above_of_ahead (ahead_of_readByte (by assumption)) ?_
      | with_reducible refine above_of_ahead (ahead_of_nextOpcode (by assumption)) ?_
      | with_reducible refine rabove_unread (by assumption) ?_
      | with_reducible refine rabove_nullName (by assumption) hd ?_
      | with_reducible refine rabove_setOffset ?_ ?_
      | with_reducible apply rabove_ite
      | with_reducible apply rabove_ite_snd
      | with_reducible refine rabove_offset d ?_
      | with_reducible exact above_pred (by assumption)
      | with_reducible exact rabove_pred (above_r (by assumption))
      | split

set_option linter.unusedVariables false in
set_option linter.unreachableTactic false in
set_option linter.unusedTactic false in
set_option maxHeartbeats 1000000 in
theorem total_parseArgs (env : Env) (d : List Nat)
    (hd : d.length < 2 ^ 32) (A : Nat)
    (hA : ∀ (r r' : Reader) (info : OpcodeInfo), r.data = d →
      nextOpcode env r = (some info, r') → info.argFlags.length ≤ A)
    (fuel : Nat) (ih : AllTotal env d A fuel) (o : Nat)
    (info : OpcodeInfo) (obj argIndex maxReadOffset : Nat) (p : Parser)
    (h : Above d o p) (halen : info.argFlags.length ≤ A)
    (hb : budget A d o (5 + (info.argFlags.length - argIndex)) < fuel + 1) :
    Total
      (parseArgs env (fuel + 1) info obj argIndex maxReadOffset p) := by
  have ha := allAdv env d hd fuel
  rw [parseArgs]
  split
  · exact total_ok
  · rename_i argType hget
    have hidx : argIndex < info.argFlags.length := by
      by_contra hge
      rw [List.getElem?_eq_none (by omega)] at hget
      cases hget
    refine total_bind_adv d o (ih.arg o _ _ _ _ _ _ h (budget_same hb (by omega)))
      (ha.arg o _ _ _ _ _ _ h) (fun ok p' hp' => ?_)
    split
    · exact total_ok
    · exact ih.args o _ _ _ _ _ hp' halen (budget_same hb (by omega))

set_option linter.unusedVariables false in
set_option linter.unreachableTactic false in
set_option linter.unusedTactic false in
set_option maxHeartbeats 1000000 in
theorem total_parseArg (env : Env) (d : List Nat)
    (hd : d.length < 2 ^ 32) (A : Nat)
    (hA : ∀ (r r' : Reader) (info : OpcodeInfo), r.data = d →
      nextOpcode env r = (some info, r') → info.argFlags.length ≤ A)
    (fuel : Nat) (ih : AllTotal env d A fuel) (o : Nat)
    (info : OpcodeInfo) (obj argIndex : Nat) (argType : OpArg) (maxReadOffset : Nat) (p : Parser)
    (h : Above d o p)
    (hb : budget A d o 4 < fuel + 1) :
    Total
      (parseArg env (fuel + 1) info obj argIndex argType maxReadOffset p) := by
  have ha := allAdv env d hd fuel
  cases argType
  all_goals rw [parseArg]
  all_goals try dsimp only
  all_goals repeat' first
    | exact total_ok
    | exact total_fault
    | with_reducible apply total_finishArg
    | with_reducible apply total_finalizeObj
    | with_reducible apply total_popChild
    | with_reducible refine ih.objList (o) _ _ ?_ (budget_same hb (by omega))
    | with_reducible refine ih.obj (o) _ ?_ (budget_same hb (by omega))
    | with_reducible refine ih.args (o) _ _ _ _ _ ?_ (by assumption) (budget_same hb (by omega))
    | with_reducible refine ih.arg (o) _ _ _ _ _ _ ?_ (budget_same hb (by omega))
    | with_reducible refine ih.argObj (o) _ ?_ (budget_same hb (by omega))
    | with_reducible refine ih.invocation (o) _ ?_ (budget_same hb (by omega))
    | with_reducible refine ih.invocationArgs (o) _ _ _ _ ?_ (budget_same hb (by omega))
    | with_reducible refine ih.scope (o) _ _ ?_ (budget_same hb (by omega))
    | with_reducible refine ih.namespacedObj (o) _ _ _ ?_ (budget_same hb (by omega))
    | with_reducible refine ih.superName (o) _ ?_ (budget_same hb (by omega))
    | with_reducible refine ih.target (o) _ ?_ (budget_same hb (by omega))
    | with_reducible refine ih.fieldList (o) _ _ _ _ ?_ (budget_same hb (by omega))
    | with_reducible refine ih.fieldElements (o) _ _ _ _ _ _ _ _ ?_ (budget_same hb (by omega))
    | with_reducible apply ha.objList
    | with_reducible apply ha.obj
    | with_reducible apply ha.args
    | with_reducible apply ha.arg
    | with_reducible apply ha.argObj
    | with_reducible apply ha.invocation
    | with_reducible apply ha.invocationArgs
    | with_reducible apply ha.scope
    | with_reducible apply ha.namespacedObj
    | with_reducible apply ha.superName
    | with_reducible apply ha.target
    | with_reducible apply ha.fieldList
    | with_reducible apply ha.fieldElements
    | with_reducible refine total_bind_adv d (o) ?_ ?_ (fun _ _ _ => ?_)
    | assumption
    | with_reducible refine above_append (by assumption) ?_
    | with_reducible refine above_scopeExit (by assumption) ?_
    | with_reducible refine above_removeLastChild (by assumption) ?_
    | with_reducible apply above_update
    | with_reducible apply above_alloc
    | with_reducible apply above_enter
    | with_reducible apply above_ite
    | with_reducible apply above_mk
    | with_reducible exact above_r (by assumption)
    | with_reducible refine rabove_nameString_strict (by assumption) ?_
    | with_reducible refine rabove_nameString_true (by assumption) ?_
    | with_reducible refine rabove_nextOpcode_some (by assumption) ?_
    | with_reducible refine rabove_readByte_some (by assumption) ?_
    | with_reducible refine above_of_ahead (parseNameString_ahead _).1 ?_
    | with_reducible refine above_of_ahead (parsePkgLength_ahead _) ?_
    | with_reducible refine above_of_ahead (parseNumConstant_ahead _ _) ?_
    | with_reducible refine above_of_ahead (parseString_ahead _) ?_
    | with_reducible refine above_of_ahead (parseByteList_ahead _ _ _ _) ?_
    | with_reducible refine above_of_ahead (nextOpcode_ahead _ _) ?_
    | with_reducible refine above_of_ahead (readByte_ahead _) ?_
    | with_reducible refine above_of_ahead (ahead_of_readByte (by assumption)) ?_
    | with_reducible refine above_of_ahead (ahead_of_nextOpcode (by assumption)) ?_
    | with_reducible refine rabove_unread (by assumption) ?_
    | with_reducible refine rabove_nullName (by assumption) hd ?_
    | with_reducible refine rabove_setOffset ?_ ?_
    | with_reducible apply rabove_ite
    | with_reducible apply rabove_ite_snd
    | with_reducible refine rabove_offset d ?_
    | with_reducible exact above_pred (by assumption)
    | with_reducible exact rabove_pred (above_r (by assumption))
    | split

set_option linter.unusedVariables false in
set_option linter.unreachableTactic false in
set_option linter.unusedTactic false in
set_option maxHeartbeats 1000000 in
theorem total_parseArgObj (env : Env) (d : List Nat)
    (hd : d.length < 2 ^ 32) (A : Nat)
    (hA : ∀ (r r' : Reader) (info : OpcodeInfo), r.data = d →
      nextOpcode env r = (some info, r') → info.argFlags.length ≤ A)
    (fuel : Nat) (ih : AllTotal env d A fuel) (o : Nat)
    (p : Parser)
    (h : Above d o p)
    (hb : budget A d o 2 < fuel + 1) :
    Total
      (parseArgObj env (fuel + 1) p) := by
  have ha := allAdv env d hd fuel
  rw [parseArgObj]
  all_goals repeat' first
    | exact total_ok
    | exact total_fault
    | with_reducible apply total_finishArg
    | with_reducible apply total_finalizeObj
    | with_reducible apply total_popChild
    | with_reducible refine ih.objList (o) _ _ ?_ (budget_same hb (by omega))
    | with_reducible refine ih.obj (o) _ ?_ (budget_same hb (by omega))
    | with_reducible refine ih.args (o) _ _ _ _ _ ?_ (by assumption) (budget_same hb (by omega))
    | with_reducible refine ih.arg (o) _ _ _ _ _ _ ?_ (budget_same hb (by omega))
    | with_reducible refine ih.argObj (o) _ ?_ (budget_same hb (by omega))
    | with_reducible refine ih.invocation (o) _ ?_ (budget_same hb (by omega))
    | with_reducible refine ih.invocationArgs (o) _ _ _ _ ?_ (budget_same hb (by omega))
    | with_reducible refine ih.scope (o) _ _ ?_ (budget_same hb (by omega))
    | with_reducible refine ih.namespacedObj (o) _ _ _ ?_ (budget_same hb (by omega))
    | with_reducible refine ih.superName (o) _ ?_ (budget_same hb (by omega))
    | with_reducible refine ih.target (o) _ ?_ (budget_same hb (by omega))
    | with_reducible refine ih.fieldList (o) _ _ _ _ ?_ (budget_same hb (by omega))
    | with_reducible refine ih.fieldElements (o) _ _ _ _ _ _ _ _ ?_ (budget_same hb (by omega))
    | with_reducible apply ha.objList
    | with_reducible apply ha.obj
    | with_reducible apply ha.args
    | with_reducible apply ha.arg
    | with_reducible apply ha.argObj
    | with_reducible apply ha.invocation
    | with_reducible apply ha.invocationArgs
    | with_reducible apply ha.scope
    | with_reducible apply ha.namespacedObj
    | with_reducible apply ha.superName
    | with_reducible apply ha.target
    | with_reducible apply ha.fieldList
    | with_reducible apply ha.fieldElements
    | with_reducible refine total_bind_adv d (o) ?_ ?_ (fun _ _ _ => ?_)
    | assumption
    | with_reducible refine above_append (by assumption) ?_
    | with_reducible refine above_scopeExit (by assumption) ?_
    | with_reducible refine above_removeLastChild (by assumption) ?_
    | with_reducible apply above_update
    | with_reducible apply above_alloc
    | with_reducible apply above_enter
    | with_reducible apply above_ite
    | with_reducible apply above_mk
    | with_reducible exact above_r (by assumption)
    | with_reducible refine rabove_nameString_strict (by assumption) ?_
    | with_reducible refine rabove_nameString_true (by assumption) ?_
    | with_reducible refine rabove_nextOpcode_some (by assumption) ?_
    | with_reducible refine rabove_readByte_some (by assumption) ?_
    | with_reducible refine above_of_ahead (parseNameString_ahead _).1 ?_
    | with_reducible refine above_of_ahead (parsePkgLength_ahead _) ?_
    | with_reducible refine above_of_ahead (parseNumConstant_ahead _ _) ?_
    | with_reducible refine above_of_ahead (parseString_ahead _) ?_
    | with_reducible refine above_of_ahead (parseByteList_ahead _ _ _ _) ?_
    | with_reducible refine above_of_ahead (nextOpcode_ahead _ _) ?_
    | with_reducible refine above_of_ahead (readByte_ahead _) ?_
    | with_reducible refine above_of_ahead (ahead_of_readByte (by assumption)) ?_
    | with_reducible refine above_of_ahead (ahead_of_nextOpcode (by assumption)) ?_
    | with_reducible refine rabove_unread (by assumption) ?_
    | with_reducible refine rabove_nullName (by assumption) hd ?_
    | with_reducible refine rabove_setOffset ?_ ?_
    | with_reducible apply rabove_ite
    | with_reducible apply rabove_ite_snd
    | with_reducible refine rabove_offset d ?_
    | with_reducible exact above_pred (by assumption)
    | with_reducible exact rabove_pred (above_r (by assumption))
    | split

set_option linter.unusedVariables false in
set_option linter.unreachableTactic false in
set_option linter.unusedTactic false in
set_option maxHeartbeats 1000000 in
theorem total_parseMethodInvocationOrNameRef (env : Env) (d : List Nat)
    (hd : d.length < 2 ^ 32) (A : Nat)
    (hA : ∀ (r r' : Reader) (info : OpcodeInfo), r.data = d →
      nextOpcode env r = (some info, r') → info.argFlags.length ≤ A)
    (fuel : Nat) (ih : AllTotal env d A fuel) (o : Nat)
    (p : Parser)
    (h : Above d o p)
    (hb : budget A d o 0 < fuel + 1) :
    Total
      (parseMethodInvocationOrNameRef env (fuel + 1) p) := by
  have ha := allAdv env d hd fuel
  rw [parseMethodInvocationOrNameRef]
  dsimp only
  split
  · exact total_ok
  · rename_i hname
    have hs := (parseNameString_ahead p.r).2 (by simpa using hname)
    have hlt : o < d.length := by
      have h1 := h.1
      have h2 := h.2
      rw [← h1]
      omega
    have hstep : ∀ R : Nat, R < A + 6 → budget A d (o + 1) R < fuel :=
      fun R hR => budget_step hb (Nat.le_refl _) hlt hR
    all_goals repeat' first
      | exact total_ok
      | exact total_fault
      | with_reducible apply total_finishArg
      | with_reducible apply total_finalizeObj
      | with_reducible apply total_popChild
      | with_reducible refine ih.objList (o + 1) _ _ ?_ (hstep _ (by omega))
      | with_reducible refine ih.obj (o + 1) _ ?_ (hstep _ (by omega))
      | with_reducible refine ih.args (o + 1) _ _ _ _ _ ?_ (by assumption) (hstep _ (by omega))
      | with_reducible refine ih.arg (o + 1) _ _ _ _ _ _ ?_ (hstep _ (by omega))
      | with_reducible refine ih.argObj (o + 1) _ ?_ (hstep _ (by omega))
      | with_reducible refine ih.invocation (o + 1) _ ?_ (hstep _ (by omega))
      | with_reducible refine ih.invocationArgs (o + 1) _ _ _ _ ?_ (hstep _ (by omega))
      | with_reducible refine ih.scope (o + 1) _ _ ?_ (hstep _ (by omega))
      | with_reducible refine ih.namespacedObj (o + 1) _ _ _ ?_ (hstep _ (by omega))
      | with_reducible refine ih.superName (o + 1) _ ?_ (hstep _ (by omega))
      | with_reducible refine ih.target (o + 1) _ ?_ (hstep _ (by omega))
      | with_reducible refine ih.fieldList (o + 1) _ _ _ _ ?_ (hstep _ (by omega))
      | with_reducible refine ih.fieldElements (o + 1) _ _ _ _ _ _ _ _ ?_ (hstep _ (by omega))
      | with_reducible apply ha.objList
      | with_reducible apply ha.obj
      | with_reducible apply ha.args
      | with_reducible apply ha.arg
      | with_reducible apply ha.argObj
      | with_reducible apply ha.invocation
      | with_reducible apply ha.invocationArgs
      | with_reducible apply ha.scope
      | with_reducible apply ha.namespacedObj
      | with_reducible apply ha.superName
      | with_reducible apply ha.target
      | with_reducible apply ha.fieldList
      | with_reducible apply ha.fieldElements
      | with_reducible refine total_bind_adv d (o + 1) ?_ ?_ (fun _ _ _ => ?_)
      | assumption
      | with_reducible refine above_append (by assumption) ?_
      | with_reducible refine above_scopeExit (by assumption) ?_
      | with_reducible refine above_removeLastChild (by assumption) ?_
      | with_reducible apply above_update
      | with_reducible apply above_alloc
      | with_reducible apply above_enter
      | with_reducible apply above_ite
      | with_reducible apply above_mk
      | with_reducible exact above_r (by assumption)
      | with_reducible refine rabove_nameString_strict (by assumption) ?_
      | with_reducible refine rabove_nameString_true (by assumption) ?_
      | with_reducible refine rabove_nextOpcode_some (by assumption) ?_
      | with_reducible refine rabove_readByte_some (by assumption) ?_
      | with_reducible refine above_of_ahead (parseNameString_ahead _).1 ?_
      | with_reducible refine above_of_ahead (parsePkgLength_ahead _) ?_
      | with_reducible refine above_of_ahead (parseNumConstant_ahead _ _) ?_
      | with_reducible refine above_of_ahead (parseString_ahead _) ?_
      | with_reducible refine above_of_ahead (parseByteList_ahead _ _ _ _) ?_
      | with_reducible refine above_of_ahead (nextOpcode_ahead _ _) ?_
      | with_reducible refine above_of_ahead (readByte_ahead _) ?_
      | with_reducible refine above_of_ahead (ahead_of_readByte (by assumption)) ?_
      | with_reducible refine above_of_ahead (ahead_of_nextOpcode (by assumption)) ?_
      | with_reducible refine rabove_unread (by assumption) ?_
      | with_reducible refine rabove_nullName (by assumption) hd ?_
      | with_reducible refine rabove_setOffset ?_ ?_
      | with_reducible apply rabove_ite
      | with_reducible apply rabove_ite_snd
      | with_reducible refine rabove_offset d ?_
      | with_reducible exact above_pred (by assumption)
      | with_reducible exact rabove_pred (above_r (by assumption))
      | split

set_option linter.unusedVariables false in
set_option linter.unreachableTactic false in
set_option linter.unusedTactic false in
set_option maxHeartbeats 1000000 in
theorem total_parseInvocationArgs (env : Env) (d : List Nat)
    (hd : d.length < 2 ^ 32) (A : Nat)
    (hA : ∀ (r r' : Reader) (info : OpcodeInfo), r.data = d →
      nextOpcode env r = (some info, r') → info.argFlags.length ≤ A)
    (fuel : Nat) (ih : AllTotal env d A fuel) (o : Nat)
    (methodDef argIndex : Nat) (args : List Value) (p : Parser)
    (h : Above d o p)
    (hb : budget A d o 3 < fuel + 1) :
    Total
      (parseInvocationArgs env (fuel + 1) methodDef argIndex args p) := by
  have ha := allAdv env d hd fuel
  rw [parseInvocationArgs]
  dsimp only
  split
  · exact total_fault
  · split
    · have hp0 : Above d o
          { r := (nextOpcode env p.r).2.SetOffset p.r.Offset, root := p.root,
            scopeStack := p.scopeStack, heap := p.heap } :=
        above_mk (rabove_setOffset (above_of_ahead (nextOpcode_ahead env p.r) h) h.2)
      refine total_bind_eq ?_ (fun a p' heq => ?_)
      · split
        · exact ih.argObj o _ hp0 (budget_same hb (by omega))
        · refine total_bind_adv d o (ih.invocation o _ hp0 (budget_same hb (by omega)))
            (ha.invocation o _ hp0) (fun _ _ _ => ?_)
          split
          · exact total_ok
          · exact total_popChild
      · split
        · exact total_ok
        · rename_i hok
          have hok' : a.2 = true := by simpa using hok
          have hs : Above d (o + 1) p' ∧ o < d.length := by
            split at heq
            · exact strict_argObj env d hd fuel o _ p' a hp0 heq hok'
            · exact strict_invocationPop env d hd fuel o _ p' a hp0 heq hok'
          exact ih.invocationArgs (o + 1) _ _ _ _ hs.1
            (budget_step hb (Nat.le_refl _) hs.2 (by omega))
    · exact total_ok

set_option linter.unusedVariables false in
set_option linter.unreachableTactic false in
set_option linter.unusedTactic false in
set_option maxHeartbeats 1000000 in
theorem total_parseScope (env : Env) (d : List Nat)
    (hd : d.length < 2 ^ 32) (A : Nat)
    (hA : ∀ (r r' : Reader) (info : OpcodeInfo), r.data = d →
      nextOpcode env r = (some info, r') → info.argFlags.length ≤ A)
    (fuel : Nat) (ih : AllTotal env d A fuel) (o : Nat)
    (maxReadOffset : Nat) (p : Parser)
    (h : Above d o p)
    (hb : budget A d o 3 < fuel + 1) :
    Total
      (parseScope env (fuel + 1) maxReadOffset p) := by
  have ha := allAdv env d hd fuel
  rw [parseScope]
  dsimp only
  all_goals repeat' first
    | exact total_ok
    | exact total_fault
    | with_reducible apply total_finishArg
    | with_reducible apply total_finalizeObj
    | with_reducible apply total_popChild
    | with_reducible refine ih.objList (o) _ _ ?_ (budget_same hb (by omega))
    | with_reducible refine ih.obj (o) _ ?_ (budget_same hb (by omega))
    | with_reducible refine ih.args (o) _ _ _ _ _ ?_ (by assumption) (budget_same hb (by omega))
    | with_reducible refine ih.arg (o) _ _ _ _ _ _ ?_ (budget_same hb (by omega))
    | with_reducible refine ih.argObj (o) _ ?_ (budget_same hb (by omega))
    | with_reducible refine ih.invocation (o) _ ?_ (budget_same hb (by omega))
    | with_reducible refine ih.invocationArgs (o) _ _ _ _ ?_ (budget_same hb (by omega))
    | with_reducible refine ih.scope (o) _ _ ?_ (budget_same hb (by omega))
    | with_reducible refine ih.namespacedObj (o) _ _ _ ?_ (budget_same hb (by omega))
    | with_reducible refine ih.superName (o) _ ?_ (budget_same hb (by omega))
    | with_reducible refine ih.target (o) _ ?_ (budget_same hb (by omega))
    | with_reducible refine ih.fieldList (o) _ _ _ _ ?_ (budget_same hb (by omega))
    | with_reducible refine ih.fieldElements (o) _ _ _ _ _ _ _ _ ?_ (budget_same hb (by omega))
    | with_reducible apply ha.objList
    | with_reducible apply ha.obj
    | with_reducible apply ha.args
    | with_reducible apply ha.arg
    | with_reducible apply ha.argObj
    | with_reducible apply ha.invocation
    | with_reducible apply ha.invocationArgs
    | with_reducible apply ha.scope
    | with_reducible apply ha.namespacedObj
    | with_reducible apply ha.superName
    | with_reducible apply ha.target
    | with_reducible apply ha.fieldList
    | with_reducible apply ha.fieldElements
    | with_reducible refine total_bind_adv d (o) ?_ ?_ (fun _ _ _ => ?_)
    | assumption
    | with_reducible refine above_append (by assumption) ?_
    | with_reducible refine above_scopeExit (by assumption) ?_
    | with_reducible refine above_removeLastChild (by assumption) ?_
    | with_reducible apply above_update
    | with_reducible apply above_alloc
    | with_reducible apply above_enter
    | with_reducible apply above_ite
    | with_reducible apply above_mk
    | with_reducible exact above_r (by assumption)
    | with_reducible refine rabove_nameString_strict (by assumption) ?_
    | with_reducible refine rabove_nameString_true (by assumption) ?_
    | with_reducible refine rabove_nextOpcode_some (by assumption) ?_
    | with_reducible refine rabove_readByte_some (by assumption) ?_
    | with_reducible refine above_of_ahead (parseNameString_ahead _).1 ?_
    | with_reducible refine above_of_ahead (parsePkgLength_ahead _) ?_
    | with_reducible refine above_of_ahead (parseNumConstant_ahead _ _) ?_
    | with_reducible refine above_of_ahead (parseString_ahead _) ?_
    | with_reducible refine above_of_ahead (parseByteList_ahead _ _ _ _) ?_
    | with_reducible refine above_of_ahead (nextOpcode_ahead _ _) ?_
    | with_reducible refine above_of_ahead (readByte_ahead _) ?_
    | with_reducible refine above_of_ahead (ahead_of_readByte (by assumption)) ?_
    | with_reducible refine above_of_ahead (ahead_of_nextOpcode (by assumption)) ?_
    | with_reducible refine rabove_unread (by assumption) ?_
    | with_reducible refine rabove_nullName (by assumption) hd ?_
    | with_reducible refine rabove_setOffset ?_ ?_
    | with_reducible apply rabove_ite
    | with_reducible apply rabove_ite_snd
    | with_reducible refine rabove_offset d ?_
    | with_reducible exact above_pred (by assumption)
    | with_reducible exact rabove_pred (above_r (by assumption))
    | split

set_option linter.unusedVariables false in
set_option linter.unreachableTactic false in
set_option linter.unusedTactic false in
set_option maxHeartbeats 1000000 in
theorem total_parseNamespacedObj (env : Env) (d : List Nat)
    (hd : d.length < 2 ^ 32) (A : Nat)
    (hA : ∀ (r r' : Reader) (info : OpcodeInfo), r.data = d →
      nextOpcode env r = (some info, r') → info.argFlags.length ≤ A)
    (fuel : Nat) (ih : AllTotal env d A fuel) (o : Nat)
    (op maxReadOffset : Nat) (p : Parser)
    (h : Above d o p)
    (hb : budget A d o 3 < fuel + 1) :
    Total
      (parseNamespacedObj env (fuel + 1) op maxReadOffset p) := by
  have ha := allAdv env d hd fuel
  rw [parseNamespacedObj]
  dsimp only
  all_goals repeat' first
    | exact total_ok
    | exact total_fault
    | with_reducible apply total_finishArg
    | with_reducible apply total_finalizeObj
    | with_reducible apply total_popChild
    | with_reducible refine ih.objList (o) _ _ ?_ (budget_same hb (by omega))
    | with_reducible refine ih.obj (o) _ ?_ (budget_same hb (by omega))
    | with_reducible refine ih.args (o) _ _ _ _ _ ?_ (by assumption) (budget_same hb (by omega))
    | with_reducible refine ih.arg (o) _ _ _ _ _ _ ?_ (budget_same hb (by omega))
    | with_reducible refine ih.argObj (o) _ ?_ (budget_same hb (by omega))
    | with_reducible refine ih.invocation (o) _ ?_ (budget_same hb (by omega))
    | with_reducible refine ih.invocationArgs (o) _ _ _ _ ?_ (budget_same hb (by omega))
    | with_reducible refine ih.scope (o) _ _ ?_ (budget_same hb (by omega))
    | with_reducible refine ih.namespacedObj (o) _ _ _ ?_ (budget_same hb (by omega))
    | with_reducible refine ih.superName (o) _ ?_ (budget_same hb (by omega))
    | with_reducible refine ih.target (o) _ ?_ (budget_same hb (by omega))
    | with_reducible refine ih.fieldList (o) _ _ _ _ ?_ (budget_same hb (by omega))
    | with_reducible refine ih.fieldElements (o) _ _ _ _ _ _ _ _ ?_ (budget_same hb (by omega))
    | with_reducible apply ha.objList
    | with_reducible apply ha.obj
    | with_reducible apply ha.args
    | with_reducible apply ha.arg
    | with_reducible apply ha.argObj
    | with_reducible apply ha.invocation
    | with_reducible apply ha.invocationArgs
    | with_reducible apply ha.scope
    | with_reducible apply ha.namespacedObj
    | with_reducible apply ha.superName
    | with_reducible apply ha.target
    | with_reducible apply ha.fieldList
    | with_reducible apply ha.fieldElements
    | with_reducible refine total_bind_adv d (o) ?_ ?_ (fun _ _ _ => ?_)
    | assumption
    | with_reducible refine above_append (by assumption) ?_
    | with_reducible refine above_scopeExit (by assumption) ?_
    | with_reducible refine above_removeLastChild (by assumption) ?_
    | with_reducible apply above_update
    | with_reducible apply above_alloc
    | with_reducible apply above_enter
    | with_reducible apply above_ite
    | with_reducible apply above_mk
    | with_reducible exact above_r (by assumption)
    | with_reducible refine rabove_nameString_strict (by assumption) ?_
    | with_reducible refine rabove_nameString_true (by assumption) ?_
    | with_reducible refine rabove_nextOpcode_some (by assumption) ?_
    | with_reducible refine rabove_readByte_some (by assumption) ?_
    | with_reducible refine above_of_ahead (parseNameString_ahead _).1 ?_
    | with_reducible refine above_of_ahead (parsePkgLength_ahead _) ?_
    | with_reducible refine above_of_ahead (parseNumConstant_ahead _ _) ?_
    | with_reducible refine above_of_ahead (parseString_ahead _) ?_
    | with_reducible refine above_of_ahead (parseByteList_ahead _ _ _ _) ?_
    | with_reducible refine above_of_ahead (nextOpcode_ahead _ _) ?_
    | with_reducible refine above_of_ahead (readByte_ahead _) ?_
    | with_reducible refine above_of_ahead (ahead_of_readByte (by assumption)) ?_
    | with_reducible refine above_of_ahead (ahead_of_nextOpcode (by assumption)) ?_
    | with_reducible refine rabove_unread (by assumption) ?_
    | with_reducible refine rabove_nullName (by assumption) hd ?_
    | with_reducible refine rabove_setOffset ?_ ?_
    | with_reducible apply rabove_ite
    | with_reducible apply rabove_ite_snd
    | with_reducible refine rabove_offset d ?_
    | with_reducible exact above_pred (by assumption)
    | with_reducible exact rabove_pred (above_r (by assumption))
    | split

set_option linter.unusedVariables false in
set_option linter.unreachableTactic false in
set_option linter.unusedTactic false in
set_option maxHeartbeats 1000000 in
theorem total_parseSuperName (env : Env) (d : List Nat)
    (hd : d.length < 2 ^ 32) (A : Nat)
    (hA : ∀ (r r' : Reader) (info : OpcodeInfo), r.data = d →
      nextOpcode env r = (some info, r') → info.argFlags.length ≤ A)
    (fuel : Nat) (ih : AllTotal env d A fuel) (o : Nat)
    (p : Parser)
    (h : Above d o p)
    (hb : budget A d o 3 < fuel + 1) :
    Total
      (parseSuperName env (fuel + 1) p) := by
  have ha := allAdv env d hd fuel
  rw [parseSuperName]
  try dsimp only
  all_goals repeat' first
    | exact total_ok
    | exact total_fault
    | with_reducible apply total_finishArg
    | with_reducible apply total_finalizeObj
    | with_reducible apply total_popChild
    | with_reducible refine ih.objList (o) _ _ ?_ (budget_same hb (by omega))
    | with_reducible refine ih.obj (o) _ ?_ (budget_same hb (by omega))
    | with_reducible refine ih.args (o) _ _ _ _ _ ?_ (by assumption) (budget_same hb (by omega))
    | with_reducible refine ih.arg (o) _ _ _ _ _ _ ?_ (budget_same hb (by omega))
    | with_reducible refine ih.argObj (o) _ ?_ (budget_same hb (by omega))
    | with_reducible refine ih.invocation (o) _ ?_ (budget_same hb (by omega))
    | with_reducible refine ih.invocationArgs (o) _ _ _ _ ?_ (budget_same hb (by omega))
    | with_reducible refine ih.scope (o) _ _ ?_ (budget_same hb (by omega))
    | with_reducible refine ih.namespacedObj (o) _ _ _ ?_ (budget_same hb (by omega))
    | with_reducible refine ih.superName (o) _ ?_ (budget_same hb (by omega))
    | with_reducible refine ih.target (o) _ ?_ (budget_same hb (by omega))
    | with_reducible refine ih.fieldList (o) _ _ _ _ ?_ (budget_same hb (by omega))
    | with_reducible refine ih.fieldElements (o) _ _ _ _ _ _ _ _ ?_ (budget_same hb (by omega))
    | with_reducible apply ha.objList
    | with_reducible apply ha.obj
    | with_reducible apply ha.args
    | with_reducible apply ha.arg
    | with_reducible apply ha.argObj
    | with_reducible apply ha.invocation
    | with_reducible apply ha.invocationArgs
    | with_reducible apply ha.scope
    | with_reducible apply ha.namespacedObj
    | with_reducible apply ha.superName
    | with_reducible apply ha.target
    | with_reducible apply ha.fieldList
    | with_reducible apply ha.fieldElements
    | with_reducible refine total_bind_adv d (o) ?_ ?_ (fun _ _ _ => ?_)
    | assumption
    | with_reducible refine above_append (by assumption) ?_
    | with_reducible refine above_scopeExit (by assumption) ?_
    | with_reducible refine above_removeLastChild (by assumption) ?_
    | with_reducible apply above_update
    | with_reducible apply above_alloc
    | with_reducible apply above_enter
    | with_reducible apply above_ite
    | with_reducible apply above_mk
    | with_reducible exact above_r (by assumption)
    | with_reducible refine rabove_nameString_strict (by assumption) ?_
    | with_reducible refine rabove_nameString_true (by assumption) ?_
    | with_reducible refine rabove_nextOpcode_some (by assumption) ?_
    | with_reducible refine rabove_readByte_some (by assumption) ?_
    | with_reducible refine above_of_ahead (parseNameString_ahead _).1 ?_
    | with_reducible refine above_of_ahead (parsePkgLength_ahead _) ?_
    | with_reducible refine above_of_ahead (parseNumConstant_ahead _ _) ?_
    | with_reducible refine above_of_ahead (parseString_ahead _) ?_
    | with_reducible refine above_of_ahead (parseByteList_ahead _ _ _ _) ?_
    | with_reducible refine above_of_ahead (nextOpcode_ahead _ _) ?_
    | with_reducible refine above_of_ahead (readByte_ahead _) ?_
    | with_reducible refine above_of_ahead (ahead_of_readByte (by assumption)) ?_
    | with_reducible refine above_of_ahead (ahead_of_nextOpcode (by assumption)) ?_
    | with_reducible refine rabove_unread (by assumption) ?_
    | with_reducible refine rabove_nullName (by assumption) hd ?_
    | with_reducible refine rabove_setOffset ?_ ?_
    | with_reducible apply rabove_ite
    | with_reducible apply rabove_ite_snd
    | with_reducible refine rabove_offset d ?_
    | with_reducible exact above_pred (by assumption)
    | with_reducible exact rabove_pred (above_r (by assumption))
    | split

set_option linter.unusedVariables false in
set_option linter.unreachableTactic false in
set_option linter.unusedTactic false in
set_option maxHeartbeats 1000000 in
theorem total_parseTarget (env : Env) (d : List Nat)
    (hd : d.length < 2 ^ 32) (A : Nat)
    (hA : ∀ (r r' : Reader) (info : OpcodeInfo), r.data = d →
      nextOpcode env r = (some info, r') → info.argFlags.length ≤ A)
    (fuel : Nat) (ih : AllTotal env d A fuel) (o : Nat)
    (p : Parser)
    (h : Above d o p)
    (hb : budget A d o 3 < fuel + 1) :
    Total
      (parseTarget env (fuel + 1) p) := by
  have ha := allAdv env d hd fuel
  rw [parseTarget]
  dsimp only
  all_goals repeat' first
    | exact total_ok
    | exact total_fault
    | with_reducible apply total_finishArg
    | with_reducible apply total_finalizeObj
    | with_reducible apply total_popChild
    | with_reducible refine ih.objList (o) _ _ ?_ (budget_same hb (by omega))
    | with_reducible refine ih.obj (o) _ ?_ (budget_same hb (by omega))
    | with_reducible refine ih.args (o) _ _ _ _ _ ?_ (by assumption) (budget_same hb (by omega))
    | with_reducible refine ih.arg (o) _ _ _ _ _ _ ?_ (budget_same hb (by omega))
    | with_reducible refine ih.argObj (o) _ ?_ (budget_same hb (by omega))
    | with_reducible refine ih.invocation (o) _ ?_ (budget_same hb (by omega))
    | with_reducible refine ih.invocationArgs (o) _ _ _ _ ?_ (budget_same hb (by omega))
    | with_reducible refine ih.scope (o) _ _ ?_ (budget_same hb (by omega))
    | with_reducible refine ih.namespacedObj (o) _ _ _ ?_ (budget_same hb (by omega))
    | with_reducible refine ih.superName (o) _ ?_ (budget_same hb (by omega))
    | with_reducible refine ih.target (o) _ ?_ (budget_same hb (by omega))
    | with_reducible refine ih.fieldList (o) _ _ _ _ ?_ (budget_same hb (by omega))
    | with_reducible refine ih.fieldElements (o) _ _ _ _ _ _ _ _ ?_ (budget_same hb (by omega))
    | with_reducible apply ha.objList
    | with_reducible apply ha.obj
    | with_reducible apply ha.args
    | with_reducible apply ha.arg
    | with_reducible apply ha.argObj
    | with_reducible apply ha.invocation
    | with_reducible apply ha.invocationArgs
    | with_reducible apply ha.scope
    | with_reducible apply ha.namespacedObj
    | with_reducible apply ha.superName
    | with_reducible apply ha.target
    | with_reducible apply ha.fieldList
    | with_reducible apply ha.fieldElements
    | with_reducible refine total_bind_adv d (o) ?_ ?_ (fun _ _ _ => ?_)
    | assumption
    | with_reducible refine above_append (by assumption) ?_
    | with_reducible refine above_scopeExit (by assumption) ?_
    | with_reducible refine above_removeLastChild (by assumption) ?_
    | with_reducible apply above_update
    | with_reducible apply above_alloc
    | with_reducible apply above_enter
    | with_reducible apply above_ite
    | with_reducible apply above_mk
    | with_reducible exact above_r (by assumption)
    | with_reducible refine rabove_nameString_strict (by assumption) ?_
    | with_reducible refine rabove_nameString_true (by assumption) ?_
    | with_reducible refine rabove_nextOpcode_some (by assumption) ?_
    | with_reducible refine rabove_readByte_some (by assumption) ?_
    | with_reducible refine above_of_ahead (parseNameString_ahead _).1 ?_
    | with_reducible refine above_of_ahead (parsePkgLength_ahead _) ?_
    | with_reducible refine above_of_ahead (parseNumConstant_ahead _ _) ?_
    | with_reducible refine above_of_ahead (parseString_ahead _) ?_
    | with_reducible refine above_of_ahead (parseByteList_ahead _ _ _ _) ?_
    | with_reducible refine above_of_ahead (nextOpcode_ahead _ _) ?_
    | with_reducible refine above_of_ahead (readByte_ahead _) ?_
    | with_reducible refine above_of_ahead (ahead_of_readByte (by assumption)) ?_
    | with_reducible refine above_of_ahead (ahead_of_nextOpcode (by assumption)) ?_
    | with_reducible refine rabove_unread (by assumption) ?_
    | with_reducible refine rabove_nullName (by assumption) hd ?_
    | with_reducible refine rabove_setOffset ?_ ?_
    | with_reducible apply rabove_ite
    | with_reducible apply rabove_ite_snd
    | with_reducible refine rabove_offset d ?_
    | with_reducible exact above_pred (by assumption)
    | with_reducible exact rabove_pred (above_r (by assumption))
    | split

set_option linter.unusedVariables false in
set_option linter.unreachableTactic false in
set_option linter.unusedTactic false in
set_option maxHeartbeats 1000000 in
theorem total_parseFieldList (env : Env) (d : List Nat)
    (hd : d.length < 2 ^ 32) (A : Nat)
    (hA : ∀ (r r' : Reader) (info : OpcodeInfo), r.data = d →
      nextOpcode env r = (some info, r') → info.argFlags.length ≤ A)
    (fuel : Nat) (ih : AllTotal env d A fuel) (o : Nat)
    (op : Nat) (args : List Value) (maxReadOffset : Nat) (p : Parser)
    (h : Above d o p)
    (hb : budget A d o 1 < fuel + 1) :
    Total
      (parseFieldList env (fuel + 1) op args maxReadOffset p) := by
  have ha := allAdv env d hd fuel
  rw [parseFieldList]
  all_goals repeat' first
    | exact total_ok
    | exact total_fault
    | with_reducible apply total_finishArg
    | with_reducible apply total_finalizeObj
    | with_reducible apply total_popChild
    | with_reducible refine ih.objList (o) _ _ ?_ (budget_same hb (by omega))
    | with_reducible refine ih.obj (o) _ ?_ (budget_same hb (by omega))
    | with_reducible refine ih.args (o) _ _ _ _ _ ?_ (by assumption) (budget_same hb (by omega))
    | with_reducible refine ih.arg (o) _ _ _ _ _ _ ?_ (budget_same hb (by omega))
    | with_reducible refine ih.argObj (o) _ ?_ (budget_same hb (by omega))
    | with_reducible refine ih.invocation (o) _ ?_ (budget_same hb (by omega))
    | with_reducible refine ih.invocationArgs (o) _ _ _ _ ?_ (budget_same hb (by omega))
    | with_reducible refine ih.scope (o) _ _ ?_ (budget_same hb (by omega))
    | with_reducible refine ih.namespacedObj (o) _ _ _ ?_ (budget_same hb (by omega))
    | with_reducible refine ih.superName (o) _ ?_ (budget_same hb (by omega))
    | with_reducible refine ih.target (o) _ ?_ (budget_same hb (by omega))
    | with_reducible refine ih.fieldList (o) _ _ _ _ ?_ (budget_same hb (by omega))
    | with_reducible refine ih.fieldElements (o) _ _ _ _ _ _ _ _ ?_ (budget_same hb (by omega))
    | with_reducible apply ha.objList
    | with_reducible apply ha.obj
    | with_reducible apply ha.args
    | with_reducible apply ha.arg
    | with_reducible apply ha.argObj
    | with_reducible apply ha.invocation
    | with_reducible apply ha.invocationArgs
    | with_reducible apply ha.scope
    | with_reducible apply ha.namespacedObj
    | with_reducible apply ha.superName
    | with_reducible apply ha.target
    | with_reducible apply ha.fieldList
    | with_reducible apply ha.fieldElements
    | with_reducible refine total_bind_adv d (o) ?_ ?_ (fun _ _ _ => ?_)
    | assumption
    | with_reducible refine above_append (by assumption) ?_
    | with_reducible refine above_scopeExit (by assumption) ?_
    | with_reducible refine above_removeLastChild (by assumption) ?_
    | with_reducible apply above_update
    | with_reducible apply above_alloc
    | with_reducible apply above_enter
    | with_reducible apply above_ite
    | with_reducible apply above_mk
    | with_reducible exact above_r (by assumption)
    | with_reducible refine rabove_nameString_strict (by assumption) ?_
    | with_reducible refine rabove_nameString_true (by assumption) ?_
    | with_reducible refine rabove_nextOpcode_some (by assumption) ?_
    | with_reducible refine rabove_readByte_some (by assumption) ?_
    | with_reducible refine above_of_ahead (parseNameString_ahead _).1 ?_
    | with_reducible refine above_of_ahead (parsePkgLength_ahead _) ?_
    | with_reducible refine above_of_ahead (parseNumConstant_ahead _ _) ?_
    | with_reducible refine above_of_ahead (parseString_ahead _) ?_
    | with_reducible refine above_of_ahead (parseByteList_ahead _ _ _ _) ?_
    | with_reducible refine above_of_ahead (nextOpcode_ahead _ _) ?_
    | with_reducible refine above_of_ahead (readByte_ahead _) ?_
    | with_reducible refine above_of_ahead (ahead_of_readByte (by assumption)) ?_
    | with_reducible refine above_of_ahead (ahead_of_nextOpcode (by assumption)) ?_
    | with_reducible refine rabove_unread (by assumption) ?_
    | with_reducible refine rabove_nullName (by assumption) hd ?_
    | with_reducible refine rabove_setOffset ?_ ?_
    | with_reducible apply rabove_ite
    | with_reducible apply rabove_ite_snd
    | with_reducible refine rabove_offset d ?_
    | with_reducible exact above_pred (by assumption)
    | with_reducible exact rabove_pred (above_r (by assumption))
    | split

set_option linter.unusedVariables false in
set_option linter.unreachableTactic false in
set_option linter.unusedTactic false in
set_option maxHeartbeats 1000000 in
theorem total_parseFieldElements (env : Env) (d : List Nat)
    (hd : d.length < 2 ^ 32) (A : Nat)
    (hA : ∀ (r r' : Reader) (info : OpcodeInfo), r.data = d →
      nextOpcode env r = (some info, r') → info.argFlags.length ≤ A)
    (fuel : Nat) (ih : AllTotal env d A fuel) (o : Nat)
    (op : Nat) (name0 name1 : Str) (lock : Bool)
    (updateRule maxReadOffset : Nat) (st : FieldListState) (p : Parser)
    (h : Above d o p)
    (hb : budget A d o 0 < fuel + 1) :
    Total
      (parseFieldElements env (fuel + 1) op name0 name1 lock updateRule maxReadOffset st p) := by
  have ha := allAdv env d hd fuel
  rw [parseFieldElements]
  dsimp only
  split
  · split
    · exact total_ok
    · rename_i next r hread
      have hs := readByte_some hread
      have hlt : o < d.length := by
        have h1 := h.1
        have h2 := h.2
        rw [← h1]
        omega
      have hstep : ∀ R : Nat, R < A + 6 → budget A d (o + 1) R < fuel :=
        fun R hR => budget_step hb (Nat.le_refl _) hlt hR
      all_goals repeat' first
        | exact total_ok
        | exact total_fault
        | with_reducible apply total_finishArg
        | with_reducible apply total_finalizeObj
        | with_reducible apply total_popChild
        | with_reducible refine ih.objList (o + 1) _ _ ?_ (hstep _ (by omega))
        | with_reducible refine ih.obj (o + 1) _ ?_ (hstep _ (by omega))
        | with_reducible refine ih.args (o + 1) _ _ _ _ _ ?_ (by assumption) (hstep _ (by omega))
        | with_reducible refine ih.arg (o + 1) _ _ _ _ _ _ ?_ (hstep _ (by omega))
        | with_reducible refine ih.argObj (o + 1) _ ?_ (hstep _ (by omega))
        | with_reducible refine ih.invocation (o + 1) _ ?_ (hstep _ (by omega))
        | with_reducible refine ih.invocationArgs (o + 1) _ _ _ _ ?_ (hstep _ (by omega))
        | with_reducible refine ih.scope (o + 1) _ _ ?_ (hstep _ (by omega))
        | with_reducible refine ih.namespacedObj (o + 1) _ _ _ ?_ (hstep _ (by omega))
        | with_reducible refine ih.superName (o + 1) _ ?_ (hstep _ (by omega))
        | with_reducible refine ih.target (o + 1) _ ?_ (hstep _ (by omega))
        | with_reducible refine ih.fieldList (o + 1) _ _ _ _ ?_ (hstep _ (by omega))
        | with_reducible refine ih.fieldElements (o + 1) _ _ _ _ _ _ _ _ ?_ (hstep _ (by omega))
        | with_reducible apply ha.objList
        | with_reducible apply ha.obj
        | with_reducible apply ha.args
        | with_reducible apply ha.arg
        | with_reducible apply ha.argObj
        | with_reducible apply ha.invocation
        | with_reducible apply ha.invocationArgs
        | with_reducible apply ha.scope
        | with_reducible apply ha.namespacedObj
        | with_reducible apply ha.superName
        | with_reducible apply ha.target
        | with_reducible apply ha.fieldList
        | with_reducible apply ha.fieldElements
        | with_reducible refine total_bind_adv d (o + 1) ?_ ?_ (fun _ _ _ => ?_)
        | assumption
        | with_reducible refine above_append (by assumption) ?_
        | with_reducible refine above_scopeExit (by assumption) ?_
        | with_reducible refine above_removeLastChild (by assumption) ?_
        | with_reducible apply above_update
        | with_reducible apply above_alloc
        | with_reducible apply above_enter
        | with_reducible apply above_ite
        | with_reducible apply above_mk
        | with_reducible exact above_r (by assumption)
        | with_reducible refine rabove_nameString_strict (by assumption) ?_
        | with_reducible refine rabove_nameString_true (by assumption) ?_
        | with_reducible refine rabove_nextOpcode_some (by assumption) ?_
        | with_reducible refine rabove_readByte_some (by assumption) ?_
        | with_reducible refine above_of_ahead (parseNameString_ahead _).1 ?_
        | with_reducible refine above_of_ahead (parsePkgLength_ahead _) ?_
        | with_reducible refine above_of_ahead (parseNumConstant_ahead _ _) ?_
        | with_reducible refine above_of_ahead (parseString_ahead _) ?_
        | with_reducible refine above_of_ahead (parseByteList_ahead _ _ _ _) ?_
        | with_reducible refine above_of_ahead (nextOpcode_ahead _ _) ?_
        | with_reducible refine above_of_ahead (readByte_ahead _) ?_
        | with_reducible refine above_of_ahead (ahead_of_readByte (by assumption)) ?_
        | with_reducible refine above_of_ahead (ahead_of_nextOpcode (by assumption)) ?_
        | with_reducible refine rabove_unread (by assumption) ?_
        | with_reducible refine rabove_nullName (by assumption) hd ?_
        | with_reducible refine rabove_setOffset ?_ ?_
        | with_reducible apply rabove_ite
        | with_reducible apply rabove_ite_snd
        | with_reducible refine rabove_offset d ?_
        | with_reducible exact above_pred (by assumption)
        | with_reducible exact rabove_pred (above_r (by assumption))
        | split
  · exact total_ok

/-- One more unit of fuel: every routine ends within its budget if the routines it calls
do. -/
theorem allTotal_succ (env : Env) (d : List Nat) (hd : d.length < 2 ^ 32) (A : Nat)
    (hA : ∀ (r r' : Reader) (info : OpcodeInfo), r.data = d →
      nextOpcode env r = (some info, r') → info.argFlags.length ≤ A)
    (fuel : Nat) (ih : AllTotal env d A fuel) : AllTotal env d A (fuel + 1) :=
  { objList := total_parseObjList env d hd A hA fuel ih
    obj := total_parseObj env d hd A hA fuel ih
    args := total_parseArgs env d hd A hA fuel ih
    arg := total_parseArg env d hd A hA fuel ih
    argObj := total_parseArgObj env d hd A hA fuel ih
    invocation := total_parseMethodInvocationOrNameRef env d hd A hA fuel ih
    invocationArgs := total_parseInvocationArgs env d hd A hA fuel ih
    scope := total_parseScope env d hd A hA fuel ih
    namespacedObj := total_parseNamespacedObj env d hd A hA fuel ih
    superName := total_parseSuperName env d hd A hA fuel ih
    target := total_parseTarget env d hd A hA fuel ih
    fieldList := total_parseFieldList env d hd A hA fuel ih
    fieldElements := total_parseFieldElements env d hd A hA fuel ih }

/-- Every routine of the parser ends when it is run with more fuel than its budget. -/
theorem allTotal (env : Env) (d : List Nat) (hd : d.length < 2 ^ 32) (A : Nat)
    (hA : ∀ (r r' : Reader) (info : OpcodeInfo), r.data = d →
      nextOpcode env r = (some info, r') → info.argFlags.length ≤ A) :
    ∀ fuel : Nat, AllTotal env d A fuel
  | 0 => allTotal_zero env d A
  | fuel + 1 => allTotal_succ env d hd A hA fuel (allTotal env d hd A hA fuel)

theorem argCountAt_le_maxArgsUpTo (env : Env) (d : List Nat) (i k : Nat) (h : i < k) :
    argCountAt env d i ≤ maxArgsUpTo env d k := by
  induction k with
  | zero => omega
  | succ k ih =>
    rw [maxArgsUpTo]
    by_cases hik : i = k
    · subst hik
      exact Nat.le_max_right _ _
    · exact Nat.le_trans (ih (by omega)) (Nat.le_max_left _ _)

/-- No opcode that starts in `d` has more declared arguments than `maxArgs env d`. -/
theorem argFlags_le_maxArgs (env : Env) (d : List Nat) (r r' : Reader) (info : OpcodeInfo)
    (hr : r.data = d) (hop : nextOpcode env r = (some info, r')) :
    info.argFlags.length ≤ maxArgs env d := by
  have hs := @nextOpcode_some env r info (by rw [hop])
  have hlt : r.offset < d.length := by
    rw [← hr]
    exact hs.2
  have h1 := argCountAt_le_maxArgsUpTo env d r.offset d.length hlt
  have h2 : argCountAt env d r.offset = info.argFlags.length := by
    unfold argCountAt
    have hreader : ({ data := d, offset := r.offset } : Reader) = r := by
      cases r
      simp only at hr
      subst hr
      rfl
    rw [hreader, hop]
  rw [h2] at h1
  exact h1

/-- The object list ends within `fuelBound`: for every amount of fuel from `fuelBound` on,
the run of `parseObjList` returns or faults. -/
theorem parseObjList_ends (env : Env) (p : Parser) (hlen : p.r.data.length < 2 ^ 32)
    (fuel maxOffset : Nat) (hfuel : fuelBound env p ≤ fuel) :
    parseObjList env fuel maxOffset p ≠ Outcome.noFuel := by
  have hall := allTotal env p.r.data hlen (maxArgs env p.r.data)
    (argFlags_le_maxArgs env p.r.data) fuel
  refine hall.objList p.r.offset maxOffset p ⟨rfl, Nat.le_refl _⟩ ?_
  unfold fuelBound at hfuel
  omega

/-- C31. Progress and termination.  For a table of less than `2 ^ 32` bytes (offsets are
`uint32`): every call of `parseObj` that returns true leaves the reader, over the same data,
at least one byte beyond the offset at which it started; `parseSuperName`, `parseTarget`,
`parseFieldList` and `parseMethodInvocationOrNameRef` never return at an offset before the
one they started at; and `parseObjList` ends: run with the fuel `fuelBound` it returns or
faults, and every larger amount of fuel gives the same outcome. -/
theorem parseObj_progress (env : Env) (p : Parser) (hlen : p.r.data.length < 2 ^ 32) :
    (∀ (fuel : Nat) (p' : Parser), parseObj env fuel p = Outcome.ok true p' →
        p'.r.data = p.r.data ∧ p.r.offset + 1 ≤ p'.r.offset ∧
          p.r.offset < p.r.data.length) ∧
      (∀ (fuel : Nat) (a : Value × Bool) (p' : Parser),
        parseSuperName env fuel p = Outcome.ok a p' → p.r.offset ≤ p'.r.offset) ∧
      (∀ (fuel : Nat) (a : Value × Bool) (p' : Parser),
        parseTarget env fuel p = Outcome.ok a p' → p.r.offset ≤ p'.r.offset) ∧
      (∀ (fuel op : Nat) (args : List Value) (maxReadOffset : Nat) (b : Bool) (p' : Parser),
        parseFieldList env fuel op args maxReadOffset p = Outcome.ok b p' →
          p.r.offset ≤ p'.r.offset) ∧
      (∀ (fuel : Nat) (b : Bool) (p' : Parser),
        parseMethodInvocationOrNameRef env fuel p = Outcome.ok b p' →
          p.r.offset ≤ p'.r.offset) ∧
      (∀ maxOffset : Nat,
        parseObjList env (fuelBound env p) maxOffset p ≠ Outcome.noFuel ∧
          ∀ fuel : Nat, fuelBound env p ≤ fuel →
            parseObjList env fuel maxOffset p =
              parseObjList env (fuelBound env p) maxOffset p) := by
  have hp : Above p.r.data p.r.offset p := ⟨rfl, Nat.le_refl _⟩
  refine ⟨?_, ?_, ?_, ?_, ?_, ?_⟩
  · intro fuel p' heq
    have hs := strict_obj env p.r.data hlen fuel p.r.offset p p' hp heq
    exact ⟨hs.1.1, hs.1.2, hs.2⟩
  · intro fuel a p' heq
    exact ((allAdv env p.r.data hlen fuel).superName _ p hp a p' heq).2
  · intro fuel a p' heq
    exact ((allAdv env p.r.data hlen fuel).target _ p hp a p' heq).2
  · intro fuel op args maxReadOffset b p' heq
    exact ((allAdv env p.r.data hlen fuel).fieldList _ op args maxReadOffset p hp b p' heq).2
  · intro fuel b p' heq
    exact ((allAdv env p.r.data hlen fuel).invocation _ p hp b p' heq).2
  · intro maxOffset
    have hend := parseObjList_ends env p hlen (fuelBound env p) maxOffset (Nat.le_refl _)
    exact ⟨hend, parseObjList_fuel_independent env (fuelBound env p) maxOffset p hend⟩

set_option maxRecDepth 100000 in
theorem parseObj_progress_witness :
    (parserAt [0x10, 0x0a, 0x5c, 0x00, 0x08, 0x41, 0x42, 0x43, 0x44, 0x0a, 0x2a]
        initialHeap).r.offset + 1 ≤
        ((parseObj sampleEnv 20
          (parserAt [0x10, 0x0a, 0x5c, 0x00, 0x08, 0x41, 0x42, 0x43, 0x44, 0x0a, 0x2a]
            initialHeap)).state?.getD (parserAt [] [])).r.offset ∧
      parseObjList sampleEnv
          (fuelBound sampleEnv
            (parserAt [0x10, 0x0a, 0x5c, 0x00, 0x08, 0x41, 0x42, 0x43, 0x44, 0x0a, 0x2a]
              initialHeap)) 11
          (parserAt [0x10, 0x0a, 0x5c, 0x00, 0x08, 0x41, 0x42, 0x43, 0x44, 0x0a, 0x2a]
            initialHeap) ≠ Outcome.noFuel ∧
      parseObjList sampleEnv 200 11
          (parserAt [0x10, 0x0a, 0x5c, 0x00, 0x08, 0x41, 0x42, 0x43, 0x44, 0x0a, 0x2a]
            initialHeap) =
        parseObjList sampleEnv
          (fuelBound sampleEnv
            (parserAt [0x10, 0x0a, 0x5c, 0x00, 0x08, 0x41, 0x42, 0x43, 0x44, 0x0a, 0x2a]
              initialHeap)) 11
          (parserAt [0x10, 0x0a, 0x5c, 0x00, 0x08, 0x41, 0x42, 0x43, 0x44, 0x0a, 0x2a]
            initialHeap) :=
  ⟨((parseObj_progress sampleEnv
      (parserAt [0x10, 0x0a, 0x5c, 0x00, 0x08, 0x41, 0x42, 0x43, 0x44, 0x0a, 0x2a] initialHeap)
      (by decide)).1 20 _ (by decide!)).2.1,
    ((parseObj_progress sampleEnv
      (parserAt [0x10, 0x0a, 0x5c, 0x00, 0x08, 0x41, 0x42, 0x43, 0x44, 0x0a, 0x2a] initialHeap)
      (by decide)).2.2.2.2.2 11).1,
    ((parseObj_progress sampleEnv
      (parserAt [0x10, 0x0a, 0x5c, 0x00, 0x08, 0x41, 0x42, 0x43, 0x44, 0x0a, 0x2a] initialHeap)
      (by decide)).2.2.2.2.2 11).2 200 (by decide!)⟩

/-! ## Theorems: the arguments of a method invocation -/

/-- A run that ended keeps its outcome for every larger amount of fuel, when one more unit
of fuel does. -/
theorem stable_mono {α : Type} (g : Nat → Outcome α) (hs : ∀ k, Stable (g k) (g (k + 1)))
    (f : Nat) (hend : g f ≠ Outcome.noFuel) : ∀ f', f ≤ f' → g f' = g f := by
  intro f' hle
  induction f' with
  | zero =>
    have h0 : f = 0 := by omega
    rw [h0]
  | succ k ih =>
    by_cases hk : f = k + 1
    · rw [hk]
    · have h1 := ih (by omega)
      have h2 := hs k (by rw [h1]; exact hend)
      rw [h2, h1]

theorem stable_parseTermArg (env : Env) (k : Nat) (p : Parser) :
    Stable (parseTermArg env k p) (parseTermArg env (k + 1) p) := by
  unfold parseTermArg
  dsimp only
  split
  · exact (allStable env k).argObj _
  · exact stable_bind ((allStable env k).invocation _) (fun _ _ => stable_refl _)

/-- The loop over the term args, one turn unfolded: the turn is `parseTermArg`. -/
theorem parseInvocationArgs_step (env : Env) (fuel m i : Nat) (args : List Value)
    (p : Parser) :
    parseInvocationArgs env (fuel + 1) m i args p =
      match p.heap[m]? with
      | none => Outcome.fault
      | some me =>
        if i < me.argCount && !p.r.EOF then
          (parseTermArg env fuel p).bind fun a p' =>
            if !a.2 then Outcome.ok (i, args) { p' with r := p'.r.SetOffset p.r.Offset }
            else parseInvocationArgs env fuel m (i + 1) (args ++ [a.1]) p'
        else Outcome.ok (i, args) p := by
  rw [parseInvocationArgs]
  rfl

theorem keeps_parseTermArg {I : List Entity → Prop} (hI : HeapClosed I) (env : Env)
    (fuel : Nat) (p : Parser) (h : I p.heap) : Keeps I (parseTermArg env fuel p) := by
  unfold parseTermArg
  dsimp only
  split
  · exact (allKeep hI env fuel).argObj _ h
  · refine keeps_bind ((allKeep hI env fuel).invocation _ h) (fun a p1 hp1 => ?_)
    split
    · exact keeps_ok hp1
    · exact keeps_popChild hI hp1

theorem stack_parseTermArg (env : Env) (fuel : Nat) (p : Parser) :
    SameStack p.scopeStack (parseTermArg env fuel p) := by
  unfold parseTermArg
  dsimp only
  split
  · exact (allStack env fuel).argObj _ _ rfl
  · refine stack_bind ((allStack env fuel).invocation _ _ rfl) (fun a p1 hp1 => ?_)
    split
    · exact stack_ok hp1
    · exact stack_popChild hp1

theorem termArgChain_keeps {I : List Entity → Prop} (hI : HeapClosed I) (env : Env) :
    ∀ (as : List Value) (q q' : Parser), termArgChain env as q q' → I q.heap → I q'.heap
  | [], q, q', h, hq => by
    rw [show q' = q from h]
    exact hq
  | a :: as, q, q', h, hq => by
    obtain ⟨_, fuel, q1, hstep, hrest⟩ := h
    exact termArgChain_keeps hI env as q1 q' hrest
      (keeps_parseTermArg hI env fuel q hq _ _ hstep)

theorem termArgChain_stack (env : Env) :
    ∀ (as : List Value) (q q' : Parser), termArgChain env as q q' →
      q'.scopeStack = q.scopeStack
  | [], q, q', h => by rw [show q' = q from h]
  | a :: as, q, q', h => by
    obtain ⟨_, fuel, q1, hstep, hrest⟩ := h
    rw [termArgChain_stack env as q1 q' hrest]
    exact stack_parseTermArg env fuel q _ _ hstep

/-- A chain of term args drives the loop: what the loop gives from the end of the chain on,
it gives from its start. -/
theorem parseInvocationArgs_of_chain (env : Env) (m n : Nat) (ser : Bool) (sy : Nat) :
    ∀ (as : List Value) (q q' : Parser), termArgChain env as q q' →
      ∀ (i : Nat) (args : List Value), hasMethod m n ser sy q.heap → i + as.length ≤ n →
      ∀ (res : Nat × List Value) (pf : Parser) (f0 : Nat),
        parseInvocationArgs env f0 m (i + as.length) (args ++ as) q' = Outcome.ok res pf →
        ∃ f, parseInvocationArgs env f m i args q = Outcome.ok res pf
  | [], q, q', h, i, args, _, _, res, pf, f0, hfin => by
    rw [show q' = q from h] at hfin
    exact ⟨f0, by simpa using hfin⟩
  | a :: as, q, q', h, i, args, hm, hle, res, pf, f0, hfin => by
    obtain ⟨hEOF, fuel1, q1, hstep, hrest⟩ := h
    have hm1 : hasMethod m n ser sy q1.heap :=
      keeps_parseTermArg (hasMethod_closed m n ser sy) env fuel1 q hm _ _ hstep
    have hlen : i + (a :: as).length = (i + 1) + as.length := by
      simp only [List.length_cons]
      omega
    have hargs : args ++ a :: as = (args ++ [a]) ++ as := by simp
    rw [hlen, hargs] at hfin
    obtain ⟨f2, h2⟩ := parseInvocationArgs_of_chain env m n ser sy as q1 q' hrest (i + 1)
      (args ++ [a]) hm1 (by simp only [List.length_cons] at hle; omega) res pf f0 hfin
    have hT : parseTermArg env (max fuel1 f2) q = Outcome.ok (a, true) q1 := by
      have hne : parseTermArg env fuel1 q ≠ Outcome.noFuel := by
        rw [hstep]
        intro hc
        cases hc
      exact (stable_mono (fun k => parseTermArg env k q)
        (fun k => stable_parseTermArg env k q) fuel1 hne _ (Nat.le_max_left fuel1 f2)).trans
        hstep
    have hL : parseInvocationArgs env (max fuel1 f2) m (i + 1) (args ++ [a]) q1 =
        Outcome.ok res pf := by
      have hne : parseInvocationArgs env f2 m (i + 1) (args ++ [a]) q1 ≠ Outcome.noFuel := by
        rw [h2]
        intro hc
        cases hc
      exact (stable_mono (fun k => parseInvocationArgs env k m (i + 1) (args ++ [a]) q1)
        (fun k => (allStable env k).invocationArgs m (i + 1) (args ++ [a]) q1) f2 hne _
        (Nat.le_max_right fuel1 f2)).trans h2
    obtain ⟨me, hme, _, hn, _, _⟩ := hm
    have hlt : i < me.argCount := by
      simp only [List.length_cons] at hle
      omega
    refine ⟨max fuel1 f2 + 1, ?_⟩
    rw [parseInvocationArgs_step]
    simp only [hme, hlt, hEOF, decide_True, Bool.not_false, Bool.and_self, if_true, hT,
      Outcome.bind, Bool.not_true, Bool.false_eq_true, if_false, hL]

/-- What the loop over the term args returns comes from a chain of term args: the count is
the start index plus the length of the chain, the arguments are those of the chain in
order, and when the count is the argument count of the Method the loop returns in the
state at the end of the chain. -/
theorem parseInvocationArgs_chain (env : Env) (m n : Nat) (ser : Bool) (sy : Nat) :
    ∀ (fuel i : Nat) (args : List Value) (q : Parser) (res : Nat × List Value)
      (pf : Parser), hasMethod m n ser sy q.heap →
      parseInvocationArgs env fuel m i args q = Outcome.ok res pf →
      ∃ (as : List Value) (q' : Parser), termArgChain env as q q' ∧
        res = (i + as.length, args ++ as) ∧ (res.1 = n → pf = q')
  | 0, i, args, q, res, pf, _, h => by
    rw [parseInvocationArgs] at h
    cases h
  | fuel + 1, i, args, q, res, pf, hm, h => by
    rw [parseInvocationArgs_step] at h
    obtain ⟨me, hme, hk, hn, hs, hl⟩ := hm
    simp only [hme] at h
    split at h
    · rename_i hcond
      simp only [Bool.and_eq_true, decide_eq_true_eq, Bool.not_eq_true'] at hcond
      cases hT : parseTermArg env fuel q with
      | ok a p1 =>
        rw [hT] at h
        simp only [Outcome.bind] at h
        split at h
        · injection h with h1 h2
          refine ⟨[], q, rfl, by simp [← h1], fun hc => ?_⟩
          rw [← h1] at hc
          simp only at hc
          omega
        · rename_i ha
          have ha2 : a.2 = true := by simpa using ha
          have hm1 : hasMethod m n ser sy p1.heap :=
            keeps_parseTermArg (hasMethod_closed m n ser sy) env fuel q
              ⟨me, hme, hk, hn, hs, hl⟩ _ _ hT
          obtain ⟨as, q', hch, hres, hpf⟩ :=
            parseInvocationArgs_chain env m n ser sy fuel (i + 1) (args ++ [a.1]) p1 res pf
              hm1 h
          refine ⟨a.1 :: as, q', ⟨hcond.2, fuel, p1, ?_, hch⟩, ?_, hpf⟩
          · rw [hT, ← ha2]
          · rw [hres]
            simp only [List.length_cons, List.append_assoc, List.singleton_append,
              Prod.mk.injEq, and_true]
            omega
      | fault =>
        rw [hT] at h
        cases h
      | noFuel =>
        rw [hT] at h
        cases h
    · injection h with h1 h2
      exact ⟨[], q, rfl, by simp [← h1], fun _ => h2.symm⟩

/-- The call of `parseMethodInvocationOrNameRef` for a name that resolves to the Method
`m`: the loop over the term args, the count check, and the `Append` of the invocation. -/
theorem parseMethodInvocationOrNameRef_resolved (env : Env) (f : Nat) (p : Parser)
    (name : Str) (r' : Reader) (cur m : Nat)
    (hname : parseNameString p.r = ((name, true), r'))
    (hstack : p.scopeCurrent = some cur)
    (hfind : findMethod env p.heap cur p.root name = some m) :
    parseMethodInvocationOrNameRef env (f + 1) p =
      (parseInvocationArgs env f m 0 [] { p with r := r' }).bind fun res p1 =>
        match p1.heap[m]? with
        | none => Outcome.fault
        | some me =>
          if res.1 ≠ me.argCount then Outcome.ok false p1
          else
            match p1.scopeCurrent with
            | none => Outcome.fault
            | some cur =>
              match (p1.alloc (newInvocation m res.2)).2.Append cur p1.heap.length with
              | none => Outcome.fault
              | some p => Outcome.ok true p := by
  have hsc : Parser.scopeCurrent { p with r := r' } = some cur := hstack
  simp only [parseMethodInvocationOrNameRef, hname, Bool.not_true, Bool.false_eq_true, if_false,
    hsc, hfind]
  try rfl

theorem parseMethodInvocationOrNameRef_fuel (env : Env) (p : Parser) (f0 : Nat) (b : Bool)
    (x : Parser) (h : parseMethodInvocationOrNameRef env f0 p = Outcome.ok b x) :
    ∀ fuel, f0 ≤ fuel → parseMethodInvocationOrNameRef env fuel p = Outcome.ok b x := by
  intro fuel hle
  have hne : parseMethodInvocationOrNameRef env f0 p ≠ Outcome.noFuel := by
    rw [h]
    intro hc
    cases hc
  exact (stable_mono (fun k => parseMethodInvocationOrNameRef env k p)
    (fun k => (allStable env k).invocation p) f0 hne fuel hle).trans h

/-- C8. Method invocation arity.  Let the parsed name resolve to the Method `m` (the
lookup hands back the Method itself) whose argument count is `n`.  A chain of term args is
a list of arguments parsed one after the other from the byte just past the name, each by one
turn of the loop (`parseTermArg`) with success.  (1) If `n` term args can be parsed, the
call returns true and appends to the current scope, as its last child, a
`methodInvocationEntity` that refers to `m` and whose arguments are these `n` arguments in
stream order.  (2) If only fewer than `n` can be parsed, because the stream ends or the next
term arg fails, the call returns false.  (3) Whenever the call returns true, the state it
returns is the one of (1) for some chain of exactly `n` term args. -/
theorem parseMethodInvocationOrNameRef_arity (env : Env) (p : Parser) (name : Str)
    (r' : Reader) (cur m : Nat) (me : Entity)
    (hname : parseNameString p.r = ((name, true), r'))
    (hstack : p.scopeCurrent = some cur)
    (hfind : findMethod env p.heap cur p.root name = some m)
    (hm : p.heap[m]? = some me) :
    (∀ (as : List Value) (q : Parser) (ce : Entity),
        termArgChain env as { p with r := r' } q → as.length = me.argCount →
        q.heap[cur]? = some ce → ce.isScopeEntity = true →
        ∃ F, ∀ fuel, F ≤ fuel →
          parseMethodInvocationOrNameRef env fuel p =
            Outcome.ok true
              { q with
                heap := (q.heap.set cur { ce with children := ce.children ++ [q.heap.length] })
                  ++ [{ kind := Kind.methodInvocation, methodDef := some m, args := as,
                        parent := some cur }] }) ∧
      (∀ (as : List Value) (q : Parser),
        termArgChain env as { p with r := r' } q → as.length < me.argCount →
        (q.r.EOF = true → ∃ F, ∀ fuel, F ≤ fuel →
          parseMethodInvocationOrNameRef env fuel p = Outcome.ok false q) ∧
        (∀ (f : Nat) (a : Value) (q1 : Parser), q.r.EOF = false →
          parseTermArg env f q = Outcome.ok (a, false) q1 →
          ∃ F, ∀ fuel, F ≤ fuel →
            parseMethodInvocationOrNameRef env fuel p =
              Outcome.ok false { q1 with r := q1.r.SetOffset q.r.Offset })) ∧
      (∀ (fuel : Nat) (p' : Parser),
        parseMethodInvocationOrNameRef env fuel p = Outcome.ok true p' →
        ∃ (as : List Value) (q : Parser) (ce : Entity),
          termArgChain env as { p with r := r' } q ∧ as.length = me.argCount ∧
          q.scopeCurrent = some cur ∧ q.heap[cur]? = some ce ∧ ce.isScopeEntity = true ∧
          p' = { q with
            heap := (q.heap.set cur { ce with children := ce.children ++ [q.heap.length] })
              ++ [{ kind := Kind.methodInvocation, methodDef := some m, args := as,
                    parent := some cur }] }) := by
  obtain ⟨_, _, e0, he0, hkind0⟩ := findMethod_some hfind
  have hkind : me.kind = Kind.method := by
    rw [hm] at he0
    injection he0 with he0
    rw [he0]
    exact hkind0
  have hM : hasMethod m me.argCount me.serialized me.syncLevel p.heap :=
    ⟨me, hm, hkind, rfl, rfl, rfl⟩
  have hclosed := hasMethod_closed m me.argCount me.serialized me.syncLevel
  have hcurOf : ∀ (as : List Value) (q : Parser),
      termArgChain env as { p with r := r' } q → q.scopeCurrent = some cur := by
    intro as q hch
    have hs := termArgChain_stack env as _ q hch
    unfold Parser.scopeCurrent at hstack ⊢
    rw [hs]
    exact hstack
  have hMof : ∀ (as : List Value) (q : Parser),
      termArgChain env as { p with r := r' } q →
      hasMethod m me.argCount me.serialized me.syncLevel q.heap :=
    fun as q hch => termArgChain_keeps hclosed env as _ q hch hM
  have hfalse : ∀ (f k : Nat) (as : List Value) (pf : Parser),
      parseInvocationArgs env f m 0 [] { p with r := r' } = Outcome.ok (k, as) pf →
      hasMethod m me.argCount me.serialized me.syncLevel pf.heap → k ≠ me.argCount →
      parseMethodInvocationOrNameRef env (f + 1) p = Outcome.ok false pf := by
    intro f k as pf hloop hMpf hk
    obtain ⟨mq, hmq, _, hn, _, _⟩ := hMpf
    rw [parseMethodInvocationOrNameRef_resolved env f p name r' cur m hname hstack hfind, hloop]
    simp only [Outcome.bind, hmq, hn, ne_eq, hk, not_false_eq_true, if_true]
  refine ⟨?_, ?_, ?_⟩
  · intro as q ce hch hlen hq hscope
    obtain ⟨mq, hmq, _, hn, _, _⟩ := hMof as q hch
    have hfin : parseInvocationArgs env 1 m (0 + as.length) ([] ++ as) q =
        Outcome.ok (as.length, as) q := by
      rw [parseInvocationArgs_step]
      simp [hmq, hn, hlen]
    obtain ⟨f, hloop⟩ := parseInvocationArgs_of_chain env m me.argCount me.serialized
      me.syncLevel as { p with r := r' } q hch 0 [] hM (by omega) _ _ 1 hfin
    have happ := Parser.append_new q (newInvocation m as) ce cur hq hscope
    have hret : parseMethodInvocationOrNameRef env (f + 1) p =
        Outcome.ok true
          { q with
            heap := (q.heap.set cur { ce with children := ce.children ++ [q.heap.length] })
              ++ [{ kind := Kind.methodInvocation, methodDef := some m, args := as,
                    parent := some cur }] } := by
      rw [parseMethodInvocationOrNameRef_resolved env f p name r' cur m hname hstack hfind,
        hloop]
      simp only [Outcome.bind, hmq, hn, hlen, ne_eq, not_true_eq_false, if_false,
        hcurOf as q hch, happ]
      rfl
    exact ⟨f + 1, parseMethodInvocationOrNameRef_fuel env p (f + 1) true _ hret⟩
  · intro as q hch hlen
    obtain ⟨mq, hmq, hkq, hn, hsq, hlq⟩ := hMof as q hch
    refine ⟨fun hEOF => ?_, fun f a q1 hEOF hstep => ?_⟩
    · have hfin : parseInvocationArgs env 1 m (0 + as.length) ([] ++ as) q =
          Outcome.ok (as.length, as) q := by
        rw [parseInvocationArgs_step]
        simp [hmq, hEOF]
      obtain ⟨f, hloop⟩ := parseInvocationArgs_of_chain env m me.argCount me.serialized
        me.syncLevel as { p with r := r' } q hch 0 [] hM (by omega) _ _ 1 hfin
      exact ⟨f + 1, parseMethodInvocationOrNameRef_fuel env p (f + 1) false _
        (hfalse f as.length as q hloop ⟨mq, hmq, hkq, hn, hsq, hlq⟩ (by omega))⟩
    · have hfin : parseInvocationArgs env (f + 1) m (0 + as.length) ([] ++ as) q =
          Outcome.ok (as.length, as) { q1 with r := q1.r.SetOffset q.r.Offset } := by
        rw [parseInvocationArgs_step]
        simp [hmq, hn, hlen, hEOF, hstep, Outcome.bind]
      obtain ⟨f2, hloop⟩ := parseInvocationArgs_of_chain env m me.argCount me.serialized
        me.syncLevel as { p with r := r' } q hch 0 [] hM (by omega) _ _ (f + 1) hfin
      have hM1 : hasMethod m me.argCount me.serialized me.syncLevel q1.heap :=
        keeps_parseTermArg hclosed env f q ⟨mq, hmq, hkq, hn, hsq, hlq⟩ _ _ hstep
      exact ⟨f2 + 1, parseMethodInvocationOrNameRef_fuel env p (f2 + 1) false _
        (hfalse f2 as.length as _ hloop hM1 (by omega))⟩
  · intro fuel p' hret
    cases fuel with
    | zero =>
      rw [parseMethodInvocationOrNameRef] at hret
      cases hret
    | succ f =>
      rw [parseMethodInvocationOrNameRef_resolved env f p name r' cur m hname hstack hfind]
        at hret
      cases hloop : parseInvocationArgs env f m 0 [] { p with r := r' } with
      | fault =>
        rw [hloop] at hret
        cases hret
      | noFuel =>
        rw [hloop] at hret
        cases hret
      | ok res p1 =>
        obtain ⟨as, q, hch, hres, hpf⟩ := parseInvocationArgs_chain env m me.argCount
          me.serialized me.syncLevel f 0 [] { p with r := r' } res p1 hM hloop
        have hM1 : hasMethod m me.argCount me.serialized me.syncLevel p1.heap :=
          (allKeep hclosed env f).invocationArgs m 0 [] { p with r := r' } hM res p1 hloop
        obtain ⟨mq, hmq, _, hn, _, _⟩ := hM1
        rw [hloop] at hret
        simp only [Outcome.bind, hmq, hn] at hret
        split at hret
        · cases hret
        · rename_i hcount
          have hcount' : res.1 = me.argCount := by
            simpa using hcount
          have hq : p1 = q := hpf hcount'
          subst hq
          have hres1 : as.length = me.argCount := by
            rw [hres] at hcount'
            simpa using hcount'
          have hres2 : res.2 = as := by
            rw [hres]
            simp
          rw [hcurOf as p1 hch] at hret
          simp only at hret
          cases happ : (p1.alloc (newInvocation m res.2)).2.Append cur p1.heap.length with
          | none =>
            rw [happ] at hret
            cases hret
          | some p2 =>
            rw [happ] at hret
            injection hret with _ hp2
            obtain ⟨ce, hce, hsc, hp2'⟩ :=
              Parser.append_new_of_some p1 p2 (newInvocation m res.2) cur rfl happ
            refine ⟨as, p1, ce, hch, hres1, hcurOf as p1 hch, hce, hsc, ?_⟩
            rw [← hp2, hp2', hres2]
            rfl

theorem parseMethodInvocationOrNameRef_arity_witness :
    findMethod sampleEnv (heapWithMethod 2) 0 0 [0x4d, 0x41, 0x49, 0x4e] = some 6 ∧
      ∃ F, ∀ fuel, F ≤ fuel →
        parseMethodInvocationOrNameRef sampleEnv fuel
            (parserAt [0x4d, 0x41, 0x49, 0x4e, 0x68, 0x0a, 0x05] (heapWithMethod 2)) =
          Outcome.ok true
            { r := { data := [0x4d, 0x41, 0x49, 0x4e, 0x68, 0x0a, 0x05], offset := 7 }
              root := 0
              scopeStack := [0]
              heap := (List.set (heapWithMethod 2 ++
                  [{ kind := Kind.unnamed, op := 0x68, parent := some 0 },
                   { kind := Kind.const, op := 0x0a, val := Value.num 5, parent := some 0 }]) 0
                  { kind := Kind.scope, op := opScope, name := [0x5c],
                    children := [1, 2, 3, 4, 5, 6] ++ [9] }) ++
                [{ kind := Kind.methodInvocation, methodDef := some 6,
                   args := [Value.ent 7, Value.ent 8], parent := some 0 }] } :=
  ⟨by decide,
    (parseMethodInvocationOrNameRef_arity sampleEnv
      (parserAt [0x4d, 0x41, 0x49, 0x4e, 0x68, 0x0a, 0x05] (heapWithMethod 2))
      [0x4d, 0x41, 0x49, 0x4e]
      { data := [0x4d, 0x41, 0x49, 0x4e, 0x68, 0x0a, 0x05], offset := 4 } 0 6
      { kind := Kind.method, name := [0x4d, 0x41, 0x49, 0x4e], argCount := 2, parent := some 0 }
      (by decide) rfl (by decide) rfl).1
      [Value.ent 7, Value.ent 8]
      { r := { data := [0x4d, 0x41, 0x49, 0x4e, 0x68, 0x0a, 0x05], offset := 7 }
        root := 0
        scopeStack := [0]
        heap := heapWithMethod 2 ++
          [{ kind := Kind.unnamed, op := 0x68, parent := some 0 },
           { kind := Kind.const, op := 0x0a, val := Value.num 5, parent := some 0 }] }
      { kind := Kind.scope, op := opScope, name := [0x5c], children := [1, 2, 3, 4, 5, 6] }
      ⟨by decide, 3,
        { r := { data := [0x4d, 0x41, 0x49, 0x4e, 0x68, 0x0a, 0x05], offset := 5 }
          root := 0
          scopeStack := [0]
          heap := heapWithMethod 2 ++ [{ kind := Kind.unnamed, op := 0x68, parent := some 0 }] },
        by decide, by decide, 5, _, by decide, rfl⟩
      rfl rfl rfl⟩

/-- A name of carets only that reaches a Method through parent links.  Inside the Device
`DEV1`, two scopes below the Method `MAIN`, the bytes `5E 00` give the name `^^`;
`scopeFind` follows two parent links and ends at the `scopeEntity` embedded in `MAIN`, which
is no `*Method`: the assertion of the source fails, `findMethod` finds nothing and a
`namedReference` is appended, not a method invocation. -/
theorem parseMethodInvocationOrNameRef_embedded_scope :
    parseNameString { data := [0x5e, 0x00], offset := 0 } =
        (([0x5e, 0x5e], true), { data := [0x5e, 0x00], offset := 2 }) ∧
      sampleEnv.scopeFind heapWithNestedDevices 8 0 [0x5e, 0x5e] = some 6 ∧
      (heapWithNestedDevices[6]?.map fun e => (e.kind, e.argCount)) = some (Kind.method, 0) ∧
      sampleEnv.scopeFindEmbedded heapWithNestedDevices 8 0 [0x5e, 0x5e] = true ∧
      findMethod sampleEnv heapWithNestedDevices 8 0 [0x5e, 0x5e] = none ∧
      parseMethodInvocationOrNameRef sampleEnv 2
          { r := { data := [0x5e, 0x00], offset := 0 }
            root := 0
            scopeStack := [0, 6, 7, 8]
            heap := heapWithNestedDevices } =
        Outcome.ok true
          { r := { data := [0x5e, 0x00], offset := 2 }
            root := 0
            scopeStack := [0, 6, 7, 8]
            heap := (heapWithNestedDevices.set 8
                { kind := Kind.device, name := [0x44, 0x45, 0x56, 0x31], parent := some 7,
                  children := [9] }) ++
              [{ kind := Kind.namedReference, targetName := [0x5e, 0x5e], target := none,
                 parent := some 8 }] } := by
  decide

/-! ## Theorems: attachment of the objects of a flat table -/

/-- An object without arguments: `parseObj` reads its opcode, makes the entity, appends it
to the current scope as the last child, with that scope as its parent, and returns true. -/
theorem parseObj_leaf (env : Env) (fuel : Nat) (p : Parser) (b : Nat) (t : List Nat)
    (info : OpcodeInfo) (cur : Nat) (ce : Entity)
    (hdata : p.r.data.drop p.r.offset = b :: t) (hb : b ≠ extOpPrefix)
    (hinfo : env.opcodeMap b = some info) (hleaf : info.isPlainLeaf = true)
    (hcur : p.scopeCurrent = some cur) (hce : p.heap[cur]? = some ce)
    (hscope : ce.isScopeEntity = true) :
    parseObj env (fuel + 2) p =
      Outcome.ok true
        { p with
          r := { p.r with offset := p.r.offset + 1 }
          heap := (p.heap.set cur { ce with children := ce.children ++ [p.heap.length] }) ++
            [{ makeObjForOpcode info with parent := some cur }] } := by
  have hread := (Reader.read_cons hdata).1
  have hnext : nextOpcode env p.r = (some info, { p.r with offset := p.r.offset + 1 }) := by
    simp [nextOpcode, hread, hb, hinfo]
  simp only [OpcodeInfo.isPlainLeaf, Bool.and_eq_true, Bool.not_eq_true', decide_eq_true_eq,
    List.isEmpty_iff] at hleaf
  obtain ⟨⟨⟨⟨⟨hpk, hargs⟩, hs⟩, hd⟩, hm⟩, he⟩ := hleaf
  have hsc : Parser.scopeCurrent { p with r := { p.r with offset := p.r.offset + 1 } } =
      some cur := hcur
  have happ := Parser.append_new { p with r := { p.r with offset := p.r.offset + 1 } }
    (makeObjForOpcode info) ce cur hce hscope
  have hargs0 : ∀ (obj maxOffset : Nat) (q : Parser),
      parseArgs env (fuel + 1) info obj 0 maxOffset q = Outcome.ok true q := by
    intro obj maxOffset q
    rw [parseArgs]
    simp [hargs]
  rw [parseObj]
  simp only [hnext, hpk, hargs, List.contains_nil, Bool.or_self, Bool.false_eq_true, if_false,
    Bool.not_true, hs, hd, hm, or_self, hsc, happ, hargs0, Outcome.bind, finalizeObj, he]

theorem flatEntities_cons (env : Env) (root b : Nat) (t : List Nat) (info : OpcodeInfo)
    (hinfo : env.opcodeMap b = some info) :
    flatEntities env root (b :: t) =
      { makeObjForOpcode info with parent := some root } :: flatEntities env root t := by
  simp [flatEntities, hinfo]

theorem flatTable_cons {env : Env} {b : Nat} {t : List Nat} (h : flatTable env (b :: t) = true) :
    b ≠ extOpPrefix ∧ (∃ info, env.opcodeMap b = some info ∧ info.isPlainLeaf = true) ∧
      flatTable env t = true := by
  simp only [flatTable, List.all_cons, Bool.and_eq_true, decide_eq_true_eq] at h
  obtain ⟨⟨hb, hi⟩, ht⟩ := h
  refine ⟨hb, ?_, ?_⟩
  · cases hm : env.opcodeMap b with
    | none =>
      rw [hm] at hi
      cases hi
    | some info =>
      rw [hm] at hi
      exact ⟨info, rfl, hi⟩
  · simpa [flatTable] using ht

theorem flatEntities_length (env : Env) (root : Nat) :
    ∀ (data : List Nat), flatTable env data = true →
      (flatEntities env root data).length = data.length
  | [], _ => rfl
  | b :: t, h => by
    obtain ⟨_, ⟨info, hinfo, _⟩, ht⟩ := flatTable_cons h
    rw [flatEntities_cons env root b t info hinfo, List.length_cons, List.length_cons,
      flatEntities_length env root t ht]

theorem flatEntities_parent (env : Env) (root : Nat) (data : List Nat) (e : Entity)
    (h : e ∈ flatEntities env root data) : e.parent = some root := by
  simp only [flatEntities, List.mem_filterMap, Option.map_eq_some'] at h
  obtain ⟨_, _, info, _, he⟩ := h
  rw [← he]

/-- A flat table: the object list makes one entity per byte and appends each to the scope
`root`, in stream order. -/
theorem parseObjList_flat (env : Env) (root : Nat) :
    ∀ (rest : List Nat) (p : Parser) (re : Entity),
      p.r.data.drop p.r.offset = rest → flatTable env rest = true →
      p.scopeCurrent = some root → p.heap[root]? = some re → re.isScopeEntity = true →
      parseObjList env (rest.length + 2) p.r.data.length p =
        Outcome.ok true
          { p with
            r := { p.r with offset := p.r.offset + rest.length }
            heap := (p.heap.set root
                { re with children := re.children ++ List.range' p.heap.length rest.length })
              ++ flatEntities env root rest }
  | [], p, re, hdata, _, _, hre, _ => by
    have hlen : p.r.data.length ≤ p.r.offset := List.drop_eq_nil_iff.1 hdata
    rw [parseObjList]
    have hEOF : p.r.EOF = true := by
      simp [Reader.EOF, hlen]
    simp only [hEOF, Bool.not_true, Bool.false_and, Bool.false_eq_true, if_false]
    have hset : p.heap.set root { re with children := re.children ++ List.range' p.heap.length 0 }
        = p.heap := by
      have : ({ re with children := re.children ++ List.range' p.heap.length 0 } : Entity) = re := by
        simp
      rw [this]
      exact List.set_self_of_getElem? _ _ _ hre
    simp only [List.length_nil, Nat.add_zero, flatEntities, List.filterMap_nil, List.append_nil,
      hset]
  | b :: t, p, re, hdata, hflat, hcur, hre, hscope => by
    obtain ⟨hb, ⟨info, hinfo, hleaf⟩, ht⟩ := flatTable_cons hflat
    have hlt : p.r.offset < p.r.data.length := by
      rcases Nat.lt_or_ge p.r.offset p.r.data.length with h | h
      · exact h
      · rw [List.drop_eq_nil_iff.2 h] at hdata
        cases hdata
    have hroot : root < p.heap.length := by
      rcases Nat.lt_or_ge root p.heap.length with h | h
      · exact h
      · rw [List.getElem?_eq_none h] at hre
        cases hre
    have hEOF : p.r.EOF = false := by
      simp [Reader.EOF, hlt]
    have hobj := parseObj_leaf env t.length p b t info root re hdata hb hinfo hleaf hcur hre hscope
    have hih := parseObjList_flat env root t
      { p with
        r := { p.r with offset := p.r.offset + 1 }
        heap := (p.heap.set root { re with children := re.children ++ [p.heap.length] }) ++
          [{ makeObjForOpcode info with parent := some root }] }
      { re with children := re.children ++ [p.heap.length] }
      (Reader.read_cons hdata).2 ht hcur
      (by
        show ((p.heap.set root _) ++ [_])[root]? = _
        rw [List.getElem?_append_left (by simpa using hroot)]
        simp [hroot])
      hscope
    rw [List.length_cons, parseObjList]
    simp only [hEOF, Bool.not_false, Bool.true_and, Reader.Offset, decide_eq_true_eq, hlt,
      if_true, hobj, Outcome.bind, Bool.not_true, Bool.false_eq_true, if_false]
    rw [hih]
    congr 1
    rw [flatEntities_cons env root b t info hinfo]
    simp only [List.length_append, List.length_set, List.length_singleton]
    congr 1
    · congr 1
      omega
    · rw [List.set_append_left _ _ (by simpa using hroot), List.set_set, List.append_assoc,
        List.singleton_append, List.range'_succ, List.append_assoc, List.singleton_append]

/-- C6 as stated fails. On the table `A0 05 72 01 01 00` (`If (Add (One, One, NullName)) {}`)
pass 1 succeeds, yet of the entities it created the `Add` at index 7, which `parseArgObj`
popped from the root, is not among the children of its parent, and the NullName sentinel
at index 10 and the anonymous TermList scope at index 11 have no parent at all.  Nor are
these the only ones: on `A1 09 10 07 5C 00 A0 02 01 01`
(`Else { Scope (\) { If (One) {}  One } }`) pass 1 succeeds, `finalizeObj` pops for the
Else the last child of the root, which is the `One` at index 11 and not the Else; that
entity has the root as its parent, is not among the children of the root and is no argument
of any entity, while the Else at index 6 stays a child of the root. -/
theorem pass1_detached_entities :
    (pass1 sampleEnv 20 [0xa0, 0x05, 0x72, 0x01, 0x01, 0x00] 0 initialHeap).value? = some true ∧
      ((pass1 sampleEnv 20 [0xa0, 0x05, 0x72, 0x01, 0x01, 0x00] 0 initialHeap).state?.map
        fun p => p.heap[0]?.map (fun e => e.children)) = some (some [1, 2, 3, 4, 5, 6]) ∧
      ((pass1 sampleEnv 20 [0xa0, 0x05, 0x72, 0x01, 0x01, 0x00] 0 initialHeap).state?.map
        fun p => p.heap[7]?.map (fun e => (e.op, e.parent))) = some (some (0x72, some 0)) ∧
      ((pass1 sampleEnv 20 [0xa0, 0x05, 0x72, 0x01, 0x01, 0x00] 0 initialHeap).state?.map
        fun p => p.heap[10]?.map (fun e => (e.op, e.val, e.parent))) =
          some (some (opStringPrefix, Value.str [], none)) ∧
      ((pass1 sampleEnv 20 [0xa0, 0x05, 0x72, 0x01, 0x01, 0x00] 0 initialHeap).state?.map
        fun p => p.heap[11]?.map (fun e => (e.kind, e.parent))) =
          some (some (Kind.scope, none)) ∧
      ((pass1 sampleEnv 20 [0xa0, 0x05, 0x72, 0x01, 0x01, 0x00] 0 initialHeap).state?.map
        fun p => [7, 10, 11].map (ownedByParent p.heap)) = some [false, false, false] ∧
      (pass1 sampleEnv 20 [0xa1, 0x09, 0x10, 0x07, 0x5c, 0x00, 0xa0, 0x02, 0x01, 0x01] 0
        initialHeap).value? = some true ∧
      ((pass1 sampleEnv 20 [0xa1, 0x09, 0x10, 0x07, 0x5c, 0x00, 0xa0, 0x02, 0x01, 0x01] 0
        initialHeap).state?.map
        fun p => p.heap[0]?.map (fun e => e.children)) = some (some [1, 2, 3, 4, 5, 6, 8]) ∧
      ((pass1 sampleEnv 20 [0xa1, 0x09, 0x10, 0x07, 0x5c, 0x00, 0xa0, 0x02, 0x01, 0x01] 0
        initialHeap).state?.map
        fun p => p.heap[11]?.map (fun e => (e.op, e.parent))) = some (some (opOne, some 0)) ∧
      ((pass1 sampleEnv 20 [0xa1, 0x09, 0x10, 0x07, 0x5c, 0x00, 0xa0, 0x02, 0x01, 0x01] 0
        initialHeap).state?.map
        fun p => (ownedByParent p.heap 11, heldAsArg p.heap 11, ownedByParent p.heap 6)) =
          some (false, false, true) := by
  decide!

/-- C6 as amended. After a successful pass 1 over a namespace in which every scope's
children have that scope as their parent and are listed once, (1) the same holds: every
entity in the `Children()` list of a scope has that scope as its parent and occurs in the
list exactly once; and (2) if the table is flat, that is a sequence of one-byte opcodes of
objects without arguments, then the pass has made one entity per byte, each with the root
scope as its parent, and has appended them to the children of the root in stream order, so
that every entity the pass created is in the `Children()` list of its parent exactly
once. -/
theorem pass1_children_invariant (env : Env) (fuel : Nat) (data : List Nat) (root : Nat)
    (heap : List Entity) (p' : Parser) (hinv : childrenOK heap = true)
    (hok : pass1 env fuel data root heap = Outcome.ok true p') :
    (∀ (s : Nat) (e : Entity), p'.heap[s]? = some e → ∀ c ∈ e.children,
      (∃ ce : Entity, p'.heap[c]? = some ce ∧ ce.parent = some s) ∧ e.children.count c = 1) ∧
      (flatTable env data = true →
        ∀ re : Entity, heap[root]? = some re → re.isScopeEntity = true →
          p'.heap = (heap.set root
              { re with children := re.children ++ List.range' heap.length data.length }) ++
            flatEntities env root data ∧
          p'.heap.length = heap.length + data.length ∧
          ∀ x : Nat, heap.length ≤ x → x < p'.heap.length → ownedByParent p'.heap x = true) := by
  have h0 : COK heap := (childrenOK_iff heap).1 hinv
  have h1 : COK p'.heap := (allPres env fuel).objList data.length _ h0 true p' hok
  refine ⟨?_, ?_⟩
  · intro s e hs c hc
    obtain ⟨hnd, hpar⟩ := h1 s e hs
    exact ⟨hpar c hc, List.count_eq_one_of_mem hnd hc⟩
  · intro hflat re hre hscope
    have hrun := parseObjList_flat env root data
      { r := { data := data, offset := 0 }, root := root, scopeStack := [root], heap := heap }
      re rfl hflat rfl hre hscope
    have hne : parseObjList env (data.length + 2) data.length
        { r := { data := data, offset := 0 }, root := root, scopeStack := [root], heap := heap }
        ≠ Outcome.noFuel := by
      rw [hrun]
      intro hc
      cases hc
    have hne' : parseObjList env fuel data.length
        { r := { data := data, offset := 0 }, root := root, scopeStack := [root], heap := heap }
        ≠ Outcome.noFuel := by
      have hok' := hok
      unfold pass1 at hok'
      rw [hok']
      intro hc
      cases hc
    have e1 := parseObjList_fuel_independent env (data.length + 2) data.length _ hne
      (max fuel (data.length + 2)) (Nat.le_max_right _ _)
    have e2 := parseObjList_fuel_independent env fuel data.length _ hne'
      (max fuel (data.length + 2)) (Nat.le_max_left _ _)
    have hsame : Outcome.ok true p' = parseObjList env (data.length + 2) data.length
        { r := { data := data, offset := 0 }, root := root, scopeStack := [root], heap := heap } := by
      rw [← e1, e2]
      exact hok.symm
    rw [hrun] at hsame
    injection hsame with _ hp
    have hheap : p'.heap = (heap.set root
        { re with children := re.children ++ List.range' heap.length data.length }) ++
        flatEntities env root data := by
      rw [hp]
    have hlen : p'.heap.length = heap.length + data.length := by
      rw [hheap, List.length_append, List.length_set, flatEntities_length env root data hflat]
    have hroot : root < heap.length := by
      rcases Nat.lt_or_ge root heap.length with h | h
      · exact h
      · rw [List.getElem?_eq_none h] at hre
        cases hre
    refine ⟨hheap, hlen, ?_⟩
    intro x hx1 hx2
    have hxe : ∃ e, p'.heap[x]? = some e ∧ e.parent = some root := by
      have hx3 : x - heap.length < (flatEntities env root data).length := by
        rw [flatEntities_length env root data hflat]
        omega
      refine ⟨(flatEntities env root data)[x - heap.length], ?_, ?_⟩
      · rw [hheap, List.getElem?_append_right (by simpa using hx1)]
        simp only [List.length_set]
        exact List.getElem?_eq_getElem hx3
      · exact flatEntities_parent env root data _ (List.getElem_mem hx3)
    obtain ⟨e, hxe1, hxe2⟩ := hxe
    have hre' : p'.heap[root]? = some
        { re with children := re.children ++ List.range' heap.length data.length } := by
      rw [hheap, List.getElem?_append_left (by simpa using hroot)]
      simp [hroot]
    have hcount : (re.children ++ List.range' heap.length data.length).count x = 1 := by
      rw [List.count_append]
      have hc0 : re.children.count x = 0 := by
        apply List.count_eq_zero_of_not_mem
        intro hmem
        obtain ⟨ce, hce, _⟩ := (h0 root re hre).2 x hmem
        have : x < heap.length := by
          rcases Nat.lt_or_ge x heap.length with h | h
          · exact h
          · rw [List.getElem?_eq_none h] at hce
            cases hce
        omega
      have hc1 : (List.range' heap.length data.length).count x = 1 :=
        List.count_eq_one_of_mem (List.nodup_range' _ _)
          (List.mem_range'_1.2 ⟨hx1, by omega⟩)
      rw [hc0, hc1]
    simp only [ownedByParent, hxe1, hxe2, hre', hcount, decide_True]

theorem pass1_children_invariant_witness :
    childrenOK initialHeap = true ∧ flatTable sampleEnv [0x01, 0x60, 0x00] = true ∧
      pass1 sampleEnv 5 [0x01, 0x60, 0x00] 0 initialHeap =
        Outcome.ok true
          { r := { data := [0x01, 0x60, 0x00], offset := 3 }
            root := 0
            scopeStack := [0]
            heap := (initialHeap.set 0
                { kind := Kind.scope, op := opScope, name := [0x5c],
                  children := [1, 2, 3, 4, 5, 6, 7, 8] }) ++
              [{ kind := Kind.const, op := opOne, val := Value.num 1, parent := some 0 },
               { kind := Kind.unnamed, op := 0x60, parent := some 0 },
               { kind := Kind.const, op := opZero, val := Value.num 0, parent := some 0 }] } ∧
      ∀ x : Nat, initialHeap.length ≤ x →
        x < (List.length ((initialHeap.set 0
                { kind := Kind.scope, op := opScope, name := [0x5c],
                  children := [1, 2, 3, 4, 5, 6, 7, 8] }) ++
              [{ kind := Kind.const, op := opOne, val := Value.num 1, parent := some 0 },
               { kind := Kind.unnamed, op := 0x60, parent := some 0 },
               { kind := Kind.const, op := opZero, val := Value.num 0, parent := some 0 }])) →
        ownedByParent ((initialHeap.set 0
                { kind := Kind.scope, op := opScope, name := [0x5c],
                  children := [1, 2, 3, 4, 5, 6, 7, 8] }) ++
              [{ kind := Kind.const, op := opOne, val := Value.num 1, parent := some 0 },
               { kind := Kind.unnamed, op := 0x60, parent := some 0 },
               { kind := Kind.const, op := opZero, val := Value.num 0, parent := some 0 }]) x = true :=
  ⟨by decide, by decide, by decide,
    ((pass1_children_invariant sampleEnv 5 [0x01, 0x60, 0x00] 0 initialHeap
      { r := { data := [0x01, 0x60, 0x00], offset := 3 }
        root := 0
        scopeStack := [0]
        heap := (initialHeap.set 0
            { kind := Kind.scope, op := opScope, name := [0x5c],
              children := [1, 2, 3, 4, 5, 6, 7, 8] }) ++
          [{ kind := Kind.const, op := opOne, val := Value.num 1, parent := some 0 },
           { kind := Kind.unnamed, op := 0x60, parent := some 0 },
           { kind := Kind.const, op := opZero, val := Value.num 0, parent := some 0 }] }
      (by decide) (by decide)).2 (by decide)
      { kind := Kind.scope, op := opScope, name := [0x5c], children := [1, 2, 3, 4, 5] }
      rfl rfl).2.2⟩

end Aml
